import Mathlib

/-! # Due-diligence questionnaire backend: text utilities, embedding and answer generation

A shallow embedding of `backend/src/utils/text.js`, `backend/src/utils/embeddings.js`
and `backend/src/services/answers.js`, together with the properties of the chunker,
the embedder and the retriever stated in the design document; then of the evaluation
(`services/evaluation.js`), of the worker pool, the batches and the background run of
the bulk generation (`services/projects.js`), and of the jobs and two routes
(`services/requests.js`, `api/routes.js`); then of the questionnaire parser
(`services/questionnaire.js`), of the ingestion (`indexing/pipeline.js`,
`services/documents.js`), of the project creation and of the route
`generate-single-answer`, with the invariants of the store under these operations.

Asynchronous code is modelled in two ways. The worker pool is a step relation in which
the event loop may resume any suspended function. A background task is a function on
the store that takes, as an argument, what its environment decides: which store call
throws, and the values of `uuidv4()` and `new Date()`.

JavaScript strings are modelled as their sequence of UTF-16 code units, so that
`length`, `slice`, `trim` and the regular expressions (none of which carries the `u`
flag) act on the same units as in the source.
-/

namespace DueDiligence

/-! ## JavaScript strings -/

/-- A JavaScript string: the list of its UTF-16 code units. -/
abbrev JSString := List Nat

/-- UTF-16 code units of one Unicode scalar value. -/
def utf16 (c : Char) : List Nat :=
  if c.toNat < 65536 then [c.toNat]
  else [55296 + (c.toNat - 65536) / 1024, 56320 + (c.toNat - 65536) % 1024]

/-- The JavaScript string with the same text as a Lean string literal. -/
def js (s : String) : JSString :=
  s.toList.flatMap utf16

/-- The code units matched by `\s` and stripped by `String.prototype.trim`:
ECMAScript WhiteSpace and LineTerminator. -/
def isWhiteSpace (c : Nat) : Bool :=
  c == 9 || c == 10 || c == 11 || c == 12 || c == 13 || c == 32 || c == 160 ||
  c == 5760 || (8192 ≤ c && c ≤ 8202) || c == 8232 || c == 8233 || c == 8239 ||
  c == 8287 || c == 12288 || c == 65279

/-- `String.prototype.trim`. -/
def trim (s : JSString) : JSString :=
  (s.dropWhile isWhiteSpace).rdropWhile isWhiteSpace

/-- `s.replace(/\s+/g, " ")`: every maximal run of whitespace becomes one space.
The flag tells that the previous code unit belongs to a run already replaced. -/
def replaceWhiteSpaceRuns : Bool → JSString → JSString
  | _, [] => []
  | inRun, c :: rest =>
    if isWhiteSpace c then
      if inRun then replaceWhiteSpaceRuns true rest
      else 32 :: replaceWhiteSpaceRuns true rest
    else c :: replaceWhiteSpaceRuns false rest

/-- `normalizeText` of `utils/text.js`: `text.replace(/\s+/g, " ").trim()`. -/
def normalizeText (text : JSString) : JSString :=
  trim (replaceWhiteSpaceRuns false text)

/-- The class `[.!?]` of the look-behind in `SENTENCE_SPLIT`. -/
def isTerminator (c : Nat) : Bool :=
  c == 46 || c == 33 || c == 63

/-- Puts one code unit in front of the first piece of a split. -/
def consFirst (c : Nat) : List JSString → List JSString
  | [] => [[c]]
  | s :: ss => (c :: s) :: ss

/-- `s.split(/(?<=[.!?])\s+/)` read from left to right. `afterTerm` tells that the
previous code unit is one of `.!?`; `inSep` tells that the previous code unit belongs
to a separator match, which `\s+` extends greedily over the following whitespace. -/
def splitFrom : Bool → Bool → JSString → List JSString
  | _, _, [] => [[]]
  | afterTerm, inSep, c :: rest =>
    if isWhiteSpace c then
      if inSep then splitFrom false true rest
      else if afterTerm then [] :: splitFrom false true rest
      else consFirst c (splitFrom false false rest)
    else consFirst c (splitFrom (isTerminator c) false rest)

/-- `s.split(SENTENCE_SPLIT)` with `SENTENCE_SPLIT = /(?<=[.!?])\s+/`. -/
def splitSentences (s : JSString) : List JSString :=
  splitFrom false false s

/-- One iteration of the `for (const sentence of sentences)` loop of `chunkText`;
the state is `(chunks, buffer)`. -/
def chunkStep (maxLength : Int) (st : List JSString × JSString) (sentence : JSString) :
    List JSString × JSString :=
  if ((trim (st.2 ++ [32] ++ sentence)).length : Int) > maxLength ∧ st.2 ≠ [] then
    (st.1 ++ [trim st.2], sentence)
  else
    (st.1, trim (st.2 ++ [32] ++ sentence))

/-- `chunkText(text, maxLength)` of `utils/text.js` (the source's default for
`maxLength` is 500). -/
def chunkText (text : JSString) (maxLength : Int) : List JSString :=
  let normalized := normalizeText text
  if normalized = [] then []
  else
    let sentences := splitSentences normalized
    let st := sentences.foldl (chunkStep maxLength) ([], [])
    if st.2 ≠ [] then st.1 ++ [trim st.2] else st.1

/-- `chunks.join(" ")`. -/
def joinSpace (chunks : List JSString) : JSString :=
  [32].intercalate chunks

/-! ## Embedding (`utils/embeddings.js`) -/

/-- Functions the program takes from its environment: `Math.sqrt`,
`String.prototype.toLowerCase`, the first 32 bits of the SHA-256 digest of a string
(`parseInt(hash.slice(0, 8), 16)`), the distance operator `<->` of the vector store,
and the scan of its index. `initDb` puts an `ivfflat` index with 100 lists on
`document_chunks.embedding`; a query `ORDER BY embedding <-> $1` that goes through it
reads only the lists it probes, and `scanned vector embedding` tells whether the list
that holds `embedding` is read for the query vector `vector`. A scan that reads every
list has `scanned` constantly `true`. Numbers are taken in an ordered field `α`, that
is, in exact arithmetic. -/
structure Runtime (α : Type) where
  sqrt : α → α
  toLowerCase : JSString → JSString
  sha256Prefix : JSString → Nat
  distance : List α → List α → α
  scanned : List α → List α → Bool

/-- Lower-casing of the letters `A` to `Z`, as `toLowerCase` does on ASCII text; the
lower-casing of the runtime in the examples. -/
def asciiToLowerCase (s : JSString) : JSString :=
  s.map (fun c => if 65 ≤ c ∧ c ≤ 90 then c + 32 else c)

/-- `EMBEDDING_DIM`. -/
def EMBEDDING_DIM : Nat := 128

/-- `hashToken` of `utils/embeddings.js`. -/
def hashToken {α : Type} (rt : Runtime α) (token : JSString) : Nat :=
  rt.sha256Prefix token

/-- `s.split(/\s+/)` read from left to right; `inSep` tells that the previous code
unit belongs to a separator match. -/
def splitWhiteSpace : Bool → JSString → List JSString
  | _, [] => [[]]
  | inSep, c :: rest =>
    if isWhiteSpace c then
      if inSep then splitWhiteSpace true rest
      else [] :: splitWhiteSpace true rest
    else consFirst c (splitWhiteSpace false rest)

/-- The tokens of `embedText`: `text.toLowerCase().split(/\s+/).filter(Boolean)`. -/
def embedTokens {α : Type} (rt : Runtime α) (text : JSString) : List JSString :=
  (splitWhiteSpace false (rt.toLowerCase text)).filter (fun token => token ≠ [])

/-- The loop of `embedText`: `vector[hashToken(token) % EMBEDDING_DIM] += 1` for
every token, from `Array(EMBEDDING_DIM).fill(0)`. -/
def bucketCounts {α : Type} [LinearOrderedField α] (rt : Runtime α)
    (tokens : List JSString) : List α :=
  tokens.foldl
    (fun vector token => vector.modify (fun value => value + 1)
      (hashToken rt token % EMBEDDING_DIM))
    (List.replicate EMBEDDING_DIM 0)

/-- `embedText` of `utils/embeddings.js`. -/
def embedText {α : Type} [LinearOrderedField α] (rt : Runtime α) (text : JSString) :
    List α :=
  let vector := bucketCounts rt (embedTokens rt text)
  let norm := rt.sqrt (vector.foldl (fun sum value => sum + value * value) 0)
  if norm = 0 then vector
  else vector.map (fun value => value / norm)

/-! ## The store (`storage/db.js`) -/

/-- Identifiers (UUID or text keys). -/
abbrev Id := String

/-- A row of `document_chunks`. -/
structure DocumentChunkRow (α : Type) where
  id : Id
  document_id : Id
  text : JSString
  embedding : List α
deriving DecidableEq

/-- A row of `projects`. -/
structure ProjectRow where
  id : Id
  name : JSString
  questionnaire_document_id : Id
  status : String
  scope : String
  document_ids : List Id
  created_at : Nat
  updated_at : Nat
deriving DecidableEq

/-- A row of `questions`. -/
structure QuestionRow where
  id : Id
  project_id : Id
  «section» : JSString
  order_index : Int
  text : JSString
deriving DecidableEq

/-- The tables read by answer generation. -/
structure Db (α : Type) where
  projects : List ProjectRow
  document_chunks : List (DocumentChunkRow α)

/-! ## Answer generation (`services/answers.js`) -/

/-- A row returned by the chunk query of `generateAnswer`. -/
structure ChunkHit (α : Type) where
  id : Id
  document_id : Id
  text : JSString
  distance : α
deriving DecidableEq

/-- A citation of an answer. -/
structure Citation (α : Type) where
  chunk_id : Id
  document_id : Id
  excerpt : JSString
  score : α
deriving DecidableEq

/-- The object returned by `generateAnswer`. -/
structure AnswerPayload (α : Type) where
  answerText : JSString
  isAnswerable : Bool
  confidence : α
  citations : List (Citation α)
deriving DecidableEq

/-- The rows of `SELECT id, document_id, text, embedding <-> $1::vector as distance
FROM document_chunks WHERE document_id = ANY($2) ORDER BY embedding <-> $1::vector
LIMIT 5`: of the rows the index scan reads, those of the documents in scope, nearest
first, five at most. -/
def queryNearestChunks {α : Type} [LinearOrderedField α] (rt : Runtime α)
    (chunks : List (DocumentChunkRow α)) (vector : List α) (documentIds : List Id) :
    List (ChunkHit α) :=
  ((((chunks.filter
      (fun c => rt.scanned vector c.embedding && decide (c.document_id ∈ documentIds))).map
    (fun c => ChunkHit.mk c.id c.document_id c.text (rt.distance c.embedding vector))).insertionSort
      (fun a b => a.distance ≤ b.distance))).take 5

/-- The document ids `generateAnswer` works with: the override when it is given, else
`rows[0]?.document_ids || []` of `SELECT document_ids FROM projects WHERE id=$1`. -/
def resolveDocumentIds {α : Type} (db : Db α) (projectId : Id)
    (documentIdsOverride : Option (List Id)) : List Id :=
  match documentIdsOverride with
  | some ids => ids
  | none =>
    match db.projects.find? (fun p => p.id == projectId) with
    | some p => p.document_ids
    | none => []

/-- The answer `generateAnswer` returns when nothing can be cited. -/
def noDataAnswer {α : Type} [LinearOrderedField α] : AnswerPayload α :=
  AnswerPayload.mk (js "No relevant data found in indexed documents.") false 0.1 []

/-- `generateAnswer` of `services/answers.js`. -/
def generateAnswer {α : Type} [LinearOrderedField α] (rt : Runtime α) (db : Db α)
    (projectId : Id) (question : QuestionRow) (documentIdsOverride : Option (List Id)) :
    AnswerPayload α :=
  let documentIds := resolveDocumentIds db projectId documentIdsOverride
  if documentIds.length = 0 then noDataAnswer
  else
    let vector := embedText rt question.text
    match queryNearestChunks rt db.document_chunks vector documentIds with
    | [] => noDataAnswer
    | best :: _ =>
      let score := max 0 (1 - best.distance)
      AnswerPayload.mk (best.text.take 600) true (min 0.9 (0.6 + score * 0.4))
        [Citation.mk best.id best.document_id (best.text.take 400) score]

/-! ## Keyword overlap (`utils/text.js`) and evaluation (`services/evaluation.js`) -/

/-- `s.split(" ")`: the pieces between the single spaces of `s`; never empty. -/
def splitOnSpace : JSString → List JSString
  | [] => [[]]
  | c :: rest =>
    if c = 32 then [] :: splitOnSpace rest
    else consFirst c (splitOnSpace rest)

/-- The token list both arguments of `keywordOverlapScore` go through:
`normalizeText(s).toLowerCase().split(" ")`. -/
def overlapTokens {α : Type} (rt : Runtime α) (s : JSString) : List JSString :=
  splitOnSpace (rt.toLowerCase (normalizeText s))

/-- `keywordOverlapScore(text, query)` of `utils/text.js`; membership in the list
`tokens` stands for `Set.prototype.has`. -/
def keywordOverlapScore {α : Type} [LinearOrderedField α] (rt : Runtime α)
    (text query : JSString) : α :=
  let tokens := overlapTokens rt text
  let queryTokens := overlapTokens rt query
  if queryTokens.length = 0 then 0
  else
    let matchCount := queryTokens.foldl
      (fun (count : Nat) token => if token ∈ tokens then count + 1 else count) 0
    (matchCount : α) / (queryTokens.length : α)

/-- A row of `answers`. -/
structure AnswerRow (α : Type) where
  id : Id
  project_id : Id
  question_id : Id
  answer_text : JSString
  is_answerable : Bool
  confidence : α
  citations : List (Citation α)
  status : JSString
  created_at : Nat
  updated_at : Nat
  manual_answer : Option JSString
deriving DecidableEq

/-- A row of `requests`, the record of a job. -/
structure RequestRow where
  id : Id
  status : String
  message : Option String
  created_at : Nat
  updated_at : Nat
deriving DecidableEq

/-- A row of `documents`. -/
structure DocumentRow where
  id : Id
  filename : String
  content_type : String
  created_at : Nat
  status : String
  page_count : Nat
  text_length : Nat
  text : JSString
deriving DecidableEq

/-- A row of `evaluations`, also the object `evaluateProject` returns for it. -/
structure EvaluationRow (α : Type) where
  id : Id
  project_id : Id
  answer_id : Id
  human_answer : JSString
  similarity_score : α
  notes : JSString
  created_at : Nat
deriving DecidableEq

/-- All the tables of `initDb`: those of `Db` and the five others. -/
structure Store (α : Type) extends Db α where
  documents : List DocumentRow
  questions : List QuestionRow
  answers : List (AnswerRow α)
  requests : List RequestRow
  evaluations : List (EvaluationRow α)

/-- One iteration of the loop of `evaluateProject`: an answer without manual answer
(`null` or the empty string) is skipped, another one gets a result row. `fresh k` and
`clock k` are the `uuidv4()` and the `new Date()` of the `k`-th row. -/
def evaluateStep {α : Type} [LinearOrderedField α] (rt : Runtime α) (fresh : Nat → Id)
    (clock : Nat → Nat) (projectId : Id) (results : List (EvaluationRow α))
    (answer : AnswerRow α) : List (EvaluationRow α) :=
  match answer.manual_answer with
  | none => results
  | some manual =>
    if manual = [] then results
    else
      results ++ [EvaluationRow.mk (fresh results.length) projectId answer.id manual
        (keywordOverlapScore rt manual answer.answer_text)
        (js "Keyword overlap between manual and AI answer.") (clock results.length)]

/-- `evaluateProject` of `services/evaluation.js`: the results and the store with the
rows inserted into `evaluations`. -/
def evaluateProject {α : Type} [LinearOrderedField α] (rt : Runtime α) (fresh : Nat → Id)
    (clock : Nat → Nat) (store : Store α) (projectId : Id) :
    List (EvaluationRow α) × Store α :=
  let answers := store.answers.filter (fun answer => answer.project_id = projectId)
  let results := answers.foldl (evaluateStep rt fresh clock projectId) []
  (results, { store with evaluations := store.evaluations ++ results })

/-- The score as the design document words it: the number of manual-answer tokens that
occur among the tokens of the AI answer, over the number of manual-answer tokens. -/
def manualRecallScore {α : Type} [LinearOrderedField α] (rt : Runtime α)
    (manual aiAnswer : JSString) : α :=
  (((overlapTokens rt manual).countP (fun token => token ∈ overlapTokens rt aiAnswer) : Nat) : α) /
    ((overlapTokens rt manual).length : α)

/-! ## Batches and the worker pool (`services/projects.js`) -/

/-- `ANSWER_BATCH_SIZE`. -/
def ANSWER_BATCH_SIZE : Nat := 250

/-- `ANSWER_CONCURRENCY`. -/
def ANSWER_CONCURRENCY : Nat := 10

/-- The loop of `chunkArray`, from the counter `i` and the batches pushed so far. The
first argument bounds the number of iterations: `none` when it is used up, as for
`size = 0`, where the loop of the source does not end. -/
def chunkArrayLoop {β : Type} (values : List β) (size : Nat) :
    Nat → Nat → List (List β) → Option (List (List β))
  | 0, _, _ => none
  | fuel + 1, i, chunks =>
    if i < values.length then
      chunkArrayLoop values size fuel (i + size) (chunks ++ [(values.drop i).take size])
    else some chunks

/-- `chunkArray(values, size)` of `services/projects.js`. -/
def chunkArray {β : Type} (values : List β) (size : Nat) : Option (List (List β)) :=
  chunkArrayLoop values size (values.length + 1) 0 []

/-- Where one of the async functions of `mapWithConcurrency` stands: at the test of its
`while` loop, suspended at `await worker(items[current], current)`, or returned. -/
inductive WorkerPhase where
  | ready
  | awaiting (current : Nat)
  | finished
deriving DecidableEq

/-- The variables of a call of `mapWithConcurrency`: the shared `index`, the array
`results` (`none` is a slot not written yet) and the async functions. `started` and
`completed` record, in order, the indices for which `worker` was called and for which
its promise was fulfilled. -/
structure PoolState (β : Type) where
  index : Nat
  results : List (Option β)
  workers : List WorkerPhase
  started : List Nat
  completed : List Nat

/-- The state after `new Array(items.length)`, `index = 0` and the creation of the
`Math.min(limit, items.length)` async functions. -/
def poolInit {β : Type} (n limit : Nat) : PoolState β :=
  PoolState.mk 0 (List.replicate n none) (List.replicate (min limit n) WorkerPhase.ready) [] []

/-- The event loop resumes the async function number `w`. At the loop test it takes
the next index and calls `worker`, or returns when `index < items.length` fails; at
the `await` it stores the value of the fulfilled promise and goes back to the test.
`none`: that function cannot be resumed. -/
def poolStep {ι β : Type} (items : List ι) (worker : ι → Nat → β) (s : PoolState β)
    (w : Nat) : Option (PoolState β) :=
  match s.workers[w]? with
  | some WorkerPhase.ready =>
    if s.index < items.length then
      some { s with
        index := s.index + 1
        workers := s.workers.set w (WorkerPhase.awaiting s.index)
        started := s.started ++ [s.index] }
    else some { s with workers := s.workers.set w WorkerPhase.finished }
  | some (WorkerPhase.awaiting current) =>
    match items[current]? with
    | some item =>
      some { s with
        results := s.results.set current (some (worker item current))
        workers := s.workers.set w WorkerPhase.ready
        completed := s.completed ++ [current] }
    | none => none
  | _ => none

/-- The state reached when the event loop resumes the async functions in the order of
`schedule`; `none` when the schedule names a function that cannot be resumed. -/
def poolRun {ι β : Type} (items : List ι) (worker : ι → Nat → β) :
    PoolState β → List Nat → Option (PoolState β)
  | s, [] => some s
  | s, w :: schedule => (poolStep items worker s w).bind (fun s' => poolRun items worker s' schedule)

/-- All async functions have returned: `Promise.all(workers)` is fulfilled. -/
def poolDone {β : Type} (s : PoolState β) : Prop :=
  ∀ ph ∈ s.workers, ph = WorkerPhase.finished

/-- The number of the first async function that has not returned. -/
def firstUnfinished : List WorkerPhase → Option Nat
  | [] => none
  | ph :: rest =>
    if ph = WorkerPhase.finished then (firstUnfinished rest).map (fun w => w + 1)
    else some 0

/-- One run of the pool to its end: the first async function that has not returned is
resumed each time. The first argument bounds the number of steps. -/
def poolExec {ι β : Type} (items : List ι) (worker : ι → Nat → β) :
    Nat → PoolState β → Option (PoolState β)
  | 0, s =>
    match firstUnfinished s.workers with
    | none => some s
    | some _ => none
  | fuel + 1, s =>
    match firstUnfinished s.workers with
    | none => some s
    | some w => (poolStep items worker s w).bind (fun s' => poolExec items worker fuel s')

/-- `mapWithConcurrency(items, limit, worker)` for a worker whose promises are
fulfilled: the array `results` at the end of one run of the pool (every run ends with
the same array, see `mapWithConcurrency_order`). A slot `none` is an empty slot. -/
def mapWithConcurrency {ι β : Type} (items : List ι) (limit : Nat) (worker : ι → Nat → β) :
    Option (List (Option β)) :=
  (poolExec items worker (3 * items.length) (poolInit items.length limit)).map
    (fun s => s.results)

/-! ## Status constants (`models/status.js`) -/

/-- Modelled from the spec: `ANSWER_STATUS.DRAFT` of `models/status.js`, a module that is
not among the sources; the design document lists the answer statuses DRAFT, CONFIRMED,
REJECTED, MANUAL_UPDATED and MISSING_DATA. -/
def ANSWER_STATUS.DRAFT : JSString := js "DRAFT"

/-- Modelled from the spec: `PROJECT_STATUS.READY` of `models/status.js`, not among the
sources; the project statuses are CREATING, READY, OUTDATED, UPDATING and ERROR. -/
def PROJECT_STATUS.READY : String := "READY"

/-- Modelled from the spec: `PROJECT_STATUS.UPDATING` of `models/status.js`, not among
the sources. -/
def PROJECT_STATUS.UPDATING : String := "UPDATING"

/-- Modelled from the spec: `REQUEST_STATUS.PENDING` of `models/status.js`, not among
the sources; the job statuses are PENDING, RUNNING, SUCCESS and FAILED. -/
def REQUEST_STATUS.PENDING : String := "PENDING"

/-- Modelled from the spec: `REQUEST_STATUS.RUNNING` of `models/status.js`, not among
the sources. -/
def REQUEST_STATUS.RUNNING : String := "RUNNING"

/-- Modelled from the spec: `REQUEST_STATUS.SUCCESS` of `models/status.js`, not among
the sources. -/
def REQUEST_STATUS.SUCCESS : String := "SUCCESS"

/-- Modelled from the spec: `REQUEST_STATUS.FAILED` of `models/status.js`, not among the
sources; `api/routes.js` writes the same status as the literal `"FAILED"`. -/
def REQUEST_STATUS.FAILED : String := "FAILED"

/-! ## Bulk answer generation (`services/projects.js`) -/

/-- The object a worker of the bulk generation returns for one question. -/
structure AnswerDraft (α : Type) where
  id : Id
  question_id : Id
  answer_text : JSString
  is_answerable : Bool
  confidence : α
  citations : List (Citation α)
deriving DecidableEq

/-- A parameter of an SQL statement. -/
inductive SqlValue (α : Type) where
  | ident (id : Id)
  | text (s : JSString)
  | bool (b : Bool)
  | number (x : α)
  | json (citations : List (Citation α))
  | time (t : Nat)
  | null

/-- What the environment decides in one background run of the bulk generation: for
each store call of the run the message of the error it throws, if it throws (for
`generate`, the error with which `mapWithConcurrency` rejects when a call of
`generateAnswer` throws; `insertBatch k` is for the `INSERT` number `k`,
`malformedInsert` the message for a statement the store cannot parse; `setReady` is for
the `UPDATE` that sets the project to READY, `reportSuccess` for
`onRequestUpdate(requestId, SUCCESS)` and `reportFailure` for the `onRequestUpdate` of
the `catch` block), the `uuidv4()` of the worker call for the question at each
position, and the `new Date()` values. -/
structure BulkRun where
  loadQuestions : Option String
  loadScope : Option String
  deleteAnswers : Option String
  generate : Option String
  insertBatch : Nat → Option String
  malformedInsert : String
  answerId : Nat → Id
  insertedAt : Nat → Nat
  readyAt : Nat
  finishedAt : Nat
  setReady : Option String
  reportSuccess : Option String
  reportFailure : Option String

/-- How an asynchronous block ends: it returns, it throws, or it never settles. -/
inductive Settled where
  | fulfilled
  | rejected (message : String)
  | never
deriving DecidableEq

/-- `SELECT * FROM questions WHERE project_id=$1 ORDER BY order_index`. -/
def selectQuestions {α : Type} (store : Store α) (projectId : Id) : List QuestionRow :=
  (store.questions.filter (fun q => q.project_id = projectId)).insertionSort
    (fun a b => a.order_index ≤ b.order_index)

/-- `DELETE FROM answers WHERE project_id=$1`. -/
def deleteAnswers {α : Type} (store : Store α) (projectId : Id) : Store α :=
  { store with answers := store.answers.filter (fun answer => answer.project_id ≠ projectId) }

/-- `UPDATE projects SET status=$1, updated_at=$2 WHERE id=$3`. -/
def setProjectStatus {α : Type} (store : Store α) (status : String) (now : Nat)
    (projectId : Id) : Store α :=
  { store with
    projects := store.projects.map
      (fun p => if p.id = projectId then { p with status := status, updated_at := now } else p) }

/-- `updateRequest(id, status, message)` of `services/requests.js`. -/
def updateRequest {α : Type} (store : Store α) (id : Id) (status : String)
    (message : Option String) (now : Nat) : Store α :=
  { store with
    requests := store.requests.map
      (fun r => if r.id = id then
        { r with status := status, message := message, updated_at := now } else r) }

/-- The last two statements of the `try` block of the background task of
`generateAnswersAsync`, of `updateProjectAsync` and of `createProjectAsync`:
`UPDATE projects SET status=READY, updated_at=$2 WHERE id=$3` and
`onRequestUpdate(requestId, SUCCESS)`; each throws the error given for it, if one is
given. -/
def markReady {α : Type} (setReady reportSuccess : Option String) (readyAt finishedAt : Nat)
    (projectId requestId : Id) (store : Store α) : Settled × Store α :=
  match setReady with
  | some message => (Settled.rejected message, store)
  | none =>
    match reportSuccess with
    | some message =>
      (Settled.rejected message,
        setProjectStatus store PROJECT_STATUS.READY readyAt projectId)
    | none =>
      (Settled.fulfilled,
        updateRequest (setProjectStatus store PROJECT_STATUS.READY readyAt projectId)
          requestId REQUEST_STATUS.SUCCESS none finishedAt)

/-- The `catch` block of a background task: `onRequestUpdate(requestId, FAILED,
error.message)`; when this call throws too, nothing is written. -/
def markFailed {α : Type} (reportFailure : Option String) (finishedAt : Nat)
    (requestId : Id) (message : String) (store : Store α) : Store α :=
  match reportFailure with
  | some _ => store
  | none => updateRequest store requestId REQUEST_STATUS.FAILED (some message) finishedAt

/-- The worker of the bulk generation: `generateAnswer` with the document ids read
before, and a fresh id. -/
def answerWorker {α : Type} [LinearOrderedField α] (rt : Runtime α) (env : BulkRun)
    (store : Store α) (projectId : Id) (documentIds : List Id) (question : QuestionRow)
    (position : Nat) : AnswerDraft α :=
  let answerPayload := generateAnswer rt store.toDb projectId question (some documentIds)
  AnswerDraft.mk (env.answerId position) question.id answerPayload.answerText
    answerPayload.isAnswerable answerPayload.confidence answerPayload.citations

/-- The array `values` of `insertAnswersBatch`: eleven parameters for every answer;
`map` skips the empty slots of `answers`. -/
def insertAnswersBatchValues {α : Type} (projectId : Id) (now : Nat)
    (answers : List (Option (AnswerDraft α))) : List (SqlValue α) :=
  (answers.filterMap id).flatMap (fun answer =>
    [SqlValue.ident answer.id, SqlValue.ident projectId, SqlValue.ident answer.question_id,
      SqlValue.text answer.answer_text, SqlValue.bool answer.is_answerable,
      SqlValue.number answer.confidence, SqlValue.json answer.citations,
      SqlValue.text ANSWER_STATUS.DRAFT, SqlValue.time now, SqlValue.time now, SqlValue.null])

/-- The row of `answers` that the `INSERT` of `insertAnswersBatch` writes for one
answer. -/
def draftRow {α : Type} (projectId : Id) (now : Nat) (answer : AnswerDraft α) : AnswerRow α :=
  AnswerRow.mk answer.id projectId answer.question_id answer.answer_text answer.is_answerable
    answer.confidence answer.citations ANSWER_STATUS.DRAFT now now none

/-- `insertAnswersBatch(projectId, answers)`: nothing for an empty array, else one
`INSERT`. The statement throws `fault` when the environment says so; with an empty
slot among the answers its list of placeholders has a gap and the store rejects
it. -/
def insertAnswersBatch {α : Type} (fault : Option String) (malformed : String)
    (projectId : Id) (now : Nat) (answers : List (Option (AnswerDraft α)))
    (store : Store α) : Except String (Store α) :=
  if answers.length = 0 then Except.ok store
  else
    match fault with
    | some message => Except.error message
    | none =>
      if answers.all (fun slot => slot.isSome) then
        Except.ok { store with
          answers := store.answers ++ (answers.filterMap id).map (draftRow projectId now) }
      else Except.error malformed

/-- The loop `for (const batch of chunkArray(answers, ANSWER_BATCH_SIZE))`, from the
batch number `k`: the way it ends and the store it leaves. -/
def insertBatches {α : Type} (env : BulkRun) (projectId : Id) :
    Nat → List (List (Option (AnswerDraft α))) → Store α → Settled × Store α
  | _, [], store => (Settled.fulfilled, store)
  | k, batch :: rest, store =>
    match insertAnswersBatch (env.insertBatch k) env.malformedInsert projectId
        (env.insertedAt k) batch store with
    | Except.error message => (Settled.rejected message, store)
    | Except.ok store' => insertBatches env projectId (k + 1) rest store'

/-- The `try` block of the background task of `generateAnswersAsync` (that of
`updateProjectAsync` has the same text): the way it ends and the store it leaves. -/
def regenerateTry {α : Type} [LinearOrderedField α] (rt : Runtime α) (env : BulkRun)
    (projectId requestId : Id) (store : Store α) : Settled × Store α :=
  match env.loadQuestions with
  | some message => (Settled.rejected message, store)
  | none =>
    let questions := selectQuestions store projectId
    match env.loadScope with
    | some message => (Settled.rejected message, store)
    | none =>
      let documentIds := resolveDocumentIds store.toDb projectId none
      match env.deleteAnswers with
      | some message => (Settled.rejected message, store)
      | none =>
        let store1 := deleteAnswers store projectId
        match env.generate with
        | some message => (Settled.rejected message, store1)
        | none =>
          match mapWithConcurrency questions ANSWER_CONCURRENCY
              (answerWorker rt env store1 projectId documentIds) with
          | none => (Settled.never, store1)
          | some answers =>
            match chunkArray answers ANSWER_BATCH_SIZE with
            | none => (Settled.never, store1)
            | some batches =>
              match insertBatches env projectId 0 batches store1 with
              | (Settled.fulfilled, store2) =>
                markReady env.setReady env.reportSuccess env.readyAt env.finishedAt
                  projectId requestId store2
              | ended => ended

/-- The background task of `generateAnswersAsync` and of `updateProjectAsync`: the
`try` block, and in the `catch` block `onRequestUpdate(requestId, FAILED,
error.message)`. -/
def regenerateBackground {α : Type} [LinearOrderedField α] (rt : Runtime α) (env : BulkRun)
    (projectId requestId : Id) (store : Store α) : Store α :=
  match regenerateTry rt env projectId requestId store with
  | (Settled.rejected message, store') =>
    markFailed env.reportFailure env.finishedAt requestId message store'
  | (_, store') => store'

/-- The part of `generateAnswersAsync` that runs before the background task is
scheduled: `UPDATE projects SET status=UPDATING, updated_at=now WHERE id=project_id`. -/
def generateAnswersAsync {α : Type} (store : Store α) (now : Nat) (projectId : Id) : Store α :=
  setProjectStatus store PROJECT_STATUS.UPDATING now projectId

/-- `listDocuments()` of `services/documents.js`:
`SELECT * FROM documents ORDER BY created_at DESC`. -/
def listDocuments {α : Type} (store : Store α) : List DocumentRow :=
  store.documents.insertionSort (fun a b => b.created_at ≤ a.created_at)

/-- The part of `updateProjectAsync` that runs before the background task is
scheduled: the document ids are resolved (`payload.document_ids || []` unless the scope
is `"ALL_DOCS"`) and written with the scope and the status UPDATING. -/
def updateProjectAsync {α : Type} (store : Store α) (now : Nat) (projectId : Id)
    (scope : String) (document_ids : Option (List Id)) : Store α :=
  let docs := if scope = "ALL_DOCS" then (listDocuments store).map (fun doc => doc.id)
    else document_ids.getD []
  { store with
    projects := store.projects.map
      (fun p => if p.id = projectId then
        { p with scope := scope, document_ids := docs, status := PROJECT_STATUS.UPDATING,
                 updated_at := now } else p) }

/-! ## Invariant of the worker pool -/

/-- The async function is suspended at its `await`. -/
def isAwaiting : WorkerPhase → Bool
  | WorkerPhase.awaiting _ => true
  | _ => false

/-- The async function has not returned. -/
def isUnfinished : WorkerPhase → Bool
  | WorkerPhase.finished => false
  | _ => true

/-- What holds in every state of a call of `mapWithConcurrency(items, limit, worker)`. -/
structure PoolInv {ι β : Type} (items : List ι) (worker : ι → Nat → β) (limit : Nat)
    (s : PoolState β) : Prop where
  index_le : s.index ≤ items.length
  results_length : s.results.length = items.length
  started_eq : s.started = List.range s.index
  workers_length : s.workers.length = min limit items.length
  awaiting_lt : ∀ c, WorkerPhase.awaiting c ∈ s.workers → c < s.index
  filled : ∀ i item, items[i]? = some item → i < s.index →
    WorkerPhase.awaiting i ∉ s.workers → s.results[i]? = some (some (worker item i))
  finished_index : WorkerPhase.finished ∈ s.workers → items.length ≤ s.index
  in_flight : s.completed.length + s.workers.countP isAwaiting = s.started.length

/-- A bound on the number of steps a pool can still take. -/
def poolMeasure {β : Type} (n : Nat) (s : PoolState β) : Nat :=
  2 * (n - s.index) + s.workers.countP isAwaiting + s.workers.countP isUnfinished

/-! ## Jobs and routes (`services/requests.js`, `api/routes.js`) -/

/-- `createRequest()` of `services/requests.js`, with `id` for `uuidv4()`: the job is
inserted as PENDING and set to RUNNING at once. -/
def createRequest {α : Type} (store : Store α) (id : Id) (now : Nat) : Store α :=
  let inserted : Store α :=
    { store with
      requests := store.requests ++ [RequestRow.mk id REQUEST_STATUS.PENDING none now now] }
  { inserted with
    requests := inserted.requests.map
      (fun r => if r.id = id then
        { r with status := REQUEST_STATUS.RUNNING, updated_at := now } else r) }

/-- The file of a request, as the upload middleware hands it over. -/
structure UploadedFile where
  originalname : String
  mimetype : String
  path : String
deriving DecidableEq

/-- What a route sends: the HTTP status (200 for `res.json` alone), the `detail` of an
error, the payload otherwise. -/
structure Response (β : Type) where
  code : Nat
  detail : Option String
  body : Option β

/-- The part of `indexDocumentAsync` that runs before the background task is
scheduled: the document row is inserted with the status PENDING; `documentId` stands
for `uuidv4()`. -/
def indexDocumentAsync {α : Type} (store : Store α) (documentId : Id) (now : Nat)
    (file : UploadedFile) : Store α :=
  { store with
    documents := store.documents ++
      [DocumentRow.mk documentId file.originalname file.mimetype now REQUEST_STATUS.PENDING
        0 0 []] }

/-- The handler of `POST /index-document-async`, up to its response; `file` is
`req.file`. The payload of the response is `(request_id, document_id)`. -/
def indexDocumentRoute {α : Type} (store : Store α) (requestId documentId : Id)
    (now nowDocument nowFailed : Nat) (file : Option UploadedFile) :
    Response (Id × Id) × Store α :=
  let store1 := createRequest store requestId now
  match file with
  | none =>
    (Response.mk 400 (some "Failed to index document") none,
      updateRequest store1 requestId "FAILED" (some "No file uploaded") nowFailed)
  | some file =>
    (Response.mk 200 none (some (requestId, documentId)),
      indexDocumentAsync store1 documentId nowDocument file)

/-- The property `manual_answer` of the body of `POST /update-answer`: not there,
`null`, a string, or a value of another type. -/
inductive ManualAnswerField where
  | absent
  | null
  | str (s : JSString)
  | other
deriving DecidableEq

/-- The body of `POST /update-answer`; `none` is a property that is not there. -/
structure UpdateAnswerBody where
  answer_id : Option Id
  status : Option JSString
  manual_answer : ManualAnswerField

/-- `manualAnswer` of the handler: a string is trimmed, another value is kept. -/
def trimManualAnswer : ManualAnswerField → ManualAnswerField
  | ManualAnswerField.str s => ManualAnswerField.str (trim s)
  | field => field

/-- The four tests of the handler of `POST /update-answer`: the response of the first
one that fails. -/
def validateUpdateAnswer {α : Type} (body : UpdateAnswerBody) :
    Option (Response (AnswerRow α)) :=
  if body.answer_id = none ∨ body.answer_id = some "" ∨ body.status = none ∨
      body.status = some [] then
    some (Response.mk 400 (some "answer_id and status are required") none)
  else
    match trimManualAnswer body.manual_answer with
    | ManualAnswerField.other =>
      some (Response.mk 400 (some "manual_answer must be a string or null") none)
    | ManualAnswerField.str s =>
      if s.length = 0 then some (Response.mk 400 (some "manual_answer cannot be empty") none)
      else if s.length > 20000 then
        some (Response.mk 400 (some "manual_answer is too long") none)
      else none
    | _ => none

/-- The `UPDATE answers SET .. WHERE id=$4 RETURNING *` of the handler: with the
property `manual_answer` in the body the manual answer is written too. -/
def updateAnswerRow {α : Type} (status : JSString) (manual : ManualAnswerField) (now : Nat)
    (row : AnswerRow α) : AnswerRow α :=
  match manual with
  | ManualAnswerField.absent => { row with status := status, updated_at := now }
  | ManualAnswerField.str s =>
    { row with status := status, manual_answer := some s, updated_at := now }
  | _ => { row with status := status, manual_answer := none, updated_at := now }

/-- A hexadecimal digit, as a code point. -/
def isHexDigit (c : Nat) : Bool :=
  (48 ≤ c && c ≤ 57) || (65 ≤ c && c ≤ 70) || (97 ≤ c && c ≤ 102)

/-- The lower case of a hexadecimal digit. -/
def lowerHex (c : Nat) : Nat :=
  if 65 ≤ c ∧ c ≤ 70 then c + 32 else c

/-- The loop of the input function of the type `uuid` of PostgreSQL over the bytes
`i`, `i + 1`, ... of the value, `n` of them: two hexadecimal digits for each byte, and
a hyphen may follow a byte of odd index other than the last one. The result is the
digits read, in lower case, and the text left. -/
def uuidDigits : Nat → Nat → List Nat → Option (List Nat × List Nat)
  | 0, _, src => some ([], src)
  | n + 1, i, a :: b :: src =>
    if isHexDigit a && isHexDigit b then
      match uuidDigits n (i + 1)
          (if src.head? = some 45 ∧ i % 2 = 1 ∧ i < 15 then src.tail else src) with
      | some (digits, rest) => some (lowerHex a :: lowerHex b :: digits, rest)
      | none => none
    else none
  | _ + 1, _, _ => none

/-- The input function of the type `uuid` of PostgreSQL, the one of the store in the
examples: 32 hexadecimal digits, with the hyphens that `uuidDigits` allows, alone or
between an opening and a closing brace, denote the value printed as the digits in
lower case in groups of 8, 4, 4, 4 and 12; any other text is an error. -/
def uuidOfText (text : String) : Except String Id :=
  let src := text.toList.map Char.toNat
  let braces := decide (src.head? = some 123)
  match uuidDigits 16 0 (if braces then src.tail else src) with
  | some (digits, rest) =>
    if rest = (if braces then [125] else []) then
      Except.ok (String.mk ((digits.take 8 ++ 45 :: (digits.drop 8).take 4 ++
        45 :: (digits.drop 12).take 4 ++ 45 :: (digits.drop 16).take 4 ++
        45 :: digits.drop 20).map Char.ofNat))
    else Except.error ("invalid input syntax for type uuid: " ++
      String.mk [Char.ofNat 34] ++ text ++ String.mk [Char.ofNat 34])
  | none => Except.error ("invalid input syntax for type uuid: " ++
      String.mk [Char.ofNat 34] ++ text ++ String.mk [Char.ofNat 34])

/-- The handler of `POST /update-answer`: what it sends, or the message of the error
it throws, and the store it leaves. The column `answers.id` has the type `UUID`
(`storage/db.js`), and `uuid_in` is the input function of that type in the store: the
value a text denotes, or the error for a text that denotes none. With such an
`answer_id` the `UPDATE` throws; the handler catches nothing, so it sends nothing and
the store is as it was. -/
def updateAnswerRoute {α : Type} (uuid_in : String → Except String Id) (store : Store α)
    (now : Nat) (body : UpdateAnswerBody) :
    Except String (Response (AnswerRow α)) × Store α :=
  match validateUpdateAnswer body with
  | some rejection => (Except.ok rejection, store)
  | none =>
    match uuid_in (body.answer_id.getD "") with
    | Except.error message => (Except.error message, store)
    | Except.ok answerId =>
      let status := body.status.getD []
      let manualAnswer := trimManualAnswer body.manual_answer
      let rows := (store.answers.filter (fun a => a.id = answerId)).map
        (updateAnswerRow status manualAnswer now)
      let store' : Store α :=
        { store with
          answers := store.answers.map
            (fun a => if a.id = answerId then updateAnswerRow status manualAnswer now a
              else a) }
      match rows with
      | [] => (Except.ok (Response.mk 404 (some "Answer not found") none), store')
      | row :: _ => (Except.ok (Response.mk 200 none (some row)), store')

/-! ## Questionnaire parsing (`utils/text.js`, `services/questionnaire.js`) -/

/-- `text.split(/\r?\n/)`: a line feed ends a piece, together with the carriage return
right before it when there is one. -/
def splitLines : JSString → List JSString
  | [] => [[]]
  | 10 :: rest => [] :: splitLines rest
  | 13 :: 10 :: rest => [] :: splitLines rest
  | c :: rest => consFirst c (splitLines rest)

/-- `normalizeLines` of `utils/text.js`: the pieces are trimmed and the empty ones
dropped. -/
def normalizeLines (text : JSString) : List JSString :=
  ((splitLines text).map (fun line => trim line)).filter (fun line => line ≠ [])

/-- Upper-casing of the letters `a` to `z`, as `toUpperCase` does on ASCII text; the
upper-casing of the runtime in the examples. -/
def asciiToUpperCase (s : JSString) : JSString :=
  s.map (fun c => if 97 ≤ c ∧ c ≤ 122 then c - 32 else c)

/-- The first test of the loop of `parseQuestionnaire`:
`line.toUpperCase() === line && line.split(" ").length <= 6`; `toUpperCase` is
`String.prototype.toUpperCase` of the runtime. -/
def isSectionLine (toUpperCase : JSString → JSString) (line : JSString) : Bool :=
  toUpperCase line = line && (splitOnSpace line).length ≤ 6

/-- The second test of the loop: `line.endsWith("?") || /^\d+/.test(line)`. -/
def isQuestionLine (line : JSString) : Bool :=
  line.getLast? = some 63 || (line.head?.any (fun c => 48 ≤ c && c ≤ 57))

/-- An element of `questions`. -/
structure ParsedQuestion where
  «section» : JSString
  text : JSString
deriving DecidableEq

/-- The variables of the loop of `parseQuestionnaire`; when it ends `sections` and
`questions` are returned. -/
structure Questionnaire where
  currentSection : JSString
  sections : List JSString
  questions : List ParsedQuestion
deriving DecidableEq

/-- One round of the loop of `parseQuestionnaire`. -/
def parseLine (toUpperCase : JSString → JSString) (st : Questionnaire) (line : JSString) :
    Questionnaire :=
  if isSectionLine toUpperCase line then
    { st with currentSection := line, sections := st.sections ++ [line] }
  else if isQuestionLine line then
    { st with questions := st.questions ++ [ParsedQuestion.mk st.currentSection line] }
  else st

/-- `parseQuestionnaire` of `services/questionnaire.js`. -/
def parseQuestionnaire (toUpperCase : JSString → JSString) (text : JSString) : Questionnaire :=
  (normalizeLines text).foldl (parseLine toUpperCase) (Questionnaire.mk (js "General") [] [])

/-- The section of the line at position `i`, in the words of the description: the last
section line among the lines before it, `"General"` when there is none. -/
def sectionBefore (toUpperCase : JSString → JSString) (lines : List JSString) (i : Nat) :
    JSString :=
  (((lines.take i).filter (isSectionLine toUpperCase)).getLast?).getD (js "General")

/-- The questions in the words of the description: the lines that are no section line
and end with `?` or start with a digit, in the order of the input, each with the section
before it. -/
def questionsOfLines (toUpperCase : JSString → JSString) (lines : List JSString) :
    List ParsedQuestion :=
  (List.range lines.length).filterMap (fun i =>
    match lines[i]? with
    | some line =>
      if !isSectionLine toUpperCase line && isQuestionLine line then
        some (ParsedQuestion.mk (sectionBefore toUpperCase lines i) line)
      else none
    | none => none)

/-! ## Ingestion (`indexing/pipeline.js`, `services/documents.js`) -/

/-- Modelled from the spec: `PROJECT_STATUS.OUTDATED` of `models/status.js`, not among
the sources. -/
def PROJECT_STATUS.OUTDATED : String := "OUTDATED"

/-- Modelled from the spec: `PROJECT_STATUS.CREATING` of `models/status.js`, not among
the sources. -/
def PROJECT_STATUS.CREATING : String := "CREATING"

/-- An element of the array `buildChunks` returns. -/
structure Chunk where
  id : Id
  document_id : Id
  text : JSString
deriving DecidableEq

/-- `buildChunks(documentId, text)` of `indexing/pipeline.js`; `chunkId i` stands for the
`uuidv4()` of the chunk at position `i`. -/
def buildChunks (chunkId : Nat → Id) (documentId : Id) (text : JSString) : List Chunk :=
  (chunkText text 500).mapIdx (fun i chunk => Chunk.mk (chunkId i) documentId chunk)

/-- What the environment decides in one background run of `indexDocumentAsync`: the
text `extractText` returns or the message of the error it throws; for each store call
of the run the message of the error it throws, if it throws (`insertChunk k` is for
the `INSERT` of the chunk at position `k`); the `uuidv4()` of each chunk and the
`new Date()` of the job update. The writes of the job are taken to succeed. -/
structure IngestRun where
  extractText : Except String JSString
  deleteChunks : Option String
  insertChunk : Nat → Option String
  updateDocument : Option String
  invalidateProjects : Option String
  chunkId : Nat → Id
  finishedAt : Nat

/-- The loop `for (const chunk of chunks)` of the background task, from the chunk at
position `k`: the way it ends and the store it leaves. -/
def insertChunks {α : Type} [LinearOrderedField α] (rt : Runtime α) (env : IngestRun)
    (documentId : Id) : Nat → List Chunk → Store α → Settled × Store α
  | _, [], store => (Settled.fulfilled, store)
  | k, chunk :: rest, store =>
    match env.insertChunk k with
    | some message => (Settled.rejected message, store)
    | none =>
      insertChunks rt env documentId (k + 1) rest
        { store with
          document_chunks := store.document_chunks ++
            [DocumentChunkRow.mk chunk.id documentId chunk.text (embedText rt chunk.text)] }

/-- `UPDATE documents SET status=SUCCESS, page_count=1, text_length=$3, text=$4 WHERE
id=$5`. -/
def markDocumentIndexed {α : Type} (store : Store α) (documentId : Id) (text : JSString) :
    Store α :=
  { store with
    documents := store.documents.map
      (fun d => if d.id = documentId then
        { d with status := REQUEST_STATUS.SUCCESS, page_count := 1,
                 text_length := text.length, text := text } else d) }

/-- `UPDATE projects SET status=OUTDATED WHERE scope='ALL_DOCS'`. -/
def invalidateProjects {α : Type} (store : Store α) : Store α :=
  { store with
    projects := store.projects.map
      (fun p => if p.scope = "ALL_DOCS" then { p with status := PROJECT_STATUS.OUTDATED }
        else p) }

/-- The `try` block of the background task of `indexDocumentAsync`: the way it ends
and the store it leaves. -/
def indexDocumentTry {α : Type} [LinearOrderedField α] (rt : Runtime α) (env : IngestRun)
    (documentId requestId : Id) (store : Store α) : Settled × Store α :=
  match env.extractText with
  | Except.error message => (Settled.rejected message, store)
  | Except.ok text =>
    let chunks := buildChunks env.chunkId documentId text
    match env.deleteChunks with
    | some message => (Settled.rejected message, store)
    | none =>
      let store1 : Store α :=
        { store with
          document_chunks := store.document_chunks.filter
            (fun chunk => chunk.document_id ≠ documentId) }
      match insertChunks rt env documentId 0 chunks store1 with
      | (Settled.fulfilled, store2) =>
        match env.updateDocument with
        | some message => (Settled.rejected message, store2)
        | none =>
          let store3 := markDocumentIndexed store2 documentId text
          match env.invalidateProjects with
          | some message => (Settled.rejected message, store3)
          | none =>
            (Settled.fulfilled,
              updateRequest (invalidateProjects store3) requestId REQUEST_STATUS.SUCCESS none
                env.finishedAt)
      | ended => ended

/-- The background task of `indexDocumentAsync`: the `try` block, and in the `catch`
block `onRequestUpdate(requestId, FAILED, error.message)`; the `finally` block removes
the uploaded file and touches no table. -/
def indexDocumentBackground {α : Type} [LinearOrderedField α] (rt : Runtime α)
    (env : IngestRun) (documentId requestId : Id) (store : Store α) : Store α :=
  match indexDocumentTry rt env documentId requestId store with
  | (Settled.rejected message, store') =>
    updateRequest store' requestId REQUEST_STATUS.FAILED (some message) env.finishedAt
  | (_, store') => store'

/-! ## Project creation (`services/projects.js`) -/

/-- The part of `createProjectAsync` that runs before the background task is
scheduled: the document ids are resolved as in `updateProjectAsync` and the project is
inserted with the status CREATING; `projectId` stands for `uuidv4()`. -/
def createProjectAsync {α : Type} (store : Store α) (projectId : Id) (now : Nat)
    (name : JSString) (questionnaire_document_id : Id) (scope : String)
    (document_ids : Option (List Id)) : Store α :=
  let docs := if scope = "ALL_DOCS" then (listDocuments store).map (fun doc => doc.id)
    else document_ids.getD []
  { store with
    projects := store.projects ++
      [ProjectRow.mk projectId name questionnaire_document_id PROJECT_STATUS.CREATING scope
        docs now now] }

/-- What the environment decides in one background run of `createProjectAsync`: for
the `SELECT` of the questionnaire and for the `INSERT` of the question at position `k`
the message of the error it throws, if it throws, and so for the `UPDATE` that sets the
project to READY (`setReady`), for `onRequestUpdate(requestId, SUCCESS)`
(`reportSuccess`) and for the `onRequestUpdate` of the `catch` block (`reportFailure`);
the `uuidv4()` of each question and the `new Date()` values. -/
structure CreateRun where
  loadQuestionnaire : Option String
  insertQuestion : Nat → Option String
  questionId : Nat → Id
  readyAt : Nat
  finishedAt : Nat
  setReady : Option String
  reportSuccess : Option String
  reportFailure : Option String

/-- The loop `for (const question of parsed.questions)`, from the question at position
`k`; `orderIndex` is `k + 1`. -/
def insertQuestions {α : Type} (env : CreateRun) (projectId : Id) :
    Nat → List ParsedQuestion → Store α → Settled × Store α
  | _, [], store => (Settled.fulfilled, store)
  | k, question :: rest, store =>
    match env.insertQuestion k with
    | some message => (Settled.rejected message, store)
    | none =>
      insertQuestions env projectId (k + 1) rest
        { store with
          questions := store.questions ++
            [QuestionRow.mk (env.questionId k) projectId question.«section» ((k : Int) + 1)
              question.text] }

/-- The `try` block of the background task of `createProjectAsync`. -/
def createProjectTry {α : Type} (toUpperCase : JSString → JSString) (env : CreateRun)
    (projectId requestId questionnaire_document_id : Id) (store : Store α) :
    Settled × Store α :=
  match env.loadQuestionnaire with
  | some message => (Settled.rejected message, store)
  | none =>
    let questionnaireText :=
      match store.documents.find? (fun d => d.id == questionnaire_document_id) with
      | some d => d.text
      | none => []
    let parsed := parseQuestionnaire toUpperCase questionnaireText
    match insertQuestions env projectId 0 parsed.questions store with
    | (Settled.fulfilled, store2) =>
      markReady env.setReady env.reportSuccess env.readyAt env.finishedAt projectId
        requestId store2
    | ended => ended

/-- The background task of `createProjectAsync`. -/
def createProjectBackground {α : Type} (toUpperCase : JSString → JSString) (env : CreateRun)
    (projectId requestId questionnaire_document_id : Id) (store : Store α) : Store α :=
  match createProjectTry toUpperCase env projectId requestId questionnaire_document_id store with
  | (Settled.rejected message, store') =>
    markFailed env.reportFailure env.finishedAt requestId message store'
  | (_, store') => store'

/-! ## The route `generate-single-answer` (`api/routes.js`) -/

/-- The identifiers the handler of `POST /generate-single-answer` uses without
declaring them: whether the module binds them. -/
structure RoutesScope where
  generateAnswer : Bool
  uuidv4 : Bool
  ANSWER_STATUS : Bool
deriving DecidableEq

/-- The bindings of `api/routes.js`. Its `require` lines (lines 1 to 17) bind `express`,
`multer`, `path`, `pool`, the three functions of `services/requests`, the three of
`services/documents`, the seven of `services/projects` and `evaluateProject`; the module
declares `router` and `upload` and nothing else. None of `generateAnswer`, `uuidv4`
and `ANSWER_STATUS` is bound. -/
def routesScope : RoutesScope := RoutesScope.mk false false false

/-- The handler of `POST /generate-single-answer`: what it sends, or the message of
the error it throws, and the store it leaves. Reading an identifier that is not bound
throws a `ReferenceError`; the handler catches nothing. `answerId` stands for
`uuidv4()`. -/
def generateSingleAnswerRoute {α : Type} [LinearOrderedField α] (rt : Runtime α)
    (scope : RoutesScope) (store : Store α) (projectId questionId answerId : Id) (now : Nat) :
    Except String (Response (AnswerRow α)) × Store α :=
  match store.questions.filter (fun q => q.id = questionId) with
  | [] => (Except.ok (Response.mk 404 (some "Question not found") none), store)
  | question :: _ =>
    if scope.generateAnswer = false then
      (Except.error "generateAnswer is not defined", store)
    else
      let answerPayload := generateAnswer rt store.toDb projectId question none
      if scope.uuidv4 = false then (Except.error "uuidv4 is not defined", store)
      else if scope.ANSWER_STATUS = false then
        (Except.error "ANSWER_STATUS is not defined", store)
      else
        let answer := AnswerRow.mk answerId projectId questionId answerPayload.answerText
          answerPayload.isAnswerable answerPayload.confidence answerPayload.citations
          ANSWER_STATUS.DRAFT now now none
        (Except.ok (Response.mk 200 none (some answer)),
          { store with answers := store.answers ++ [answer] })

/-- The values of `AnswerStatus` in `frontend/src/types.ts`. -/
def AnswerStatus : List JSString :=
  [js "DRAFT", js "CONFIRMED", js "REJECTED", js "MANUAL_UPDATED", js "MISSING_DATA"]

/-! ## Operations on the store -/

/-- One of the API operations bulk generate, update scope, generate-single-answer and
update-answer, run from the request to the end of its background task: the store
before and after. `scope` gives the bindings of `api/routes.js`; `allowed` is what is
known of the status of the `update-answer` requests; `uuid_in` is the input function
of the type `uuid` of the store. -/
inductive ApiStep {α : Type} [LinearOrderedField α] (rt : Runtime α) (scope : RoutesScope)
    (allowed : JSString → Prop) : Store α → Store α → Prop where
  | generateAll (s : Store α) (env : BulkRun) (projectId requestId : Id) (created now : Nat) :
    ApiStep rt scope allowed s
      (regenerateBackground rt env projectId requestId
        (generateAnswersAsync (createRequest s requestId created) now projectId))
  | updateScope (s : Store α) (env : BulkRun) (projectId requestId : Id) (created now : Nat)
      (newScope : String) (document_ids : Option (List Id)) :
    ApiStep rt scope allowed s
      (regenerateBackground rt env projectId requestId
        (updateProjectAsync (createRequest s requestId created) now projectId newScope
          document_ids))
  | generateSingle (s : Store α) (projectId questionId answerId : Id) (now : Nat) :
    ApiStep rt scope allowed s
      (generateSingleAnswerRoute rt scope s projectId questionId answerId now).2
  | updateAnswer (s : Store α) (uuid_in : String → Except String Id) (now : Nat)
      (body : UpdateAnswerBody) (hstatus : ∀ S, body.status = some S → allowed S) :
    ApiStep rt scope allowed s (updateAnswerRoute uuid_in s now body).2

/-- A step of one of `createProjectAsync`, `updateProjectAsync`, `generateAnswersAsync`
and `indexDocumentAsync`: the part before the background task is scheduled, or the
background task. Steps of different calls may alternate. -/
inductive ProjectStep {α : Type} [LinearOrderedField α] (rt : Runtime α)
    (toUpperCase : JSString → JSString) : Store α → Store α → Prop where
  | createRequested (s : Store α) (projectId : Id) (now : Nat) (name : JSString)
      (questionnaire_document_id : Id) (scope : String) (document_ids : Option (List Id)) :
    ProjectStep rt toUpperCase s
      (createProjectAsync s projectId now name questionnaire_document_id scope document_ids)
  | createRun (s : Store α) (env : CreateRun) (projectId requestId : Id)
      (questionnaire_document_id : Id) :
    ProjectStep rt toUpperCase s
      (createProjectBackground toUpperCase env projectId requestId questionnaire_document_id s)
  | updateRequested (s : Store α) (now : Nat) (projectId : Id) (scope : String)
      (document_ids : Option (List Id)) :
    ProjectStep rt toUpperCase s (updateProjectAsync s now projectId scope document_ids)
  | generateRequested (s : Store α) (now : Nat) (projectId : Id) :
    ProjectStep rt toUpperCase s (generateAnswersAsync s now projectId)
  | regenerateRun (s : Store α) (env : BulkRun) (projectId requestId : Id) :
    ProjectStep rt toUpperCase s (regenerateBackground rt env projectId requestId s)
  | indexRequested (s : Store α) (documentId : Id) (now : Nat) (file : UploadedFile) :
    ProjectStep rt toUpperCase s (indexDocumentAsync s documentId now file)
  | indexRun (s : Store α) (env : IngestRun) (documentId requestId : Id) :
    ProjectStep rt toUpperCase s (indexDocumentBackground rt env documentId requestId s)

/-- The four project statuses that the program writes. -/
def WrittenStatus (status : String) : Prop :=
  status = PROJECT_STATUS.CREATING ∨ status = PROJECT_STATUS.READY ∨
    status = PROJECT_STATUS.OUTDATED ∨ status = PROJECT_STATUS.UPDATING

/-! ## Auxiliary predicates on strings -/

/-- Every whitespace code unit is a space and is not followed by whitespace. -/
def Collapsed : JSString → Prop
  | [] => True
  | c :: rest =>
    (isWhiteSpace c = true → c = 32 ∧ ∀ d ∈ rest.head?, isWhiteSpace d = false) ∧
      Collapsed rest

/-- Neither the first nor the last code unit is whitespace. -/
def NoEdgeSpace (s : JSString) : Prop :=
  (∀ c ∈ s.head?, isWhiteSpace c = false) ∧ (∀ c ∈ s.getLast?, isWhiteSpace c = false)

/-- A non-empty string without leading or trailing whitespace. -/
def Trimmed (s : JSString) : Prop :=
  s ≠ [] ∧ NoEdgeSpace s

/-- The code unit before the end of `p` is one of `.!?`; for an empty `p` the flag
tells it. -/
def endsTerm (a : Bool) (p : JSString) : Bool :=
  match p.getLast? with
  | some c => isTerminator c
  | none => a

/-- What a sentence split of a normalised text looks like: every sentence is trimmed
and holds no split point, and every sentence but the last ends with `.`, `!` or `?`. -/
def SentenceList (ss : List JSString) : Prop :=
  (∀ p ∈ ss, Trimmed p ∧ splitFrom false false p = [p]) ∧
    ∀ p ∈ ss.dropLast, endsTerm false p = true

/-- A greedy packing of the sentences `ss` into groups: the groups are consecutive
runs of `ss`, a group of several sentences fits in `maxLength` once joined, and no
group could have taken the first sentence of the next one. -/
def Packed (maxLength : Int) (ss : List JSString) (G : List (List JSString)) : Prop :=
  G.flatten = ss ∧
    (∀ g ∈ G, g ≠ [] ∧ (g.length = 1 ∨ ((joinSpace g).length : Int) ≤ maxLength)) ∧
    List.Chain'
      (fun g h => ∀ s ∈ h.head?, ((joinSpace g ++ 32 :: s).length : Int) > maxLength) G

/-! ## Whitespace normalisation -/

theorem isWhiteSpace_space : isWhiteSpace 32 = true := by decide

theorem trim_noEdgeSpace (s : JSString) : NoEdgeSpace (trim s) := by
  unfold trim
  constructor
  · intro c hc
    have hpre : (s.dropWhile isWhiteSpace).rdropWhile isWhiteSpace <+: s.dropWhile isWhiteSpace :=
      List.rdropWhile_prefix _ _
    obtain ⟨t, ht⟩ := hpre
    have h1 := List.head?_dropWhile_not isWhiteSpace s
    cases hr : (s.dropWhile isWhiteSpace).rdropWhile isWhiteSpace with
    | nil => rw [hr] at hc; simp at hc
    | cons a r =>
      rw [hr] at hc ht
      simp at hc
      subst hc
      rw [← ht] at h1
      simpa using h1
  · intro c hc
    cases hr : (s.dropWhile isWhiteSpace).rdropWhile isWhiteSpace with
    | nil => rw [hr] at hc; simp at hc
    | cons a r =>
      have hne : (s.dropWhile isWhiteSpace).rdropWhile isWhiteSpace ≠ [] := by rw [hr]; simp
      have h2 := List.rdropWhile_last_not isWhiteSpace (s.dropWhile isWhiteSpace) hne
      rw [List.getLast?_eq_getLast _ hne] at hc
      simp at hc
      rw [hc] at h2
      simpa using h2

theorem trim_eq_self {s : JSString} (h : NoEdgeSpace s) : trim s = s := by
  unfold trim
  have h1 : s.dropWhile isWhiteSpace = s := by
    cases s with
    | nil => rfl
    | cons a r =>
      have := h.1 a (by simp)
      simp [List.dropWhile, this]
  rw [h1]
  rw [List.rdropWhile_eq_self_iff]
  intro hl
  have := h.2 (s.getLast hl) (by rw [List.getLast?_eq_getLast _ hl]; simp)
  simp [this]

theorem trim_eq_nil_iff (s : JSString) : trim s = [] ↔ ∀ c ∈ s, isWhiteSpace c = true := by
  unfold trim
  rw [List.rdropWhile_eq_nil_iff]
  constructor
  · intro h
    have h1 := List.head?_dropWhile_not isWhiteSpace s
    cases hd : s.dropWhile isWhiteSpace with
    | nil => exact List.dropWhile_eq_nil_iff.mp hd
    | cons a r =>
      rw [hd] at h h1
      have := h a (by simp)
      simp [this] at h1
  · intro h
    rw [List.dropWhile_eq_nil_iff.mpr h]
    simp

theorem collapsed_of_suffix {s t : JSString} (h : Collapsed t) (hs : s <:+ t) :
    Collapsed s := by
  induction t with
  | nil => simp at hs; subst hs; exact h
  | cons a t ih =>
    rcases List.suffix_cons_iff.mp hs with h1 | h1
    · subst h1; exact h
    · exact ih h.2 h1

theorem collapsed_of_prefix {s t : JSString} (h : Collapsed t) (hs : s <+: t) :
    Collapsed s := by
  induction s generalizing t with
  | nil => trivial
  | cons a s ih =>
    cases t with
    | nil => simp at hs
    | cons b t =>
      rw [List.cons_prefix_cons] at hs
      obtain ⟨hab, hst⟩ := hs
      subst hab
      refine ⟨fun hw => ⟨(h.1 hw).1, ?_⟩, ih h.2 hst⟩
      intro d hd
      apply (h.1 hw).2 d
      cases s with
      | nil => simp at hd
      | cons e s =>
        cases t with
        | nil => simp at hst
        | cons f t =>
          rw [List.cons_prefix_cons] at hst
          simp at hd ⊢
          rw [← hd]; exact hst.1.symm

theorem collapsed_trim {s : JSString} (h : Collapsed s) : Collapsed (trim s) :=
  collapsed_of_prefix (collapsed_of_suffix h (List.dropWhile_suffix _))
    (List.rdropWhile_prefix _ _)

theorem collapsed_replace (b : Bool) (t : JSString) :
    Collapsed (replaceWhiteSpaceRuns b t) ∧
      (b = true → ∀ d ∈ (replaceWhiteSpaceRuns b t).head?, isWhiteSpace d = false) := by
  induction t generalizing b with
  | nil => simp [replaceWhiteSpaceRuns, Collapsed]
  | cons c rest ih =>
    by_cases hc : isWhiteSpace c = true
    · cases b with
      | true =>
        simp only [replaceWhiteSpaceRuns, hc, if_true]
        exact ⟨(ih true).1, fun _ => (ih true).2 rfl⟩
      | false =>
        simp only [replaceWhiteSpaceRuns, hc, if_true]
        refine ⟨⟨fun _ => ⟨rfl, (ih true).2 rfl⟩, (ih true).1⟩, ?_⟩
        intro hb; cases hb
    · simp only [replaceWhiteSpaceRuns, hc]
      refine ⟨⟨fun hw => absurd hw hc, (ih false).1⟩, ?_⟩
      intro _ d hd
      simp at hd
      subst hd
      simpa using hc

theorem replace_eq_self {s : JSString} (h : Collapsed s) (b : Bool)
    (hb : b = true → ∀ d ∈ s.head?, isWhiteSpace d = false) :
    replaceWhiteSpaceRuns b s = s := by
  induction s generalizing b with
  | nil => rfl
  | cons c rest ih =>
    by_cases hc : isWhiteSpace c = true
    · cases b with
      | true =>
        have := hb rfl c (by simp)
        rw [hc] at this; cases this
      | false =>
        simp only [replaceWhiteSpaceRuns, hc, if_true]
        rw [ih h.2 true (fun _ => (h.1 hc).2), (h.1 hc).1]
        simp
    · simp only [replaceWhiteSpaceRuns, hc]
      rw [ih h.2 false (fun hb => by cases hb)]
      simp

theorem replace_all_space (b : Bool) (t : JSString) :
    (∀ c ∈ replaceWhiteSpaceRuns b t, isWhiteSpace c = true) ↔
      ∀ c ∈ t, isWhiteSpace c = true := by
  induction t generalizing b with
  | nil => simp [replaceWhiteSpaceRuns]
  | cons c rest ih =>
    by_cases hc : isWhiteSpace c = true
    · cases b with
      | true =>
        simp only [replaceWhiteSpaceRuns, hc, if_true]
        rw [ih true]; simp [hc]
      | false =>
        simp only [replaceWhiteSpaceRuns, hc, if_true, Bool.false_eq_true, if_false]
        simp only [List.forall_mem_cons, hc, true_and]
        rw [← ih true]
        exact ⟨fun h => h.2, fun h => ⟨isWhiteSpace_space, h⟩⟩
    · simp only [replaceWhiteSpaceRuns, hc]
      simp [hc]

theorem normalizeText_collapsed (t : JSString) : Collapsed (normalizeText t) :=
  collapsed_trim (collapsed_replace false t).1

theorem normalizeText_noEdgeSpace (t : JSString) : NoEdgeSpace (normalizeText t) :=
  trim_noEdgeSpace _

theorem normalizeText_eq_self {s : JSString} (hc : Collapsed s) (he : NoEdgeSpace s) :
    normalizeText s = s := by
  unfold normalizeText
  rw [replace_eq_self hc false (fun hb => by cases hb), trim_eq_self he]

theorem normalizeText_idem (t : JSString) :
    normalizeText (normalizeText t) = normalizeText t :=
  normalizeText_eq_self (normalizeText_collapsed t) (normalizeText_noEdgeSpace t)

theorem normalizeText_eq_nil_iff (t : JSString) :
    normalizeText t = [] ↔ ∀ c ∈ t, isWhiteSpace c = true := by
  unfold normalizeText
  rw [trim_eq_nil_iff, replace_all_space]

/-! ## Joining with single spaces -/

@[simp] theorem joinSpace_nil : joinSpace [] = [] := rfl

@[simp] theorem joinSpace_singleton (x : JSString) : joinSpace [x] = x := by
  simp [joinSpace, List.intercalate]

@[simp] theorem joinSpace_cons_cons (x y : JSString) (l : List JSString) :
    joinSpace (x :: y :: l) = x ++ 32 :: joinSpace (y :: l) := by
  simp [joinSpace, List.intercalate]

theorem joinSpace_cons_of_ne_nil (x : JSString) {l : List JSString} (h : l ≠ []) :
    joinSpace (x :: l) = x ++ 32 :: joinSpace l := by
  cases l with
  | nil => exact absurd rfl h
  | cons y l => simp

theorem joinSpace_concat {g : List JSString} (h : g ≠ []) (x : JSString) :
    joinSpace (g ++ [x]) = joinSpace g ++ 32 :: x := by
  induction g with
  | nil => exact absurd rfl h
  | cons y g ih =>
    cases g with
    | nil => simp
    | cons z g =>
      have := ih (by simp)
      simp only [List.cons_append, joinSpace_cons_cons] at this ⊢
      rw [this]; simp

/-! ## Sentence splitting -/

theorem splitFrom_ne_nil (a i : Bool) (s : JSString) : splitFrom a i s ≠ [] := by
  induction s generalizing a i with
  | nil => simp [splitFrom]
  | cons c rest ih =>
    unfold splitFrom
    split
    · split
      · exact ih _ _
      · split
        · simp
        · cases h : splitFrom false false rest <;> simp [consFirst]
    · cases h : splitFrom (isTerminator c) false rest <;> simp [consFirst]

theorem joinSpace_consFirst (c : Nat) {X : List JSString} (h : X ≠ []) :
    joinSpace (consFirst c X) = c :: joinSpace X := by
  cases X with
  | nil => exact absurd rfl h
  | cons x X =>
    cases X with
    | nil => simp [consFirst]
    | cons y X => simp [consFirst]

theorem splitFrom_inSep {s : JSString} (h : ∀ d ∈ s.head?, isWhiteSpace d = false)
    (a : Bool) : splitFrom a true s = splitFrom a false s := by
  cases s with
  | nil => simp [splitFrom]
  | cons c rest =>
    have hc := h c (by simp)
    simp [splitFrom, hc]

theorem joinSpace_splitFrom {s : JSString} (h : Collapsed s) (a : Bool) :
    joinSpace (splitFrom a false s) = s := by
  induction s generalizing a with
  | nil => simp [splitFrom]
  | cons c rest ih =>
    by_cases hc : isWhiteSpace c = true
    · obtain ⟨h32, hnext⟩ := h.1 hc
      cases a with
      | true =>
        simp only [splitFrom, hc, if_true, Bool.false_eq_true, if_false]
        rw [splitFrom_inSep hnext, joinSpace_cons_of_ne_nil _ (splitFrom_ne_nil _ _ _),
          ih h.2, h32]
        simp
      | false =>
        simp only [splitFrom, hc, if_true, Bool.false_eq_true, if_false]
        rw [joinSpace_consFirst _ (splitFrom_ne_nil _ _ _), ih h.2]
    · simp only [splitFrom, hc, Bool.false_eq_true, if_false]
      rw [joinSpace_consFirst _ (splitFrom_ne_nil _ _ _), ih h.2]

theorem joinSpace_splitSentences {s : JSString} (h : Collapsed s) :
    joinSpace (splitSentences s) = s :=
  joinSpace_splitFrom h false

theorem isTerminator_of_isWhiteSpace {c : Nat} (h : isWhiteSpace c = true) :
    isTerminator c = false := by
  unfold isTerminator
  by_contra hc
  have : c = 46 ∨ c = 33 ∨ c = 63 := by
    simp only [Bool.not_eq_false, Bool.or_eq_true, beq_iff_eq] at hc
    tauto
  rcases this with h1 | h1 | h1 <;> subst h1 <;> revert h <;> decide

theorem endsTerm_cons (a : Bool) (c : Nat) (p : JSString) :
    endsTerm a (c :: p) = endsTerm (isTerminator c) p := by
  cases p with
  | nil => simp [endsTerm]
  | cons d p =>
    unfold endsTerm
    rw [List.getLast?_cons_cons, List.getLast?_eq_getLast _ (List.cons_ne_nil d p)]

theorem consFirst_eq_singleton {c : Nat} {X : List JSString} {q : JSString}
    (hX : X ≠ []) (h : consFirst c X = [c :: q]) : X = [q] := by
  cases X with
  | nil => exact absurd rfl hX
  | cons x X => simpa [consFirst] using h

theorem getLast?_cons_of_ne_nil {α : Type} (c : α) {l : List α} (h : l ≠ []) :
    (c :: l).getLast? = l.getLast? := by
  cases l with
  | nil => exact absurd rfl h
  | cons d l => simp [List.getLast?_cons_cons]

/-- Shape of the pieces of a split of a collapsed string without trailing whitespace. -/
theorem splitFrom_pieces {s : JSString} (hc : Collapsed s)
    (hl : ∀ c ∈ s.getLast?, isWhiteSpace c = false) (a : Bool) :
    ∃ hp tl, splitFrom a false s = hp :: tl ∧
      (∀ p ∈ tl, Trimmed p ∧ splitFrom false false p = [p]) ∧
      (∀ c ∈ hp.getLast?, isWhiteSpace c = false) ∧
      splitFrom a false hp = [hp] ∧
      ((∀ c ∈ s.head?, isWhiteSpace c = false) → s ≠ [] → hp ≠ [] ∧ hp.head? = s.head?) ∧
      (tl ≠ [] → endsTerm a hp = true) ∧
      (∀ p ∈ tl.dropLast, endsTerm false p = true) := by
  induction s generalizing a with
  | nil =>
    refine ⟨[], [], by simp [splitFrom], by simp, by simp, by simp [splitFrom], ?_, by simp,
      by simp⟩
    intro _ h; exact absurd rfl h
  | cons c rest ih =>
    have hl' : ∀ d ∈ rest.getLast?, isWhiteSpace d = false := by
      intro d hd
      cases rest with
      | nil => simp at hd
      | cons e rest => exact hl d (by rw [List.getLast?_cons_cons]; exact hd)
    by_cases hw : isWhiteSpace c = true
    · obtain ⟨h32, hnext⟩ := hc.1 hw
      have hrest : rest ≠ [] := by
        intro hr
        subst hr
        have := hl c (by simp)
        rw [hw] at this; cases this
      obtain ⟨hp, tl, he, htl, hlast, hun, hhead, hterm, hterms⟩ := ih hc.2 hl' false
      obtain ⟨hpne, hph⟩ := hhead hnext hrest
      cases a with
      | true =>
        refine ⟨[], hp :: tl, ?_, ?_, by simp, by simp [splitFrom], ?_, ?_, ?_⟩
        · simp only [splitFrom, hw, if_true, Bool.false_eq_true, if_false]
          rw [splitFrom_inSep hnext, he]
        · intro p hpm
          rcases List.mem_cons.mp hpm with h1 | h1
          · subst h1
            refine ⟨⟨hpne, ?_, hlast⟩, hun⟩
            rw [hph]; exact hnext
          · exact htl p h1
        · intro h _
          have := h c (by simp)
          rw [hw] at this; cases this
        · intro _; simp [endsTerm]
        · intro p hpm
          cases tl with
          | nil => simp at hpm
          | cons t tl =>
            rw [List.dropLast_cons₂] at hpm
            rcases List.mem_cons.mp hpm with h1 | h1
            · subst h1; exact hterm (by simp)
            · exact hterms p h1
      | false =>
        refine ⟨c :: hp, tl, ?_, htl, ?_, ?_, ?_, ?_, hterms⟩
        · simp only [splitFrom, hw, if_true, Bool.false_eq_true, if_false]
          rw [he]; rfl
        · rw [getLast?_cons_of_ne_nil c hpne]; exact hlast
        · simp only [splitFrom, hw, if_true, Bool.false_eq_true, if_false]
          rw [hun]; rfl
        · intro h _
          have := h c (by simp)
          rw [hw] at this; cases this
        · intro h
          rw [endsTerm_cons, isTerminator_of_isWhiteSpace hw]
          exact hterm h
    · have hw' : isWhiteSpace c = false := by simpa using hw
      obtain ⟨hp, tl, he, htl, hlast, hun, _, hterm, hterms⟩ :=
        ih hc.2 hl' (isTerminator c)
      refine ⟨c :: hp, tl, ?_, htl, ?_, ?_, ?_, ?_, hterms⟩
      · simp only [splitFrom, hw', Bool.false_eq_true, if_false]
        rw [he]; rfl
      · intro d hd
        cases hp with
        | nil => simp at hd; subst hd; exact hw'
        | cons e hp => rw [List.getLast?_cons_cons] at hd; exact hlast d hd
      · simp only [splitFrom, hw', Bool.false_eq_true, if_false]
        rw [hun]; rfl
      · intro _ _; simp
      · intro h
        rw [endsTerm_cons]
        exact hterm h

theorem sentenceList_splitSentences {s : JSString} (hc : Collapsed s)
    (he : NoEdgeSpace s) (hne : s ≠ []) : SentenceList (splitSentences s) := by
  obtain ⟨hp, tl, hs, htl, hlast, hun, hhead, hterm, hterms⟩ :=
    splitFrom_pieces hc he.2 false
  obtain ⟨hpne, hph⟩ := hhead he.1 hne
  unfold splitSentences
  rw [hs]
  constructor
  · intro p hpm
    rcases List.mem_cons.mp hpm with h1 | h1
    · subst h1
      refine ⟨⟨hpne, ?_, hlast⟩, hun⟩
      rw [hph]; exact he.1
    · exact htl p h1
  · intro p hpm
    cases tl with
    | nil => simp at hpm
    | cons t tl =>
      rw [List.dropLast_cons₂] at hpm
      rcases List.mem_cons.mp hpm with h1 | h1
      · subst h1; exact hterm (by simp)
      · exact hterms p h1

theorem splitFrom_append_space {p : JSString} (a : Bool)
    (hun : splitFrom a false p = [p]) (ht : endsTerm a p = true) {rest : JSString}
    (hr : ∀ d ∈ rest.head?, isWhiteSpace d = false) :
    splitFrom a false (p ++ 32 :: rest) = p :: splitFrom false false rest := by
  induction p generalizing a with
  | nil =>
    simp only [endsTerm, List.getLast?_nil] at ht
    subst ht
    simp only [List.nil_append, splitFrom, isWhiteSpace_space, if_true, Bool.false_eq_true,
      if_false]
    rw [splitFrom_inSep hr]
  | cons c p ih =>
    rw [endsTerm_cons] at ht
    by_cases hw : isWhiteSpace c = true
    · cases a with
      | true => simp [splitFrom, hw] at hun
      | false =>
        simp only [splitFrom, hw, if_true, Bool.false_eq_true, if_false] at hun
        have h1 := consFirst_eq_singleton (splitFrom_ne_nil _ _ _) hun
        rw [isTerminator_of_isWhiteSpace hw] at ht
        rw [List.cons_append]
        simp only [splitFrom, hw, if_true, Bool.false_eq_true, if_false]
        rw [ih false h1 ht]; rfl
    · have hw' : isWhiteSpace c = false := by simpa using hw
      simp only [splitFrom, hw', Bool.false_eq_true, if_false] at hun
      have h1 := consFirst_eq_singleton (splitFrom_ne_nil _ _ _) hun
      rw [List.cons_append]
      simp only [splitFrom, hw', Bool.false_eq_true, if_false]
      rw [ih _ h1 ht]; rfl

theorem head?_joinSpace_cons {q : JSString} (hq : q ≠ []) (l : List JSString) :
    (joinSpace (q :: l)).head? = q.head? := by
  cases l with
  | nil => simp
  | cons y l => rw [joinSpace_cons_cons, List.head?_append_of_ne_nil _ hq]

theorem sentenceList_tail {p : JSString} {ps : List JSString}
    (h : SentenceList (p :: ps)) : SentenceList ps := by
  refine ⟨fun q hq => h.1 q (List.mem_cons_of_mem _ hq), ?_⟩
  intro q hq
  apply h.2
  cases ps with
  | nil => simp at hq
  | cons r ps => rw [List.dropLast_cons₂]; exact List.mem_cons_of_mem _ hq

/-- Splitting the single-space join of a sentence list gives the list back. -/
theorem splitSentences_joinSpace {ss : List JSString} (h : SentenceList ss)
    (hne : ss ≠ []) : splitSentences (joinSpace ss) = ss := by
  cases ss with
  | nil => exact absurd rfl hne
  | cons p ps =>
    clear hne
    induction ps generalizing p with
    | nil => simpa [splitSentences] using (h.1 p (by simp)).2
    | cons q ps ih =>
      have hp := h.1 p (by simp)
      have hq := h.1 q (by simp)
      have ht : endsTerm false p = true := h.2 p (by simp [List.dropLast_cons₂])
      have hr : ∀ d ∈ (joinSpace (q :: ps)).head?, isWhiteSpace d = false := by
        rw [head?_joinSpace_cons hq.1.1]; exact hq.1.2.1
      have := ih q (sentenceList_tail h)
      unfold splitSentences at this ⊢
      rw [joinSpace_cons_cons, splitFrom_append_space false hp.2 ht hr, this]

theorem sentenceList_segment {A g B : List JSString} (h : SentenceList (A ++ g ++ B)) :
    SentenceList g := by
  refine ⟨fun q hq => h.1 q (by simp [hq]), ?_⟩
  intro q hq
  apply h.2
  by_cases hB : B = []
  · subst hB
    have hg : g ≠ [] := by intro hg; subst hg; simp at hq
    rw [List.append_nil, List.dropLast_append_of_ne_nil _ hg]
    exact List.mem_append_right _ hq
  · rw [List.dropLast_append_of_ne_nil _ hB]
    exact List.mem_append_left _ (List.mem_append_right _ (List.mem_of_mem_dropLast hq))

/-! ## Trimmed strings -/

theorem trimmed_append_space {b x : JSString} (hb : Trimmed b) (hx : Trimmed x) :
    Trimmed (b ++ 32 :: x) := by
  refine ⟨by simp, ?_, ?_⟩
  · rw [List.head?_append_of_ne_nil _ hb.1]; exact hb.2.1
  · rw [List.getLast?_append_of_ne_nil _ (List.cons_ne_nil _ _),
      getLast?_cons_of_ne_nil _ hx.1]
    exact hx.2.2

theorem trimmed_joinSpace {g : List JSString} (hg : g ≠ [])
    (h : ∀ p ∈ g, Trimmed p) : Trimmed (joinSpace g) := by
  induction g with
  | nil => exact absurd rfl hg
  | cons x g ih =>
    cases g with
    | nil => simpa using h x (by simp)
    | cons y g =>
      rw [joinSpace_cons_cons]
      exact trimmed_append_space (h x (by simp))
        (ih (by simp) (fun p hp => h p (List.mem_cons_of_mem _ hp)))

theorem trim_space_cons {x : JSString} (hx : Trimmed x) : trim (32 :: x) = x := by
  have : trim (32 :: x) = trim x := by
    unfold trim
    rw [List.dropWhile_cons_of_pos isWhiteSpace_space]
  rw [this, trim_eq_self hx.2]

/-! ## The packing loop -/

theorem packed_singleton (m : Int) (x : JSString) : Packed m [x] [[x]] := by
  refine ⟨by simp, ?_, List.chain'_singleton _⟩
  intro g hg
  simp at hg
  subst hg
  simp

theorem packed_close {m : Int} {ss : List JSString} {gs : List (List JSString)}
    {g : List JSString} {x : JSString} (h : Packed m ss (gs ++ [g]))
    (hlen : ((joinSpace g ++ 32 :: x).length : Int) > m) :
    Packed m (ss ++ [x]) (gs ++ [g] ++ [[x]]) := by
  obtain ⟨h1, h2, h3⟩ := h
  refine ⟨by rw [List.flatten_append, h1]; simp, ?_, ?_⟩
  · intro k hk
    rcases List.mem_append.mp hk with hk | hk
    · exact h2 k hk
    · simp at hk; subst hk; simp
  · rw [List.chain'_append]
    refine ⟨h3, List.chain'_singleton _, ?_⟩
    intro a ha b hb s hs
    simp at ha hb
    subst ha hb
    simp at hs
    subst hs
    exact hlen

theorem packed_extend {m : Int} {ss : List JSString} {gs : List (List JSString)}
    {g : List JSString} {x : JSString} (h : Packed m ss (gs ++ [g])) (hg : g ≠ [])
    (hlen : ((joinSpace (g ++ [x])).length : Int) ≤ m) :
    Packed m (ss ++ [x]) (gs ++ [g ++ [x]]) := by
  obtain ⟨h1, h2, h3⟩ := h
  refine ⟨?_, ?_, ?_⟩
  · rw [List.flatten_append] at h1 ⊢
    rw [← h1]; simp
  · intro k hk
    rcases List.mem_append.mp hk with hk | hk
    · exact h2 k (List.mem_append_left _ hk)
    · simp at hk; subst hk
      exact ⟨by simp, Or.inr hlen⟩
  · rw [List.chain'_append] at h3 ⊢
    refine ⟨h3.1, List.chain'_singleton _, ?_⟩
    intro a ha b hb s hs
    simp at hb
    subst hb
    rw [List.head?_append_of_ne_nil _ hg] at hs
    exact h3.2.2 a ha g (by simp) s hs

theorem chunkStep_first (m : Int) {x : JSString} (hx : Trimmed x) :
    chunkStep m ([], []) x = ([], x) := by
  simp [chunkStep, trim_space_cons hx]

/-- The state of the loop of `chunkText` after a non-empty run of trimmed sentences:
the closed chunks and the buffer are the joined groups of a greedy packing. -/
theorem foldl_chunkStep_packed (m : Int) (ss : List JSString)
    (hss : ∀ p ∈ ss, Trimmed p) (hne : ss ≠ []) :
    ∃ gs g, g ≠ [] ∧
      ss.foldl (chunkStep m) ([], []) = (gs.map joinSpace, joinSpace g) ∧
      Packed m ss (gs ++ [g]) := by
  induction ss using List.reverseRecOn with
  | nil => exact absurd rfl hne
  | append_singleton ss x ih =>
    have hx : Trimmed x := hss x (by simp)
    rw [List.foldl_append]
    by_cases hs : ss = []
    · subst hs
      refine ⟨[], [x], by simp, ?_, packed_singleton m x⟩
      simp [chunkStep_first m hx]
    · obtain ⟨gs, g, hg, hfold, hpack⟩ :=
        ih (fun p hp => hss p (List.mem_append_left _ hp)) hs
      have hgT : ∀ p ∈ g, Trimmed p := by
        intro p hp
        apply hss p
        rw [← hpack.1]
        simp [hp]
      have hb : Trimmed (joinSpace g) := trimmed_joinSpace hg hgT
      have htrim : trim (joinSpace g ++ [32] ++ x) = joinSpace g ++ 32 :: x := by
        have : joinSpace g ++ [32] ++ x = joinSpace g ++ 32 :: x := by simp
        rw [this, trim_eq_self (trimmed_append_space hb hx).2]
      rw [hfold]
      simp only [List.foldl_cons, List.foldl_nil]
      by_cases hlen : ((joinSpace g ++ 32 :: x).length : Int) > m
      · refine ⟨gs ++ [g], [x], by simp, ?_, packed_close hpack hlen⟩
        unfold chunkStep
        simp only [htrim]
        rw [if_pos ⟨hlen, hb.1⟩, trim_eq_self hb.2]
        simp
      · refine ⟨gs, g ++ [x], by simp, ?_, packed_extend hpack hg ?_⟩
        · unfold chunkStep
          simp only [htrim]
          rw [if_neg (fun h => hlen h.1), joinSpace_concat hg]
        · rw [joinSpace_concat hg]
          exact not_lt.mp hlen

/-- The chunks of a text with a non-empty normal form are the joined groups of a
greedy packing of its sentences. -/
theorem chunkText_packed (text : JSString) (m : Int) (hne : normalizeText text ≠ []) :
    ∃ G, Packed m (splitSentences (normalizeText text)) G ∧
      chunkText text m = G.map joinSpace := by
  have hS := sentenceList_splitSentences (normalizeText_collapsed text)
    (normalizeText_noEdgeSpace text) hne
  have hss : ∀ p ∈ splitSentences (normalizeText text), Trimmed p := fun p hp => (hS.1 p hp).1
  obtain ⟨gs, g, hg, hfold, hpack⟩ := foldl_chunkStep_packed m _ hss (splitFrom_ne_nil _ _ _)
  have hgT : ∀ p ∈ g, Trimmed p := by
    intro p hp
    apply hss p
    rw [← hpack.1]
    simp [hp]
  have hb : Trimmed (joinSpace g) := trimmed_joinSpace hg hgT
  refine ⟨gs ++ [g], hpack, ?_⟩
  unfold chunkText
  simp only [hne, if_false, hfold]
  rw [if_pos hb.1, trim_eq_self hb.2]
  simp

/-! ## Consequences for `chunkText` -/

theorem joinSpace_append {A B : List JSString} (hA : A ≠ []) (hB : B ≠ []) :
    joinSpace (A ++ B) = joinSpace A ++ 32 :: joinSpace B := by
  induction A with
  | nil => exact absurd rfl hA
  | cons a A ih =>
    cases A with
    | nil => simpa using joinSpace_cons_of_ne_nil a hB
    | cons b A =>
      have := ih (by simp)
      simp only [List.cons_append, joinSpace_cons_cons] at this ⊢
      rw [this]; simp

theorem joinSpace_map_joinSpace {G : List (List JSString)} (h : ∀ g ∈ G, g ≠ []) :
    joinSpace (G.map joinSpace) = joinSpace G.flatten := by
  induction G with
  | nil => rfl
  | cons g G ih =>
    cases G with
    | nil => simp
    | cons k G =>
      have hk : k ≠ [] := h k (by simp)
      have hf : (k :: G).flatten ≠ [] := by
        cases k with
        | nil => exact absurd rfl hk
        | cons x k => simp
      have := ih (fun g hg => h g (List.mem_cons_of_mem _ hg))
      rw [List.flatten_cons, joinSpace_append (h g (by simp)) hf, ← this]
      simp

theorem chunkText_of_normalizeText_eq_nil {text : JSString} (m : Int)
    (h : normalizeText text = []) : chunkText text m = [] := by
  simp [chunkText, h]

theorem joinSpace_chunkText (text : JSString) (m : Int) :
    joinSpace (chunkText text m) = normalizeText text := by
  by_cases hne : normalizeText text = []
  · rw [chunkText_of_normalizeText_eq_nil m hne, hne]; rfl
  · obtain ⟨G, hpack, hG⟩ := chunkText_packed text m hne
    rw [hG, joinSpace_map_joinSpace (fun g hg => (hpack.2.1 g hg).1), hpack.1]
    exact joinSpace_splitSentences (normalizeText_collapsed text)

theorem chunkText_normalizeText (text : JSString) (m : Int) :
    chunkText (normalizeText text) m = chunkText text m := by
  unfold chunkText
  rw [normalizeText_idem]

theorem length_le_joinSpace_cons (x : JSString) (l : List JSString) :
    x.length ≤ (joinSpace (x :: l)).length := by
  cases l with
  | nil => simp
  | cons y l => simp

theorem length_le_joinSpace_of_mem {s : JSString} {g : List JSString} (h : s ∈ g) :
    s.length ≤ (joinSpace g).length := by
  induction g with
  | nil => simp at h
  | cons x g ih =>
    rcases List.mem_cons.mp h with h1 | h1
    · subst h1; exact length_le_joinSpace_cons _ _
    · cases g with
      | nil => simp at h1
      | cons y g =>
        have := ih h1
        rw [joinSpace_cons_cons]
        simp only [List.length_append, List.length_cons]
        omega

theorem sentenceList_of_mem_groups {ss : List JSString} {G : List (List JSString)}
    (hS : SentenceList ss) (hG : G.flatten = ss) {g : List JSString} (hg : g ∈ G) :
    SentenceList g := by
  obtain ⟨A, B, hAB⟩ := List.append_of_mem hg
  subst hAB
  rw [List.flatten_append, List.flatten_cons, ← List.append_assoc] at hG
  rw [← hG] at hS
  exact sentenceList_segment hS

/-! ## The chunker contract -/

/-- C1: joining the chunks of `chunkText text maxLength` with single spaces gives
`normalizeText text`, for every text and every `maxLength`. -/
theorem chunkText_join_reconstructs (text : JSString) (maxLength : Int) :
    joinSpace (chunkText text maxLength) = normalizeText text :=
  joinSpace_chunkText text maxLength

theorem chunkText_join_reconstructs_witness :
    joinSpace (chunkText (js "  Hi.  A very long\tsentence here. Ok.\nGo. ") 7) =
      js "Hi. A very long sentence here. Ok. Go." ∧
    normalizeText (js "  Hi.  A very long\tsentence here. Ok.\nGo. ") =
      js "Hi. A very long sentence here. Ok. Go." :=
  ⟨(chunkText_join_reconstructs _ 7).trans (by decide), by decide⟩

/-- C2: every chunk of `chunkText text maxLength` is at most `maxLength` long or is
one sentence of the sentence split. The chunks are the joins of consecutive groups
of sentences, so no sentence is split, and a sentence longer than `maxLength` forms a
group of its own, so it is not merged with another one. -/
theorem chunkText_bounded_or_single_sentence (text : JSString) (maxLength : Int) :
    (∀ c ∈ chunkText text maxLength,
        (c.length : Int) ≤ maxLength ∨ c ∈ splitSentences (normalizeText text)) ∧
    (normalizeText text ≠ [] →
      ∃ G : List (List JSString),
        G.flatten = splitSentences (normalizeText text) ∧
        chunkText text maxLength = G.map joinSpace ∧
        ∀ g ∈ G, g ≠ [] ∧
          (g.length = 1 ∨ ((joinSpace g).length : Int) ≤ maxLength) ∧
          ∀ s ∈ g, (s.length : Int) > maxLength → g = [s]) := by
  have key : normalizeText text ≠ [] →
      ∃ G : List (List JSString),
        G.flatten = splitSentences (normalizeText text) ∧
        chunkText text maxLength = G.map joinSpace ∧
        ∀ g ∈ G, g ≠ [] ∧
          (g.length = 1 ∨ ((joinSpace g).length : Int) ≤ maxLength) ∧
          ∀ s ∈ g, (s.length : Int) > maxLength → g = [s] := by
    intro hne
    obtain ⟨G, hpack, hG⟩ := chunkText_packed text maxLength hne
    refine ⟨G, hpack.1, hG, ?_⟩
    intro g hg
    obtain ⟨hgne, hor⟩ := hpack.2.1 g hg
    refine ⟨hgne, hor, ?_⟩
    intro s hs hlen
    rcases hor with h1 | h1
    · obtain ⟨x, hx⟩ := List.length_eq_one.mp h1
      subst hx
      simp at hs
      rw [hs]
    · have := length_le_joinSpace_of_mem hs
      omega
  refine ⟨?_, key⟩
  intro c hc
  by_cases hne : normalizeText text = []
  · rw [chunkText_of_normalizeText_eq_nil maxLength hne] at hc
    simp at hc
  · obtain ⟨G, hflat, hG, hall⟩ := key hne
    rw [hG] at hc
    obtain ⟨g, hg, hgc⟩ := List.mem_map.mp hc
    subst hgc
    rcases (hall g hg).2.1 with h1 | h1
    · right
      obtain ⟨x, hx⟩ := List.length_eq_one.mp h1
      subst hx
      rw [joinSpace_singleton, ← hflat]
      exact List.mem_flatten.mpr ⟨[x], hg, by simp⟩
    · exact Or.inl h1

theorem chunkText_bounded_or_single_sentence_witness :
    chunkText (js "Hi. A very long sentence here. Ok. Go.") 7 =
      [js "Hi.", js "A very long sentence here.", js "Ok. Go."] ∧
    js "A very long sentence here." ∈
      splitSentences (normalizeText (js "Hi. A very long sentence here. Ok. Go.")) :=
  ⟨by decide,
    ((chunkText_bounded_or_single_sentence (js "Hi. A very long sentence here. Ok. Go.") 7).1
      (js "A very long sentence here.") (by decide)).resolve_left (by decide)⟩

/-- C3: greedy packing. For two consecutive chunks `c`, `d` of
`chunkText text maxLength`, the chunk `d` has a first sentence `s` and
`c + " " + s` is longer than `maxLength`. -/
theorem chunkText_greedy (text : JSString) (maxLength : Int) (c d : JSString)
    (h : [c, d] <:+: chunkText text maxLength) :
    ∃ s, (splitSentences d).head? = some s ∧
      ((c ++ [32] ++ s).length : Int) > maxLength := by
  have hne : normalizeText text ≠ [] := by
    intro hn
    rw [chunkText_of_normalizeText_eq_nil maxLength hn] at h
    simp at h
  obtain ⟨G, hpack, hG⟩ := chunkText_packed text maxLength hne
  have hS := sentenceList_splitSentences (normalizeText_collapsed text)
    (normalizeText_noEdgeSpace text) hne
  obtain ⟨A, B, hAB⟩ := h
  rw [hG] at hAB
  obtain ⟨G1, B', hG1, hG1m, hB'⟩ := List.map_eq_append_iff.mp hAB.symm
  obtain ⟨A', M, hM, hA', hMm⟩ := List.map_eq_append_iff.mp hG1m
  obtain ⟨g, M', hM1, hgc, hM'⟩ := List.map_eq_cons_iff.mp hMm
  obtain ⟨k, M'', hM2, hkd, hM''⟩ := List.map_eq_cons_iff.mp hM'
  have hnil : M'' = [] := by simpa using hM''
  subst hnil hM2 hM1 hM hG1
  have hchain : List.Chain' _ [g, k] :=
    (List.chain'_append.mp (List.chain'_append.mp hpack.2.2).1).2.1
  have hrel := List.chain'_pair.mp hchain
  have hk : k ∈ A' ++ [g, k] ++ B' := by simp
  have hkne : k ≠ [] := (hpack.2.1 k hk).1
  have hSk := sentenceList_of_mem_groups hS hpack.1 hk
  cases k with
  | nil => exact absurd rfl hkne
  | cons s k =>
    refine ⟨s, ?_, ?_⟩
    · rw [← hkd, splitSentences_joinSpace hSk hkne]; rfl
    · have := hrel s (by simp)
      rw [← hgc]
      simpa using this

theorem chunkText_greedy_witness :
    ∃ s, (splitSentences (js "A very long sentence here.")).head? = some s ∧
      ((js "Hi." ++ [32] ++ s).length : Int) > 7 :=
  chunkText_greedy (js "Hi. A very long sentence here. Ok. Go.") 7 (js "Hi.")
    (js "A very long sentence here.") ⟨[], [js "Ok. Go."], by decide⟩

/-- C4: `chunkText` returns the empty list exactly when every code unit of the input
is whitespace (the empty input included), and every chunk it returns is non-empty and
neither starts nor ends with whitespace. -/
theorem chunkText_eq_nil_iff_and_chunks_trimmed (text : JSString) (maxLength : Int) :
    (chunkText text maxLength = [] ↔ ∀ u ∈ text, isWhiteSpace u = true) ∧
    ∀ c ∈ chunkText text maxLength,
      c ≠ [] ∧ (∀ u ∈ c.head?, isWhiteSpace u = false) ∧
        (∀ u ∈ c.getLast?, isWhiteSpace u = false) := by
  by_cases hne : normalizeText text = []
  · rw [chunkText_of_normalizeText_eq_nil maxLength hne]
    refine ⟨⟨fun _ => (normalizeText_eq_nil_iff text).mp hne, fun _ => rfl⟩, ?_⟩
    intro c hc
    simp at hc
  · obtain ⟨G, hpack, hG⟩ := chunkText_packed text maxLength hne
    have hS := sentenceList_splitSentences (normalizeText_collapsed text)
      (normalizeText_noEdgeSpace text) hne
    constructor
    · constructor
      · intro h
        exfalso
        rw [hG] at h
        have hGnil : G = [] := by simpa using h
        have := hpack.1
        rw [hGnil] at this
        exact splitFrom_ne_nil _ _ _ this.symm
      · intro h
        exact absurd ((normalizeText_eq_nil_iff text).mpr h) hne
    · intro c hc
      rw [hG] at hc
      obtain ⟨g, hg, hgc⟩ := List.mem_map.mp hc
      subst hgc
      have hSg := sentenceList_of_mem_groups hS hpack.1 hg
      exact trimmed_joinSpace (hpack.2.1 g hg).1 (fun p hp => (hSg.1 p hp).1)

theorem chunkText_eq_nil_iff_and_chunks_trimmed_witness :
    chunkText (js " \t\n ") 500 = [] ∧ chunkText [] 500 = [] ∧
      chunkText (js " a. b ") 2 = [js "a.", js "b"] :=
  ⟨(chunkText_eq_nil_iff_and_chunks_trimmed (js " \t\n ") 500).1.mpr (by decide),
    by decide, by decide⟩

/-- C5: when the normalised text is non-empty and at most `maxLength` long,
`chunkText` returns exactly one chunk, the normalised text. -/
theorem chunkText_single_chunk (text : JSString) (maxLength : Int)
    (hne : normalizeText text ≠ [])
    (hlen : ((normalizeText text).length : Int) ≤ maxLength) :
    chunkText text maxLength = [normalizeText text] := by
  obtain ⟨G, hpack, hG⟩ := chunkText_packed text maxLength hne
  have hjoin := joinSpace_chunkText text maxLength
  rw [hG] at hjoin ⊢
  cases G with
  | nil =>
    exfalso
    have := hpack.1
    exact splitFrom_ne_nil _ _ _ this.symm
  | cons g G =>
    cases G with
    | nil => simpa using hjoin
    | cons k G =>
      exfalso
      have hrel := hpack.2.2.rel_head
      have hkne : k ≠ [] := (hpack.2.1 k (by simp)).1
      cases k with
      | nil => exact absurd rfl hkne
      | cons s k =>
        have h1 := hrel s (by simp)
        have h2 : s.length ≤ (joinSpace (s :: k)).length := length_le_joinSpace_cons s k
        have h3 := length_le_joinSpace_cons (joinSpace (s :: k)) (G.map joinSpace)
        have h4 : (joinSpace (joinSpace g :: joinSpace (s :: k) :: G.map joinSpace)).length =
            (joinSpace g).length + 1 +
              (joinSpace (joinSpace (s :: k) :: G.map joinSpace)).length := by
          rw [joinSpace_cons_cons]
          simp only [List.length_append, List.length_cons]
          omega
        rw [← hjoin] at hlen
        simp only [List.map_cons] at hlen
        simp only [List.length_append, List.length_cons] at h1
        omega

theorem chunkText_single_chunk_witness :
    chunkText (js "Revenue was $5M in 2023. Margins improved.") 500 =
      [normalizeText (js "Revenue was $5M in 2023. Margins improved.")] ∧
    normalizeText (js "Revenue was $5M in 2023. Margins improved.") =
      js "Revenue was $5M in 2023. Margins improved." :=
  ⟨chunkText_single_chunk (js "Revenue was $5M in 2023. Margins improved.") 500
    (by decide) (by decide), by decide⟩

/-- C6: `chunkText` is idempotent. Chunking the single-space join of the chunks again,
with the same `maxLength`, gives the same chunks, and chunking the normalised text
gives the chunks of the text. -/
theorem chunkText_idempotent (text : JSString) (maxLength : Int) :
    chunkText (joinSpace (chunkText text maxLength)) maxLength = chunkText text maxLength ∧
    chunkText (normalizeText text) maxLength = chunkText text maxLength := by
  rw [joinSpace_chunkText]
  exact ⟨chunkText_normalizeText text maxLength, chunkText_normalizeText text maxLength⟩

theorem chunkText_idempotent_witness :
    chunkText (joinSpace (chunkText (js " Hi.  A very long sentence here. Ok. Go.") 7)) 7 =
      [js "Hi.", js "A very long sentence here.", js "Ok. Go."] :=
  (chunkText_idempotent (js " Hi.  A very long sentence here. Ok. Go.") 7).1.trans
    (by decide)

/-! ## The embedder -/

theorem splitWhiteSpace_all_nil_iff (b : Bool) (s : JSString) :
    (∀ t ∈ splitWhiteSpace b s, t = []) ↔ ∀ c ∈ s, isWhiteSpace c = true := by
  induction s generalizing b with
  | nil => simp [splitWhiteSpace]
  | cons c rest ih =>
    by_cases hc : isWhiteSpace c = true
    · cases b with
      | true =>
        simp only [splitWhiteSpace, hc, if_true]
        rw [ih true]; simp [hc]
      | false =>
        simp only [splitWhiteSpace, hc, if_true, Bool.false_eq_true, if_false]
        simp only [List.forall_mem_cons, hc, true_and]
        exact ih true
    · simp only [splitWhiteSpace, hc, Bool.false_eq_true, if_false]
      constructor
      · intro h
        exfalso
        cases hX : splitWhiteSpace false rest with
        | nil => rw [hX] at h; simpa [consFirst] using h [c] (by simp [consFirst])
        | cons x X => rw [hX] at h; simpa [consFirst] using h (c :: x) (by simp [consFirst])
      · intro h
        exact absurd (h c (by simp)) hc

theorem embedTokens_eq_nil_iff {α : Type} (rt : Runtime α) (text : JSString) :
    embedTokens rt text = [] ↔ ∀ c ∈ rt.toLowerCase text, isWhiteSpace c = true := by
  unfold embedTokens
  rw [List.filter_eq_nil_iff, ← splitWhiteSpace_all_nil_iff false]
  simp

theorem length_modify_fold {α : Type} [LinearOrderedField α] (rt : Runtime α)
    (tokens : List JSString) (v : List α) :
    (tokens.foldl
      (fun vector token => vector.modify (fun value => value + 1)
        (hashToken rt token % EMBEDDING_DIM)) v).length = v.length := by
  induction tokens generalizing v with
  | nil => rfl
  | cons t ts ih => simp only [List.foldl_cons]; rw [ih]; simp

theorem nonneg_modify {α : Type} [LinearOrderedField α] (l : List α) (n : Nat)
    (h : ∀ x ∈ l, 0 ≤ x) : ∀ x ∈ l.modify (fun value => value + 1) n, 0 ≤ x := by
  induction l generalizing n with
  | nil => cases n <;> simp [List.modify]
  | cons a l ih =>
    cases n with
    | zero =>
      intro x hx
      simp only [List.modify_zero_cons, List.mem_cons] at hx
      rcases hx with hx | hx
      · rw [hx]; have := h a (by simp); linarith
      · exact h x (List.mem_cons_of_mem _ hx)
    | succ n =>
      intro x hx
      simp only [List.modify_succ_cons, List.mem_cons] at hx
      rcases hx with hx | hx
      · rw [hx]; exact h a (by simp)
      · exact ih n (fun y hy => h y (List.mem_cons_of_mem _ hy)) x hx

theorem sum_modify {α : Type} [LinearOrderedField α] (l : List α) (n : Nat)
    (h : n < l.length) : (l.modify (fun value => value + 1) n).sum = l.sum + 1 := by
  induction l generalizing n with
  | nil => simp at h
  | cons a l ih =>
    cases n with
    | zero => simp only [List.modify_zero_cons, List.sum_cons]; ring
    | succ n =>
      simp only [List.modify_succ_cons, List.sum_cons]
      rw [ih n (by simpa using h)]; ring

theorem bucket_fold_invariant {α : Type} [LinearOrderedField α] (rt : Runtime α)
    (tokens : List JSString) (v : List α) (hlen : v.length = EMBEDDING_DIM)
    (hpos : ∀ x ∈ v, 0 ≤ x) :
    (∀ x ∈ tokens.foldl
        (fun vector token => vector.modify (fun value => value + 1)
          (hashToken rt token % EMBEDDING_DIM)) v, 0 ≤ x) ∧
    (tokens.foldl
        (fun vector token => vector.modify (fun value => value + 1)
          (hashToken rt token % EMBEDDING_DIM)) v).sum = v.sum + tokens.length := by
  induction tokens generalizing v with
  | nil => simpa using hpos
  | cons t ts ih =>
    simp only [List.foldl_cons]
    have hidx : hashToken rt t % EMBEDDING_DIM < v.length := by
      rw [hlen]; exact Nat.mod_lt _ (by decide)
    obtain ⟨h1, h2⟩ := ih (v.modify (fun value => value + 1) (hashToken rt t % EMBEDDING_DIM))
      (by simpa using hlen) (nonneg_modify v _ hpos)
    refine ⟨h1, ?_⟩
    rw [h2, sum_modify v _ hidx, List.length_cons]
    push_cast
    ring

theorem bucketCounts_length {α : Type} [LinearOrderedField α] (rt : Runtime α)
    (tokens : List JSString) : (bucketCounts rt tokens : List α).length = 128 := by
  unfold bucketCounts
  rw [length_modify_fold]
  simp [EMBEDDING_DIM]

theorem bucketCounts_nonneg_sum {α : Type} [LinearOrderedField α] (rt : Runtime α)
    (tokens : List JSString) :
    (∀ x ∈ (bucketCounts rt tokens : List α), 0 ≤ x) ∧
      (bucketCounts rt tokens : List α).sum = tokens.length := by
  have := bucket_fold_invariant rt tokens (List.replicate EMBEDDING_DIM (0 : α))
    (by simp) (by intro x hx; rw [(List.mem_replicate.mp hx).2])
  refine ⟨this.1, ?_⟩
  unfold bucketCounts
  rw [this.2]
  simp

theorem foldl_squares {α : Type} [LinearOrderedField α] (l : List α) (a : α) :
    l.foldl (fun sum value => sum + value * value) a =
      a + (l.map (fun value => value * value)).sum := by
  induction l generalizing a with
  | nil => simp
  | cons x l ih => simp only [List.foldl_cons, List.map_cons, List.sum_cons]; rw [ih]; ring

theorem sum_squares_nonneg {α : Type} [LinearOrderedField α] (l : List α) :
    0 ≤ (l.map (fun value => value * value)).sum := by
  induction l with
  | nil => simp
  | cons x l ih =>
    simp only [List.map_cons, List.sum_cons]
    have := mul_self_nonneg x
    linarith

theorem sum_eq_zero_of_sum_squares {α : Type} [LinearOrderedField α] (l : List α)
    (h : (l.map (fun value => value * value)).sum = 0) : l.sum = 0 := by
  induction l with
  | nil => simp
  | cons x l ih =>
    simp only [List.map_cons, List.sum_cons] at h ⊢
    have h1 := mul_self_nonneg x
    have h2 := sum_squares_nonneg l
    have h3 : x * x = 0 := by linarith
    have h4 : (l.map (fun value => value * value)).sum = 0 := by linarith
    rw [mul_self_eq_zero.mp h3, ih h4]
    simp

theorem sum_squares_div {α : Type} [LinearOrderedField α] (l : List α) (n : α) :
    ((l.map (fun value => value / n)).map (fun value => value * value)).sum =
      (l.map (fun value => value * value)).sum / (n * n) := by
  induction l with
  | nil => simp
  | cons x l ih =>
    simp only [List.map_cons, List.sum_cons]
    rw [ih, add_div, div_mul_div_comm]

/-- C7: in exact arithmetic (any ordered field in which `Math.sqrt` is an exact square
root of the non-negative numbers) `embedText` returns 128 entries; when the lower-cased
text has a token the squares of the entries sum to 1; when it has none, which is when
every code unit of the lower-cased text is whitespace, the count vector is returned as
it is and every entry is 0. -/
theorem embedText_unit_norm {α : Type} [LinearOrderedField α] (rt : Runtime α)
    (hsqrt : ∀ x : α, 0 ≤ x → rt.sqrt x * rt.sqrt x = x) (text : JSString) :
    (embedText rt text).length = 128 ∧
    (embedTokens rt text ≠ [] →
      ((embedText rt text).map (fun value => value * value)).sum = 1) ∧
    (embedTokens rt text = [] →
      embedText rt text = bucketCounts rt (embedTokens rt text) ∧
        embedText rt text = List.replicate 128 0) ∧
    (embedTokens rt text = [] ↔ ∀ c ∈ rt.toLowerCase text, isWhiteSpace c = true) := by
  have hS := foldl_squares (bucketCounts rt (embedTokens rt text) : List α) 0
  rw [zero_add] at hS
  have hnn := sum_squares_nonneg (bucketCounts rt (embedTokens rt text) : List α)
  have hsq := hsqrt _ hnn
  obtain ⟨_, hsum⟩ := @bucketCounts_nonneg_sum α _ rt (embedTokens rt text)
  refine ⟨?_, ?_, ?_, embedTokens_eq_nil_iff rt text⟩
  · unfold embedText
    simp only
    split
    · exact bucketCounts_length rt _
    · rw [List.length_map]; exact bucketCounts_length rt _
  · intro hne
    have hpos : ((bucketCounts rt (embedTokens rt text) : List α).map
        (fun value => value * value)).sum ≠ 0 := by
      intro h0
      have := sum_eq_zero_of_sum_squares _ h0
      rw [hsum] at this
      have hlen : (embedTokens rt text).length = 0 := by exact_mod_cast this
      exact hne (List.length_eq_zero.mp hlen)
    have hnorm : rt.sqrt ((bucketCounts rt (embedTokens rt text) : List α).foldl
        (fun sum value => sum + value * value) 0) ≠ 0 := by
      rw [hS]
      intro h0
      rw [h0, mul_zero] at hsq
      exact hpos hsq.symm
    unfold embedText
    simp only
    rw [if_neg hnorm, sum_squares_div, hS, hsq]
    exact div_self hpos
  · intro hnil
    have hvec : (bucketCounts rt (embedTokens rt text) : List α) = List.replicate 128 0 := by
      rw [hnil]; rfl
    have hzero : ((bucketCounts rt (embedTokens rt text) : List α).map
        (fun value => value * value)).sum = 0 := by
      rw [hvec]; simp
    have hnorm : rt.sqrt ((bucketCounts rt (embedTokens rt text) : List α).foldl
        (fun sum value => sum + value * value) 0) = 0 := by
      rw [hS]
      rw [hzero] at hsq ⊢
      exact mul_self_eq_zero.mp hsq
    have : embedText rt text = bucketCounts rt (embedTokens rt text) := by
      unfold embedText
      simp only
      rw [if_pos hnorm]
    exact ⟨this, this.trans hvec⟩

theorem embedText_unit_norm_witness :
    ((embedText
      (Runtime.mk Real.sqrt asciiToLowerCase List.sum
        (fun a b => Real.sqrt ((List.zipWith (fun x y => (x - y) * (x - y)) a b).sum))
        (fun _ _ => true))
      (js "What was 2023 revenue?")).map (fun value => value * value)).sum = 1 ∧
    embedText
      (Runtime.mk Real.sqrt asciiToLowerCase List.sum
        (fun a b => Real.sqrt ((List.zipWith (fun x y => (x - y) * (x - y)) a b).sum))
        (fun _ _ => true))
      (js " \n ") = List.replicate 128 0 :=
  ⟨(embedText_unit_norm
      (Runtime.mk Real.sqrt asciiToLowerCase List.sum
        (fun a b => Real.sqrt ((List.zipWith (fun x y => (x - y) * (x - y)) a b).sum))
        (fun _ _ => true))
      (fun _ hx => Real.mul_self_sqrt hx) (js "What was 2023 revenue?")).2.1 (by decide),
    ((embedText_unit_norm
      (Runtime.mk Real.sqrt asciiToLowerCase List.sum
        (fun a b => Real.sqrt ((List.zipWith (fun x y => (x - y) * (x - y)) a b).sum))
        (fun _ _ => true))
      (fun _ hx => Real.mul_self_sqrt hx) (js " \n ")).2.2.1 (by decide)).2⟩

/-! ## Answer generation -/

theorem confidence_band {α : Type} [LinearOrderedField α] (d : α) :
    (0.6 : α) ≤ min 0.9 (0.6 + max 0 (1 - d) * 0.4) ∧
      min 0.9 (0.6 + max 0 (1 - d) * 0.4) ≤ (0.9 : α) := by
  refine ⟨le_min (by norm_num) ?_, min_le_left _ _⟩
  have h1 : (0 : α) ≤ max 0 (1 - d) := le_max_left _ _
  have h2 : (0 : α) ≤ max 0 (1 - d) * 0.4 := mul_nonneg h1 (by norm_num)
  linarith

/-- The three outcomes of `generateAnswer`. -/
theorem generateAnswer_cases {α : Type} [LinearOrderedField α] (rt : Runtime α)
    (db : Db α) (projectId : Id) (question : QuestionRow)
    (documentIdsOverride : Option (List Id)) :
    (resolveDocumentIds db projectId documentIdsOverride = [] ∧
      generateAnswer rt db projectId question documentIdsOverride = noDataAnswer) ∨
    (queryNearestChunks rt db.document_chunks (embedText rt question.text)
        (resolveDocumentIds db projectId documentIdsOverride) = [] ∧
      generateAnswer rt db projectId question documentIdsOverride = noDataAnswer) ∨
    (∃ best rest,
      resolveDocumentIds db projectId documentIdsOverride ≠ [] ∧
      queryNearestChunks rt db.document_chunks (embedText rt question.text)
        (resolveDocumentIds db projectId documentIdsOverride) = best :: rest ∧
      generateAnswer rt db projectId question documentIdsOverride =
        AnswerPayload.mk (best.text.take 600) true
          (min 0.9 (0.6 + max 0 (1 - best.distance) * 0.4))
          [Citation.mk best.id best.document_id (best.text.take 400)
            (max 0 (1 - best.distance))]) := by
  by_cases hids : resolveDocumentIds db projectId documentIdsOverride = []
  · left
    refine ⟨hids, ?_⟩
    unfold generateAnswer
    simp [hids]
  · right
    have hlen : ¬ (resolveDocumentIds db projectId documentIdsOverride).length = 0 := by
      rw [List.length_eq_zero]; exact hids
    cases hq : queryNearestChunks rt db.document_chunks (embedText rt question.text)
        (resolveDocumentIds db projectId documentIdsOverride) with
    | nil =>
      left
      refine ⟨rfl, ?_⟩
      unfold generateAnswer
      simp only [hlen, if_false, hq]
    | cons best rest =>
      right
      refine ⟨best, rest, hids, rfl, ?_⟩
      unfold generateAnswer
      simp only [hlen, if_false, hq]

/-- C8: the confidence of an answerable answer of `generateAnswer` is
`min(0.9, 0.6 + max(0, 1 - distance) * 0.4)` for the distance of the first row of the
chunk query, and lies between 0.6 and 0.9; an answer that is not answerable has
confidence 0.1; so every confidence lies between 0 and 1. -/
theorem generateAnswer_confidence_band {α : Type} [LinearOrderedField α] (rt : Runtime α)
    (db : Db α) (projectId : Id) (question : QuestionRow)
    (documentIdsOverride : Option (List Id)) :
    ((generateAnswer rt db projectId question documentIdsOverride).isAnswerable = true →
      ∃ best, (queryNearestChunks rt db.document_chunks (embedText rt question.text)
          (resolveDocumentIds db projectId documentIdsOverride)).head? = some best ∧
        (generateAnswer rt db projectId question documentIdsOverride).confidence =
          min 0.9 (0.6 + max 0 (1 - best.distance) * 0.4) ∧
        0.6 ≤ (generateAnswer rt db projectId question documentIdsOverride).confidence ∧
        (generateAnswer rt db projectId question documentIdsOverride).confidence ≤ 0.9) ∧
    ((generateAnswer rt db projectId question documentIdsOverride).isAnswerable = false →
      (generateAnswer rt db projectId question documentIdsOverride).confidence = 0.1) ∧
    0 ≤ (generateAnswer rt db projectId question documentIdsOverride).confidence ∧
    (generateAnswer rt db projectId question documentIdsOverride).confidence ≤ 1 := by
  rcases generateAnswer_cases rt db projectId question documentIdsOverride with
    ⟨_, h⟩ | ⟨_, h⟩ | ⟨best, rest, _, hq, h⟩
  · rw [h]
    refine ⟨fun hf => by simp [noDataAnswer] at hf, fun _ => rfl, ?_, ?_⟩ <;>
      simp only [noDataAnswer] <;> norm_num
  · rw [h]
    refine ⟨fun hf => by simp [noDataAnswer] at hf, fun _ => rfl, ?_, ?_⟩ <;>
      simp only [noDataAnswer] <;> norm_num
  · rw [h, hq]
    obtain ⟨hlo, hhi⟩ := confidence_band best.distance
    refine ⟨fun _ => ⟨best, rfl, rfl, hlo, hhi⟩, fun hf => by simp at hf, ?_, ?_⟩
    · have : (0 : α) ≤ 0.6 := by norm_num
      exact le_trans this hlo
    · have : (0.9 : α) ≤ 1 := by norm_num
      exact le_trans hhi this

theorem generateAnswer_confidence_band_witness :
    (generateAnswer
      (Runtime.mk Real.sqrt asciiToLowerCase List.sum
        (fun a b => Real.sqrt ((List.zipWith (fun x y => (x - y) * (x - y)) a b).sum))
        (fun _ _ => true))
      (Db.mk [ProjectRow.mk "p1" (js "Fund") "q1" "READY" "ALL_DOCS" ["d1"] 0 0]
        [DocumentChunkRow.mk "c1" "d1" (js "Revenue was $5M in 2023.") []])
      "p1" (QuestionRow.mk "x1" "p1" (js "General") 1 (js "What was 2023 revenue?")) none).isAnswerable = true ∧
    (0.6 : ℝ) ≤ (generateAnswer
      (Runtime.mk Real.sqrt asciiToLowerCase List.sum
        (fun a b => Real.sqrt ((List.zipWith (fun x y => (x - y) * (x - y)) a b).sum))
        (fun _ _ => true))
      (Db.mk [ProjectRow.mk "p1" (js "Fund") "q1" "READY" "ALL_DOCS" ["d1"] 0 0]
        [DocumentChunkRow.mk "c1" "d1" (js "Revenue was $5M in 2023.") []])
      "p1" (QuestionRow.mk "x1" "p1" (js "General") 1 (js "What was 2023 revenue?")) none).confidence ∧
    (generateAnswer
      (Runtime.mk Real.sqrt asciiToLowerCase List.sum
        (fun a b => Real.sqrt ((List.zipWith (fun x y => (x - y) * (x - y)) a b).sum))
        (fun _ _ => true))
      (Db.mk [ProjectRow.mk "p1" (js "Fund") "q1" "READY" "ALL_DOCS" ["d1"] 0 0]
        [DocumentChunkRow.mk "c1" "d1" (js "Revenue was $5M in 2023.") []])
      "p1" (QuestionRow.mk "x1" "p1" (js "General") 1 (js "What was 2023 revenue?")) none).confidence ≤ 0.9 := by
  have hans : (generateAnswer
      (Runtime.mk Real.sqrt asciiToLowerCase List.sum
        (fun a b => Real.sqrt ((List.zipWith (fun x y => (x - y) * (x - y)) a b).sum))
        (fun _ _ => true))
      (Db.mk [ProjectRow.mk "p1" (js "Fund") "q1" "READY" "ALL_DOCS" ["d1"] 0 0]
        [DocumentChunkRow.mk "c1" "d1" (js "Revenue was $5M in 2023.") []])
      "p1" (QuestionRow.mk "x1" "p1" (js "General") 1 (js "What was 2023 revenue?")) none).isAnswerable = true := by decide
  obtain ⟨_, _, _, hlo, hhi⟩ :=
    (generateAnswer_confidence_band
      (Runtime.mk Real.sqrt asciiToLowerCase List.sum
        (fun a b => Real.sqrt ((List.zipWith (fun x y => (x - y) * (x - y)) a b).sum))
        (fun _ _ => true))
      (Db.mk [ProjectRow.mk "p1" (js "Fund") "q1" "READY" "ALL_DOCS" ["d1"] 0 0]
        [DocumentChunkRow.mk "c1" "d1" (js "Revenue was $5M in 2023.") []])
      "p1" (QuestionRow.mk "x1" "p1" (js "General") 1 (js "What was 2023 revenue?")) none).1 hans
  exact ⟨hans, hlo, hhi⟩

/-- C9: `generateAnswer` returns the fixed unanswerable answer (text "No relevant data
found in indexed documents.", not answerable, confidence 0.1, no citation) when the
document ids in scope are empty, whatever the chunk table holds, and when the chunk
query returns no row; so it does for every question of a project whose stored id list
is empty, and for every question when the caller passes an empty id list. -/
theorem generateAnswer_no_data {α : Type} [LinearOrderedField α] (rt : Runtime α)
    (db : Db α) (projectId : Id) (question : QuestionRow)
    (documentIdsOverride : Option (List Id)) :
    (noDataAnswer : AnswerPayload α) =
      AnswerPayload.mk (js "No relevant data found in indexed documents.") false 0.1 [] ∧
    (resolveDocumentIds db projectId documentIdsOverride = [] →
      ∀ chunks : List (DocumentChunkRow α),
        generateAnswer rt { db with document_chunks := chunks } projectId question
          documentIdsOverride = noDataAnswer) ∧
    (queryNearestChunks rt db.document_chunks (embedText rt question.text)
        (resolveDocumentIds db projectId documentIdsOverride) = [] →
      generateAnswer rt db projectId question documentIdsOverride = noDataAnswer) ∧
    (∀ p : ProjectRow, db.projects.find? (fun p => p.id == projectId) = some p →
      p.document_ids = [] →
      generateAnswer rt db projectId question none = noDataAnswer) ∧
    generateAnswer rt db projectId question (some []) = noDataAnswer := by
  refine ⟨rfl, ?_, ?_, ?_, ?_⟩
  · intro hids chunks
    have : resolveDocumentIds { db with document_chunks := chunks } projectId
        documentIdsOverride = [] := hids
    unfold generateAnswer
    simp [this]
  · intro hq
    rcases generateAnswer_cases rt db projectId question documentIdsOverride with
      ⟨_, h⟩ | ⟨_, h⟩ | ⟨best, rest, _, hq', _⟩
    · exact h
    · exact h
    · rw [hq] at hq'; cases hq'
  · intro p hfind hp
    have : resolveDocumentIds db projectId none = [] := by
      simp only [resolveDocumentIds, hfind, hp]
    unfold generateAnswer
    simp [this]
  · unfold generateAnswer
    simp [resolveDocumentIds]

theorem generateAnswer_no_data_witness :
    generateAnswer
      (Runtime.mk Real.sqrt asciiToLowerCase List.sum
        (fun a b => Real.sqrt ((List.zipWith (fun x y => (x - y) * (x - y)) a b).sum))
        (fun _ _ => true))
      (Db.mk [ProjectRow.mk "p1" (js "Fund") "q1" "READY" "SELECTED_DOCS" [] 0 0]
        [DocumentChunkRow.mk "c1" "d1" (js "Revenue was $5M in 2023.") []])
      "p1" (QuestionRow.mk "x1" "p1" (js "General") 1 (js "What was 2023 revenue?")) none =
    AnswerPayload.mk (js "No relevant data found in indexed documents.") false 0.1 [] :=
  (generateAnswer_no_data _ _ "p1" _ none).2.2.2.1
    (ProjectRow.mk "p1" (js "Fund") "q1" "READY" "SELECTED_DOCS" [] 0 0) (by decide) rfl

theorem queryNearestChunks_head {α : Type} [LinearOrderedField α] (rt : Runtime α)
    (chunks : List (DocumentChunkRow α)) (vector : List α) (documentIds : List Id)
    (h : ∃ c ∈ chunks, rt.scanned vector c.embedding = true ∧ c.document_id ∈ documentIds) :
    ∃ best ∈ chunks, ∃ rest,
      rt.scanned vector best.embedding = true ∧
      best.document_id ∈ documentIds ∧
      (∀ c ∈ chunks, rt.scanned vector c.embedding = true → c.document_id ∈ documentIds →
        rt.distance best.embedding vector ≤ rt.distance c.embedding vector) ∧
      queryNearestChunks rt chunks vector documentIds =
        ChunkHit.mk best.id best.document_id best.text (rt.distance best.embedding vector)
          :: rest := by
  haveI : IsTotal (ChunkHit α) (fun a b => a.distance ≤ b.distance) :=
    ⟨fun a b => le_total a.distance b.distance⟩
  haveI : IsTrans (ChunkHit α) (fun a b => a.distance ≤ b.distance) :=
    ⟨fun a b c hab hbc => le_trans hab hbc⟩
  have hsorted := List.sorted_insertionSort (fun a b : ChunkHit α => a.distance ≤ b.distance)
    ((chunks.filter
      (fun c => rt.scanned vector c.embedding && decide (c.document_id ∈ documentIds))).map
      (fun c => ChunkHit.mk c.id c.document_id c.text (rt.distance c.embedding vector)))
  have hperm := List.perm_insertionSort (fun a b : ChunkHit α => a.distance ≤ b.distance)
    ((chunks.filter
      (fun c => rt.scanned vector c.embedding && decide (c.document_id ∈ documentIds))).map
      (fun c => ChunkHit.mk c.id c.document_id c.text (rt.distance c.embedding vector)))
  have hmem : ∀ c ∈ chunks, rt.scanned vector c.embedding = true →
      c.document_id ∈ documentIds →
      ChunkHit.mk c.id c.document_id c.text (rt.distance c.embedding vector) ∈
        List.insertionSort (fun a b : ChunkHit α => a.distance ≤ b.distance)
          ((chunks.filter
            (fun c => rt.scanned vector c.embedding &&
              decide (c.document_id ∈ documentIds))).map
            (fun c => ChunkHit.mk c.id c.document_id c.text
              (rt.distance c.embedding vector))) := by
    intro c hc hsc hin
    rw [hperm.mem_iff]
    exact List.mem_map.mpr ⟨c, List.mem_filter.mpr ⟨hc, by simp [hsc, hin]⟩, rfl⟩
  unfold queryNearestChunks
  cases hS : List.insertionSort (fun a b : ChunkHit α => a.distance ≤ b.distance)
      ((chunks.filter
        (fun c => rt.scanned vector c.embedding && decide (c.document_id ∈ documentIds))).map
        (fun c => ChunkHit.mk c.id c.document_id c.text
          (rt.distance c.embedding vector))) with
  | nil =>
    obtain ⟨c, hc, hsc, hin⟩ := h
    have := hmem c hc hsc hin
    rw [hS] at this
    simp at this
  | cons hit S =>
    rw [hS] at hsorted hperm hmem
    have hhit : hit ∈ (chunks.filter
        (fun c => rt.scanned vector c.embedding &&
          decide (c.document_id ∈ documentIds))).map
        (fun c => ChunkHit.mk c.id c.document_id c.text (rt.distance c.embedding vector)) :=
      hperm.mem_iff.mp (by simp)
    obtain ⟨best, hbest, hbe⟩ := List.mem_map.mp hhit
    obtain ⟨hbc, hbin⟩ := List.mem_filter.mp hbest
    have hbin' : rt.scanned vector best.embedding = true ∧ best.document_id ∈ documentIds := by
      simpa using hbin
    refine ⟨best, hbc, S.take 4, hbin'.1, hbin'.2, ?_, ?_⟩
    · intro c hc hsc hin
      rcases List.mem_cons.mp (hmem c hc hsc hin) with h1 | h1
      · have : hit.distance = rt.distance c.embedding vector := by rw [← h1]
        rw [← hbe] at this
        exact le_of_eq this
      · have := List.rel_of_sorted_cons hsorted _ h1
        rw [← hbe] at this
        exact this
    · rw [hbe]; rfl

theorem queryNearestChunks_eq_nil {α : Type} [LinearOrderedField α] (rt : Runtime α)
    (chunks : List (DocumentChunkRow α)) (vector : List α) (documentIds : List Id)
    (h : ∀ c ∈ chunks, c.document_id ∈ documentIds → rt.scanned vector c.embedding = false) :
    queryNearestChunks rt chunks vector documentIds = [] := by
  have hf : chunks.filter
      (fun c => rt.scanned vector c.embedding && decide (c.document_id ∈ documentIds)) =
      [] := by
    rw [List.filter_eq_nil_iff]
    intro c hc
    by_cases hin : c.document_id ∈ documentIds
    · simp [h c hc hin]
    · simp [hin]
  unfold queryNearestChunks
  rw [hf]
  rfl

/-- C10, counterexample: the chunk of the example is stored for the document `d1`, which
is in the scope of the project, and the index scan for the question reads no list
that holds it. The chunk query returns no row and `generateAnswer` returns the answer
that is not answerable, without a citation. -/
theorem generateAnswer_misses_chunk_in_scope :
    (∃ c ∈ [DocumentChunkRow.mk "c1" "d1" (js "Revenue was $5M in 2023. Margins improved.")
        ([] : List ℝ)],
      c.document_id ∈ resolveDocumentIds
        (Db.mk [ProjectRow.mk "p1" (js "Fund") "q1" "READY" "ALL_DOCS" ["d1"] 0 0]
          [DocumentChunkRow.mk "c1" "d1" (js "Revenue was $5M in 2023. Margins improved.")
            ([] : List ℝ)])
        "p1" none) ∧
    (generateAnswer
      (Runtime.mk Real.sqrt asciiToLowerCase List.sum
        (fun a b => Real.sqrt ((List.zipWith (fun x y => (x - y) * (x - y)) a b).sum))
        (fun _ _ => false))
      (Db.mk [ProjectRow.mk "p1" (js "Fund") "q1" "READY" "ALL_DOCS" ["d1"] 0 0]
        [DocumentChunkRow.mk "c1" "d1" (js "Revenue was $5M in 2023. Margins improved.") []])
      "p1" (QuestionRow.mk "x1" "p1" (js "General") 1 (js "What was 2023 revenue?"))
      none).isAnswerable = false ∧
    (generateAnswer
      (Runtime.mk Real.sqrt asciiToLowerCase List.sum
        (fun a b => Real.sqrt ((List.zipWith (fun x y => (x - y) * (x - y)) a b).sum))
        (fun _ _ => false))
      (Db.mk [ProjectRow.mk "p1" (js "Fund") "q1" "READY" "ALL_DOCS" ["d1"] 0 0]
        [DocumentChunkRow.mk "c1" "d1" (js "Revenue was $5M in 2023. Margins improved.") []])
      "p1" (QuestionRow.mk "x1" "p1" (js "General") 1 (js "What was 2023 revenue?"))
      none).citations.length = 0 := by
  refine ⟨⟨_, List.mem_singleton.mpr rfl, by decide⟩, by decide, by decide⟩

/-- C10, as the code has it: the chunk query goes through the index of the store.
When the index scan reads a stored chunk of a document in scope, `generateAnswer`
returns an answerable answer with exactly one citation; the cited chunk is a stored
chunk in scope that the scan read, and its distance to the embedded question is least
among the chunks in scope that the scan read; the score is `max(0, 1 - distance)`,
the excerpt the first 400 code units of the chunk text and the answer text its first
600 code units. When the scan reads no chunk in scope the answer is the one without
data, whatever is stored. When the scan reads every chunk in scope and there is one,
the cited chunk is nearest among all chunks in scope. -/
theorem generateAnswer_cites_nearest {α : Type} [LinearOrderedField α] (rt : Runtime α)
    (db : Db α) (projectId : Id) (question : QuestionRow)
    (documentIdsOverride : Option (List Id)) :
    ((∃ c ∈ db.document_chunks,
        rt.scanned (embedText rt question.text) c.embedding = true ∧
        c.document_id ∈ resolveDocumentIds db projectId documentIdsOverride) →
      ∃ best ∈ db.document_chunks,
        rt.scanned (embedText rt question.text) best.embedding = true ∧
        best.document_id ∈ resolveDocumentIds db projectId documentIdsOverride ∧
        (∀ c ∈ db.document_chunks,
          rt.scanned (embedText rt question.text) c.embedding = true →
          c.document_id ∈ resolveDocumentIds db projectId documentIdsOverride →
          rt.distance best.embedding (embedText rt question.text) ≤
            rt.distance c.embedding (embedText rt question.text)) ∧
        generateAnswer rt db projectId question documentIdsOverride =
          AnswerPayload.mk (best.text.take 600) true
            (min 0.9 (0.6 +
              max 0 (1 - rt.distance best.embedding (embedText rt question.text)) * 0.4))
            [Citation.mk best.id best.document_id (best.text.take 400)
              (max 0 (1 - rt.distance best.embedding (embedText rt question.text)))]) ∧
    ((∀ c ∈ db.document_chunks,
        c.document_id ∈ resolveDocumentIds db projectId documentIdsOverride →
        rt.scanned (embedText rt question.text) c.embedding = false) →
      generateAnswer rt db projectId question documentIdsOverride = noDataAnswer) ∧
    ((∀ c ∈ db.document_chunks,
        c.document_id ∈ resolveDocumentIds db projectId documentIdsOverride →
        rt.scanned (embedText rt question.text) c.embedding = true) →
      (∃ c ∈ db.document_chunks,
        c.document_id ∈ resolveDocumentIds db projectId documentIdsOverride) →
      ∃ best ∈ db.document_chunks,
        best.document_id ∈ resolveDocumentIds db projectId documentIdsOverride ∧
        (∀ c ∈ db.document_chunks,
          c.document_id ∈ resolveDocumentIds db projectId documentIdsOverride →
          rt.distance best.embedding (embedText rt question.text) ≤
            rt.distance c.embedding (embedText rt question.text)) ∧
        generateAnswer rt db projectId question documentIdsOverride =
          AnswerPayload.mk (best.text.take 600) true
            (min 0.9 (0.6 +
              max 0 (1 - rt.distance best.embedding (embedText rt question.text)) * 0.4))
            [Citation.mk best.id best.document_id (best.text.take 400)
              (max 0 (1 - rt.distance best.embedding (embedText rt question.text)))]) := by
  have key : (∃ c ∈ db.document_chunks,
        rt.scanned (embedText rt question.text) c.embedding = true ∧
        c.document_id ∈ resolveDocumentIds db projectId documentIdsOverride) →
      ∃ best ∈ db.document_chunks,
        rt.scanned (embedText rt question.text) best.embedding = true ∧
        best.document_id ∈ resolveDocumentIds db projectId documentIdsOverride ∧
        (∀ c ∈ db.document_chunks,
          rt.scanned (embedText rt question.text) c.embedding = true →
          c.document_id ∈ resolveDocumentIds db projectId documentIdsOverride →
          rt.distance best.embedding (embedText rt question.text) ≤
            rt.distance c.embedding (embedText rt question.text)) ∧
        generateAnswer rt db projectId question documentIdsOverride =
          AnswerPayload.mk (best.text.take 600) true
            (min 0.9 (0.6 +
              max 0 (1 - rt.distance best.embedding (embedText rt question.text)) * 0.4))
            [Citation.mk best.id best.document_id (best.text.take 400)
              (max 0 (1 - rt.distance best.embedding (embedText rt question.text)))] := by
    intro h
    obtain ⟨best, hbest, rest, hsc, hin, hmin, hq⟩ :=
      queryNearestChunks_head rt db.document_chunks (embedText rt question.text)
        (resolveDocumentIds db projectId documentIdsOverride) h
    refine ⟨best, hbest, hsc, hin, hmin, ?_⟩
    rcases generateAnswer_cases rt db projectId question documentIdsOverride with
      ⟨hids, _⟩ | ⟨hq0, _⟩ | ⟨b, r, _, hq', hg⟩
    · rw [hids] at hin; simp at hin
    · rw [hq] at hq0; cases hq0
    · rw [hq] at hq'
      cases hq'
      exact hg
  refine ⟨key, ?_, ?_⟩
  · intro hnone
    have hq := queryNearestChunks_eq_nil rt db.document_chunks (embedText rt question.text)
      (resolveDocumentIds db projectId documentIdsOverride) hnone
    rcases generateAnswer_cases rt db projectId question documentIdsOverride with
      ⟨_, h⟩ | ⟨_, h⟩ | ⟨best, rest, _, hq', _⟩
    · exact h
    · exact h
    · rw [hq] at hq'; cases hq'
  · intro hall hex
    obtain ⟨c, hc, hin⟩ := hex
    obtain ⟨best, hbest, _, hbin, hmin, hg⟩ := key ⟨c, hc, hall c hc hin, hin⟩
    exact ⟨best, hbest, hbin, fun c' hc' hin' => hmin c' hc' (hall c' hc' hin') hin', hg⟩

theorem generateAnswer_cites_nearest_witness :
    ∃ a : AnswerPayload ℝ,
      generateAnswer
      (Runtime.mk Real.sqrt asciiToLowerCase List.sum
        (fun a b => Real.sqrt ((List.zipWith (fun x y => (x - y) * (x - y)) a b).sum))
        (fun _ _ => true))
      (Db.mk
        [ProjectRow.mk "p1" (js "Fund") "q1" "READY" "ALL_DOCS" ["d1"] 0 0]
        ((chunkText (js "Revenue was $5M in 2023. Margins improved.") 500).map
          (fun t => DocumentChunkRow.mk "c1" "d1" t (embedText
      (Runtime.mk Real.sqrt asciiToLowerCase List.sum
        (fun a b => Real.sqrt ((List.zipWith (fun x y => (x - y) * (x - y)) a b).sum))
        (fun _ _ => true))
            t))))
        "p1" (QuestionRow.mk "x1" "p1" (js "General") 1 (js "What was 2023 revenue?"))
        none = a ∧
      a.isAnswerable = true ∧ a.citations.map (fun c => c.chunk_id) = ["c1"] ∧
      a.answerText = js "Revenue was $5M in 2023. Margins improved." := by
  have hch : chunkText (js "Revenue was $5M in 2023. Margins improved.") 500 =
      [js "Revenue was $5M in 2023. Margins improved."] := by decide
  obtain ⟨best, hmem, _, _, _, heq⟩ :=
    (generateAnswer_cites_nearest
      (Runtime.mk Real.sqrt asciiToLowerCase List.sum
        (fun a b => Real.sqrt ((List.zipWith (fun x y => (x - y) * (x - y)) a b).sum))
        (fun _ _ => true))
      (Db.mk
        [ProjectRow.mk "p1" (js "Fund") "q1" "READY" "ALL_DOCS" ["d1"] 0 0]
        ((chunkText (js "Revenue was $5M in 2023. Margins improved.") 500).map
          (fun t => DocumentChunkRow.mk "c1" "d1" t (embedText
      (Runtime.mk Real.sqrt asciiToLowerCase List.sum
        (fun a b => Real.sqrt ((List.zipWith (fun x y => (x - y) * (x - y)) a b).sum))
        (fun _ _ => true))
            t))))
      "p1" (QuestionRow.mk "x1" "p1" (js "General") 1 (js "What was 2023 revenue?")) none).1
      ⟨_, List.mem_map.mpr ⟨js "Revenue was $5M in 2023. Margins improved.",
        by rw [hch]; exact List.mem_singleton.mpr rfl, rfl⟩, rfl, by decide⟩
  simp only [hch, List.map_cons, List.map_nil, List.mem_singleton] at hmem
  subst hmem
  exact ⟨_, heq, rfl, rfl, by decide⟩

/-! ## Keyword overlap and evaluation -/

theorem splitOnSpace_ne_nil (s : JSString) : splitOnSpace s ≠ [] := by
  induction s with
  | nil => simp [splitOnSpace]
  | cons c rest ih =>
    unfold splitOnSpace
    split
    · simp
    · cases h : splitOnSpace rest <;> simp [consFirst]

theorem foldl_count_eq_countP (tokens : List JSString) (l : List JSString) (n : Nat) :
    l.foldl (fun (count : Nat) token => if token ∈ tokens then count + 1 else count) n =
      n + l.countP (fun token => decide (token ∈ tokens)) := by
  induction l generalizing n with
  | nil => simp
  | cons x l ih =>
    simp only [List.foldl_cons]
    rw [ih]
    by_cases hx : x ∈ tokens
    · simp [hx, List.countP_cons_of_pos]; omega
    · simp [hx, List.countP_cons_of_neg]

/-- The value of `keywordOverlapScore`: the share of the tokens of `query` that occur
among the tokens of `text`. -/
theorem keywordOverlapScore_eq {α : Type} [LinearOrderedField α] (rt : Runtime α)
    (text query : JSString) :
    keywordOverlapScore rt text query =
      (((overlapTokens rt query).countP
          (fun token => decide (token ∈ overlapTokens rt text)) : Nat) : α) /
        ((overlapTokens rt query).length : α) := by
  have hne : (overlapTokens rt query).length ≠ 0 := by
    rw [Ne, List.length_eq_zero]
    exact splitOnSpace_ne_nil _
  unfold keywordOverlapScore
  simp only [hne, if_false]
  rw [foldl_count_eq_countP, Nat.zero_add]

theorem evaluateStep_fold {α : Type} [LinearOrderedField α] (rt : Runtime α)
    (fresh : Nat → Id) (clock : Nat → Nat) (projectId : Id) (L : List (AnswerRow α))
    (acc : List (EvaluationRow α)) :
    (∀ r ∈ L.foldl (evaluateStep rt fresh clock projectId) acc,
      r ∈ acc ∨ ∃ answer ∈ L, ∃ manual, answer.manual_answer = some manual ∧ manual ≠ [] ∧
        r.project_id = projectId ∧ r.answer_id = answer.id ∧ r.human_answer = manual ∧
        r.similarity_score = keywordOverlapScore rt manual answer.answer_text) ∧
    (∀ r ∈ acc, r ∈ L.foldl (evaluateStep rt fresh clock projectId) acc) ∧
    (∀ answer ∈ L, ∀ manual, answer.manual_answer = some manual → manual ≠ [] →
      ∃ r ∈ L.foldl (evaluateStep rt fresh clock projectId) acc,
        r.project_id = projectId ∧ r.answer_id = answer.id ∧ r.human_answer = manual ∧
        r.similarity_score = keywordOverlapScore rt manual answer.answer_text) := by
  induction L generalizing acc with
  | nil => simp
  | cons x L ih =>
    simp only [List.foldl_cons]
    obtain ⟨h1, h2, h3⟩ := ih (evaluateStep rt fresh clock projectId acc x)
    have hacc : ∀ r ∈ acc, r ∈ evaluateStep rt fresh clock projectId acc x := by
      intro r hr
      unfold evaluateStep
      split
      · exact hr
      · split
        · exact hr
        · exact List.mem_append_left _ hr
    refine ⟨?_, fun r hr => h2 r (hacc r hr), ?_⟩
    · intro r hr
      rcases h1 r hr with h | ⟨answer, ha, manual, hm⟩
      · unfold evaluateStep at h
        split at h
        · exact Or.inl h
        · rename_i manual hman
          split at h
          · exact Or.inl h
          · rename_i hne
            rcases List.mem_append.mp h with h | h
            · exact Or.inl h
            · right
              rw [List.mem_singleton] at h
              subst h
              exact ⟨x, by simp, manual, hman, hne, rfl, rfl, rfl, rfl⟩
      · exact Or.inr ⟨answer, List.mem_cons_of_mem _ ha, manual, hm⟩
    · intro answer ha manual hman hne
      rcases List.mem_cons.mp ha with h | h
      · subst h
        refine ⟨EvaluationRow.mk (fresh acc.length) projectId answer.id manual
          (keywordOverlapScore rt manual answer.answer_text)
          (js "Keyword overlap between manual and AI answer.") (clock acc.length),
          h2 _ ?_, rfl, rfl, rfl, rfl⟩
        unfold evaluateStep
        simp [hman, hne]
      · exact h3 answer h manual hman hne

/-- C12, as the code has it: `evaluateProject` records one row for every answer of the
project that has a non-empty manual answer, and no other row; the similarity of the
row is the number of tokens of the AI answer that occur among the tokens of the manual
answer, over the number of tokens of the AI answer (tokens: the pieces between
spaces of the lower-cased normalised text). -/
theorem evaluateProject_similarity {α : Type} [LinearOrderedField α] (rt : Runtime α)
    (fresh : Nat → Id) (clock : Nat → Nat) (store : Store α) (projectId : Id) :
    (∀ r ∈ (evaluateProject rt fresh clock store projectId).1,
      ∃ answer ∈ store.answers, ∃ manual,
        answer.project_id = projectId ∧ answer.manual_answer = some manual ∧ manual ≠ [] ∧
        r.answer_id = answer.id ∧ r.human_answer = manual ∧
        r.similarity_score =
          (((overlapTokens rt answer.answer_text).countP
              (fun token => decide (token ∈ overlapTokens rt manual)) : Nat) : α) /
            ((overlapTokens rt answer.answer_text).length : α)) ∧
    (∀ answer ∈ store.answers, ∀ manual,
      answer.project_id = projectId → answer.manual_answer = some manual → manual ≠ [] →
      ∃ r ∈ (evaluateProject rt fresh clock store projectId).1,
        r.answer_id = answer.id ∧ r.human_answer = manual ∧
        r.similarity_score =
          (((overlapTokens rt answer.answer_text).countP
              (fun token => decide (token ∈ overlapTokens rt manual)) : Nat) : α) /
            ((overlapTokens rt answer.answer_text).length : α)) ∧
    (evaluateProject rt fresh clock store projectId).2.evaluations =
      store.evaluations ++ (evaluateProject rt fresh clock store projectId).1 := by
  obtain ⟨h1, _, h3⟩ := evaluateStep_fold rt fresh clock projectId
    (store.answers.filter (fun answer => answer.project_id = projectId)) []
  refine ⟨?_, ?_, rfl⟩
  · intro r hr
    rcases h1 r hr with h | ⟨answer, ha, manual, hman, hne, _, hid, hh, hs⟩
    · simp at h
    · obtain ⟨hmem, hp⟩ := List.mem_filter.mp ha
      refine ⟨answer, hmem, manual, by simpa using hp, hman, hne, hid, hh, ?_⟩
      rw [hs, keywordOverlapScore_eq]
  · intro answer ha manual hp hman hne
    obtain ⟨r, hr, _, hid, hh, hs⟩ :=
      h3 answer (List.mem_filter.mpr ⟨ha, by simpa using hp⟩) manual hman hne
    refine ⟨r, hr, hid, hh, ?_⟩
    rw [hs, keywordOverlapScore_eq]

theorem evaluateProject_similarity_witness :
    ∃ r ∈ (evaluateProject
      (Runtime.mk Real.sqrt asciiToLowerCase List.sum
        (fun a b => Real.sqrt ((List.zipWith (fun x y => (x - y) * (x - y)) a b).sum))
        (fun _ _ => true))
      (fun k => toString k) (fun k => k)
      (Store.mk (Db.mk [] []) [] []
        [AnswerRow.mk "a1" "p1" "x1" (js "Revenue was 5M") true 0.9 [] (js "MANUAL_UPDATED")
          0 0 (some (js "revenue 5M in 2023"))] [] []) "p1").1,
      r.answer_id = "a1" ∧ r.similarity_score = 2 / 3 := by
  obtain ⟨r, hr, hid, _, hs⟩ :=
    (evaluateProject_similarity
      (Runtime.mk Real.sqrt asciiToLowerCase List.sum
        (fun a b => Real.sqrt ((List.zipWith (fun x y => (x - y) * (x - y)) a b).sum))
        (fun _ _ => true))
      (fun k => toString k) (fun k => k)
      (Store.mk (Db.mk [] []) [] []
        [AnswerRow.mk "a1" "p1" "x1" (js "Revenue was 5M") true 0.9 [] (js "MANUAL_UPDATED")
          0 0 (some (js "revenue 5M in 2023"))] [] []) "p1").2.1
      _ (List.mem_singleton.mpr rfl) (js "revenue 5M in 2023") rfl rfl (by decide)
  refine ⟨r, hr, hid, ?_⟩
  rw [hs]
  have h1 : (overlapTokens
      (Runtime.mk Real.sqrt asciiToLowerCase List.sum
        (fun a b => Real.sqrt ((List.zipWith (fun x y => (x - y) * (x - y)) a b).sum))
        (fun _ _ => true))
      (js "Revenue was 5M")).countP (fun token => decide (token ∈ overlapTokens
      (Runtime.mk Real.sqrt asciiToLowerCase List.sum
        (fun a b => Real.sqrt ((List.zipWith (fun x y => (x - y) * (x - y)) a b).sum))
        (fun _ _ => true))
      (js "revenue 5M in 2023"))) = 2 := by decide
  have h2 : (overlapTokens
      (Runtime.mk Real.sqrt asciiToLowerCase List.sum
        (fun a b => Real.sqrt ((List.zipWith (fun x y => (x - y) * (x - y)) a b).sum))
        (fun _ _ => true))
      (js "Revenue was 5M")).length = 3 := by decide
  simp only [h1, h2]
  norm_num

/-- C12, counterexample: for the manual answer "a b" and the AI answer "a" the recorded
similarity is 1, while the share of manual-answer tokens found in the AI answer, the
score of the claim, is 1/2. -/
theorem evaluateProject_not_manual_recall :
    (evaluateProject
      (Runtime.mk Real.sqrt asciiToLowerCase List.sum
        (fun a b => Real.sqrt ((List.zipWith (fun x y => (x - y) * (x - y)) a b).sum))
        (fun _ _ => true))
      (fun k => toString k) (fun k => k)
      (Store.mk (Db.mk [] []) [] []
        [AnswerRow.mk "a1" "p1" "x1" (js "a") true 0.9 [] (js "MANUAL_UPDATED")
          0 0 (some (js "a b"))] [] []) "p1").1.map (fun r => r.similarity_score) = [1] ∧
    manualRecallScore
      (Runtime.mk Real.sqrt asciiToLowerCase List.sum
        (fun a b => Real.sqrt ((List.zipWith (fun x y => (x - y) * (x - y)) a b).sum))
        (fun _ _ => true))
      (js "a b") (js "a") = 1 / 2 := by
  constructor
  · have hrow : (evaluateProject
      (Runtime.mk Real.sqrt asciiToLowerCase List.sum
        (fun a b => Real.sqrt ((List.zipWith (fun x y => (x - y) * (x - y)) a b).sum))
        (fun _ _ => true))
      (fun k => toString k) (fun k => k)
      (Store.mk (Db.mk [] []) [] []
        [AnswerRow.mk "a1" "p1" "x1" (js "a") true 0.9 [] (js "MANUAL_UPDATED")
          0 0 (some (js "a b"))] [] []) "p1").1.map (fun r => r.similarity_score) =
        [keywordOverlapScore
      (Runtime.mk Real.sqrt asciiToLowerCase List.sum
        (fun a b => Real.sqrt ((List.zipWith (fun x y => (x - y) * (x - y)) a b).sum))
        (fun _ _ => true))
          (js "a b") (js "a")] := by
      rfl
    rw [hrow, keywordOverlapScore_eq]
    have h1 : (overlapTokens
      (Runtime.mk Real.sqrt asciiToLowerCase List.sum
        (fun a b => Real.sqrt ((List.zipWith (fun x y => (x - y) * (x - y)) a b).sum))
        (fun _ _ => true))
      (js "a")).countP (fun token => decide (token ∈ overlapTokens
      (Runtime.mk Real.sqrt asciiToLowerCase List.sum
        (fun a b => Real.sqrt ((List.zipWith (fun x y => (x - y) * (x - y)) a b).sum))
        (fun _ _ => true))
      (js "a b"))) = 1 := by decide
    have h2 : (overlapTokens
      (Runtime.mk Real.sqrt asciiToLowerCase List.sum
        (fun a b => Real.sqrt ((List.zipWith (fun x y => (x - y) * (x - y)) a b).sum))
        (fun _ _ => true))
      (js "a")).length = 1 := by decide
    simp only [h1, h2]
    norm_num
  · unfold manualRecallScore
    have h1 : (overlapTokens
      (Runtime.mk Real.sqrt asciiToLowerCase List.sum
        (fun a b => Real.sqrt ((List.zipWith (fun x y => (x - y) * (x - y)) a b).sum))
        (fun _ _ => true))
      (js "a b")).countP (fun token => decide (token ∈ overlapTokens
      (Runtime.mk Real.sqrt asciiToLowerCase List.sum
        (fun a b => Real.sqrt ((List.zipWith (fun x y => (x - y) * (x - y)) a b).sum))
        (fun _ _ => true))
      (js "a"))) = 1 := by decide
    have h2 : (overlapTokens
      (Runtime.mk Real.sqrt asciiToLowerCase List.sum
        (fun a b => Real.sqrt ((List.zipWith (fun x y => (x - y) * (x - y)) a b).sum))
        (fun _ _ => true))
      (js "a b")).length = 2 := by decide
    simp only [h1, h2]
    norm_num

/-- C13, counterexample: called with an empty or whitespace-only manual answer first
and an empty AI answer second, `keywordOverlapScore` returns 1, not 0. Both token
lists are `[""]`, since `"".split(" ")` is `[""]`: the test
`queryTokens.length === 0` does not fire and the empty token is found. -/
theorem keywordOverlapScore_empty_manual_empty_answer :
    keywordOverlapScore
      (Runtime.mk Real.sqrt asciiToLowerCase List.sum
        (fun a b => Real.sqrt ((List.zipWith (fun x y => (x - y) * (x - y)) a b).sum))
        (fun _ _ => true))
      (js "") (js "") = 1 ∧
    keywordOverlapScore
      (Runtime.mk Real.sqrt asciiToLowerCase List.sum
        (fun a b => Real.sqrt ((List.zipWith (fun x y => (x - y) * (x - y)) a b).sum))
        (fun _ _ => true))
      (js " \t") (js "") = 1 ∧
    overlapTokens
      (Runtime.mk Real.sqrt asciiToLowerCase List.sum
        (fun a b => Real.sqrt ((List.zipWith (fun x y => (x - y) * (x - y)) a b).sum))
        (fun _ _ => true))
      (js "") = [js ""] := by
  refine ⟨?_, ?_, by decide⟩
  · rw [keywordOverlapScore_eq]
    have h1 : (overlapTokens
      (Runtime.mk Real.sqrt asciiToLowerCase List.sum
        (fun a b => Real.sqrt ((List.zipWith (fun x y => (x - y) * (x - y)) a b).sum))
        (fun _ _ => true))
      (js "")).countP (fun token => decide (token ∈ overlapTokens
      (Runtime.mk Real.sqrt asciiToLowerCase List.sum
        (fun a b => Real.sqrt ((List.zipWith (fun x y => (x - y) * (x - y)) a b).sum))
        (fun _ _ => true))
      (js ""))) = 1 := by decide
    have h2 : (overlapTokens
      (Runtime.mk Real.sqrt asciiToLowerCase List.sum
        (fun a b => Real.sqrt ((List.zipWith (fun x y => (x - y) * (x - y)) a b).sum))
        (fun _ _ => true))
      (js "")).length = 1 := by decide
    simp only [h1, h2]
    norm_num
  · rw [keywordOverlapScore_eq]
    have h1 : (overlapTokens
      (Runtime.mk Real.sqrt asciiToLowerCase List.sum
        (fun a b => Real.sqrt ((List.zipWith (fun x y => (x - y) * (x - y)) a b).sum))
        (fun _ _ => true))
      (js "")).countP (fun token => decide (token ∈ overlapTokens
      (Runtime.mk Real.sqrt asciiToLowerCase List.sum
        (fun a b => Real.sqrt ((List.zipWith (fun x y => (x - y) * (x - y)) a b).sum))
        (fun _ _ => true))
      (js " \t"))) = 1 := by decide
    have h2 : (overlapTokens
      (Runtime.mk Real.sqrt asciiToLowerCase List.sum
        (fun a b => Real.sqrt ((List.zipWith (fun x y => (x - y) * (x - y)) a b).sum))
        (fun _ _ => true))
      (js "")).length = 1 := by decide
    simp only [h1, h2]
    norm_num

theorem splitOnSpace_no_empty_token (t : JSString) (hc : Collapsed t)
    (hl : ∀ c ∈ t.getLast?, isWhiteSpace c = false) :
    [] ∉ (splitOnSpace t).tail ∧
    ((∀ c ∈ t.head?, isWhiteSpace c = false) → t ≠ [] → [] ∉ splitOnSpace t) := by
  induction t with
  | nil => exact ⟨by simp [splitOnSpace], fun _ h => absurd rfl h⟩
  | cons c rest ih =>
    obtain ⟨hc1, hc2⟩ := hc
    have hl2 : ∀ d ∈ rest.getLast?, isWhiteSpace d = false := by
      cases rest with
      | nil => intro d hd; cases hd
      | cons e rest2 =>
        intro d hd
        apply hl d
        rw [List.getLast?_cons_cons]
        exact hd
    obtain ⟨ih1, ih2⟩ := ih hc2 hl2
    by_cases h32 : c = 32
    · subst h32
      obtain ⟨_, hnext⟩ := hc1 isWhiteSpace_space
      have hne : rest ≠ [] := by
        intro hr
        subst hr
        have := hl 32 rfl
        rw [isWhiteSpace_space] at this
        cases this
      have hsplit : splitOnSpace (32 :: rest) = [] :: splitOnSpace rest := by
        simp [splitOnSpace]
      rw [hsplit]
      refine ⟨ih2 hnext hne, ?_⟩
      intro hhead
      have := hhead 32 rfl
      rw [isWhiteSpace_space] at this
      cases this
    · have hsplit : splitOnSpace (c :: rest) = consFirst c (splitOnSpace rest) := by
        simp [splitOnSpace, h32]
      rw [hsplit]
      cases hs : splitOnSpace rest with
      | nil => exact absurd hs (splitOnSpace_ne_nil rest)
      | cons x xs =>
        rw [hs] at ih1
        simp only [consFirst, List.tail_cons] at ih1 ⊢
        refine ⟨ih1, fun _ _ hmem => ?_⟩
        rcases List.mem_cons.mp hmem with h | h
        · cases h
        · exact ih1 h

/-- The tokens of a text with a code unit that is not whitespace, before lower-casing:
none is empty. -/
theorem splitOnSpace_normalizeText (text : JSString)
    (h : ∃ c ∈ text, isWhiteSpace c = false) : [] ∉ splitOnSpace (normalizeText text) := by
  have hne : normalizeText text ≠ [] := by
    intro h0
    obtain ⟨c, hc, hw⟩ := h
    rw [(normalizeText_eq_nil_iff text).mp h0 c hc] at hw
    cases hw
  exact (splitOnSpace_no_empty_token _ (normalizeText_collapsed text)
    (normalizeText_noEdgeSpace text).2).2 (normalizeText_noEdgeSpace text).1 hne

theorem asciiToLowerCase_split (s : JSString) :
    splitOnSpace (asciiToLowerCase s) = (splitOnSpace s).map asciiToLowerCase := by
  induction s with
  | nil => rfl
  | cons c rest ih =>
    have hcons : asciiToLowerCase (c :: rest) =
        (if 65 ≤ c ∧ c ≤ 90 then c + 32 else c) :: asciiToLowerCase rest := rfl
    rw [hcons]
    by_cases h32 : c = 32
    · subst h32
      have e1 : (if 65 ≤ 32 ∧ 32 ≤ 90 then 32 + 32 else 32) = 32 := by decide
      rw [e1]
      have e2 : ∀ u : JSString, splitOnSpace (32 :: u) = [] :: splitOnSpace u := by
        intro u
        simp [splitOnSpace]
      rw [e2, e2, ih]
      rfl
    · have hg : (if 65 ≤ c ∧ c ≤ 90 then c + 32 else c) ≠ 32 := by
        split
        · omega
        · exact h32
      simp only [splitOnSpace, hg, h32, if_false]
      rw [ih]
      cases splitOnSpace rest with
      | nil => rfl
      | cons x xs => rfl

theorem asciiToLowerCase_eq_nil (t : JSString) : asciiToLowerCase t = [] ↔ t = [] := by
  unfold asciiToLowerCase
  exact List.map_eq_nil_iff

theorem queryNearestChunks_text {α : Type} [LinearOrderedField α] (rt : Runtime α)
    (chunks : List (DocumentChunkRow α)) (vector : List α) (documentIds : List Id)
    (hit : ChunkHit α) (h : hit ∈ queryNearestChunks rt chunks vector documentIds) :
    ∃ c ∈ chunks, hit.text = c.text := by
  unfold queryNearestChunks at h
  have h1 := List.mem_of_mem_take h
  rw [(List.perm_insertionSort _ _).mem_iff] at h1
  obtain ⟨c, hc, rfl⟩ := List.mem_map.mp h1
  exact ⟨c, (List.mem_filter.mp hc).1, rfl⟩

/-- C13, as the code has it. Lower-casing is taken to work token by token and to empty
no token, as `toLowerCase` does. Called with a manual answer that is empty or all
whitespace first and the AI answer second, `keywordOverlapScore` returns 0 when the AI
answer has a code unit that is not whitespace, and 1 when the AI answer is empty or all
whitespace too. The text of an answer of `generateAnswer` has a code unit that is not
whitespace when every chunk text starts with one, as the chunks of `chunkText` do. The
evaluator does not make such a call for a manual answer that is `null` or empty:
`evaluateProject` skips the answer, and every row it records has a non-empty manual
answer. -/
theorem keywordOverlapScore_blank_manual {α : Type} [LinearOrderedField α] (rt : Runtime α)
    (manual aiAnswer : JSString)
    (hsplit : ∀ s, splitOnSpace (rt.toLowerCase s) = (splitOnSpace s).map rt.toLowerCase)
    (hnil : ∀ t, rt.toLowerCase t = [] ↔ t = [])
    (hblank : ∀ c ∈ manual, isWhiteSpace c = true) :
    ((∃ c ∈ aiAnswer, isWhiteSpace c = false) →
      keywordOverlapScore rt manual aiAnswer = 0) ∧
    ((∀ c ∈ aiAnswer, isWhiteSpace c = true) →
      keywordOverlapScore rt manual aiAnswer = 1) ∧
    (∀ (db : Db α) (projectId : Id) (question : QuestionRow)
        (documentIdsOverride : Option (List Id)),
      (∀ c ∈ db.document_chunks, ∃ u ∈ c.text.head?, isWhiteSpace u = false) →
      ∃ u ∈ (generateAnswer rt db projectId question documentIdsOverride).answerText,
        isWhiteSpace u = false) ∧
    (∀ (fresh : Nat → Id) (clock : Nat → Nat) (projectId : Id)
        (results : List (EvaluationRow α)) (answer : AnswerRow α),
      answer.manual_answer = none ∨ answer.manual_answer = some [] →
      evaluateStep rt fresh clock projectId results answer = results) ∧
    (∀ (fresh : Nat → Id) (clock : Nat → Nat) (store : Store α) (projectId : Id),
      ∀ r ∈ (evaluateProject rt fresh clock store projectId).1,
        ∃ answer ∈ store.answers, ∃ text,
          answer.manual_answer = some text ∧ text ≠ [] ∧
          r.similarity_score = keywordOverlapScore rt text answer.answer_text) := by
  have hblankTokens : ∀ text : JSString, (∀ c ∈ text, isWhiteSpace c = true) →
      overlapTokens rt text = [[]] := by
    intro text h
    unfold overlapTokens
    rw [(normalizeText_eq_nil_iff text).mpr h, (hnil []).mpr rfl]
    rfl
  have hman := hblankTokens manual hblank
  refine ⟨?_, ?_, ?_, ?_, ?_⟩
  · intro hai
    have htok : [] ∉ overlapTokens rt aiAnswer := by
      unfold overlapTokens
      rw [hsplit]
      intro hmem
      obtain ⟨t, ht, h0⟩ := List.mem_map.mp hmem
      rw [(hnil t).mp h0] at ht
      exact splitOnSpace_normalizeText aiAnswer hai ht
    rw [keywordOverlapScore_eq, hman]
    have hcount : (overlapTokens rt aiAnswer).countP
        (fun token => decide (token ∈ [([] : JSString)])) = 0 := by
      rw [List.countP_eq_zero]
      intro token ht hd
      have : token = [] := by simpa using hd
      rw [this] at ht
      exact htok ht
    rw [hcount]
    simp
  · intro hai
    rw [keywordOverlapScore_eq, hman, hblankTokens aiAnswer hai]
    simp
  · intro db projectId question documentIdsOverride hchunks
    have hno : 78 ∈ (noDataAnswer : AnswerPayload α).answerText := by
      show 78 ∈ js "No relevant data found in indexed documents."
      decide
    rcases generateAnswer_cases rt db projectId question documentIdsOverride with
      ⟨_, h⟩ | ⟨_, h⟩ | ⟨best, rest, _, hq, h⟩
    · rw [h]
      exact ⟨78, hno, by decide⟩
    · rw [h]
      exact ⟨78, hno, by decide⟩
    · rw [h]
      obtain ⟨c, hc, htext⟩ := queryNearestChunks_text rt db.document_chunks
        (embedText rt question.text) (resolveDocumentIds db projectId documentIdsOverride)
        best (by rw [hq]; exact List.mem_cons_self _ _)
      obtain ⟨u, hu, hw⟩ := hchunks c hc
      refine ⟨u, ?_, hw⟩
      show u ∈ best.text.take 600
      rw [htext]
      cases hct : c.text with
      | nil => rw [hct] at hu; cases hu
      | cons v tail =>
        rw [hct] at hu
        have huv : u = v := (Option.some.inj hu).symm
        rw [huv]
        exact List.mem_cons_self _ _
  · intro fresh clock projectId results answer h
    unfold evaluateStep
    rcases h with h | h
    · rw [h]
    · rw [h]
      simp
  · intro fresh clock store projectId r hr
    obtain ⟨h1, _, _⟩ := evaluateStep_fold rt fresh clock projectId
      (store.answers.filter (fun answer => answer.project_id = projectId)) []
    rcases h1 r hr with h | ⟨answer, ha, text, hman2, hne, _, _, _, hs⟩
    · simp at h
    · exact ⟨answer, (List.mem_filter.mp ha).1, text, hman2, hne, hs⟩

theorem keywordOverlapScore_blank_manual_witness :
    keywordOverlapScore
      (Runtime.mk Real.sqrt asciiToLowerCase List.sum
        (fun a b => Real.sqrt ((List.zipWith (fun x y => (x - y) * (x - y)) a b).sum))
        (fun _ _ => true))
      (js " \t") (js "Revenue was $5M in 2023.") = 0 :=
  (keywordOverlapScore_blank_manual
    (Runtime.mk Real.sqrt asciiToLowerCase List.sum
      (fun a b => Real.sqrt ((List.zipWith (fun x y => (x - y) * (x - y)) a b).sum))
      (fun _ _ => true))
    (js " \t") (js "Revenue was $5M in 2023.")
    asciiToLowerCase_split asciiToLowerCase_eq_nil (by decide)).1 ⟨82, by decide, by decide⟩

/-- C14: for every two strings `keywordOverlapScore` lies between 0 and 1, and the
divisor, the number of tokens of `query`, is never 0. -/
theorem keywordOverlapScore_unit_interval {α : Type} [LinearOrderedField α]
    (rt : Runtime α) (text query : JSString) :
    0 ≤ keywordOverlapScore rt text query ∧ keywordOverlapScore rt text query ≤ 1 ∧
      (overlapTokens rt query).length ≠ 0 := by
  have hne : (overlapTokens rt query).length ≠ 0 := by
    rw [Ne, List.length_eq_zero]
    exact splitOnSpace_ne_nil _
  have hpos : (0 : α) < ((overlapTokens rt query).length : α) := by
    exact_mod_cast Nat.pos_of_ne_zero hne
  have hle : (((overlapTokens rt query).countP
      (fun token => decide (token ∈ overlapTokens rt text)) : Nat) : α) ≤
      ((overlapTokens rt query).length : α) := by
    exact_mod_cast List.countP_le_length _
  rw [keywordOverlapScore_eq]
  refine ⟨div_nonneg (Nat.cast_nonneg _) (le_of_lt hpos), ?_, hne⟩
  rw [div_le_one hpos]
  exact hle

theorem keywordOverlapScore_unit_interval_witness :
    (0 : ℝ) ≤ keywordOverlapScore
      (Runtime.mk Real.sqrt asciiToLowerCase List.sum
        (fun a b => Real.sqrt ((List.zipWith (fun x y => (x - y) * (x - y)) a b).sum))
        (fun _ _ => true))
      (js "") (js " ") ∧
    keywordOverlapScore
      (Runtime.mk Real.sqrt asciiToLowerCase List.sum
        (fun a b => Real.sqrt ((List.zipWith (fun x y => (x - y) * (x - y)) a b).sum))
        (fun _ _ => true))
      (js "") (js " ") ≤ 1 :=
  ⟨(keywordOverlapScore_unit_interval _ (js "") (js " ")).1,
    (keywordOverlapScore_unit_interval _ (js "") (js " ")).2.1⟩

/-! ## Retrieval and the order of the document ids -/

theorem queryNearestChunks_perm {α : Type} [LinearOrderedField α] (rt : Runtime α)
    (chunks : List (DocumentChunkRow α)) (vector : List α) {ids ids' : List Id}
    (h : ids.Perm ids') :
    queryNearestChunks rt chunks vector ids = queryNearestChunks rt chunks vector ids' := by
  have hf : (fun c : DocumentChunkRow α =>
        rt.scanned vector c.embedding && decide (c.document_id ∈ ids)) =
      fun c => rt.scanned vector c.embedding && decide (c.document_id ∈ ids') := by
    funext c
    simp only [h.mem_iff]
  unfold queryNearestChunks
  rw [hf]

/-- C11: the answer of `generateAnswer` does not depend on the order of the document
ids. Two calls on the same chunk table whose document-id lists (given by the caller or
read from the project) are permutations of each other return the same answer, hence
the same citation, score and confidence. -/
theorem generateAnswer_perm {α : Type} [LinearOrderedField α] (rt : Runtime α)
    (db db' : Db α) (projectId projectId' : Id) (question : QuestionRow)
    (documentIdsOverride documentIdsOverride' : Option (List Id))
    (hchunks : db.document_chunks = db'.document_chunks)
    (hperm : (resolveDocumentIds db projectId documentIdsOverride).Perm
      (resolveDocumentIds db' projectId' documentIdsOverride')) :
    generateAnswer rt db projectId question documentIdsOverride =
      generateAnswer rt db' projectId' question documentIdsOverride' := by
  unfold generateAnswer
  simp only
  rw [hperm.length_eq, queryNearestChunks_perm rt _ _ hperm, hchunks]

theorem generateAnswer_perm_witness :
    generateAnswer
      (Runtime.mk Real.sqrt asciiToLowerCase List.sum
        (fun a b => Real.sqrt ((List.zipWith (fun x y => (x - y) * (x - y)) a b).sum))
        (fun _ _ => true))
      (Db.mk [] [DocumentChunkRow.mk "c1" "d1" (js "Revenue was $5M in 2023.") [],
        DocumentChunkRow.mk "c2" "d2" (js "Margins improved.") []])
      "p1" (QuestionRow.mk "x1" "p1" (js "General") 1 (js "What was 2023 revenue?"))
      (some ["d1", "d2"]) =
    generateAnswer
      (Runtime.mk Real.sqrt asciiToLowerCase List.sum
        (fun a b => Real.sqrt ((List.zipWith (fun x y => (x - y) * (x - y)) a b).sum))
        (fun _ _ => true))
      (Db.mk [] [DocumentChunkRow.mk "c1" "d1" (js "Revenue was $5M in 2023.") [],
        DocumentChunkRow.mk "c2" "d2" (js "Margins improved.") []])
      "p1" (QuestionRow.mk "x1" "p1" (js "General") 1 (js "What was 2023 revenue?"))
      (some ["d2", "d1"]) :=
  generateAnswer_perm _ _ _ "p1" "p1" _ (some ["d1", "d2"]) (some ["d2", "d1"]) rfl
    (List.Perm.swap "d2" "d1" [])

/-! ## Batches -/

theorem chunkArrayLoop_spec {β : Type} (values : List β) (size : Nat) (hsize : 1 ≤ size)
    (fuel i : Nat) (chunks : List (List β)) (hfuel : values.length < i + fuel)
    (hpos : 1 ≤ fuel) :
    ∃ B, chunkArrayLoop values size fuel i chunks = some (chunks ++ B) ∧
      B.flatten = values.drop i ∧
      (∀ b ∈ B, b ≠ [] ∧ b.length ≤ size) ∧
      (∀ b ∈ B.dropLast, b.length = size) := by
  induction fuel generalizing i chunks with
  | zero => omega
  | succ fuel ih =>
    unfold chunkArrayLoop
    by_cases hi : i < values.length
    · rw [if_pos hi]
      obtain ⟨B, hB, hflat, hall, hbut⟩ :=
        ih (i + size) (chunks ++ [(values.drop i).take size]) (by omega) (by omega)
      have hlen : ((values.drop i).take size).length = min size (values.length - i) := by
        simp
      refine ⟨(values.drop i).take size :: B, ?_, ?_, ?_, ?_⟩
      · rw [hB]; simp
      · rw [List.flatten_cons, hflat, ← List.drop_drop, List.take_append_drop]
      · intro b hb
        rcases List.mem_cons.mp hb with h | h
        · subst h
          refine ⟨?_, by rw [hlen]; exact Nat.min_le_left _ _⟩
          intro h0
          have := congrArg List.length h0
          rw [hlen] at this
          simp at this
          omega
        · exact hall b h
      · intro b hb
        cases B with
        | nil => simp at hb
        | cons c B =>
          rw [List.dropLast_cons₂] at hb
          rcases List.mem_cons.mp hb with h | h
          · subst h
            have hc := (hall c (by simp)).1
            have hne : values.drop (i + size) ≠ [] := by
              rw [← hflat]
              cases c with
              | nil => exact absurd rfl hc
              | cons x c => simp
            have : i + size < values.length := by
              by_contra hge
              exact hne (List.drop_eq_nil_of_le (by omega))
            rw [hlen]
            omega
          · exact hbut b h
    · rw [if_neg hi]
      refine ⟨[], by simp, ?_, by simp, by simp⟩
      rw [List.flatten_nil, List.drop_eq_nil_of_le (by omega)]

/-! ## The worker pool -/

theorem mem_set_of_ne {γ : Type} {l : List γ} {w : Nat} {x y a : γ} (hx : x ∈ l)
    (hw : l[w]? = some y) (hne : x ≠ y) : x ∈ l.set w a := by
  obtain ⟨j, hj⟩ := List.mem_iff_getElem?.mp hx
  have hjw : w ≠ j := by
    intro h
    subst h
    rw [hw] at hj
    exact hne (Option.some.inj hj).symm
  exact List.mem_iff_getElem?.mpr ⟨j, by rw [List.getElem?_set_ne hjw]; exact hj⟩

theorem mem_set_self_of_getElem? {γ : Type} {l : List γ} {w : Nat} {y a : γ}
    (hw : l[w]? = some y) : a ∈ l.set w a := by
  obtain ⟨h, _⟩ := List.getElem?_eq_some.mp hw
  exact List.mem_iff_getElem?.mpr ⟨w, List.getElem?_set_self h⟩

theorem countP_set {γ : Type} (q : γ → Bool) (l : List γ) (w : Nat) (y a : γ)
    (hw : l[w]? = some y) :
    (l.set w a).countP q + (if q y then 1 else 0) = l.countP q + (if q a then 1 else 0) := by
  induction l generalizing w with
  | nil => simp at hw
  | cons x l ih =>
    cases w with
    | zero =>
      simp only [List.getElem?_cons_zero, Option.some.injEq] at hw
      subst hw
      simp only [List.set_cons_zero, List.countP_cons]
      omega
    | succ w =>
      simp only [List.getElem?_cons_succ] at hw
      have := ih w hw
      simp only [List.set_cons_succ, List.countP_cons]
      omega

theorem poolInv_init {ι β : Type} (items : List ι) (worker : ι → Nat → β) (limit : Nat) :
    PoolInv items worker limit (poolInit items.length limit) where
  index_le := Nat.zero_le _
  results_length := by simp [poolInit]
  started_eq := by simp [poolInit]
  workers_length := by simp [poolInit]
  awaiting_lt := by
    intro c hc
    simp [poolInit] at hc
  filled := by
    intro i item _ hi
    simp [poolInit] at hi
  finished_index := by
    intro h
    simp [poolInit] at h
  in_flight := by
    simp [poolInit, List.countP_replicate, isAwaiting]

theorem poolInv_step {ι β : Type} {items : List ι} {worker : ι → Nat → β} {limit : Nat}
    {s s' : PoolState β} {w : Nat} (inv : PoolInv items worker limit s)
    (hstep : poolStep items worker s w = some s') : PoolInv items worker limit s' := by
  unfold poolStep at hstep
  cases hw : s.workers[w]? with
  | none => rw [hw] at hstep; simp at hstep
  | some ph =>
    rw [hw] at hstep
    cases ph with
    | finished => simp at hstep
    | ready =>
      simp only at hstep
      by_cases hi : s.index < items.length
      · rw [if_pos hi] at hstep
        cases hstep
        refine ⟨hi, inv.results_length, ?_, ?_, ?_, ?_, ?_, ?_⟩
        · simp only [List.range_succ]
          rw [inv.started_eq]
        · simp only [List.length_set]
          exact inv.workers_length
        · intro c hc
          rcases List.mem_or_eq_of_mem_set hc with h | h
          · exact Nat.lt_succ_of_lt (inv.awaiting_lt c h)
          · cases h
            exact Nat.lt_succ_self _
        · intro i item hitem hlt hnot
          have hne : i ≠ s.index := by
            intro h
            subst h
            exact hnot (mem_set_self_of_getElem? hw)
          have hold : WorkerPhase.awaiting i ∉ s.workers := by
            intro h
            exact hnot (mem_set_of_ne h hw (by simp))
          have hlt' : i < s.index + 1 := hlt
          exact inv.filled i item hitem (by omega) hold
        · intro h
          rcases List.mem_or_eq_of_mem_set h with h | h
          · exact Nat.le_succ_of_le (inv.finished_index h)
          · cases h
        · have := countP_set isAwaiting s.workers w WorkerPhase.ready
            (WorkerPhase.awaiting s.index) hw
          have h2 := inv.in_flight
          simp only [isAwaiting, Bool.false_eq_true, if_false, if_true] at this
          simp only [List.length_append, List.length_singleton]
          omega
      · rw [if_neg hi] at hstep
        cases hstep
        refine ⟨inv.index_le, inv.results_length, inv.started_eq, ?_, ?_, ?_, ?_, ?_⟩
        · simp only [List.length_set]
          exact inv.workers_length
        · intro c hc
          rcases List.mem_or_eq_of_mem_set hc with h | h
          · exact inv.awaiting_lt c h
          · cases h
        · intro i item hitem hlt hnot
          have hold : WorkerPhase.awaiting i ∉ s.workers := by
            intro h
            exact hnot (mem_set_of_ne h hw (by simp))
          exact inv.filled i item hitem hlt hold
        · intro _
          exact Nat.le_of_not_lt hi
        · have := countP_set isAwaiting s.workers w WorkerPhase.ready
            WorkerPhase.finished hw
          have h2 := inv.in_flight
          simp only [isAwaiting, Bool.false_eq_true, if_false] at this
          show s.completed.length + (s.workers.set w WorkerPhase.finished).countP isAwaiting =
            s.started.length
          omega
    | awaiting c =>
      simp only at hstep
      cases hc : items[c]? with
      | none => rw [hc] at hstep; simp at hstep
      | some item =>
        rw [hc] at hstep
        cases hstep
        have hcn : c < items.length := (List.getElem?_eq_some.mp hc).1
        refine ⟨inv.index_le, ?_, inv.started_eq, ?_, ?_, ?_, ?_, ?_⟩
        · simp only [List.length_set]
          exact inv.results_length
        · simp only [List.length_set]
          exact inv.workers_length
        · intro d hd
          rcases List.mem_or_eq_of_mem_set hd with h | h
          · exact inv.awaiting_lt d h
          · cases h
        · intro i item' hitem hlt hnot
          by_cases hic : i = c
          · subst hic
            rw [hc] at hitem
            cases hitem
            simp only
            rw [List.getElem?_set_self (by rw [inv.results_length]; exact hcn)]
          · have hold : WorkerPhase.awaiting i ∉ s.workers := by
              intro h
              exact hnot (mem_set_of_ne h hw (by simp [hic]))
            simp only
            rw [List.getElem?_set_ne (Ne.symm hic)]
            exact inv.filled i item' hitem hlt hold
        · intro h
          rcases List.mem_or_eq_of_mem_set h with h | h
          · exact inv.finished_index h
          · cases h
        · have := countP_set isAwaiting s.workers w (WorkerPhase.awaiting c)
            WorkerPhase.ready hw
          have h2 := inv.in_flight
          simp only [isAwaiting, Bool.false_eq_true, if_false, if_true] at this
          simp only [List.length_append, List.length_singleton]
          omega

theorem poolInv_run {ι β : Type} {items : List ι} {worker : ι → Nat → β} {limit : Nat}
    (schedule : List Nat) {s s' : PoolState β} (inv : PoolInv items worker limit s)
    (hrun : poolRun items worker s schedule = some s') : PoolInv items worker limit s' := by
  induction schedule generalizing s with
  | nil =>
    simp only [poolRun, Option.some.injEq] at hrun
    subst hrun
    exact inv
  | cons w schedule ih =>
    simp only [poolRun] at hrun
    cases hstep : poolStep items worker s w with
    | none => rw [hstep] at hrun; simp at hrun
    | some s1 =>
      rw [hstep] at hrun
      exact ih (poolInv_step inv hstep) hrun

/-- At the end of a run with at least one async function every slot is written. -/
theorem poolInv_done {ι β : Type} {items : List ι} {worker : ι → Nat → β} {limit : Nat}
    {s : PoolState β} (hlimit : 1 ≤ limit) (inv : PoolInv items worker limit s)
    (hdone : poolDone s) :
    s.results.length = items.length ∧
    (∀ i item, items[i]? = some item → s.results[i]? = some (some (worker item i))) ∧
    s.started = List.range items.length ∧ s.completed.length = items.length := by
  have hno : ∀ i, WorkerPhase.awaiting i ∉ s.workers := by
    intro i h
    have := hdone _ h
    cases this
  have hidx : s.index = items.length := by
    apply Nat.le_antisymm inv.index_le
    by_cases hn : items.length = 0
    · omega
    · have hlen : 0 < s.workers.length := by
        rw [inv.workers_length]
        omega
      cases hws : s.workers with
      | nil => rw [hws] at hlen; simp at hlen
      | cons ph rest =>
        have hph : ph = WorkerPhase.finished := hdone ph (by rw [hws]; simp)
        apply inv.finished_index
        rw [hws, hph]
        simp
  have hcount : s.workers.countP isAwaiting = 0 := by
    rw [List.countP_eq_zero]
    intro ph hph
    rw [hdone ph hph]
    simp [isAwaiting]
  refine ⟨inv.results_length, ?_, by rw [inv.started_eq, hidx], ?_⟩
  · intro i item hitem
    have hi : i < items.length := (List.getElem?_eq_some.mp hitem).1
    exact inv.filled i item hitem (by omega) (hno i)
  · have := inv.in_flight
    rw [hcount, inv.started_eq, hidx] at this
    simpa using this

theorem firstUnfinished_none {l : List WorkerPhase} (h : firstUnfinished l = none) :
    ∀ ph ∈ l, ph = WorkerPhase.finished := by
  induction l with
  | nil => simp
  | cons x l ih =>
    unfold firstUnfinished at h
    by_cases hx : x = WorkerPhase.finished
    · rw [if_pos hx] at h
      intro ph hph
      rcases List.mem_cons.mp hph with h1 | h1
      · rw [h1]; exact hx
      · exact ih (by simpa using h) ph h1
    · rw [if_neg hx] at h
      cases h

theorem firstUnfinished_some {l : List WorkerPhase} {w : Nat}
    (h : firstUnfinished l = some w) :
    ∃ ph, l[w]? = some ph ∧ ph ≠ WorkerPhase.finished := by
  induction l generalizing w with
  | nil => simp [firstUnfinished] at h
  | cons x l ih =>
    unfold firstUnfinished at h
    by_cases hx : x = WorkerPhase.finished
    · rw [if_pos hx] at h
      cases h' : firstUnfinished l with
      | none => rw [h'] at h; simp at h
      | some v =>
        rw [h'] at h
        simp only [Option.map_some', Option.some.injEq] at h
        subst h
        obtain ⟨ph, h1, h2⟩ := ih h'
        exact ⟨ph, by simpa using h1, h2⟩
    · rw [if_neg hx] at h
      cases h
      exact ⟨x, by simp, hx⟩

theorem countP_isUnfinished_pos {l : List WorkerPhase} {w : Nat} {ph : WorkerPhase}
    (hw : l[w]? = some ph) (hne : ph ≠ WorkerPhase.finished) :
    0 < l.countP isUnfinished := by
  rw [List.countP_pos_iff]
  refine ⟨ph, List.mem_iff_getElem?.mpr ⟨w, hw⟩, ?_⟩
  cases ph with
  | finished => exact absurd rfl hne
  | ready => rfl
  | awaiting c => rfl

/-- A function that has not returned can be resumed, and the step lowers the bound. -/
theorem poolStep_progress {ι β : Type} {items : List ι} {worker : ι → Nat → β}
    {limit : Nat} {s : PoolState β} {w : Nat} {ph : WorkerPhase}
    (inv : PoolInv items worker limit s) (hw : s.workers[w]? = some ph)
    (hne : ph ≠ WorkerPhase.finished) :
    ∃ s', poolStep items worker s w = some s' ∧
      poolMeasure items.length s' < poolMeasure items.length s := by
  unfold poolStep
  rw [hw]
  cases ph with
  | finished => exact absurd rfl hne
  | ready =>
    simp only
    by_cases hi : s.index < items.length
    · rw [if_pos hi]
      refine ⟨_, rfl, ?_⟩
      have h1 := countP_set isAwaiting s.workers w WorkerPhase.ready
        (WorkerPhase.awaiting s.index) hw
      have h2 := countP_set isUnfinished s.workers w WorkerPhase.ready
        (WorkerPhase.awaiting s.index) hw
      simp only [isAwaiting, isUnfinished, Bool.false_eq_true, if_false, if_true] at h1 h2
      simp only [poolMeasure]
      omega
    · rw [if_neg hi]
      refine ⟨_, rfl, ?_⟩
      have h1 := countP_set isAwaiting s.workers w WorkerPhase.ready
        WorkerPhase.finished hw
      have h2 := countP_set isUnfinished s.workers w WorkerPhase.ready
        WorkerPhase.finished hw
      simp only [isAwaiting, isUnfinished, Bool.false_eq_true, if_false, if_true] at h1 h2
      simp only [poolMeasure]
      omega
  | awaiting c =>
    simp only
    have hc : c < items.length :=
      Nat.lt_of_lt_of_le (inv.awaiting_lt c (List.mem_iff_getElem?.mpr ⟨w, hw⟩)) inv.index_le
    rw [List.getElem?_eq_getElem hc]
    refine ⟨_, rfl, ?_⟩
    have h1 := countP_set isAwaiting s.workers w (WorkerPhase.awaiting c)
      WorkerPhase.ready hw
    have h2 := countP_set isUnfinished s.workers w (WorkerPhase.awaiting c)
      WorkerPhase.ready hw
    simp only [isAwaiting, isUnfinished, Bool.false_eq_true, if_false, if_true] at h1 h2
    simp only [poolMeasure]
    omega

theorem poolStep_measure {ι β : Type} {items : List ι} {worker : ι → Nat → β}
    {limit : Nat} {s s' : PoolState β} {w : Nat} (inv : PoolInv items worker limit s)
    (hstep : poolStep items worker s w = some s') :
    poolMeasure items.length s' < poolMeasure items.length s := by
  cases hw : s.workers[w]? with
  | none => simp [poolStep, hw] at hstep
  | some ph =>
    have hne : ph ≠ WorkerPhase.finished := by
      intro h
      subst h
      simp [poolStep, hw] at hstep
    obtain ⟨s1, h1, h2⟩ := poolStep_progress inv hw hne
    rw [hstep] at h1
    cases h1
    exact h2

theorem poolRun_length {ι β : Type} {items : List ι} {worker : ι → Nat → β} {limit : Nat}
    (schedule : List Nat) {s s' : PoolState β} (inv : PoolInv items worker limit s)
    (hrun : poolRun items worker s schedule = some s') :
    schedule.length + poolMeasure items.length s' ≤ poolMeasure items.length s := by
  induction schedule generalizing s with
  | nil =>
    simp only [poolRun, Option.some.injEq] at hrun
    subst hrun
    simp
  | cons w schedule ih =>
    simp only [poolRun] at hrun
    cases hstep : poolStep items worker s w with
    | none => rw [hstep] at hrun; simp at hrun
    | some s1 =>
      rw [hstep] at hrun
      have h1 := ih (poolInv_step inv hstep) hrun
      have h2 := poolStep_measure inv hstep
      simp only [List.length_cons]
      omega

/-- The run of `poolExec` comes to its end within the bound, along a schedule. -/
theorem poolExec_spec {ι β : Type} {items : List ι} {worker : ι → Nat → β} {limit : Nat}
    (fuel : Nat) (s : PoolState β) (inv : PoolInv items worker limit s)
    (hfuel : poolMeasure items.length s ≤ fuel) :
    ∃ s' schedule, poolExec items worker fuel s = some s' ∧
      poolRun items worker s schedule = some s' ∧ poolDone s' := by
  induction fuel generalizing s with
  | zero =>
    unfold poolExec
    cases h : firstUnfinished s.workers with
    | none => exact ⟨s, [], rfl, rfl, firstUnfinished_none h⟩
    | some w =>
      exfalso
      obtain ⟨ph, hw, hne⟩ := firstUnfinished_some h
      have := countP_isUnfinished_pos hw hne
      simp only [poolMeasure] at hfuel
      omega
  | succ fuel ih =>
    unfold poolExec
    cases h : firstUnfinished s.workers with
    | none => exact ⟨s, [], rfl, rfl, firstUnfinished_none h⟩
    | some w =>
      obtain ⟨ph, hw, hne⟩ := firstUnfinished_some h
      obtain ⟨s1, hstep, hlt⟩ := poolStep_progress inv hw hne
      obtain ⟨s2, schedule, hexec, hrun, hdone⟩ :=
        ih s1 (poolInv_step inv hstep) (by omega)
      refine ⟨s2, w :: schedule, ?_, ?_, hdone⟩
      · simp only [hstep, Option.some_bind]
        exact hexec
      · simp only [poolRun, hstep, Option.some_bind]
        exact hrun

theorem poolMeasure_init {β : Type} (n limit : Nat) :
    poolMeasure n (poolInit n limit : PoolState β) = 2 * n + min limit n := by
  simp [poolMeasure, poolInit, List.countP_replicate, isAwaiting, isUnfinished]

/-- The array `mapWithConcurrency` returns, for a limit of at least 1. -/
theorem mapWithConcurrency_eq {ι β : Type} (items : List ι) (limit : Nat)
    (worker : ι → Nat → β) (hlimit : 1 ≤ limit) :
    ∃ results, mapWithConcurrency items limit worker = some results ∧
      results.length = items.length ∧
      ∀ i item, items[i]? = some item → results[i]? = some (some (worker item i)) := by
  obtain ⟨s, schedule, hexec, hrun, hdone⟩ :=
    poolExec_spec (3 * items.length) (poolInit items.length limit)
      (poolInv_init items worker limit)
      (by rw [poolMeasure_init]; have := Nat.min_le_right limit items.length; omega)
  have inv := poolInv_run schedule (poolInv_init items worker limit) hrun
  obtain ⟨h1, h2, _, _⟩ := poolInv_done hlimit inv hdone
  refine ⟨s.results, ?_, h1, h2⟩
  unfold mapWithConcurrency
  rw [hexec]
  rfl

/-- C15: for a limit of at least 1 and a worker whose promises are fulfilled,
`mapWithConcurrency` returns an array as long as `items` whose slot `i` holds
`worker(items[i], i)`. This holds at the end of every run, whatever the order in which
the event loop resumes the async functions: the worker has then been called once for
every index, in the order `0, 1, ..`. Every run can be brought to its end, and no run
takes more than `2 * items.length + min(limit, items.length)` steps. -/
theorem mapWithConcurrency_order {ι β : Type} (items : List ι) (limit : Nat)
    (worker : ι → Nat → β) (hlimit : 1 ≤ limit) :
    (∃ results, mapWithConcurrency items limit worker = some results ∧
      results.length = items.length ∧
      ∀ i item, items[i]? = some item → results[i]? = some (some (worker item i))) ∧
    (∀ schedule s,
      poolRun items worker (poolInit items.length limit) schedule = some s → poolDone s →
      s.results.length = items.length ∧
      (∀ i item, items[i]? = some item → s.results[i]? = some (some (worker item i))) ∧
      s.started = List.range items.length) ∧
    (∀ schedule s,
      poolRun items worker (poolInit items.length limit) schedule = some s →
      schedule.length ≤ 2 * items.length + min limit items.length ∧
      ∃ more s', poolRun items worker s more = some s' ∧ poolDone s') := by
  refine ⟨mapWithConcurrency_eq items limit worker hlimit, ?_, ?_⟩
  · intro schedule s hrun hdone
    have inv := poolInv_run schedule (poolInv_init items worker limit) hrun
    obtain ⟨h1, h2, h3, _⟩ := poolInv_done hlimit inv hdone
    exact ⟨h1, h2, h3⟩
  · intro schedule s hrun
    have inv := poolInv_run schedule (poolInv_init items worker limit) hrun
    have hlen := poolRun_length schedule (poolInv_init items worker limit) hrun
    rw [poolMeasure_init] at hlen
    refine ⟨by omega, ?_⟩
    obtain ⟨s', more, _, hmore, hdone⟩ :=
      poolExec_spec (poolMeasure items.length s) s inv (Nat.le_refl _)
    exact ⟨more, s', hmore, hdone⟩

theorem mapWithConcurrency_order_witness :
    mapWithConcurrency [10, 20, 30] 2 (fun (x i : Nat) => x + i) =
      some [some 10, some 21, some 32] ∧
    (poolRun [10, 20, 30] (fun (x i : Nat) => x + i) (poolInit 3 2)
      [0, 1, 1, 1, 0, 1, 1, 0]).map (fun s => (s.results, s.started, s.completed)) =
      some ([some 10, some 21, some 32], [0, 1, 2], [1, 0, 2]) ∧
    ∃ results, mapWithConcurrency [10, 20, 30] 2 (fun (x i : Nat) => x + i) = some results ∧
      results.length = 3 :=
  ⟨by decide, by decide,
    (mapWithConcurrency_order [10, 20, 30] 2 (fun (x i : Nat) => x + i) (by decide)).1.imp
      (fun _ h => ⟨h.1, h.2.1⟩)⟩

/-- C16: in every state of a call of `mapWithConcurrency(items, limit, worker)` there
are `min(limit, items.length)` async functions, and the calls of `worker` that have
started and are not completed are as many as the async functions suspended at their
`await`, one for each at most; so at most `limit` calls are in flight, and at most
`ANSWER_CONCURRENCY = 10` in the bulk generation. -/
theorem mapWithConcurrency_in_flight {ι β : Type} (items : List ι) (limit : Nat)
    (worker : ι → Nat → β) (schedule : List Nat) (s : PoolState β)
    (hrun : poolRun items worker (poolInit items.length limit) schedule = some s) :
    s.workers.length = min limit items.length ∧
    s.completed.length ≤ s.started.length ∧
    s.started.length - s.completed.length = s.workers.countP isAwaiting ∧
    s.started.length - s.completed.length ≤ min limit items.length ∧
    s.started.length - s.completed.length ≤ limit ∧
    ANSWER_CONCURRENCY = 10 := by
  have inv := poolInv_run schedule (poolInv_init items worker limit) hrun
  have h1 := inv.in_flight
  have h2 : s.workers.countP isAwaiting ≤ s.workers.length := List.countP_le_length _
  have h3 := inv.workers_length
  have h4 := Nat.min_le_left limit items.length
  refine ⟨h3, by omega, by omega, by omega, by omega, rfl⟩

theorem mapWithConcurrency_in_flight_witness :
    ∃ s : PoolState Nat,
      poolRun [10, 20, 30] (fun (x i : Nat) => x + i) (poolInit 3 2) [0, 1, 1, 1] = some s ∧
      s.started.length - s.completed.length = 2 ∧
      s.started.length - s.completed.length ≤ 2 := by
  have hrun : ∃ s : PoolState Nat,
      poolRun [10, 20, 30] (fun (x i : Nat) => x + i) (poolInit 3 2) [0, 1, 1, 1] = some s ∧
      s.started.length - s.completed.length = 2 := ⟨_, rfl, by decide⟩
  obtain ⟨s, hs, h2⟩ := hrun
  exact ⟨s, hs, h2,
    (mapWithConcurrency_in_flight [10, 20, 30] 2 (fun (x i : Nat) => x + i) [0, 1, 1, 1] s
      hs).2.2.2.2.1⟩

/-! ## Batches of answers -/

theorem chunkArray_spec {β : Type} (values : List β) (size : Nat) (hsize : 1 ≤ size) :
    ∃ batches, chunkArray values size = some batches ∧
      batches.flatten = values ∧
      (∀ b ∈ batches, b ≠ [] ∧ b.length ≤ size) ∧
      (∀ b ∈ batches.dropLast, b.length = size) := by
  obtain ⟨B, h1, h2, h3, h4⟩ :=
    chunkArrayLoop_spec values size hsize (values.length + 1) 0 [] (by omega) (by omega)
  exact ⟨B, by simpa [chunkArray] using h1, by simpa using h2, h3, h4⟩

theorem insertAnswersBatchValues_length {α : Type} (projectId : Id) (now : Nat)
    (answers : List (Option (AnswerDraft α))) :
    (insertAnswersBatchValues projectId now answers).length =
      11 * (answers.filterMap id).length := by
  unfold insertAnswersBatchValues
  induction answers.filterMap id with
  | nil => simp
  | cons a l ih =>
    simp only [List.flatMap_cons, List.length_append, List.length_cons, List.length_nil, ih]
    omega

/-- C18: for a size of at least 1, `chunkArray(values, size)` returns batches that are
not empty, whose concatenation is `values`, each of at most `size` elements and all
but the last of exactly `size`. With `ANSWER_BATCH_SIZE = 250` every batch of answers
has at most 250 rows, and `insertAnswersBatch` passes at most 2750 parameters. -/
theorem chunkArray_batches {β : Type} (values : List β) (size : Nat) (hsize : 1 ≤ size) :
    (∃ batches, chunkArray values size = some batches ∧
      batches.flatten = values ∧
      (∀ b ∈ batches, b ≠ [] ∧ b.length ≤ size) ∧
      (∀ b ∈ batches.dropLast, b.length = size)) ∧
    ANSWER_BATCH_SIZE = 250 ∧
    ∀ (α : Type) (projectId : Id) (now : Nat) (answers : List (Option (AnswerDraft α))),
      ∃ batches, chunkArray answers ANSWER_BATCH_SIZE = some batches ∧
        ∀ b ∈ batches, b.length ≤ 250 ∧
          (insertAnswersBatchValues projectId now b).length ≤ 2750 := by
  refine ⟨chunkArray_spec values size hsize, rfl, ?_⟩
  intro α projectId now answers
  obtain ⟨batches, h1, _, h3, _⟩ := chunkArray_spec answers ANSWER_BATCH_SIZE (by decide)
  refine ⟨batches, h1, ?_⟩
  intro b hb
  have hlen : b.length ≤ 250 := (h3 b hb).2
  refine ⟨hlen, ?_⟩
  rw [insertAnswersBatchValues_length]
  have : (b.filterMap id).length ≤ b.length := List.length_filterMap_le _ _
  omega

theorem chunkArray_batches_witness :
    chunkArray [1, 2, 3, 4, 5] 2 = some [[1, 2], [3, 4], [5]] ∧
    ∃ batches, chunkArray [1, 2, 3, 4, 5] 2 = some batches ∧ batches.flatten = [1, 2, 3, 4, 5] :=
  ⟨by decide, (chunkArray_batches [1, 2, 3, 4, 5] 2 (by decide)).1.imp
    (fun _ h => ⟨h.1, h.2.1⟩)⟩

/-! ## The bulk generation run -/

theorem mapWithConcurrency_eq_mapIdx {ι β : Type} (items : List ι) (limit : Nat)
    (worker : ι → Nat → β) (hlimit : 1 ≤ limit) :
    mapWithConcurrency items limit worker =
      some (items.mapIdx (fun i item => some (worker item i))) := by
  obtain ⟨results, h1, h2, h3⟩ := mapWithConcurrency_eq items limit worker hlimit
  rw [h1]
  congr 1
  symm
  rw [List.mapIdx_eq_iff]
  intro i
  cases hi : items[i]? with
  | none =>
    have : items.length ≤ i := by
      by_contra hlt
      rw [List.getElem?_eq_getElem (Nat.lt_of_not_le hlt)] at hi
      cases hi
    simp only [Option.map_none']
    exact List.getElem?_eq_none (by omega)
  | some item =>
    simp only [Option.map_some']
    exact h3 i item hi

theorem filterMap_id_mapIdx_some {ι β : Type} (items : List ι) (f : Nat → ι → β) :
    (items.mapIdx (fun i item => some (f i item))).filterMap id = items.mapIdx f := by
  induction items using List.reverseRecOn with
  | nil => rfl
  | append_singleton l a ih =>
    rw [List.mapIdx_concat, List.mapIdx_concat, List.filterMap_append, ih]
    simp

theorem all_isSome_mapIdx_some {ι β : Type} (items : List ι) (f : Nat → ι → β) :
    ∀ slot ∈ items.mapIdx (fun i item => some (f i item)), slot.isSome = true := by
  intro slot hslot
  obtain ⟨i, _, h⟩ := List.exists_of_mem_mapIdx hslot
  rw [← h]
  rfl

theorem insertBatches_frame {α : Type} (env : BulkRun) (projectId : Id) (k : Nat)
    (batches : List (List (Option (AnswerDraft α)))) (store : Store α) :
    (insertBatches env projectId k batches store).2.projects = store.projects ∧
    (insertBatches env projectId k batches store).2.requests = store.requests ∧
    (insertBatches env projectId k batches store).2.questions = store.questions := by
  induction batches generalizing k store with
  | nil => exact ⟨rfl, rfl, rfl⟩
  | cons b rest ih =>
    unfold insertBatches
    cases h : insertAnswersBatch (env.insertBatch k) env.malformedInsert projectId
        (env.insertedAt k) b store with
    | error message => exact ⟨rfl, rfl, rfl⟩
    | ok store' =>
      simp only
      have hs : store'.projects = store.projects ∧ store'.requests = store.requests ∧
          store'.questions = store.questions := by
        unfold insertAnswersBatch at h
        split at h
        · cases h; exact ⟨rfl, rfl, rfl⟩
        · split at h
          · cases h
          · split at h
            · cases h; exact ⟨rfl, rfl, rfl⟩
            · cases h
      obtain ⟨h1, h2, h3⟩ := ih (k + 1) store'
      exact ⟨h1.trans hs.1, h2.trans hs.2.1, h3.trans hs.2.2⟩

/-- Without a fault and without an empty slot the loop inserts one row for every
answer, in order. -/
theorem insertBatches_ok {α : Type} (env : BulkRun) (projectId : Id)
    (hfault : ∀ j, env.insertBatch j = none) (k : Nat)
    (batches : List (List (Option (AnswerDraft α)))) (store : Store α)
    (hfull : ∀ b ∈ batches, ∀ slot ∈ b, slot.isSome = true) :
    ∃ rows, insertBatches env projectId k batches store =
        (Settled.fulfilled, { store with answers := store.answers ++ rows }) ∧
      List.Forall₂ (fun d r => ∃ now, r = draftRow projectId now d)
        (batches.flatten.filterMap id) rows := by
  induction batches generalizing k store with
  | nil => exact ⟨[], by simp [insertBatches], by simp⟩
  | cons b rest ih =>
    have hb : b.all (fun slot => slot.isSome) = true := by
      rw [List.all_eq_true]
      exact hfull b (by simp)
    unfold insertBatches
    by_cases hlen : b.length = 0
    · have hnil : b = [] := List.length_eq_zero.mp hlen
      obtain ⟨rows, h1, h2⟩ := ih (k + 1) store (fun c hc => hfull c (List.mem_cons_of_mem _ hc))
      refine ⟨rows, ?_, by simpa [hnil] using h2⟩
      simp only [insertAnswersBatch, hlen, if_true]
      exact h1
    · obtain ⟨rows, h1, h2⟩ := ih (k + 1)
        { store with answers := store.answers ++
            (b.filterMap id).map (draftRow projectId (env.insertedAt k)) }
        (fun c hc => hfull c (List.mem_cons_of_mem _ hc))
      refine ⟨(b.filterMap id).map (draftRow projectId (env.insertedAt k)) ++ rows, ?_, ?_⟩
      · simp only [insertAnswersBatch, hlen, if_false, hfault k, hb, if_true]
        rw [h1]
        simp
      · rw [List.flatten_cons, List.filterMap_append]
        apply List.rel_append _ h2
        rw [List.forall₂_map_right_iff, List.forall₂_same]
        intro d _
        exact ⟨env.insertedAt k, rfl⟩

/-- With a fault at the batch number `k`, and none before, the loop throws it. -/
theorem insertBatches_fault {α : Type} (env : BulkRun) (projectId : Id) (message : String)
    (k0 k : Nat) (batches : List (List (Option (AnswerDraft α)))) (store : Store α)
    (hne : ∀ b ∈ batches, b ≠ []) (hfull : ∀ b ∈ batches, ∀ slot ∈ b, slot.isSome = true)
    (hk : k < batches.length) (hfault : env.insertBatch (k0 + k) = some message)
    (hbefore : ∀ j, j < k → env.insertBatch (k0 + j) = none) :
    (insertBatches env projectId k0 batches store).1 = Settled.rejected message := by
  induction batches generalizing k0 k store with
  | nil => simp at hk
  | cons b rest ih =>
    have hb : b.all (fun slot => slot.isSome) = true := by
      rw [List.all_eq_true]
      exact hfull b (by simp)
    have hlen : ¬ b.length = 0 := by
      rw [List.length_eq_zero]
      exact hne b (by simp)
    unfold insertBatches
    cases k with
    | zero =>
      rw [Nat.add_zero] at hfault
      simp only [insertAnswersBatch, hlen, if_false, hfault]
    | succ k =>
      have h0 : env.insertBatch k0 = none := by
        have := hbefore 0 (Nat.succ_pos k)
        simpa using this
      simp only [insertAnswersBatch, hlen, if_false, h0, hb, if_true]
      apply ih (k0 + 1) k _ (fun c hc => hne c (List.mem_cons_of_mem _ hc))
        (fun c hc => hfull c (List.mem_cons_of_mem _ hc))
        (by simpa using hk)
      · rw [← hfault]; congr 1; omega
      · intro j hj
        rw [← hbefore (j + 1) (by omega)]
        congr 1
        omega

theorem batches_length_iff {β : Type} (size : Nat) (B : List (List β)) (R : List β)
    (hflat : B.flatten = R) (hall : ∀ b ∈ B, b ≠ [] ∧ b.length ≤ size)
    (hbut : ∀ b ∈ B.dropLast, b.length = size) (k : Nat) :
    k < B.length ↔ k * size < R.length := by
  induction B generalizing R k with
  | nil =>
    simp only [List.flatten_nil] at hflat
    subst hflat
    simp
  | cons b B ih =>
    subst hflat
    have hb := hall b (by simp)
    have hbpos : 0 < b.length := List.length_pos.mpr hb.1
    cases k with
    | zero => simp; omega
    | succ k =>
      simp only [List.length_cons, List.flatten_cons, List.length_append,
        Nat.add_lt_add_iff_right]
      cases B with
      | nil =>
        simp only [List.length_nil, List.flatten_nil, Nat.not_lt_zero, false_iff]
        have : size ≤ (k + 1) * size := Nat.le_mul_of_pos_left size (Nat.succ_pos k)
        omega
      | cons c B =>
        have hsz : b.length = size := hbut b (by simp [List.dropLast_cons₂])
        have := ih (c :: B).flatten rfl (fun x hx => hall x (List.mem_cons_of_mem _ hx))
          (fun x hx => hbut x (by rw [List.dropLast_cons₂]; exact List.mem_cons_of_mem _ hx)) k
        rw [this, hsz, Nat.succ_mul]
        omega

/-- The run without fault: the project's answers are deleted, one row per question is
inserted, the project is set to READY and the job to SUCCESS. -/
theorem markReady_frame {α : Type} (setReady reportSuccess : Option String)
    (readyAt finishedAt : Nat) (projectId requestId : Id) (store : Store α) :
    (markReady setReady reportSuccess readyAt finishedAt projectId requestId store).2.answers =
      store.answers ∧
    (markReady setReady reportSuccess readyAt finishedAt projectId requestId
      store).2.questions = store.questions ∧
    (markReady setReady reportSuccess readyAt finishedAt projectId requestId
      store).2.documents = store.documents := by
  unfold markReady
  cases setReady <;> cases reportSuccess <;> exact ⟨rfl, rfl, rfl⟩

theorem markFailed_frame {α : Type} (reportFailure : Option String) (finishedAt : Nat)
    (requestId : Id) (message : String) (store : Store α) :
    (markFailed reportFailure finishedAt requestId message store).answers = store.answers ∧
    (markFailed reportFailure finishedAt requestId message store).questions =
      store.questions ∧
    (markFailed reportFailure finishedAt requestId message store).documents =
      store.documents ∧
    (markFailed reportFailure finishedAt requestId message store).projects =
      store.projects := by
  unfold markFailed
  cases reportFailure <;> exact ⟨rfl, rfl, rfl, rfl⟩

theorem markReady_projects {α : Type} (setReady reportSuccess : Option String)
    (readyAt finishedAt : Nat) (projectId requestId : Id) (store : Store α) :
    (markReady setReady reportSuccess readyAt finishedAt projectId requestId
        store).2.projects = store.projects ∨
    (markReady setReady reportSuccess readyAt finishedAt projectId requestId
        store).2.projects =
      (setProjectStatus store PROJECT_STATUS.READY readyAt projectId).projects := by
  unfold markReady
  cases setReady with
  | some message => exact Or.inl rfl
  | none => cases reportSuccess <;> exact Or.inr rfl

/-- Without a fault up to the last `INSERT` the `try` block has inserted one row for
every question and goes on with its last two statements. -/
theorem regenerateTry_inserted {α : Type} [LinearOrderedField α] (rt : Runtime α)
    (env : BulkRun) (projectId requestId : Id) (store : Store α)
    (h1 : env.loadQuestions = none) (h2 : env.loadScope = none)
    (h3 : env.deleteAnswers = none) (h4 : env.generate = none)
    (h5 : ∀ j, env.insertBatch j = none) :
    ∃ rows,
      regenerateTry rt env projectId requestId store =
        markReady env.setReady env.reportSuccess env.readyAt env.finishedAt projectId
          requestId
          { deleteAnswers store projectId with
            answers := (deleteAnswers store projectId).answers ++ rows } ∧
      List.Forall₂ (fun d r => ∃ now, r = draftRow projectId now d)
        ((selectQuestions store projectId).mapIdx
          (fun i q => answerWorker rt env (deleteAnswers store projectId) projectId
            (resolveDocumentIds store.toDb projectId none) q i)) rows := by
  obtain ⟨batches, hchunk, hflat, _, _⟩ :=
    chunkArray_spec ((selectQuestions store projectId).mapIdx
      (fun i q => some (answerWorker rt env (deleteAnswers store projectId) projectId
        (resolveDocumentIds store.toDb projectId none) q i))) ANSWER_BATCH_SIZE (by decide)
  have hfull : ∀ b ∈ batches, ∀ slot ∈ b, slot.isSome = true := by
    intro b hb slot hslot
    apply all_isSome_mapIdx_some (selectQuestions store projectId)
      (fun i q => answerWorker rt env (deleteAnswers store projectId) projectId
        (resolveDocumentIds store.toDb projectId none) q i)
    rw [← hflat]
    exact List.mem_flatten.mpr ⟨b, hb, hslot⟩
  obtain ⟨rows, hins, hrows⟩ :=
    insertBatches_ok env projectId h5 0 batches (deleteAnswers store projectId) hfull
  refine ⟨rows, ?_, ?_⟩
  · unfold regenerateTry
    simp only [h1, h2, h3, h4]
    rw [mapWithConcurrency_eq_mapIdx _ _ _ (by decide)]
    simp only [hchunk, hins]
  · rw [hflat, filterMap_id_mapIdx_some] at hrows
    exact hrows

theorem regenerateTry_ok {α : Type} [LinearOrderedField α] (rt : Runtime α) (env : BulkRun)
    (projectId requestId : Id) (store : Store α)
    (h1 : env.loadQuestions = none) (h2 : env.loadScope = none)
    (h3 : env.deleteAnswers = none) (h4 : env.generate = none)
    (h5 : ∀ j, env.insertBatch j = none)
    (h6 : env.setReady = none) (h7 : env.reportSuccess = none) :
    ∃ rows,
      regenerateTry rt env projectId requestId store =
        (Settled.fulfilled,
          updateRequest
            (setProjectStatus
              { deleteAnswers store projectId with
                answers := (deleteAnswers store projectId).answers ++ rows }
              PROJECT_STATUS.READY env.readyAt projectId)
            requestId REQUEST_STATUS.SUCCESS none env.finishedAt) ∧
      List.Forall₂ (fun d r => ∃ now, r = draftRow projectId now d)
        ((selectQuestions store projectId).mapIdx
          (fun i q => answerWorker rt env (deleteAnswers store projectId) projectId
            (resolveDocumentIds store.toDb projectId none) q i)) rows := by
  obtain ⟨rows, htry, hrows⟩ :=
    regenerateTry_inserted rt env projectId requestId store h1 h2 h3 h4 h5
  refine ⟨rows, ?_, hrows⟩
  rw [htry, h6, h7]
  rfl

/-- The background task ends with the answers and the questions its `try` block
left. -/
theorem regenerateBackground_keeps {α : Type} [LinearOrderedField α] (rt : Runtime α)
    (env : BulkRun) (projectId requestId : Id) (store : Store α) :
    (regenerateBackground rt env projectId requestId store).answers =
      (regenerateTry rt env projectId requestId store).2.answers ∧
    (regenerateBackground rt env projectId requestId store).questions =
      (regenerateTry rt env projectId requestId store).2.questions ∧
    (regenerateBackground rt env projectId requestId store).projects =
      (regenerateTry rt env projectId requestId store).2.projects := by
  unfold regenerateBackground
  rcases regenerateTry rt env projectId requestId store with ⟨ended, store'⟩
  cases ended with
  | fulfilled => exact ⟨rfl, rfl, rfl⟩
  | never => exact ⟨rfl, rfl, rfl⟩
  | rejected message =>
    obtain ⟨f1, f2, _, f4⟩ :=
      markFailed_frame env.reportFailure env.finishedAt requestId message store'
    exact ⟨f1, f2, f4⟩

theorem setProjectStatus_spec {α : Type} (store : Store α) (status : String) (now : Nat)
    (projectId : Id) :
    (∀ p ∈ (setProjectStatus store status now projectId).projects,
      p.id = projectId → p.status = status) ∧
    (setProjectStatus store status now projectId).projects.map (fun p => p.id) =
      store.projects.map (fun p => p.id) ∧
    (setProjectStatus store status now projectId).requests = store.requests ∧
    (setProjectStatus store status now projectId).answers = store.answers ∧
    (setProjectStatus store status now projectId).questions = store.questions := by
  refine ⟨?_, ?_, rfl, rfl, rfl⟩
  · intro p hp hid
    simp only [setProjectStatus, List.mem_map] at hp
    obtain ⟨q, _, hq⟩ := hp
    by_cases h : q.id = projectId
    · rw [if_pos h] at hq
      rw [← hq]
    · rw [if_neg h] at hq
      rw [← hq] at hid
      exact absurd hid h
  · simp only [setProjectStatus, List.map_map]
    apply List.map_congr_left
    intro q _
    simp only [Function.comp]
    split <;> rfl

theorem updateRequest_spec {α : Type} (store : Store α) (id : Id) (status : String)
    (message : Option String) (now : Nat) :
    (∀ r ∈ (updateRequest store id status message now).requests,
      r.id = id → r.status = status ∧ r.message = message) ∧
    (updateRequest store id status message now).requests.map (fun r => r.id) =
      store.requests.map (fun r => r.id) ∧
    (updateRequest store id status message now).projects = store.projects ∧
    (updateRequest store id status message now).answers = store.answers ∧
    (updateRequest store id status message now).questions = store.questions := by
  refine ⟨?_, ?_, rfl, rfl, rfl⟩
  · intro r hr hid
    simp only [updateRequest, List.mem_map] at hr
    obtain ⟨q, _, hq⟩ := hr
    by_cases h : q.id = id
    · rw [if_pos h] at hq
      rw [← hq]
      exact ⟨rfl, rfl⟩
    · rw [if_neg h] at hq
      rw [← hq] at hid
      exact absurd hid h
  · simp only [updateRequest, List.map_map]
    apply List.map_congr_left
    intro q _
    simp only [Function.comp]
    split <;> rfl

theorem markReady_ids {α : Type} (setReady reportSuccess : Option String)
    (readyAt finishedAt : Nat) (projectId requestId : Id) (store : Store α) :
    (markReady setReady reportSuccess readyAt finishedAt projectId requestId
      store).2.projects.map (fun p => p.id) = store.projects.map (fun p => p.id) ∧
    (markReady setReady reportSuccess readyAt finishedAt projectId requestId
      store).2.requests.map (fun r => r.id) = store.requests.map (fun r => r.id) := by
  have hp := setProjectStatus_spec store PROJECT_STATUS.READY readyAt projectId
  have hr := updateRequest_spec
    (setProjectStatus store PROJECT_STATUS.READY readyAt projectId)
    requestId REQUEST_STATUS.SUCCESS none finishedAt
  unfold markReady
  cases setReady with
  | some message => exact ⟨rfl, rfl⟩
  | none =>
    cases reportSuccess with
    | some message => exact ⟨hp.2.1, by rw [hp.2.2.1]⟩
    | none =>
      simp only
      exact ⟨by rw [hr.2.2.1, hp.2.1], by rw [hr.2.1, hp.2.2.1]⟩

theorem markFailed_ids {α : Type} (reportFailure : Option String) (finishedAt : Nat)
    (requestId : Id) (message : String) (store : Store α) :
    (markFailed reportFailure finishedAt requestId message store).requests.map
      (fun r => r.id) = store.requests.map (fun r => r.id) := by
  unfold markFailed
  cases reportFailure with
  | some _ => rfl
  | none =>
    exact (updateRequest_spec store requestId REQUEST_STATUS.FAILED (some message)
      finishedAt).2.1

/-- The writes of the `catch` block: with `reportFailure = none` the job of the run gets
the status FAILED and the message. -/
theorem markFailed_spec {α : Type} (finishedAt : Nat) (requestId : Id) (message : String)
    (store : Store α) :
    ∀ r ∈ (markFailed none finishedAt requestId message store).requests,
      r.id = requestId → r.status = REQUEST_STATUS.FAILED ∧ r.message = some message :=
  (updateRequest_spec store requestId REQUEST_STATUS.FAILED (some message) finishedAt).1

/-- A fault of one of the store calls of the `try` block up to the last `INSERT` makes
it throw that fault, with the projects and the jobs as they were. -/
theorem regenerateTry_rejected {α : Type} [LinearOrderedField α] (rt : Runtime α)
    (env : BulkRun) (projectId requestId : Id) (store : Store α) (message : String)
    (h : env.loadQuestions = some message ∨
      (env.loadQuestions = none ∧ env.loadScope = some message) ∨
      (env.loadQuestions = none ∧ env.loadScope = none ∧
        env.deleteAnswers = some message) ∨
      (env.loadQuestions = none ∧ env.loadScope = none ∧ env.deleteAnswers = none ∧
        env.generate = some message) ∨
      (env.loadQuestions = none ∧ env.loadScope = none ∧ env.deleteAnswers = none ∧
        env.generate = none ∧
        ∃ k, k * ANSWER_BATCH_SIZE < (selectQuestions store projectId).length ∧
          env.insertBatch k = some message ∧ ∀ j, j < k → env.insertBatch j = none)) :
    (regenerateTry rt env projectId requestId store).1 = Settled.rejected message ∧
    (regenerateTry rt env projectId requestId store).2.projects = store.projects ∧
    (regenerateTry rt env projectId requestId store).2.requests = store.requests := by
  rcases h with h1 | ⟨h1, h2⟩ | ⟨h1, h2, h3⟩ | ⟨h1, h2, h3, h4⟩ | ⟨h1, h2, h3, h4, k, hk, hf, hb⟩
  · simp only [regenerateTry, h1]
    exact ⟨trivial, trivial, trivial⟩
  · simp only [regenerateTry, h1, h2]
    exact ⟨trivial, trivial, trivial⟩
  · simp only [regenerateTry, h1, h2, h3]
    exact ⟨trivial, trivial, trivial⟩
  · simp only [regenerateTry, h1, h2, h3, h4]
    exact ⟨trivial, rfl, rfl⟩
  · obtain ⟨batches, hchunk, hflat, hall, hbut⟩ :=
      chunkArray_spec ((selectQuestions store projectId).mapIdx
        (fun i q => some (answerWorker rt env (deleteAnswers store projectId) projectId
          (resolveDocumentIds store.toDb projectId none) q i))) ANSWER_BATCH_SIZE (by decide)
    have hfull : ∀ b ∈ batches, ∀ slot ∈ b, slot.isSome = true := by
      intro b hb' slot hslot
      apply all_isSome_mapIdx_some (selectQuestions store projectId)
        (fun i q => answerWorker rt env (deleteAnswers store projectId) projectId
          (resolveDocumentIds store.toDb projectId none) q i)
      rw [← hflat]
      exact List.mem_flatten.mpr ⟨b, hb', hslot⟩
    have hlen : k < batches.length := by
      rw [batches_length_iff ANSWER_BATCH_SIZE batches _ hflat hall hbut k, List.length_mapIdx]
      exact hk
    have hrej := insertBatches_fault env projectId message 0 k batches
      (deleteAnswers store projectId) (fun b hb' => (hall b hb').1) hfull hlen
      (by rw [Nat.zero_add]; exact hf)
      (fun j hj => by rw [Nat.zero_add]; exact hb j hj)
    have hfr := insertBatches_frame env projectId 0 batches (deleteAnswers store projectId)
    unfold regenerateTry
    simp only [h1, h2, h3, h4]
    rw [mapWithConcurrency_eq_mapIdx _ _ _ (by decide)]
    simp only [hchunk]
    split
    · rename_i store2 heq
      rw [heq] at hrej
      cases hrej
    · exact ⟨hrej, hfr.1, hfr.2.1⟩

theorem selectQuestions_perm {α : Type} (store : Store α) (projectId : Id) :
    (selectQuestions store projectId).Perm
      (store.questions.filter (fun q => q.project_id = projectId)) :=
  List.perm_insertionSort _ _

theorem filter_id_eq_singleton (l : List QuestionRow) (q : QuestionRow)
    (hnodup : (l.map (fun x => x.id)).Nodup) (hq : q ∈ l) :
    l.filter (fun x => x.id = q.id) = [q] := by
  induction l with
  | nil => simp at hq
  | cons x l ih =>
    rw [List.map_cons, List.nodup_cons] at hnodup
    rcases List.mem_cons.mp hq with h | h
    · subst h
      have hrest : l.filter (fun x => decide (x.id = q.id)) = [] := by
        rw [List.filter_eq_nil_iff]
        intro y hy hyid
        apply hnodup.1
        rw [List.mem_map]
        exact ⟨y, hy, by simpa using hyid⟩
      simp [List.filter_cons, hrest]
    · have hne : x.id ≠ q.id := by
        intro hx
        apply hnodup.1
        rw [List.mem_map]
        exact ⟨q, h, hx.symm⟩
      simp [List.filter_cons, hne, ih hnodup.2 h]

theorem rows_filter_length {α : Type} (projectId x : Id) (qs : List QuestionRow)
    (rows : List (AnswerRow α))
    (h : List.Forall₂ (fun q r => r.project_id = projectId ∧ r.question_id = q.id) qs rows) :
    (rows.filter (fun a => a.project_id = projectId ∧ a.question_id = x)).length =
      (qs.filter (fun q => q.id = x)).length := by
  induction h with
  | nil => rfl
  | @cons q r qs rows hqr _ ih =>
    obtain ⟨hp, hid⟩ := hqr
    have ih' : (rows.filter
        (fun a => decide (a.project_id = projectId) && decide (a.question_id = x))).length =
        (qs.filter (fun q => decide (q.id = x))).length := by
      simpa using ih
    by_cases hx : q.id = x
    · simp [List.filter_cons, hp, hid, hx, ih']
    · simp [List.filter_cons, hp, hid, hx, ih']

/-- The answers after a run without fault, from any store. -/
theorem regenerateBackground_answers {α : Type} [LinearOrderedField α] (rt : Runtime α)
    (env : BulkRun) (projectId requestId : Id) (store : Store α)
    (h1 : env.loadQuestions = none) (h2 : env.loadScope = none)
    (h3 : env.deleteAnswers = none) (h4 : env.generate = none)
    (h5 : ∀ j, env.insertBatch j = none) :
    (regenerateBackground rt env projectId requestId store).questions = store.questions ∧
    ∃ rows,
      (regenerateBackground rt env projectId requestId store).answers =
        store.answers.filter (fun a => a.project_id ≠ projectId) ++ rows ∧
      List.Forall₂
        (fun q r => r.project_id = projectId ∧ r.question_id = q.id)
        (selectQuestions store projectId) rows ∧
      ∀ r ∈ rows, r.status = ANSWER_STATUS.DRAFT ∧ r.manual_answer = none := by
  obtain ⟨rows, htry, hrows⟩ :=
    regenerateTry_inserted rt env projectId requestId store h1 h2 h3 h4 h5
  obtain ⟨k1, k2, _⟩ := regenerateBackground_keeps rt env projectId requestId store
  obtain ⟨m1, m2, _⟩ := markReady_frame env.setReady env.reportSuccess env.readyAt
    env.finishedAt projectId requestId
    { deleteAnswers store projectId with
      answers := (deleteAnswers store projectId).answers ++ rows }
  rw [k1, k2, htry, m1, m2]
  refine ⟨rfl, rows, rfl, ?_, ?_⟩
  · have hlen := hrows.length_eq
    rw [List.length_mapIdx] at hlen
    rw [List.forall₂_iff_get]
    refine ⟨hlen, ?_⟩
    intro i hi hi'
    have hget := (List.forall₂_iff_get.mp hrows).2 i (by rw [List.length_mapIdx]; exact hi) hi'
    obtain ⟨now, hnow⟩ := hget
    simp only [List.get_eq_getElem, List.getElem_mapIdx] at hnow ⊢
    rw [hnow]
    exact ⟨rfl, rfl⟩
  · intro r hr
    obtain ⟨i, hi, hri⟩ := List.mem_iff_getElem.mp hr
    have hlen := hrows.length_eq
    have hget := (List.forall₂_iff_get.mp hrows).2 i (by rw [hlen]; exact hi) hi
    obtain ⟨now, hnow⟩ := hget
    simp only [List.get_eq_getElem] at hnow
    rw [← hri, hnow]
    exact ⟨rfl, rfl⟩

theorem forall₂_mem_right {γ δ : Type} {R : γ → δ → Prop} {l₁ : List γ} {l₂ : List δ}
    (h : List.Forall₂ R l₁ l₂) : ∀ r ∈ l₂, ∃ q ∈ l₁, R q r := by
  induction h with
  | nil => simp
  | @cons q r qs rows hqr _ ih =>
    intro x hx
    rcases List.mem_cons.mp hx with h1 | h1
    · subst h1
      exact ⟨q, by simp, hqr⟩
    · obtain ⟨y, hy, hR⟩ := ih x h1
      exact ⟨y, List.mem_cons_of_mem _ hy, hR⟩

/-- C17: after a background run of the bulk generation without fault, started by
`generateAnswersAsync` or by `updateProjectAsync`, the answers are the former answers
of the other projects followed by one new row for every question of the project, in
the order of the questions. So the project has as many answers as questions, every
answer of the project belongs to one of its questions, and, question ids being
unique, every question of the project has exactly one answer. -/
theorem regenerate_one_answer_per_question {α : Type} [LinearOrderedField α]
    (rt : Runtime α) (env : BulkRun) (projectId requestId : Id) (store s1 : Store α)
    (now : Nat) (scope : String) (document_ids : Option (List Id))
    (hs1 : s1 = generateAnswersAsync store now projectId ∨
      s1 = updateProjectAsync store now projectId scope document_ids)
    (h1 : env.loadQuestions = none) (h2 : env.loadScope = none)
    (h3 : env.deleteAnswers = none) (h4 : env.generate = none)
    (h5 : ∀ j, env.insertBatch j = none) :
    ∃ rows,
      (regenerateBackground rt env projectId requestId s1).answers =
        store.answers.filter (fun a => a.project_id ≠ projectId) ++ rows ∧
      List.Forall₂ (fun q r => r.project_id = projectId ∧ r.question_id = q.id)
        (selectQuestions store projectId) rows ∧
      ((regenerateBackground rt env projectId requestId s1).answers.filter
          (fun a => a.project_id = projectId)).length =
        (store.questions.filter (fun q => q.project_id = projectId)).length ∧
      (∀ a ∈ (regenerateBackground rt env projectId requestId s1).answers,
        a.project_id = projectId →
        ∃ q ∈ store.questions, q.project_id = projectId ∧ a.question_id = q.id) ∧
      ((store.questions.map (fun q => q.id)).Nodup →
        ∀ q ∈ store.questions, q.project_id = projectId →
          ((regenerateBackground rt env projectId requestId s1).answers.filter
            (fun a => a.project_id = projectId ∧ a.question_id = q.id)).length = 1) := by
  have hA : s1.answers = store.answers := by
    rcases hs1 with h | h <;> rw [h] <;> rfl
  have hS : selectQuestions s1 projectId = selectQuestions store projectId := by
    rcases hs1 with h | h <;> rw [h] <;> rfl
  obtain ⟨_, rows, hans, hF, _⟩ :=
    regenerateBackground_answers rt env projectId requestId s1 h1 h2 h3 h4 h5
  rw [hA] at hans
  rw [hS] at hF
  have hrowsP : ∀ r ∈ rows, r.project_id = projectId := by
    intro r hr
    obtain ⟨q, _, hq⟩ := forall₂_mem_right hF r hr
    exact hq.1
  have hkept : ∀ (f : AnswerRow α → Bool),
      ((store.answers.filter (fun a => a.project_id ≠ projectId)).filter
        (fun a => decide (a.project_id = projectId) && f a)) = [] := by
    intro f
    rw [List.filter_eq_nil_iff]
    intro a ha
    have := (List.mem_filter.mp ha).2
    simp only [ne_eq, decide_not, Bool.not_eq_true', decide_eq_false_iff_not] at this
    simp [this]
  refine ⟨rows, hans, hF, ?_, ?_, ?_⟩
  · rw [hans, List.filter_append]
    have h0 := hkept (fun _ => true)
    simp only [Bool.and_true] at h0
    rw [h0, List.nil_append]
    have hall : rows.filter (fun a => decide (a.project_id = projectId)) = rows := by
      rw [List.filter_eq_self]
      intro a ha
      simpa using hrowsP a ha
    rw [hall, ← hF.length_eq, (selectQuestions_perm store projectId).length_eq]
  · intro a ha hp
    rw [hans] at ha
    rcases List.mem_append.mp ha with h | h
    · have := (List.mem_filter.mp h).2
      simp only [ne_eq, decide_not, Bool.not_eq_true', decide_eq_false_iff_not] at this
      exact absurd hp this
    · obtain ⟨q, hq, _, hid⟩ := forall₂_mem_right hF a h
      have hq' := (selectQuestions_perm store projectId).mem_iff.mp hq
      obtain ⟨hq1, hq2⟩ := List.mem_filter.mp hq'
      exact ⟨q, hq1, by simpa using hq2, hid⟩
  · intro hnodup q hq hqp
    rw [hans, List.filter_append]
    have h0 := hkept (fun a => decide (a.question_id = q.id))
    have hfun : (fun a : AnswerRow α => decide (a.project_id = projectId ∧ a.question_id = q.id)) =
        fun a => decide (a.project_id = projectId) && decide (a.question_id = q.id) := by
      funext a
      simp
    rw [hfun, h0, List.nil_append, ← hfun, rows_filter_length projectId q.id _ rows hF]
    rw [((selectQuestions_perm store projectId).filter _).length_eq, List.filter_filter]
    have hfun2 : (fun a : QuestionRow => decide (a.id = q.id) && decide (a.project_id = projectId)) =
        fun a => decide (a.project_id = projectId) && decide (a.id = q.id) := by
      funext a
      exact Bool.and_comm _ _
    rw [hfun2, ← List.filter_filter, filter_id_eq_singleton store.questions q hnodup hq]
    simp [hqp]

theorem regenerate_one_answer_per_question_witness :
    ((regenerateBackground
      (Runtime.mk Real.sqrt asciiToLowerCase List.sum
        (fun a b => Real.sqrt ((List.zipWith (fun x y => (x - y) * (x - y)) a b).sum))
        (fun _ _ => true))
      (BulkRun.mk none none none none (fun _ => none) "syntax error" (fun i => toString i)
        (fun _ => 7) 8 9 none none none)
      "p1" "r1"
      (generateAnswersAsync
      (Store.mk
        (Db.mk [ProjectRow.mk "p1" (js "Fund") "q0" "READY" "ALL_DOCS" ["d1"] 0 0]
          [DocumentChunkRow.mk "c1" "d1" (js "Revenue was $5M in 2023.") []])
        []
        [QuestionRow.mk "x2" "p1" (js "General") 2 (js "Who audits the fund?"),
          QuestionRow.mk "x1" "p1" (js "General") 1 (js "What was 2023 revenue?"),
          QuestionRow.mk "y1" "p2" (js "General") 1 (js "Other project?")]
        [AnswerRow.mk "a0" "p1" "x1" (js "old") true 0.9 [] (js "CONFIRMED") 0 0 none,
          AnswerRow.mk "b0" "p2" "y1" (js "kept") true 0.9 [] (js "DRAFT") 0 0 none]
        [RequestRow.mk "r1" "RUNNING" none 0 0] [])
        5 "p1")).answers.filter (fun a => a.project_id = "p1")).length = 2 := by
  obtain ⟨rows, _, _, hlen, _⟩ :=
    regenerate_one_answer_per_question
      (Runtime.mk Real.sqrt asciiToLowerCase List.sum
        (fun a b => Real.sqrt ((List.zipWith (fun x y => (x - y) * (x - y)) a b).sum))
        (fun _ _ => true))
      (BulkRun.mk none none none none (fun _ => none) "syntax error" (fun i => toString i)
        (fun _ => 7) 8 9 none none none)
      "p1" "r1"
      (Store.mk
        (Db.mk [ProjectRow.mk "p1" (js "Fund") "q0" "READY" "ALL_DOCS" ["d1"] 0 0]
          [DocumentChunkRow.mk "c1" "d1" (js "Revenue was $5M in 2023.") []])
        []
        [QuestionRow.mk "x2" "p1" (js "General") 2 (js "Who audits the fund?"),
          QuestionRow.mk "x1" "p1" (js "General") 1 (js "What was 2023 revenue?"),
          QuestionRow.mk "y1" "p2" (js "General") 1 (js "Other project?")]
        [AnswerRow.mk "a0" "p1" "x1" (js "old") true 0.9 [] (js "CONFIRMED") 0 0 none,
          AnswerRow.mk "b0" "p2" "y1" (js "kept") true 0.9 [] (js "DRAFT") 0 0 none]
        [RequestRow.mk "r1" "RUNNING" none 0 0] [])
      _ 5 "ALL_DOCS" none (Or.inl rfl) rfl rfl rfl rfl (fun _ => rfl)
  rw [hlen]
  decide

/-- The `try` block keeps the ids of the projects and of the jobs. -/
theorem regenerateTry_ids {α : Type} [LinearOrderedField α] (rt : Runtime α)
    (env : BulkRun) (projectId requestId : Id) (store : Store α) :
    (regenerateTry rt env projectId requestId store).2.projects.map (fun p => p.id) =
      store.projects.map (fun p => p.id) ∧
    (regenerateTry rt env projectId requestId store).2.requests.map (fun r => r.id) =
      store.requests.map (fun r => r.id) := by
  cases h1 : env.loadQuestions with
  | some message => simp [regenerateTry, h1]
  | none =>
    cases h2 : env.loadScope with
    | some message => simp [regenerateTry, h1, h2]
    | none =>
      cases h3 : env.deleteAnswers with
      | some message => simp [regenerateTry, h1, h2, h3]
      | none =>
        cases h4 : env.generate with
        | some message =>
          simp only [regenerateTry, h1, h2, h3, h4]
          exact ⟨rfl, rfl⟩
        | none =>
          obtain ⟨batches, hchunk, _, _, _⟩ :=
            chunkArray_spec ((selectQuestions store projectId).mapIdx
              (fun i q => some (answerWorker rt env (deleteAnswers store projectId) projectId
                (resolveDocumentIds store.toDb projectId none) q i))) ANSWER_BATCH_SIZE
              (by decide)
          have hfr := insertBatches_frame env projectId 0 batches
            (deleteAnswers store projectId)
          unfold regenerateTry
          simp only [h1, h2, h3, h4]
          rw [mapWithConcurrency_eq_mapIdx _ _ _ (by decide)]
          simp only [hchunk]
          split
          · rename_i store2 heq
            rw [heq] at hfr
            obtain ⟨m1, m2⟩ := markReady_ids env.setReady env.reportSuccess env.readyAt
              env.finishedAt projectId requestId store2
            constructor
            · rw [m1, hfr.1]; rfl
            · rw [m2, hfr.2.1]; rfl
          · rw [hfr.1, hfr.2.1]
            exact ⟨rfl, rfl⟩

/-- C19, counterexample: loading, deleting, generating and inserting all succeed, the
two answers are in the store, and the `UPDATE` that sets the project to READY throws
"connection lost". The project keeps the status UPDATING and the job ends FAILED. -/
theorem generateAnswers_ready_write_throws :
    (regenerateBackground
      (Runtime.mk Real.sqrt asciiToLowerCase List.sum
        (fun a b => Real.sqrt ((List.zipWith (fun x y => (x - y) * (x - y)) a b).sum))
        (fun _ _ => true))
      (BulkRun.mk none none none none (fun _ => none) "syntax error" (fun i => toString i)
        (fun _ => 7) 8 9 (some "connection lost") none none)
      "p1" "r1"
      (generateAnswersAsync
      (Store.mk
        (Db.mk [ProjectRow.mk "p1" (js "Fund") "q0" "READY" "ALL_DOCS" ["d1"] 0 0]
          [DocumentChunkRow.mk "c1" "d1" (js "Revenue was $5M in 2023.") []])
        []
        [QuestionRow.mk "x2" "p1" (js "General") 2 (js "Who audits the fund?"),
          QuestionRow.mk "x1" "p1" (js "General") 1 (js "What was 2023 revenue?")]
        [AnswerRow.mk "a0" "p1" "x1" (js "old") true 0.9 [] (js "CONFIRMED") 0 0 none]
        [RequestRow.mk "r1" "RUNNING" none 0 0] [])
        5 "p1")).answers.map (fun a => (a.id, a.question_id)) = [("0", "x1"), ("1", "x2")] ∧
    (regenerateBackground
      (Runtime.mk Real.sqrt asciiToLowerCase List.sum
        (fun a b => Real.sqrt ((List.zipWith (fun x y => (x - y) * (x - y)) a b).sum))
        (fun _ _ => true))
      (BulkRun.mk none none none none (fun _ => none) "syntax error" (fun i => toString i)
        (fun _ => 7) 8 9 (some "connection lost") none none)
      "p1" "r1"
      (generateAnswersAsync
      (Store.mk
        (Db.mk [ProjectRow.mk "p1" (js "Fund") "q0" "READY" "ALL_DOCS" ["d1"] 0 0]
          [DocumentChunkRow.mk "c1" "d1" (js "Revenue was $5M in 2023.") []])
        []
        [QuestionRow.mk "x2" "p1" (js "General") 2 (js "Who audits the fund?"),
          QuestionRow.mk "x1" "p1" (js "General") 1 (js "What was 2023 revenue?")]
        [AnswerRow.mk "a0" "p1" "x1" (js "old") true 0.9 [] (js "CONFIRMED") 0 0 none]
        [RequestRow.mk "r1" "RUNNING" none 0 0] [])
        5 "p1")).projects =
      [ProjectRow.mk "p1" (js "Fund") "q0" "UPDATING" "ALL_DOCS" ["d1"] 0 5] ∧
    (regenerateBackground
      (Runtime.mk Real.sqrt asciiToLowerCase List.sum
        (fun a b => Real.sqrt ((List.zipWith (fun x y => (x - y) * (x - y)) a b).sum))
        (fun _ _ => true))
      (BulkRun.mk none none none none (fun _ => none) "syntax error" (fun i => toString i)
        (fun _ => 7) 8 9 (some "connection lost") none none)
      "p1" "r1"
      (generateAnswersAsync
      (Store.mk
        (Db.mk [ProjectRow.mk "p1" (js "Fund") "q0" "READY" "ALL_DOCS" ["d1"] 0 0]
          [DocumentChunkRow.mk "c1" "d1" (js "Revenue was $5M in 2023.") []])
        []
        [QuestionRow.mk "x2" "p1" (js "General") 2 (js "Who audits the fund?"),
          QuestionRow.mk "x1" "p1" (js "General") 1 (js "What was 2023 revenue?")]
        [AnswerRow.mk "a0" "p1" "x1" (js "old") true 0.9 [] (js "CONFIRMED") 0 0 none]
        [RequestRow.mk "r1" "RUNNING" none 0 0] [])
        5 "p1")).requests = [RequestRow.mk "r1" "FAILED" (some "connection lost") 0 9] := by
  refine ⟨by decide, by decide, by decide⟩

/-- C19, as the code has it: for the run started by `generateAnswersAsync`, in which
every store call may throw. When loading the questions and the scope, deleting,
generating, inserting, the `UPDATE` that sets READY and the write of the job all
succeed, the project ends READY and the job SUCCESS. When one of the calls up to the
last `INSERT` throws, or the `UPDATE` that sets READY does, the table of projects is as
the background run found it, the project has the status UPDATING, and the job ends
FAILED with the message of the error, provided the write of the job in the `catch`
block does not throw itself. When only the write of SUCCESS to the job throws, the
project is READY and the job ends FAILED with that message, under the same proviso.
When the write in the `catch` block throws, the jobs are as the `try` block left them.
The rows of both tables keep their ids. -/
theorem generateAnswers_job_outcome {α : Type} [LinearOrderedField α] (rt : Runtime α)
    (env : BulkRun) (projectId requestId : Id) (store : Store α) (now : Nat) :
    (env.loadQuestions = none → env.loadScope = none → env.deleteAnswers = none →
      env.generate = none → (∀ j, env.insertBatch j = none) →
      env.setReady = none → env.reportSuccess = none →
      (∀ p ∈ (regenerateBackground rt env projectId requestId
          (generateAnswersAsync store now projectId)).projects,
        p.id = projectId → p.status = PROJECT_STATUS.READY) ∧
      (∀ r ∈ (regenerateBackground rt env projectId requestId
          (generateAnswersAsync store now projectId)).requests,
        r.id = requestId → r.status = REQUEST_STATUS.SUCCESS ∧ r.message = none)) ∧
    (∀ message,
      (env.loadQuestions = some message ∨
        (env.loadQuestions = none ∧ env.loadScope = some message) ∨
        (env.loadQuestions = none ∧ env.loadScope = none ∧
          env.deleteAnswers = some message) ∨
        (env.loadQuestions = none ∧ env.loadScope = none ∧ env.deleteAnswers = none ∧
          env.generate = some message) ∨
        (env.loadQuestions = none ∧ env.loadScope = none ∧ env.deleteAnswers = none ∧
          env.generate = none ∧
          ∃ k, k * ANSWER_BATCH_SIZE <
              (selectQuestions (generateAnswersAsync store now projectId) projectId).length ∧
            env.insertBatch k = some message ∧ ∀ j, j < k → env.insertBatch j = none) ∨
        (env.loadQuestions = none ∧ env.loadScope = none ∧ env.deleteAnswers = none ∧
          env.generate = none ∧ (∀ j, env.insertBatch j = none) ∧
          env.setReady = some message)) →
      (regenerateBackground rt env projectId requestId
          (generateAnswersAsync store now projectId)).projects =
        (generateAnswersAsync store now projectId).projects ∧
      (∀ p ∈ (regenerateBackground rt env projectId requestId
          (generateAnswersAsync store now projectId)).projects,
        p.id = projectId → p.status = PROJECT_STATUS.UPDATING) ∧
      (env.reportFailure = none →
        ∀ r ∈ (regenerateBackground rt env projectId requestId
            (generateAnswersAsync store now projectId)).requests,
          r.id = requestId → r.status = REQUEST_STATUS.FAILED ∧ r.message = some message) ∧
      (env.reportFailure ≠ none →
        (regenerateBackground rt env projectId requestId
            (generateAnswersAsync store now projectId)).requests = store.requests)) ∧
    (∀ message,
      env.loadQuestions = none → env.loadScope = none → env.deleteAnswers = none →
      env.generate = none → (∀ j, env.insertBatch j = none) →
      env.setReady = none → env.reportSuccess = some message →
      (∀ p ∈ (regenerateBackground rt env projectId requestId
          (generateAnswersAsync store now projectId)).projects,
        p.id = projectId → p.status = PROJECT_STATUS.READY) ∧
      (env.reportFailure = none →
        ∀ r ∈ (regenerateBackground rt env projectId requestId
            (generateAnswersAsync store now projectId)).requests,
          r.id = requestId → r.status = REQUEST_STATUS.FAILED ∧ r.message = some message) ∧
      (env.reportFailure ≠ none →
        (regenerateBackground rt env projectId requestId
            (generateAnswersAsync store now projectId)).requests = store.requests)) ∧
    (regenerateBackground rt env projectId requestId
        (generateAnswersAsync store now projectId)).projects.map (fun p => p.id) =
      store.projects.map (fun p => p.id) ∧
    (regenerateBackground rt env projectId requestId
        (generateAnswersAsync store now projectId)).requests.map (fun r => r.id) =
      store.requests.map (fun r => r.id) := by
  have hsync := setProjectStatus_spec store PROJECT_STATUS.UPDATING now projectId
  have hcatch : ∀ (message : String) (store' : Store α),
      regenerateTry rt env projectId requestId (generateAnswersAsync store now projectId) =
        (Settled.rejected message, store') →
      regenerateBackground rt env projectId requestId
          (generateAnswersAsync store now projectId) =
        markFailed env.reportFailure env.finishedAt requestId message store' := by
    intro message store' h
    unfold regenerateBackground
    rw [h]
  have hjob : ∀ (message : String) (store' : Store α),
      store'.requests = store.requests →
      (env.reportFailure = none →
        ∀ r ∈ (markFailed env.reportFailure env.finishedAt requestId message store').requests,
          r.id = requestId → r.status = REQUEST_STATUS.FAILED ∧ r.message = some message) ∧
      (env.reportFailure ≠ none →
        (markFailed env.reportFailure env.finishedAt requestId message store').requests =
          store.requests) := by
    intro message store' hreq
    constructor
    · intro h0
      rw [h0]
      exact markFailed_spec env.finishedAt requestId message store'
    · intro h0
      rcases hf : env.reportFailure with _ | m
      · exact absurd hf h0
      · exact hreq
  refine ⟨?_, ?_, ?_, ?_⟩
  · intro h1 h2 h3 h4 h5 h6 h7
    obtain ⟨rows, htry, _⟩ := regenerateTry_ok rt env projectId requestId
      (generateAnswersAsync store now projectId) h1 h2 h3 h4 h5 h6 h7
    unfold regenerateBackground
    rw [htry]
    simp only
    constructor
    · intro p hp hid
      rw [(updateRequest_spec _ requestId REQUEST_STATUS.SUCCESS none env.finishedAt).2.2.1]
        at hp
      exact (setProjectStatus_spec _ PROJECT_STATUS.READY env.readyAt projectId).1 p hp hid
    · exact (updateRequest_spec _ requestId REQUEST_STATUS.SUCCESS none env.finishedAt).1
  · intro message hfault
    have hshape : ∃ store', regenerateTry rt env projectId requestId
          (generateAnswersAsync store now projectId) = (Settled.rejected message, store') ∧
        store'.projects = (generateAnswersAsync store now projectId).projects ∧
        store'.requests = store.requests := by
      rcases hfault with h | h | h | h | h | ⟨h1, h2, h3, h4, h5, h6⟩
      · obtain ⟨hrej, hp, hr⟩ := regenerateTry_rejected rt env projectId requestId
          (generateAnswersAsync store now projectId) message (Or.inl h)
        exact ⟨_, Prod.ext hrej rfl, hp, hr⟩
      · obtain ⟨hrej, hp, hr⟩ := regenerateTry_rejected rt env projectId requestId
          (generateAnswersAsync store now projectId) message (Or.inr (Or.inl h))
        exact ⟨_, Prod.ext hrej rfl, hp, hr⟩
      · obtain ⟨hrej, hp, hr⟩ := regenerateTry_rejected rt env projectId requestId
          (generateAnswersAsync store now projectId) message (Or.inr (Or.inr (Or.inl h)))
        exact ⟨_, Prod.ext hrej rfl, hp, hr⟩
      · obtain ⟨hrej, hp, hr⟩ := regenerateTry_rejected rt env projectId requestId
          (generateAnswersAsync store now projectId) message
          (Or.inr (Or.inr (Or.inr (Or.inl h))))
        exact ⟨_, Prod.ext hrej rfl, hp, hr⟩
      · obtain ⟨hrej, hp, hr⟩ := regenerateTry_rejected rt env projectId requestId
          (generateAnswersAsync store now projectId) message
          (Or.inr (Or.inr (Or.inr (Or.inr h))))
        exact ⟨_, Prod.ext hrej rfl, hp, hr⟩
      · obtain ⟨rows, htry, _⟩ := regenerateTry_inserted rt env projectId requestId
          (generateAnswersAsync store now projectId) h1 h2 h3 h4 h5
        rw [htry, h6]
        exact ⟨_, rfl, rfl, rfl⟩
    obtain ⟨store', htry, hp, hr⟩ := hshape
    rw [hcatch message store' htry]
    obtain ⟨_, _, _, f4⟩ :=
      markFailed_frame env.reportFailure env.finishedAt requestId message store'
    refine ⟨by rw [f4, hp], ?_, (hjob message store' hr).1, (hjob message store' hr).2⟩
    intro p hpm hid
    rw [f4, hp] at hpm
    exact hsync.1 p hpm hid
  · intro message h1 h2 h3 h4 h5 h6 h7
    obtain ⟨rows, htry, _⟩ := regenerateTry_inserted rt env projectId requestId
      (generateAnswersAsync store now projectId) h1 h2 h3 h4 h5
    rw [h6, h7] at htry
    have htry' : regenerateTry rt env projectId requestId
        (generateAnswersAsync store now projectId) =
        (Settled.rejected message,
          setProjectStatus
            { deleteAnswers (generateAnswersAsync store now projectId) projectId with
              answers := (deleteAnswers (generateAnswersAsync store now projectId)
                projectId).answers ++ rows }
            PROJECT_STATUS.READY env.readyAt projectId) := htry
    have hshape : ∃ store', regenerateTry rt env projectId requestId
          (generateAnswersAsync store now projectId) = (Settled.rejected message, store') ∧
        store'.requests = store.requests ∧
        ∀ p ∈ store'.projects, p.id = projectId → p.status = PROJECT_STATUS.READY :=
      ⟨_, htry', rfl,
        (setProjectStatus_spec _ PROJECT_STATUS.READY env.readyAt projectId).1⟩
    obtain ⟨store', hrej, hr, hp⟩ := hshape
    rw [hcatch message store' hrej]
    obtain ⟨_, _, _, f4⟩ :=
      markFailed_frame env.reportFailure env.finishedAt requestId message store'
    refine ⟨?_, (hjob message store' hr).1, (hjob message store' hr).2⟩
    intro p hpm hid
    rw [f4] at hpm
    exact hp p hpm hid
  · have hids := regenerateTry_ids rt env projectId requestId
      (generateAnswersAsync store now projectId)
    have h1 : (generateAnswersAsync store now projectId).projects.map (fun p => p.id) =
        store.projects.map (fun p => p.id) := hsync.2.1
    have h2 : (generateAnswersAsync store now projectId).requests = store.requests := rfl
    obtain ⟨_, _, k3⟩ := regenerateBackground_keeps rt env projectId requestId
      (generateAnswersAsync store now projectId)
    refine ⟨by rw [k3]; exact hids.1.trans h1, ?_⟩
    unfold regenerateBackground
    cases hpair : regenerateTry rt env projectId requestId
        (generateAnswersAsync store now projectId) with
    | mk ended store' =>
      rw [hpair] at hids
      simp only at hids
      cases ended with
      | fulfilled => exact by rw [hids.2, h2]
      | never => exact by rw [hids.2, h2]
      | rejected message =>
        simp only
        rw [markFailed_ids, hids.2, h2]

theorem generateAnswers_job_outcome_witness :
    (regenerateBackground
      (Runtime.mk Real.sqrt asciiToLowerCase List.sum
        (fun a b => Real.sqrt ((List.zipWith (fun x y => (x - y) * (x - y)) a b).sum))
        (fun _ _ => true))
      (BulkRun.mk none none none none (fun k => if k = 0 then some "connection lost" else none)
        "syntax error" (fun i => toString i) (fun _ => 7) 8 9 none none none)
      "p1" "r1"
      (generateAnswersAsync
      (Store.mk
        (Db.mk [ProjectRow.mk "p1" (js "Fund") "q0" "READY" "ALL_DOCS" ["d1"] 0 0]
          [DocumentChunkRow.mk "c1" "d1" (js "Revenue was $5M in 2023.") []])
        []
        [QuestionRow.mk "x2" "p1" (js "General") 2 (js "Who audits the fund?"),
          QuestionRow.mk "x1" "p1" (js "General") 1 (js "What was 2023 revenue?"),
          QuestionRow.mk "y1" "p2" (js "General") 1 (js "Other project?")]
        [AnswerRow.mk "a0" "p1" "x1" (js "old") true 0.9 [] (js "CONFIRMED") 0 0 none,
          AnswerRow.mk "b0" "p2" "y1" (js "kept") true 0.9 [] (js "DRAFT") 0 0 none]
        [RequestRow.mk "r1" "RUNNING" none 0 0] [])
        5 "p1")).requests = [RequestRow.mk "r1" "FAILED" (some "connection lost") 0 9] ∧
    (regenerateBackground
      (Runtime.mk Real.sqrt asciiToLowerCase List.sum
        (fun a b => Real.sqrt ((List.zipWith (fun x y => (x - y) * (x - y)) a b).sum))
        (fun _ _ => true))
      (BulkRun.mk none none none none (fun k => if k = 0 then some "connection lost" else none)
        "syntax error" (fun i => toString i) (fun _ => 7) 8 9 none none none)
      "p1" "r1"
      (generateAnswersAsync
      (Store.mk
        (Db.mk [ProjectRow.mk "p1" (js "Fund") "q0" "READY" "ALL_DOCS" ["d1"] 0 0]
          [DocumentChunkRow.mk "c1" "d1" (js "Revenue was $5M in 2023.") []])
        []
        [QuestionRow.mk "x2" "p1" (js "General") 2 (js "Who audits the fund?"),
          QuestionRow.mk "x1" "p1" (js "General") 1 (js "What was 2023 revenue?"),
          QuestionRow.mk "y1" "p2" (js "General") 1 (js "Other project?")]
        [AnswerRow.mk "a0" "p1" "x1" (js "old") true 0.9 [] (js "CONFIRMED") 0 0 none,
          AnswerRow.mk "b0" "p2" "y1" (js "kept") true 0.9 [] (js "DRAFT") 0 0 none]
        [RequestRow.mk "r1" "RUNNING" none 0 0] [])
        5 "p1")).projects =
      [ProjectRow.mk "p1" (js "Fund") "q0" "UPDATING" "ALL_DOCS" ["d1"] 0 5] := by
  have h := (generateAnswers_job_outcome
      (Runtime.mk Real.sqrt asciiToLowerCase List.sum
        (fun a b => Real.sqrt ((List.zipWith (fun x y => (x - y) * (x - y)) a b).sum))
        (fun _ _ => true))
      (BulkRun.mk none none none none (fun k => if k = 0 then some "connection lost" else none)
        "syntax error" (fun i => toString i) (fun _ => 7) 8 9 none none none)
      "p1" "r1"
      (Store.mk
        (Db.mk [ProjectRow.mk "p1" (js "Fund") "q0" "READY" "ALL_DOCS" ["d1"] 0 0]
          [DocumentChunkRow.mk "c1" "d1" (js "Revenue was $5M in 2023.") []])
        []
        [QuestionRow.mk "x2" "p1" (js "General") 2 (js "Who audits the fund?"),
          QuestionRow.mk "x1" "p1" (js "General") 1 (js "What was 2023 revenue?"),
          QuestionRow.mk "y1" "p2" (js "General") 1 (js "Other project?")]
        [AnswerRow.mk "a0" "p1" "x1" (js "old") true 0.9 [] (js "CONFIRMED") 0 0 none,
          AnswerRow.mk "b0" "p2" "y1" (js "kept") true 0.9 [] (js "DRAFT") 0 0 none]
        [RequestRow.mk "r1" "RUNNING" none 0 0] [])
      5).2.1 "connection lost"
      (Or.inr (Or.inr (Or.inr (Or.inr (Or.inl ⟨rfl, rfl, rfl, rfl, 0, by decide, rfl,
        fun j hj => absurd hj (Nat.not_lt_zero j)⟩)))))
  refine ⟨?_, h.1.trans (by decide)⟩
  decide

/-! ## The handler of `POST /update-answer` -/

theorem validateUpdateAnswer_rejects {α : Type} (body : UpdateAnswerBody)
    (h : body.answer_id = none ∨ body.answer_id = some "" ∨ body.status = none ∨
      body.status = some [] ∨ body.manual_answer = ManualAnswerField.other ∨
      (∃ s, body.manual_answer = ManualAnswerField.str s ∧
        (trim s = [] ∨ 20000 < (trim s).length))) :
    ∃ rejection : Response (AnswerRow α),
      validateUpdateAnswer body = some rejection ∧ rejection.code = 400 := by
  unfold validateUpdateAnswer
  by_cases h0 : body.answer_id = none ∨ body.answer_id = some "" ∨ body.status = none ∨
      body.status = some []
  · rw [if_pos h0]
    exact ⟨_, rfl, rfl⟩
  · rw [if_neg h0]
    have h' : body.manual_answer = ManualAnswerField.other ∨
        (∃ s, body.manual_answer = ManualAnswerField.str s ∧
          (trim s = [] ∨ 20000 < (trim s).length)) := by
      rcases h with h | h | h | h | h | h
      · exact absurd (Or.inl h) h0
      · exact absurd (Or.inr (Or.inl h)) h0
      · exact absurd (Or.inr (Or.inr (Or.inl h))) h0
      · exact absurd (Or.inr (Or.inr (Or.inr h))) h0
      · exact Or.inl h
      · exact Or.inr h
    rcases h' with h | ⟨s, hs, hbad⟩
    · rw [h]
      exact ⟨_, rfl, rfl⟩
    · rw [hs]
      simp only [trimManualAnswer]
      by_cases hl : (trim s).length = 0
      · rw [if_pos hl]
        exact ⟨_, rfl, rfl⟩
      · rw [if_neg hl]
        have hlong : (trim s).length > 20000 := by
          rcases hbad with hb | hb
          · rw [hb] at hl
            exact absurd rfl hl
          · exact hb
        rw [if_pos hlong]
        exact ⟨_, rfl, rfl⟩

theorem validateUpdateAnswer_accepts {α : Type} (body : UpdateAnswerBody) (id : Id)
    (S : JSString) (hid : body.answer_id = some id) (hne : id ≠ "")
    (hstatus : body.status = some S) (hS : S ≠ [])
    (hmanual : body.manual_answer = ManualAnswerField.absent ∨
      body.manual_answer = ManualAnswerField.null ∨
      ∃ s, body.manual_answer = ManualAnswerField.str s ∧ trim s ≠ [] ∧
        (trim s).length ≤ 20000) :
    @validateUpdateAnswer α body = none := by
  unfold validateUpdateAnswer
  have h0 : ¬(body.answer_id = none ∨ body.answer_id = some "" ∨ body.status = none ∨
      body.status = some []) := by
    rw [hid, hstatus]
    simp [hne, hS]
  rw [if_neg h0]
  rcases hmanual with h | h | ⟨s, h, hs, hl⟩
  · rw [h]; rfl
  · rw [h]; rfl
  · rw [h]
    simp only [trimManualAnswer]
    have hl0 : ¬(trim s).length = 0 := fun h => hs (List.length_eq_zero.mp h)
    rw [if_neg hl0, if_neg (by omega)]

theorem updateAnswerRoute_of_rejected {α : Type} (uuid_in : String → Except String Id)
    (store : Store α) (now : Nat)
    (body : UpdateAnswerBody) (rejection : Response (AnswerRow α))
    (h : validateUpdateAnswer body = some rejection) :
    updateAnswerRoute uuid_in store now body = (Except.ok rejection, store) := by
  simp [updateAnswerRoute, h]

/-- A request that passes the tests with an `answer_id` that is no text for the type
`uuid`: the handler throws the error of the store and writes nothing. -/
theorem updateAnswerRoute_of_invalid_uuid {α : Type} (uuid_in : String → Except String Id)
    (store : Store α) (now : Nat) (body : UpdateAnswerBody) (message : String)
    (h : @validateUpdateAnswer α body = none)
    (hu : uuid_in (body.answer_id.getD "") = Except.error message) :
    updateAnswerRoute uuid_in store now body = (Except.error message, store) := by
  unfold updateAnswerRoute
  rw [h]
  simp only
  rw [hu]

theorem map_if_eq_self {β : Type} (l : List β) (p : β → Prop) [DecidablePred p] (f : β → β)
    (h : ∀ a ∈ l, ¬p a) : l.map (fun a => if p a then f a else a) = l := by
  induction l with
  | nil => rfl
  | cons a l ih =>
    rw [List.map_cons, if_neg (h a (List.mem_cons_self a l)),
      ih (fun b hb => h b (List.mem_cons_of_mem a hb))]

theorem updateAnswerRoute_of_valid {α : Type} (uuid_in : String → Except String Id)
    (store : Store α) (now : Nat)
    (body : UpdateAnswerBody) (id : Id) (h : @validateUpdateAnswer α body = none)
    (hu : uuid_in (body.answer_id.getD "") = Except.ok id) :
    (updateAnswerRoute uuid_in store now body).2 =
      { store with
        answers := store.answers.map
          (fun a => if a.id = id then
            updateAnswerRow (body.status.getD []) (trimManualAnswer body.manual_answer) now a
          else a) } ∧
    ((∃ a ∈ store.answers, a.id = id) →
      ∃ row, (updateAnswerRoute uuid_in store now body).1 =
        Except.ok (Response.mk 200 none (some row))) ∧
    ((∀ a ∈ store.answers, a.id ≠ id) →
      (updateAnswerRoute uuid_in store now body).1 =
        Except.ok (Response.mk 404 (some "Answer not found") none) ∧
      (updateAnswerRoute uuid_in store now body).2 = store) := by
  unfold updateAnswerRoute
  rw [h]
  simp only
  rw [hu]
  simp only
  split
  next hrows =>
    refine ⟨rfl, ?_, ?_⟩
    · rintro ⟨a, ha, hid⟩
      exfalso
      have hmem : a ∈ store.answers.filter (fun a => a.id = id) :=
        List.mem_filter.mpr ⟨ha, by simpa using hid⟩
      rw [List.map_eq_nil_iff] at hrows
      rw [hrows] at hmem
      exact List.not_mem_nil _ hmem
    · intro hnone
      refine ⟨rfl, ?_⟩
      simp only
      rw [map_if_eq_self store.answers (fun a => a.id = id) _ hnone]
  next row rest hrows =>
    refine ⟨rfl, fun _ => ⟨row, rfl⟩, ?_⟩
    intro hnone
    exfalso
    have hnil : store.answers.filter (fun a => a.id = id) = [] := by
      rw [List.filter_eq_nil_iff]
      intro a ha
      simpa using hnone a ha
    rw [hnil] at hrows
    exact List.noConfusion hrows

/-- What the handler sends for a request that reaches the `UPDATE` with an
`answer_id` the store accepts: 404 or 200. -/
theorem updateAnswerRoute_sent {α : Type} (uuid_in : String → Except String Id)
    (store : Store α) (now : Nat) (body : UpdateAnswerBody) (id : Id)
    (h : @validateUpdateAnswer α body = none)
    (hu : uuid_in (body.answer_id.getD "") = Except.ok id) :
    (updateAnswerRoute uuid_in store now body).1 =
        Except.ok (Response.mk 404 (some "Answer not found") none) ∨
    ∃ row, (updateAnswerRoute uuid_in store now body).1 =
        Except.ok (Response.mk 200 none (some row)) := by
  have hv := updateAnswerRoute_of_valid uuid_in store now body id h hu
  by_cases hex : ∃ a ∈ store.answers, a.id = id
  · exact Or.inr (hv.2.1 hex)
  · left
    apply (hv.2.2 _).1
    intro a ha haid
    exact hex ⟨a, ha, haid⟩

/-- The store the handler leaves: the one it found, or the one the `UPDATE` for the
value of `answer_id` gives. -/
theorem updateAnswerRoute_store {α : Type} (uuid_in : String → Except String Id)
    (store : Store α) (now : Nat) (body : UpdateAnswerBody) :
    (updateAnswerRoute uuid_in store now body).2 = store ∨
    ∃ id, @validateUpdateAnswer α body = none ∧
      (updateAnswerRoute uuid_in store now body).2 =
        { store with
          answers := store.answers.map
            (fun a => if a.id = id then
              updateAnswerRow (body.status.getD []) (trimManualAnswer body.manual_answer)
                now a
            else a) } := by
  cases hv : @validateUpdateAnswer α body with
  | some rejection =>
    rw [updateAnswerRoute_of_rejected uuid_in store now body rejection hv]
    exact Or.inl rfl
  | none =>
    cases hu : uuid_in (body.answer_id.getD "") with
    | error message =>
      rw [updateAnswerRoute_of_invalid_uuid uuid_in store now body message hv hu]
      exact Or.inl rfl
    | ok id =>
      exact Or.inr ⟨id, rfl, (updateAnswerRoute_of_valid uuid_in store now body id hv hu).1⟩

/-! ## Rejected requests and job records -/

/-- C20, counterexample: `POST /index-document-async` without a file, on an empty store,
answers 400 and leaves a job record, with the status FAILED. -/
theorem indexDocumentRoute_rejection_leaves_job :
    (indexDocumentRoute (Store.mk (Db.mk [] []) [] [] [] [] [] : Store ℚ) "r1" "d1" 1 2 3
      none).1.code = 400 ∧
    (indexDocumentRoute (Store.mk (Db.mk [] []) [] [] [] [] [] : Store ℚ) "r1" "d1" 1 2 3
      none).2.requests = [RequestRow.mk "r1" "FAILED" (some "No file uploaded") 1 3] := by
  constructor <;> decide

/-- C20, as the code has it: a request rejected for its input gets the client error 400
at once. `POST /update-answer` rejects a body without `answer_id` or `status`, or with
a `manual_answer` that is neither a string nor `null`, is empty once trimmed, or is
longer than 20000, and leaves the store as it is: no job record is created.
`POST /index-document-async` without a file has created a job record before the
test; it leaves it with the status FAILED and the message "No file uploaded", and
writes nothing else. -/
theorem rejected_request_job_record {α : Type} (store : Store α) :
    (∀ (now : Nat) (body : UpdateAnswerBody),
      (body.answer_id = none ∨ body.answer_id = some "" ∨ body.status = none ∨
        body.status = some [] ∨ body.manual_answer = ManualAnswerField.other ∨
        (∃ s, body.manual_answer = ManualAnswerField.str s ∧
          (trim s = [] ∨ 20000 < (trim s).length))) →
      ∀ uuid_in : String → Except String Id,
        (∃ rejection, (updateAnswerRoute uuid_in store now body).1 = Except.ok rejection ∧
          rejection.code = 400) ∧
        (updateAnswerRoute uuid_in store now body).2 = store) ∧
    (∀ (now : Nat) (body : UpdateAnswerBody) (uuid_in : String → Except String Id)
        (rejection : Response (AnswerRow α)),
      (updateAnswerRoute uuid_in store now body).1 = Except.ok rejection →
      rejection.code = 400 →
        (updateAnswerRoute uuid_in store now body).2 = store) ∧
    (∀ (requestId documentId : Id) (now nowDocument nowFailed : Nat),
      (indexDocumentRoute store requestId documentId now nowDocument nowFailed none).1.code =
        400 ∧
      (∃ job ∈ (indexDocumentRoute store requestId documentId now nowDocument nowFailed
          none).2.requests,
        job = RequestRow.mk requestId "FAILED" (some "No file uploaded") now nowFailed) ∧
      (indexDocumentRoute store requestId documentId now nowDocument nowFailed
          none).2.requests.length = store.requests.length + 1 ∧
      (indexDocumentRoute store requestId documentId now nowDocument nowFailed
          none).2.documents = store.documents ∧
      (indexDocumentRoute store requestId documentId now nowDocument nowFailed
          none).2.answers = store.answers ∧
      (indexDocumentRoute store requestId documentId now nowDocument nowFailed
          none).2.projects = store.projects) := by
  refine ⟨?_, ?_, ?_⟩
  · intro now body h uuid_in
    obtain ⟨rejection, hr, hc⟩ := @validateUpdateAnswer_rejects α body h
    rw [updateAnswerRoute_of_rejected uuid_in store now body rejection hr]
    exact ⟨⟨rejection, rfl, hc⟩, rfl⟩
  · intro now body uuid_in rejection hsent hcode
    cases hv : @validateUpdateAnswer α body with
    | some rejection2 =>
      rw [updateAnswerRoute_of_rejected uuid_in store now body rejection2 hv]
    | none =>
      cases hu : uuid_in (body.answer_id.getD "") with
      | error message =>
        rw [updateAnswerRoute_of_invalid_uuid uuid_in store now body message hv hu]
      | ok id =>
        exfalso
        rcases updateAnswerRoute_sent uuid_in store now body id hv hu with h | ⟨row, h⟩
        · rw [h] at hsent
          rw [← Except.ok.inj hsent] at hcode
          cases hcode
        · rw [h] at hsent
          rw [← Except.ok.inj hsent] at hcode
          cases hcode
  · intro requestId documentId now nowDocument nowFailed
    refine ⟨rfl, ?_, ?_, rfl, rfl, rfl⟩
    · refine ⟨_, ?_, rfl⟩
      simp [indexDocumentRoute, updateRequest, createRequest]
    · simp [indexDocumentRoute, updateRequest, createRequest]

theorem rejected_request_job_record_witness :
    (∃ rejection, (updateAnswerRoute uuidOfText (Store.mk (Db.mk [] []) [] []
        [AnswerRow.mk "a1" "p1" "x1" (js "Revenue") true 0.9 [] (js "DRAFT") 0 0 none] [] []
        : Store ℚ) 4
      (UpdateAnswerBody.mk (some "a1") (some (js "CONFIRMED"))
        (ManualAnswerField.str (js "  ")))).1 = Except.ok rejection ∧
      rejection.code = 400) ∧
    (updateAnswerRoute uuidOfText (Store.mk (Db.mk [] []) [] []
        [AnswerRow.mk "a1" "p1" "x1" (js "Revenue") true 0.9 [] (js "DRAFT") 0 0 none] [] []
        : Store ℚ) 4
      (UpdateAnswerBody.mk (some "a1") (some (js "CONFIRMED"))
        (ManualAnswerField.str (js "  ")))).2.requests = [] :=
  ⟨((rejected_request_job_record _).1 4 _
      (Or.inr (Or.inr (Or.inr (Or.inr (Or.inr ⟨js "  ", rfl, Or.inl (by decide)⟩)))))
      uuidOfText).1,
    by rw [((rejected_request_job_record _).1 4 _
      (Or.inr (Or.inr (Or.inr (Or.inr (Or.inr ⟨js "  ", rfl, Or.inl (by decide)⟩)))))
      uuidOfText).2]⟩

/-! ## The embedder as a bag of words -/

theorem bucket_fold_getElem? {α : Type} [LinearOrderedField α] (rt : Runtime α)
    (tokens : List JSString) (v : List α) (j : Nat) :
    (tokens.foldl
      (fun vector token => vector.modify (fun value => value + 1)
        (hashToken rt token % EMBEDDING_DIM)) v)[j]? =
      (v[j]?).map (fun value => value +
        ((tokens.countP (fun token => hashToken rt token % EMBEDDING_DIM = j) : Nat) : α)) := by
  induction tokens generalizing v with
  | nil => rcases h : v[j]? with _ | x <;> simp [h]
  | cons t ts ih =>
    rw [List.foldl_cons, ih, List.getElem?_modify, List.countP_cons]
    rcases hv : v[j]? with _ | x
    · simp
    · by_cases h : hashToken rt t % EMBEDDING_DIM = j
      · simp [h]; ring
      · simp [h]

theorem bucketCounts_eq_counts {α : Type} [LinearOrderedField α] (rt : Runtime α)
    (tokens : List JSString) :
    (bucketCounts rt tokens : List α) =
      (List.range 128).map (fun j =>
        ((tokens.countP (fun token => hashToken rt token % 128 = j) : Nat) : α)) := by
  apply List.ext_getElem?
  intro j
  unfold bucketCounts
  rw [bucket_fold_getElem?, List.getElem?_map, List.getElem?_replicate]
  by_cases h : j < 128
  · simp [EMBEDDING_DIM, h, List.getElem?_range h]
  · have h2 : (List.range 128)[j]? = none := by
      apply List.getElem?_eq_none
      simpa using h
    simp [EMBEDDING_DIM, h, h2]

theorem bucketCounts_perm {α : Type} [LinearOrderedField α] (rt : Runtime α)
    (s t : List JSString) (h : s.Perm t) :
    (bucketCounts rt s : List α) = bucketCounts rt t := by
  rw [bucketCounts_eq_counts, bucketCounts_eq_counts]
  apply List.map_congr_left
  intro j _
  rw [h.countP_eq]

/-- C29: `embedText` depends only on the multiset of the lower-cased tokens between
white space: two texts whose token lists are permutations of each other get the same
vector. Before the division by the norm the vector has 128 entries, entry `j` is the
number of tokens whose hash is congruent to `j` modulo 128, a non-negative integer,
and the entries add up to the number of tokens. -/
theorem embedText_bag_of_words {α : Type} [LinearOrderedField α] (rt : Runtime α) :
    (∀ a b : JSString, (embedTokens rt a).Perm (embedTokens rt b) →
      embedText rt a = embedText rt b) ∧
    (∀ tokens : List JSString,
      (bucketCounts rt tokens : List α) =
        (List.range 128).map (fun j =>
          ((tokens.countP (fun token => hashToken rt token % 128 = j) : Nat) : α)) ∧
      (∀ x ∈ (bucketCounts rt tokens : List α), ∃ n : Nat, x = (n : α) ∧ 0 ≤ x) ∧
      (bucketCounts rt tokens : List α).sum = tokens.length) := by
  refine ⟨?_, ?_⟩
  · intro a b h
    unfold embedText
    rw [bucketCounts_perm rt _ _ h]
  · intro tokens
    refine ⟨bucketCounts_eq_counts rt tokens, ?_, (bucketCounts_nonneg_sum rt tokens).2⟩
    intro x hx
    rw [bucketCounts_eq_counts] at hx
    obtain ⟨j, _, rfl⟩ := List.mem_map.mp hx
    exact ⟨_, rfl, Nat.cast_nonneg _⟩

theorem embedText_bag_of_words_witness :
    embedText
      (Runtime.mk Real.sqrt asciiToLowerCase List.sum
        (fun a b => Real.sqrt ((List.zipWith (fun x y => (x - y) * (x - y)) a b).sum))
        (fun _ _ => true))
      (js "Net Revenue  2023") =
    embedText
      (Runtime.mk Real.sqrt asciiToLowerCase List.sum
        (fun a b => Real.sqrt ((List.zipWith (fun x y => (x - y) * (x - y)) a b).sum))
        (fun _ _ => true))
      (js "2023\nnet\tREVENUE ") :=
  (embedText_bag_of_words
    (Runtime.mk Real.sqrt asciiToLowerCase List.sum
      (fun a b => Real.sqrt ((List.zipWith (fun x y => (x - y) * (x - y)) a b).sum))
        (fun _ _ => true))).1
    (js "Net Revenue  2023") (js "2023\nnet\tREVENUE ") (by decide)

/-! ## Questionnaire parsing -/

theorem normalizeLines_mem (text line : JSString) (h : line ∈ normalizeLines text) :
    line ≠ [] ∧ trim line = line := by
  unfold normalizeLines at h
  obtain ⟨hmem, hne⟩ := List.mem_filter.mp h
  obtain ⟨raw, _, rfl⟩ := List.mem_map.mp hmem
  exact ⟨by simpa using hne, trim_eq_self (trim_noEdgeSpace raw)⟩

theorem sectionBefore_append (toUpperCase : JSString → JSString) (lines : List JSString)
    (a : JSString) (i : Nat) (hi : i ≤ lines.length) :
    sectionBefore toUpperCase (lines ++ [a]) i = sectionBefore toUpperCase lines i := by
  unfold sectionBefore
  rw [List.take_append_of_le_length hi]

theorem questionsOfLines_append (toUpperCase : JSString → JSString) (lines : List JSString)
    (a : JSString) :
    questionsOfLines toUpperCase (lines ++ [a]) =
      questionsOfLines toUpperCase lines ++
        (if !isSectionLine toUpperCase a && isQuestionLine a then
          [ParsedQuestion.mk
            (((lines.filter (isSectionLine toUpperCase)).getLast?).getD (js "General")) a]
        else []) := by
  unfold questionsOfLines
  rw [List.length_append, List.length_singleton, List.range_succ, List.filterMap_append]
  congr 1
  · apply List.filterMap_congr
    intro i hi
    have hlt : i < lines.length := List.mem_range.mp hi
    rw [List.getElem?_append_left hlt, sectionBefore_append toUpperCase lines a i (le_of_lt hlt)]
  · have hget : (lines ++ [a])[lines.length]? = some a := by simp
    have hsec : sectionBefore toUpperCase (lines ++ [a]) lines.length =
        ((lines.filter (isSectionLine toUpperCase)).getLast?).getD (js "General") := by
      unfold sectionBefore
      rw [List.take_left]
    by_cases h : (!isSectionLine toUpperCase a && isQuestionLine a) = true
    · simp only [List.filterMap_cons, List.filterMap_nil, hget, hsec, h, if_true]
    · have h' : (!isSectionLine toUpperCase a && isQuestionLine a) = false := by simpa using h
      rw [if_neg h]
      simp only [List.filterMap_cons, List.filterMap_nil, hget, h']
      rfl

theorem parseLine_fold (toUpperCase : JSString → JSString) (lines : List JSString) :
    lines.foldl (parseLine toUpperCase) (Questionnaire.mk (js "General") [] []) =
      Questionnaire.mk
        (((lines.filter (isSectionLine toUpperCase)).getLast?).getD (js "General"))
        (lines.filter (isSectionLine toUpperCase))
        (questionsOfLines toUpperCase lines) := by
  induction lines using List.reverseRecOn with
  | nil => rfl
  | append_singleton l a ih =>
    rw [List.foldl_append, List.foldl_cons, List.foldl_nil, ih, questionsOfLines_append,
      List.filter_append]
    unfold parseLine
    by_cases hs : isSectionLine toUpperCase a = true
    · simp [hs, List.filter_cons]
    · have hs' : isSectionLine toUpperCase a = false := by simpa using hs
      by_cases hq : isQuestionLine a = true
      · simp [hs', hq, List.filter_cons]
      · have hq' : isQuestionLine a = false := by simpa using hq
        simp [hs', hq', List.filter_cons]

theorem questionsOfLines_text (toUpperCase : JSString → JSString) (lines : List JSString) :
    (questionsOfLines toUpperCase lines).map (fun q => q.text) =
      lines.filter (fun line => !isSectionLine toUpperCase line && isQuestionLine line) := by
  induction lines using List.reverseRecOn with
  | nil => rfl
  | append_singleton l a ih =>
    rw [questionsOfLines_append, List.map_append, ih, List.filter_append]
    congr 1
    by_cases h : (!isSectionLine toUpperCase a && isQuestionLine a) = true
    · simp [h, List.filter_cons]
    · have h' : (!isSectionLine toUpperCase a && isQuestionLine a) = false := by simpa using h
      rw [if_neg h]
      simp [List.filter_cons, h']

theorem isQuestionLine_iff (line : JSString) :
    isQuestionLine line = true ↔
      line.getLast? = some 63 ∨ ∃ d rest, line = d :: rest ∧ 48 ≤ d ∧ d ≤ 57 := by
  unfold isQuestionLine
  cases line with
  | nil => simp
  | cons d rest =>
    simp only [Bool.or_eq_true, decide_eq_true_eq, List.head?_cons, Option.any_some,
      Bool.and_eq_true]
    constructor
    · rintro (h | h)
      · exact Or.inl h
      · exact Or.inr ⟨d, rest, rfl, h⟩
    · rintro (h | ⟨d', rest', heq, h⟩)
      · exact Or.inl h
      · obtain ⟨rfl, _⟩ := List.cons.inj heq
        exact Or.inr h

/-- C30: the lines `parseQuestionnaire` goes through are trimmed and not empty, and
each is classified once. A line equal to its upper-casing with at most six pieces
between single spaces is a section line: it goes to `sections` and is no question,
whatever its end or start. Another line is a question exactly when it ends with `?`
or starts with a digit. The questions come in the order of the input, each with the
last section line before it, or `"General"` when there is none. With ASCII
upper-casing `"WHY?"` and `"1."` are section lines. -/
theorem parseQuestionnaire_classifies (toUpperCase : JSString → JSString) (text : JSString) :
    (∀ line ∈ normalizeLines text, line ≠ [] ∧ trim line = line) ∧
    (parseQuestionnaire toUpperCase text).sections =
      (normalizeLines text).filter (isSectionLine toUpperCase) ∧
    (parseQuestionnaire toUpperCase text).questions =
      questionsOfLines toUpperCase (normalizeLines text) ∧
    (parseQuestionnaire toUpperCase text).questions.map (fun q => q.text) =
      (normalizeLines text).filter
        (fun line => !isSectionLine toUpperCase line && isQuestionLine line) ∧
    (∀ line, isSectionLine toUpperCase line = true ↔
      toUpperCase line = line ∧ (splitOnSpace line).length ≤ 6) ∧
    (∀ line, isQuestionLine line = true ↔
      line.getLast? = some 63 ∨ ∃ d rest, line = d :: rest ∧ 48 ≤ d ∧ d ≤ 57) ∧
    parseQuestionnaire asciiToUpperCase
        (js "who?\nintro\nWHY?\n1.\n2. why?\r\n\r\n  FEES  \nwhat fees?\nnote") =
      Questionnaire.mk (js "FEES") [js "WHY?", js "1.", js "FEES"]
        [ParsedQuestion.mk (js "General") (js "who?"),
          ParsedQuestion.mk (js "1.") (js "2. why?"),
          ParsedQuestion.mk (js "FEES") (js "what fees?")] := by
  have hfold := parseLine_fold toUpperCase (normalizeLines text)
  refine ⟨normalizeLines_mem text, ?_, ?_, ?_, ?_, isQuestionLine_iff, by decide⟩
  · unfold parseQuestionnaire
    rw [hfold]
  · unfold parseQuestionnaire
    rw [hfold]
  · unfold parseQuestionnaire
    rw [hfold]
    exact questionsOfLines_text toUpperCase (normalizeLines text)
  · intro line
    unfold isSectionLine
    simp

/-! ## The route `update-answer` -/

theorem trim_padded (c : Nat) (hc : isWhiteSpace c = false) (n : Nat) :
    trim (c :: List.replicate n 32) = [c] := by
  unfold trim
  have h1 : (c :: List.replicate n 32).dropWhile isWhiteSpace = c :: List.replicate n 32 := by
    simp [List.dropWhile, hc]
  rw [h1]
  clear h1
  induction n with
  | zero => simp [List.rdropWhile, List.dropWhile, hc]
  | succ k ih =>
    rw [List.replicate_succ', ← List.cons_append,
      List.rdropWhile_concat_pos _ _ _ (by decide)]
    exact ih

/-- C25, counterexample: on a store with the answer
`00000000-0000-4000-8000-0000000000a1`, a request with the manual answer `" "`, a
string that is not empty and far below 20000 code units, is rejected with 400; a
request whose manual answer is `"a"` followed by 20000 spaces, 20001 code units, is
accepted with 200 and `"a"` is stored. The handler trims the string before it tests
it. -/
theorem updateAnswerRoute_tests_trimmed_text :
    (∃ rejection, (updateAnswerRoute uuidOfText (Store.mk (Db.mk [] []) [] []
        [AnswerRow.mk "00000000-0000-4000-8000-0000000000a1" "p1" "x1" (js "Revenue") true 0.9 []
          (js "DRAFT") 0 0 none] [] []
        : Store ℚ) 4
      (UpdateAnswerBody.mk (some "00000000-0000-4000-8000-0000000000a1") (some (js "CONFIRMED"))
        (ManualAnswerField.str (js " ")))).1 = Except.ok rejection ∧
      rejection.code = 400) ∧
    (97 :: List.replicate 20000 32).length = 20001 ∧
    (∃ row, (updateAnswerRoute uuidOfText (Store.mk (Db.mk [] []) [] []
        [AnswerRow.mk "00000000-0000-4000-8000-0000000000a1" "p1" "x1" (js "Revenue") true 0.9 []
          (js "DRAFT") 0 0 none] [] []
        : Store ℚ) 4
      (UpdateAnswerBody.mk (some "00000000-0000-4000-8000-0000000000a1") (some (js "CONFIRMED"))
        (ManualAnswerField.str (97 :: List.replicate 20000 32)))).1 =
      Except.ok (Response.mk 200 none (some row))) ∧
    (updateAnswerRoute uuidOfText (Store.mk (Db.mk [] []) [] []
        [AnswerRow.mk "00000000-0000-4000-8000-0000000000a1" "p1" "x1" (js "Revenue") true 0.9 []
          (js "DRAFT") 0 0 none] [] []
        : Store ℚ) 4
      (UpdateAnswerBody.mk (some "00000000-0000-4000-8000-0000000000a1") (some (js "CONFIRMED"))
        (ManualAnswerField.str (97 :: List.replicate 20000 32)))).2.answers.map
      (fun a => a.manual_answer) = [some (js "a")] := by
  have hu : uuidOfText "00000000-0000-4000-8000-0000000000a1" = Except.ok "00000000-0000-4000-8000-0000000000a1" := rfl
  have hvalid : @validateUpdateAnswer ℚ
      (UpdateAnswerBody.mk (some "00000000-0000-4000-8000-0000000000a1") (some (js "CONFIRMED"))
        (ManualAnswerField.str (97 :: List.replicate 20000 32))) = none :=
    validateUpdateAnswer_accepts _ "00000000-0000-4000-8000-0000000000a1" (js "CONFIRMED") rfl (by decide) rfl (by decide)
      (Or.inr (Or.inr ⟨_, rfl, by rw [trim_padded 97 (by decide)]; decide,
        by rw [trim_padded 97 (by decide)]; decide⟩))
  have h := updateAnswerRoute_of_valid uuidOfText (Store.mk (Db.mk [] []) [] []
        [AnswerRow.mk "00000000-0000-4000-8000-0000000000a1" "p1" "x1" (js "Revenue") true 0.9 []
          (js "DRAFT") 0 0 none] [] []
        : Store ℚ) 4 _ "00000000-0000-4000-8000-0000000000a1" hvalid hu
  have ht : trimManualAnswer (ManualAnswerField.str (97 :: List.replicate 20000 32)) =
      ManualAnswerField.str [97] := by
    show ManualAnswerField.str (trim _) = _
    rw [trim_padded 97 (by decide)]
  obtain ⟨rejection, hr, hc⟩ := @validateUpdateAnswer_rejects ℚ
    (UpdateAnswerBody.mk (some "00000000-0000-4000-8000-0000000000a1") (some (js "CONFIRMED")) (ManualAnswerField.str (js " ")))
    (Or.inr (Or.inr (Or.inr (Or.inr (Or.inr ⟨js " ", rfl, Or.inl (by decide)⟩)))))
  refine ⟨⟨rejection, by rw [updateAnswerRoute_of_rejected _ _ _ _ rejection hr], hc⟩,
    by rw [List.length_cons, List.length_replicate],
    h.2.1 ⟨_, List.mem_singleton.mpr rfl, rfl⟩, ?_⟩
  rw [h.1]
  dsimp only
  rw [ht]
  rfl

/-- C25, as the code has it: the handler trims a string `manual_answer` and tests the
trimmed text. A request is rejected with 400, and the store left as it is, when
`manual_answer` is neither a string nor `null`, or is a string whose trimmed text is
empty or longer than 20000 code units. A request with `answer_id` and `status` and a
string `manual_answer` whose trimmed text is not empty and has at most 20000 code
units passes the tests. Then, when `answer_id` is no text for the type `uuid`, the
handler throws the error of the store and the store is left as it is; when it is, the
request gets 200 when an answer has that id, and 404 with the store left as it is
when none has; the trimmed text and the status are written to the rows with that
id. -/
theorem updateAnswer_manual_answer_checks {α : Type} (uuid_in : String → Except String Id)
    (store : Store α) (now : Nat) (body : UpdateAnswerBody) :
    ((body.manual_answer = ManualAnswerField.other ∨
        ∃ s, body.manual_answer = ManualAnswerField.str s ∧
          (trim s = [] ∨ 20000 < (trim s).length)) →
      (∃ rejection, (updateAnswerRoute uuid_in store now body).1 = Except.ok rejection ∧
        rejection.code = 400) ∧
        (updateAnswerRoute uuid_in store now body).2 = store) ∧
    (∀ (id : Id) (S s : JSString), body.answer_id = some id → id ≠ "" →
      body.status = some S → S ≠ [] → body.manual_answer = ManualAnswerField.str s →
      trim s ≠ [] → (trim s).length ≤ 20000 →
      @validateUpdateAnswer α body = none ∧
      (∀ message, uuid_in id = Except.error message →
        updateAnswerRoute uuid_in store now body = (Except.error message, store)) ∧
      (∀ key, uuid_in id = Except.ok key →
        ((∃ a ∈ store.answers, a.id = key) →
          ∃ row, (updateAnswerRoute uuid_in store now body).1 =
            Except.ok (Response.mk 200 none (some row))) ∧
        ((∀ a ∈ store.answers, a.id ≠ key) →
          (updateAnswerRoute uuid_in store now body).1 =
              Except.ok (Response.mk 404 (some "Answer not found") none) ∧
            (updateAnswerRoute uuid_in store now body).2 = store) ∧
        (updateAnswerRoute uuid_in store now body).2.answers =
          store.answers.map (fun a => if a.id = key then
            { a with status := S, manual_answer := some (trim s), updated_at := now }
            else a))) := by
  constructor
  · intro h
    obtain ⟨rejection, hr, hc⟩ := @validateUpdateAnswer_rejects α body
      (Or.inr (Or.inr (Or.inr (Or.inr h))))
    rw [updateAnswerRoute_of_rejected uuid_in store now body rejection hr]
    exact ⟨⟨rejection, rfl, hc⟩, rfl⟩
  · intro id S s hid hne hstatus hS hmanual hs hl
    have hvalid : @validateUpdateAnswer α body = none :=
      validateUpdateAnswer_accepts body id S hid hne hstatus hS
        (Or.inr (Or.inr ⟨s, hmanual, hs, hl⟩))
    refine ⟨hvalid, ?_, ?_⟩
    · intro message hu
      exact updateAnswerRoute_of_invalid_uuid uuid_in store now body message hvalid
        (by rw [hid]; exact hu)
    · intro key hu
      have h := updateAnswerRoute_of_valid uuid_in store now body key hvalid
        (by rw [hid]; exact hu)
      rw [hstatus, hmanual] at h
      refine ⟨h.2.1, h.2.2, ?_⟩
      rw [h.1]
      rfl

theorem updateAnswer_manual_answer_checks_witness :
    (∃ rejection, (updateAnswerRoute uuidOfText (Store.mk (Db.mk [] []) [] []
        [AnswerRow.mk "00000000-0000-4000-8000-0000000000a1" "p1" "x1" (js "Revenue") true 0.9 []
          (js "DRAFT") 0 0 none] [] []
        : Store ℚ) 4
      (UpdateAnswerBody.mk (some "00000000-0000-4000-8000-0000000000a1") (some (js "CONFIRMED"))
        (ManualAnswerField.str (js "")))).1 = Except.ok rejection ∧
      rejection.code = 400) ∧
    (updateAnswerRoute uuidOfText (Store.mk (Db.mk [] []) [] []
        [AnswerRow.mk "00000000-0000-4000-8000-0000000000a1" "p1" "x1" (js "Revenue") true 0.9 []
          (js "DRAFT") 0 0 none] [] []
        : Store ℚ) 4
      (UpdateAnswerBody.mk (some "00000000-0000-4000-8000-0000000000a1") (some (js "CONFIRMED"))
        (ManualAnswerField.str (js "")))).2.answers.length = 1 := by
  have h := (updateAnswer_manual_answer_checks uuidOfText (Store.mk (Db.mk [] []) [] []
        [AnswerRow.mk "00000000-0000-4000-8000-0000000000a1" "p1" "x1" (js "Revenue") true 0.9 []
          (js "DRAFT") 0 0 none] [] []
        : Store ℚ) 4
      (UpdateAnswerBody.mk (some "00000000-0000-4000-8000-0000000000a1") (some (js "CONFIRMED"))
        (ManualAnswerField.str (js "")))).1 (Or.inr ⟨js "", rfl, Or.inl (by decide)⟩)
  exact ⟨h.1, by rw [h.2]; rfl⟩

/-- C26, counterexample: on a store with one answer, a request with the status
CONFIRMED, `manual_answer: null` and the `answer_id` `a9`, the id of no answer. The
request passes the tests of the handler; `a9` is no text for the type `uuid`, the
`UPDATE` throws, and the handler sends no 404. -/
theorem updateAnswerRoute_throws_on_malformed_id :
    (∀ a ∈ (Store.mk (Db.mk [] []) [] []
        [AnswerRow.mk "00000000-0000-4000-8000-0000000000a1" "p1" "x1" (js "Revenue") true 0.9 []
          (js "DRAFT") 0 0 none] [] []
        : Store ℚ).answers, a.id ≠ "a9") ∧
    @validateUpdateAnswer ℚ
      (UpdateAnswerBody.mk (some "a9") (some (js "CONFIRMED")) ManualAnswerField.null) =
      none ∧
    (∃ message, (updateAnswerRoute uuidOfText (Store.mk (Db.mk [] []) [] []
        [AnswerRow.mk "00000000-0000-4000-8000-0000000000a1" "p1" "x1" (js "Revenue") true 0.9 []
          (js "DRAFT") 0 0 none] [] []
        : Store ℚ) 4
      (UpdateAnswerBody.mk (some "a9") (some (js "CONFIRMED"))
        ManualAnswerField.null)).1 = Except.error message) ∧
    (updateAnswerRoute uuidOfText (Store.mk (Db.mk [] []) [] []
        [AnswerRow.mk "00000000-0000-4000-8000-0000000000a1" "p1" "x1" (js "Revenue") true 0.9 []
          (js "DRAFT") 0 0 none] [] []
        : Store ℚ) 4
      (UpdateAnswerBody.mk (some "a9") (some (js "CONFIRMED"))
        ManualAnswerField.null)).1 ≠
      Except.ok (Response.mk 404 (some "Answer not found") none) := by
  have hvalid : @validateUpdateAnswer ℚ
      (UpdateAnswerBody.mk (some "a9") (some (js "CONFIRMED")) ManualAnswerField.null) =
      none :=
    validateUpdateAnswer_accepts _ "a9" (js "CONFIRMED") rfl (by decide) rfl (by decide)
      (Or.inr (Or.inl rfl))
  have hu : uuidOfText "a9" = Except.error
      ("invalid input syntax for type uuid: " ++ String.mk [Char.ofNat 34] ++ "a9" ++
        String.mk [Char.ofNat 34]) := rfl
  have h := updateAnswerRoute_of_invalid_uuid uuidOfText (Store.mk (Db.mk [] []) [] []
        [AnswerRow.mk "00000000-0000-4000-8000-0000000000a1" "p1" "x1" (js "Revenue") true 0.9 []
          (js "DRAFT") 0 0 none] [] []
        : Store ℚ) 4 _ _ hvalid hu
  refine ⟨by decide, hvalid, ⟨_, by rw [h]⟩, ?_⟩
  rw [h]
  intro hc
  cases hc

/-- C26, as the code has it: `update-answer` with `answer_id`, a status `S` and
`manual_answer: null`, or without the property `manual_answer`. When `answer_id` is no
text for the type `uuid`, the handler throws the error of the store and the store
is left as it is. When it is one, then in the rows with that id the status becomes
`S` and `updated_at` the time of the request; with `null` the manual answer becomes
`null`, without the property it stays as it was; id, project, question, text,
answerable flag, confidence, citations and `created_at` stay as they were. Every
other answer and every other table is unchanged. The response is 200 with an updated
row when an answer has the id; when none has, it is 404 "Answer not found" and the
store is left as it is. -/
theorem updateAnswer_null_or_absent {α : Type} (uuid_in : String → Except String Id)
    (store : Store α) (now : Nat)
    (body : UpdateAnswerBody) (id : Id) (S : JSString)
    (hid : body.answer_id = some id) (hne : id ≠ "") (hstatus : body.status = some S)
    (hS : S ≠ [])
    (hmanual : body.manual_answer = ManualAnswerField.null ∨
      body.manual_answer = ManualAnswerField.absent) :
    (∀ message, uuid_in id = Except.error message →
      updateAnswerRoute uuid_in store now body = (Except.error message, store)) ∧
    (∀ key, uuid_in id = Except.ok key →
    List.Forall₂
      (fun a b => b.id = a.id ∧ b.project_id = a.project_id ∧ b.question_id = a.question_id ∧
        b.answer_text = a.answer_text ∧ b.is_answerable = a.is_answerable ∧
        b.confidence = a.confidence ∧ b.citations = a.citations ∧
        b.created_at = a.created_at ∧
        (a.id = key → b.status = S ∧ b.updated_at = now ∧
          (body.manual_answer = ManualAnswerField.null → b.manual_answer = none) ∧
          (body.manual_answer = ManualAnswerField.absent →
            b.manual_answer = a.manual_answer)) ∧
        (a.id ≠ key → b = a))
      store.answers (updateAnswerRoute uuid_in store now body).2.answers ∧
    (updateAnswerRoute uuid_in store now body).2.toDb = store.toDb ∧
    (updateAnswerRoute uuid_in store now body).2.documents = store.documents ∧
    (updateAnswerRoute uuid_in store now body).2.questions = store.questions ∧
    (updateAnswerRoute uuid_in store now body).2.requests = store.requests ∧
    (updateAnswerRoute uuid_in store now body).2.evaluations = store.evaluations ∧
    ((∃ a ∈ store.answers, a.id = key) →
      ∃ row, (updateAnswerRoute uuid_in store now body).1 =
          Except.ok (Response.mk 200 none (some row)) ∧ row.id = key ∧
        row.status = S ∧ row ∈ (updateAnswerRoute uuid_in store now body).2.answers) ∧
    ((∀ a ∈ store.answers, a.id ≠ key) →
      (updateAnswerRoute uuid_in store now body).1 =
        Except.ok (Response.mk 404 (some "Answer not found") none) ∧
      (updateAnswerRoute uuid_in store now body).2 = store)) := by
  have hvalid : @validateUpdateAnswer α body = none :=
    validateUpdateAnswer_accepts body id S hid hne hstatus hS
      (hmanual.elim (fun h => Or.inr (Or.inl h)) (fun h => Or.inl h))
  constructor
  · intro message hu
    exact updateAnswerRoute_of_invalid_uuid uuid_in store now body message hvalid
      (by rw [hid]; exact hu)
  intro key hu
  have hu2 : uuid_in (body.answer_id.getD "") = Except.ok key := by rw [hid]; exact hu
  have h := updateAnswerRoute_of_valid uuid_in store now body key hvalid hu2
  rw [hstatus] at h
  simp only [Option.getD_some] at h
  refine ⟨?_, by rw [h.1], by rw [h.1], by rw [h.1], by rw [h.1], by rw [h.1], ?_, h.2.2⟩
  · rw [h.1]
    simp only
    rw [List.forall₂_map_right_iff]
    apply List.forall₂_same.mpr
    intro a _
    by_cases ha : a.id = key
    · rw [if_pos ha]
      rcases hmanual with hm | hm
      · rw [hm]
        refine ⟨rfl, rfl, rfl, rfl, rfl, rfl, rfl, rfl,
          fun _ => ⟨rfl, rfl, fun _ => rfl, fun hc => ?_⟩, fun hc => absurd ha hc⟩
        exact ManualAnswerField.noConfusion hc
      · rw [hm]
        exact ⟨rfl, rfl, rfl, rfl, rfl, rfl, rfl, rfl,
          fun _ => ⟨rfl, rfl, fun hc => ManualAnswerField.noConfusion hc, fun _ => rfl⟩,
          fun hc => absurd ha hc⟩
    · rw [if_neg ha]
      exact ⟨rfl, rfl, rfl, rfl, rfl, rfl, rfl, rfl, fun hc => absurd hc ha, fun _ => rfl⟩
  · rintro ⟨a, ha, haid⟩
    have hfilter : a ∈ store.answers.filter (fun a => a.id = key) :=
      List.mem_filter.mpr ⟨ha, by simpa using haid⟩
    unfold updateAnswerRoute
    rw [hvalid]
    simp only
    rw [hu2, hstatus]
    simp only [Option.getD_some]
    split
    next hrows =>
      rw [List.map_eq_nil_iff] at hrows
      rw [hrows] at hfilter
      exact absurd hfilter (List.not_mem_nil _)
    next row rest hrows =>
      have hrow : row ∈ (store.answers.filter (fun a => a.id = key)).map
          (updateAnswerRow S (trimManualAnswer body.manual_answer) now) := by
        rw [hrows]
        exact List.mem_cons_self _ _
      obtain ⟨a0, ha0, rfl⟩ := List.mem_map.mp hrow
      obtain ⟨ha0mem, ha0id⟩ := List.mem_filter.mp ha0
      have ha0id' : a0.id = key := by simpa using ha0id
      refine ⟨_, rfl, ?_, ?_, ?_⟩
      · rcases hmanual with hm | hm <;> rw [hm] <;> exact ha0id'
      · rcases hmanual with hm | hm <;> rw [hm] <;> rfl
      · exact List.mem_map.mpr ⟨a0, ha0mem, by rw [if_pos ha0id']⟩

theorem updateAnswer_null_or_absent_witness :
    (∃ row, (updateAnswerRoute uuidOfText (Store.mk (Db.mk [] []) [] []
        [AnswerRow.mk "00000000-0000-4000-8000-0000000000a1" "p1" "x1" (js "Revenue") true 0.9 [] (js "DRAFT") 0 0
          (some (js "typed")),
          AnswerRow.mk "00000000-0000-4000-8000-0000000000a2" "p1" "x2" (js "Fees") true 0.9 [] (js "DRAFT") 0 0
          (some (js "kept"))] [] []
        : Store ℚ) 4
      (UpdateAnswerBody.mk (some "00000000-0000-4000-8000-0000000000a1") (some (js "REJECTED")) ManualAnswerField.null)).1 =
      Except.ok (Response.mk 200 none (some row)) ∧ row.id = "00000000-0000-4000-8000-0000000000a1" ∧
        row.status = js "REJECTED") ∧
    (updateAnswerRoute uuidOfText (Store.mk (Db.mk [] []) [] []
        [AnswerRow.mk "00000000-0000-4000-8000-0000000000a1" "p1" "x1" (js "Revenue") true 0.9 [] (js "DRAFT") 0 0
          (some (js "typed")),
          AnswerRow.mk "00000000-0000-4000-8000-0000000000a2" "p1" "x2" (js "Fees") true 0.9 [] (js "DRAFT") 0 0
          (some (js "kept"))] [] []
        : Store ℚ) 4
      (UpdateAnswerBody.mk (some "00000000-0000-4000-8000-0000000000a1") (some (js "REJECTED"))
        ManualAnswerField.null)).2.answers.map
      (fun a => (a.id, a.status, a.manual_answer, a.updated_at)) =
      [("00000000-0000-4000-8000-0000000000a1", js "REJECTED", none, 4), ("00000000-0000-4000-8000-0000000000a2", js "DRAFT", some (js "kept"), 0)] := by
  obtain ⟨row, h1, h2, h3, _⟩ := ((updateAnswer_null_or_absent uuidOfText
      (Store.mk (Db.mk [] []) [] []
        [AnswerRow.mk "00000000-0000-4000-8000-0000000000a1" "p1" "x1" (js "Revenue") true 0.9 [] (js "DRAFT") 0 0
          (some (js "typed")),
          AnswerRow.mk "00000000-0000-4000-8000-0000000000a2" "p1" "x2" (js "Fees") true 0.9 [] (js "DRAFT") 0 0
          (some (js "kept"))] [] []
        : Store ℚ) 4
      (UpdateAnswerBody.mk (some "00000000-0000-4000-8000-0000000000a1") (some (js "REJECTED")) ManualAnswerField.null)
      "00000000-0000-4000-8000-0000000000a1" (js "REJECTED") rfl (by decide) rfl (by decide) (Or.inl rfl)).2 "00000000-0000-4000-8000-0000000000a1"
      rfl).2.2.2.2.2.2.1 ⟨_, List.mem_cons_self _ _, rfl⟩
  exact ⟨⟨row, h1, h2, h3⟩, by decide⟩

/-! ## The ingestion run -/

theorem insertChunks_frame {α : Type} [LinearOrderedField α] (rt : Runtime α)
    (env : IngestRun) (documentId : Id) (k : Nat) (chunks : List Chunk) (store : Store α) :
    (insertChunks rt env documentId k chunks store).2.projects = store.projects ∧
    (insertChunks rt env documentId k chunks store).2.documents = store.documents ∧
    (insertChunks rt env documentId k chunks store).2.requests = store.requests ∧
    (insertChunks rt env documentId k chunks store).2.questions = store.questions ∧
    (insertChunks rt env documentId k chunks store).2.answers = store.answers := by
  induction chunks generalizing k store with
  | nil => exact ⟨rfl, rfl, rfl, rfl, rfl⟩
  | cons c rest ih =>
    unfold insertChunks
    cases h : env.insertChunk k with
    | some message => exact ⟨rfl, rfl, rfl, rfl, rfl⟩
    | none =>
      simp only
      obtain ⟨h1, h2, h3, h4, h5⟩ := ih (k + 1)
        { store with
          document_chunks := store.document_chunks ++
            [DocumentChunkRow.mk c.id documentId c.text (embedText rt c.text)] }
      exact ⟨h1, h2, h3, h4, h5⟩

theorem insertChunks_ok {α : Type} [LinearOrderedField α] (rt : Runtime α)
    (env : IngestRun) (documentId : Id) (k0 : Nat) (chunks : List Chunk) (store : Store α)
    (hok : ∀ j, j < chunks.length → env.insertChunk (k0 + j) = none) :
    (insertChunks rt env documentId k0 chunks store).1 = Settled.fulfilled := by
  induction chunks generalizing k0 store with
  | nil => rfl
  | cons c rest ih =>
    unfold insertChunks
    have h0 : env.insertChunk k0 = none := by
      have := hok 0 (by simp)
      simpa using this
    simp only [h0]
    apply ih (k0 + 1)
    intro j hj
    rw [← hok (j + 1) (by simpa using hj)]
    congr 1
    omega

theorem insertChunks_fault {α : Type} [LinearOrderedField α] (rt : Runtime α)
    (env : IngestRun) (documentId : Id) (message : String) (k0 k : Nat)
    (chunks : List Chunk) (store : Store α) (hk : k < chunks.length)
    (hfault : env.insertChunk (k0 + k) = some message)
    (hbefore : ∀ j, j < k → env.insertChunk (k0 + j) = none) :
    (insertChunks rt env documentId k0 chunks store).1 = Settled.rejected message := by
  induction chunks generalizing k0 k store with
  | nil => simp at hk
  | cons c rest ih =>
    unfold insertChunks
    cases k with
    | zero =>
      rw [Nat.add_zero] at hfault
      simp only [hfault]
    | succ k =>
      have h0 : env.insertChunk k0 = none := by
        have := hbefore 0 (Nat.succ_pos k)
        simpa using this
      simp only [h0]
      apply ih (k0 + 1) k _ (by simpa using hk)
      · rw [← hfault]; congr 1; omega
      · intro j hj
        rw [← hbefore (j + 1) (by omega)]
        congr 1
        omega

theorem buildChunks_length (chunkId : Nat → Id) (documentId : Id) (text : JSString) :
    (buildChunks chunkId documentId text).length = (chunkText text 500).length := by
  unfold buildChunks
  rw [List.length_mapIdx]

/-- The run without a fault: the tables other than `document_chunks` after it. -/
theorem indexDocumentTry_ok {α : Type} [LinearOrderedField α] (rt : Runtime α)
    (env : IngestRun) (documentId requestId : Id) (store : Store α) (text : JSString)
    (h1 : env.extractText = Except.ok text) (h2 : env.deleteChunks = none)
    (h3 : ∀ k, k < (chunkText text 500).length → env.insertChunk k = none)
    (h4 : env.updateDocument = none) (h5 : env.invalidateProjects = none) :
    (indexDocumentTry rt env documentId requestId store).1 = Settled.fulfilled ∧
    (indexDocumentTry rt env documentId requestId store).2.documents =
      (markDocumentIndexed store documentId text).documents ∧
    (indexDocumentTry rt env documentId requestId store).2.projects =
      (invalidateProjects store).projects ∧
    (indexDocumentTry rt env documentId requestId store).2.requests =
      (updateRequest store requestId REQUEST_STATUS.SUCCESS none env.finishedAt).requests := by
  unfold indexDocumentTry
  rw [h1]
  simp only [h2]
  have hok := insertChunks_ok rt env documentId 0 (buildChunks env.chunkId documentId text)
    { store with
      document_chunks := store.document_chunks.filter
        (fun chunk => chunk.document_id ≠ documentId) }
    (by
      intro j hj
      rw [buildChunks_length] at hj
      rw [Nat.zero_add]
      exact h3 j hj)
  have hframe := insertChunks_frame rt env documentId 0
    (buildChunks env.chunkId documentId text)
    { store with
      document_chunks := store.document_chunks.filter
        (fun chunk => chunk.document_id ≠ documentId) }
  rcases hpair : insertChunks rt env documentId 0 (buildChunks env.chunkId documentId text)
    { store with
      document_chunks := store.document_chunks.filter
        (fun chunk => chunk.document_id ≠ documentId) } with ⟨ended, store2⟩
  rw [hpair] at hok hframe
  simp only at hok hframe
  subst hok
  simp only [h4, h5]
  obtain ⟨f1, f2, f3, _, _⟩ := hframe
  refine ⟨trivial, ?_, ?_, ?_⟩
  · simp only [updateRequest, invalidateProjects, markDocumentIndexed, f2]
  · simp only [updateRequest, invalidateProjects, markDocumentIndexed, f1]
  · simp only [updateRequest, invalidateProjects, markDocumentIndexed, f3]

/-- A throw of the extraction, of the deletion or insertion of chunks, or of the
document update: the run is rejected with its message and the three tables are as
before. -/
theorem indexDocumentTry_early_fault {α : Type} [LinearOrderedField α] (rt : Runtime α)
    (env : IngestRun) (documentId requestId : Id) (store : Store α) (message : String)
    (h : env.extractText = Except.error message ∨
      ∃ text, env.extractText = Except.ok text ∧
        (env.deleteChunks = some message ∨
          (env.deleteChunks = none ∧
            ((∃ k, k < (chunkText text 500).length ∧ env.insertChunk k = some message ∧
                ∀ j, j < k → env.insertChunk j = none) ∨
              ((∀ k, k < (chunkText text 500).length → env.insertChunk k = none) ∧
                env.updateDocument = some message))))) :
    (indexDocumentTry rt env documentId requestId store).1 = Settled.rejected message ∧
    (indexDocumentTry rt env documentId requestId store).2.documents = store.documents ∧
    (indexDocumentTry rt env documentId requestId store).2.projects = store.projects ∧
    (indexDocumentTry rt env documentId requestId store).2.requests = store.requests := by
  unfold indexDocumentTry
  rcases h with h | ⟨text, h1, h⟩
  · rw [h]
    exact ⟨rfl, rfl, rfl, rfl⟩
  · rw [h1]
    rcases h with h | ⟨h2, h⟩
    · simp only [h]
      exact ⟨trivial, trivial, trivial, trivial⟩
    · simp only [h2]
      have hframe := insertChunks_frame rt env documentId 0
        (buildChunks env.chunkId documentId text)
        { store with
          document_chunks := store.document_chunks.filter
            (fun chunk => chunk.document_id ≠ documentId) }
      rcases h with ⟨k, hk, hfault, hbefore⟩ | ⟨h3, h4⟩
      · have hrej := insertChunks_fault rt env documentId message 0 k
          (buildChunks env.chunkId documentId text)
          { store with
            document_chunks := store.document_chunks.filter
              (fun chunk => chunk.document_id ≠ documentId) }
          (by rw [buildChunks_length]; exact hk) (by rw [Nat.zero_add]; exact hfault)
          (by intro j hj; rw [Nat.zero_add]; exact hbefore j hj)
        rcases hpair : insertChunks rt env documentId 0
          (buildChunks env.chunkId documentId text)
          { store with
            document_chunks := store.document_chunks.filter
              (fun chunk => chunk.document_id ≠ documentId) } with ⟨ended, store2⟩
        rw [hpair] at hrej hframe
        simp only at hrej hframe
        subst hrej
        exact ⟨rfl, hframe.2.1, hframe.1, hframe.2.2.1⟩
      · have hok := insertChunks_ok rt env documentId 0
          (buildChunks env.chunkId documentId text)
          { store with
            document_chunks := store.document_chunks.filter
              (fun chunk => chunk.document_id ≠ documentId) }
          (by
            intro j hj
            rw [buildChunks_length] at hj
            rw [Nat.zero_add]
            exact h3 j hj)
        rcases hpair : insertChunks rt env documentId 0
          (buildChunks env.chunkId documentId text)
          { store with
            document_chunks := store.document_chunks.filter
              (fun chunk => chunk.document_id ≠ documentId) } with ⟨ended, store2⟩
        rw [hpair] at hok hframe
        simp only at hok hframe
        subst hok
        simp only [h4]
        exact ⟨trivial, hframe.2.1, hframe.1, hframe.2.2.1⟩

/-- A throw of the project invalidation: the run is rejected with its message after
the document row has been written. -/
theorem indexDocumentTry_late_fault {α : Type} [LinearOrderedField α] (rt : Runtime α)
    (env : IngestRun) (documentId requestId : Id) (store : Store α) (text : JSString)
    (message : String)
    (h1 : env.extractText = Except.ok text) (h2 : env.deleteChunks = none)
    (h3 : ∀ k, k < (chunkText text 500).length → env.insertChunk k = none)
    (h4 : env.updateDocument = none) (h5 : env.invalidateProjects = some message) :
    (indexDocumentTry rt env documentId requestId store).1 = Settled.rejected message ∧
    (indexDocumentTry rt env documentId requestId store).2.documents =
      (markDocumentIndexed store documentId text).documents ∧
    (indexDocumentTry rt env documentId requestId store).2.projects = store.projects ∧
    (indexDocumentTry rt env documentId requestId store).2.requests = store.requests := by
  unfold indexDocumentTry
  rw [h1]
  simp only [h2]
  have hok := insertChunks_ok rt env documentId 0 (buildChunks env.chunkId documentId text)
    { store with
      document_chunks := store.document_chunks.filter
        (fun chunk => chunk.document_id ≠ documentId) }
    (by
      intro j hj
      rw [buildChunks_length] at hj
      rw [Nat.zero_add]
      exact h3 j hj)
  have hframe := insertChunks_frame rt env documentId 0
    (buildChunks env.chunkId documentId text)
    { store with
      document_chunks := store.document_chunks.filter
        (fun chunk => chunk.document_id ≠ documentId) }
  rcases hpair : insertChunks rt env documentId 0 (buildChunks env.chunkId documentId text)
    { store with
      document_chunks := store.document_chunks.filter
        (fun chunk => chunk.document_id ≠ documentId) } with ⟨ended, store2⟩
  rw [hpair] at hok hframe
  simp only at hok hframe
  subst hok
  simp only [h4, h5]
  obtain ⟨f1, f2, f3, _, _⟩ := hframe
  refine ⟨trivial, ?_, f1, f3⟩
  simp only [markDocumentIndexed, f2]

theorem indexDocumentBackground_of_rejected {α : Type} [LinearOrderedField α]
    (rt : Runtime α) (env : IngestRun) (documentId requestId : Id) (store : Store α)
    (message : String)
    (h : (indexDocumentTry rt env documentId requestId store).1 = Settled.rejected message) :
    indexDocumentBackground rt env documentId requestId store =
      updateRequest (indexDocumentTry rt env documentId requestId store).2 requestId
        REQUEST_STATUS.FAILED (some message) env.finishedAt := by
  unfold indexDocumentBackground
  rcases hpair : indexDocumentTry rt env documentId requestId store with ⟨ended, store'⟩
  rw [hpair] at h
  simp only at h
  subst h
  rfl

theorem indexDocumentBackground_of_fulfilled {α : Type} [LinearOrderedField α]
    (rt : Runtime α) (env : IngestRun) (documentId requestId : Id) (store : Store α)
    (h : (indexDocumentTry rt env documentId requestId store).1 = Settled.fulfilled) :
    indexDocumentBackground rt env documentId requestId store =
      (indexDocumentTry rt env documentId requestId store).2 := by
  unfold indexDocumentBackground
  rcases hpair : indexDocumentTry rt env documentId requestId store with ⟨ended, store'⟩
  rw [hpair] at h
  simp only at h
  subst h
  rfl

theorem markDocumentIndexed_spec {α : Type} (store : Store α) (documentId : Id)
    (text : JSString) :
    (∀ d ∈ (markDocumentIndexed store documentId text).documents, d.id = documentId →
      d.status = REQUEST_STATUS.SUCCESS ∧ d.page_count = 1 ∧ d.text_length = text.length ∧
        d.text = text) ∧
    (markDocumentIndexed store documentId text).documents.map (fun d => d.id) =
      store.documents.map (fun d => d.id) ∧
    (∀ d ∈ store.documents, d.id ≠ documentId →
      d ∈ (markDocumentIndexed store documentId text).documents) := by
  unfold markDocumentIndexed
  refine ⟨?_, ?_, ?_⟩
  · intro d hd hid
    simp only at hd
    obtain ⟨d0, _, rfl⟩ := List.mem_map.mp hd
    by_cases h0 : d0.id = documentId
    · rw [if_pos h0]
      exact ⟨rfl, rfl, rfl, rfl⟩
    · rw [if_neg h0] at hid
      exact absurd hid h0
  · simp only [List.map_map]
    apply List.map_congr_left
    intro d _
    simp only [Function.comp]
    split <;> rfl
  · intro d hd hne
    simp only
    exact List.mem_map.mpr ⟨d, hd, by rw [if_neg hne]⟩

/-- C21, counterexample: a PDF is uploaded on an empty store and its extraction throws
"bad pdf". The job ends FAILED with that message, and the document row is as the
request inserted it: status PENDING, no text, and no message. -/
theorem indexDocument_failure_leaves_document_pending :
    (indexDocumentBackground
      (Runtime.mk Real.sqrt asciiToLowerCase List.sum
        (fun a b => Real.sqrt ((List.zipWith (fun x y => (x - y) * (x - y)) a b).sum))
        (fun _ _ => true))
      (IngestRun.mk (Except.error "bad pdf") none (fun _ => none) none none
        (fun i => toString i) 9)
      "d1" "r1"
      (indexDocumentRoute (Store.mk (Db.mk [] []) [] [] [] [] []) "r1" "d1" 1 2 3
        (some (UploadedFile.mk "a.pdf" "application/pdf" "uploads/a"))).2).documents =
      [DocumentRow.mk "d1" "a.pdf" "application/pdf" 2 "PENDING" 0 0 []] ∧
    (indexDocumentBackground
      (Runtime.mk Real.sqrt asciiToLowerCase List.sum
        (fun a b => Real.sqrt ((List.zipWith (fun x y => (x - y) * (x - y)) a b).sum))
        (fun _ _ => true))
      (IngestRun.mk (Except.error "bad pdf") none (fun _ => none) none none
        (fun i => toString i) 9)
      "d1" "r1"
      (indexDocumentRoute (Store.mk (Db.mk [] []) [] [] [] [] []) "r1" "d1" 1 2 3
        (some (UploadedFile.mk "a.pdf" "application/pdf" "uploads/a"))).2).requests =
      [RequestRow.mk "r1" "FAILED" (some "bad pdf") 1 9] := by
  constructor <;> decide

/-- C21, as the code has it: the background run of the ingestion on the store `store`.
When all steps succeed the rows of the document end with the status SUCCESS, the
extracted text, its length and the page count 1, and the job ends SUCCESS. When the
extraction, the deletion or insertion of chunks, or the document update throws, the
job ends FAILED with the message of the error and the table of documents is not
written: the row keeps the status PENDING and the empty text it was inserted with.
When the project invalidation throws, the job ends FAILED with the message while the
document row has the status SUCCESS and the text already. The request inserts the
document row with the status PENDING. -/
theorem indexDocument_job_outcome {α : Type} [LinearOrderedField α] (rt : Runtime α)
    (env : IngestRun) (documentId requestId : Id) (store : Store α) :
    (∀ text, env.extractText = Except.ok text → env.deleteChunks = none →
      (∀ k, k < (chunkText text 500).length → env.insertChunk k = none) →
      env.updateDocument = none → env.invalidateProjects = none →
      (∀ d ∈ (indexDocumentBackground rt env documentId requestId store).documents,
        d.id = documentId →
        d.status = REQUEST_STATUS.SUCCESS ∧ d.page_count = 1 ∧
          d.text_length = text.length ∧ d.text = text) ∧
      (indexDocumentBackground rt env documentId requestId store).documents.map
          (fun d => d.id) = store.documents.map (fun d => d.id) ∧
      (∀ r ∈ (indexDocumentBackground rt env documentId requestId store).requests,
        r.id = requestId → r.status = REQUEST_STATUS.SUCCESS ∧ r.message = none)) ∧
    (∀ message,
      (env.extractText = Except.error message ∨
        ∃ text, env.extractText = Except.ok text ∧
          (env.deleteChunks = some message ∨
            (env.deleteChunks = none ∧
              ((∃ k, k < (chunkText text 500).length ∧ env.insertChunk k = some message ∧
                  ∀ j, j < k → env.insertChunk j = none) ∨
                ((∀ k, k < (chunkText text 500).length → env.insertChunk k = none) ∧
                  env.updateDocument = some message))))) →
      (indexDocumentBackground rt env documentId requestId store).documents =
        store.documents ∧
      (indexDocumentBackground rt env documentId requestId store).projects =
        store.projects ∧
      (∀ r ∈ (indexDocumentBackground rt env documentId requestId store).requests,
        r.id = requestId → r.status = REQUEST_STATUS.FAILED ∧ r.message = some message)) ∧
    (∀ text message, env.extractText = Except.ok text → env.deleteChunks = none →
      (∀ k, k < (chunkText text 500).length → env.insertChunk k = none) →
      env.updateDocument = none → env.invalidateProjects = some message →
      (∀ d ∈ (indexDocumentBackground rt env documentId requestId store).documents,
        d.id = documentId →
        d.status = REQUEST_STATUS.SUCCESS ∧ d.page_count = 1 ∧
          d.text_length = text.length ∧ d.text = text) ∧
      (indexDocumentBackground rt env documentId requestId store).projects =
        store.projects ∧
      (∀ r ∈ (indexDocumentBackground rt env documentId requestId store).requests,
        r.id = requestId → r.status = REQUEST_STATUS.FAILED ∧ r.message = some message)) ∧
    (∀ (now : Nat) (file : UploadedFile),
      (indexDocumentAsync store documentId now file).documents =
        store.documents ++
          [DocumentRow.mk documentId file.originalname file.mimetype now
            REQUEST_STATUS.PENDING 0 0 []]) := by
  refine ⟨?_, ?_, ?_, fun _ _ => rfl⟩
  · intro text h1 h2 h3 h4 h5
    obtain ⟨hful, hdocs, _, hreq⟩ :=
      indexDocumentTry_ok rt env documentId requestId store text h1 h2 h3 h4 h5
    rw [indexDocumentBackground_of_fulfilled rt env documentId requestId store hful, hdocs,
      hreq]
    exact ⟨(markDocumentIndexed_spec store documentId text).1,
      (markDocumentIndexed_spec store documentId text).2.1,
      (updateRequest_spec store requestId REQUEST_STATUS.SUCCESS none env.finishedAt).1⟩
  · intro message h
    obtain ⟨hrej, hdocs, hproj, hreq⟩ :=
      indexDocumentTry_early_fault rt env documentId requestId store message h
    rw [indexDocumentBackground_of_rejected rt env documentId requestId store message hrej]
    refine ⟨hdocs, hproj, ?_⟩
    exact (updateRequest_spec _ requestId REQUEST_STATUS.FAILED (some message)
      env.finishedAt).1
  · intro text message h1 h2 h3 h4 h5
    obtain ⟨hrej, hdocs, hproj, hreq⟩ :=
      indexDocumentTry_late_fault rt env documentId requestId store text message h1 h2 h3
        h4 h5
    rw [indexDocumentBackground_of_rejected rt env documentId requestId store message hrej]
    refine ⟨?_, hproj, ?_⟩
    · show ∀ d ∈ (indexDocumentTry rt env documentId requestId store).2.documents, _
      rw [hdocs]
      exact (markDocumentIndexed_spec store documentId text).1
    · exact (updateRequest_spec _ requestId REQUEST_STATUS.FAILED (some message)
        env.finishedAt).1

theorem indexDocument_job_outcome_witness :
    (indexDocumentBackground
      (Runtime.mk Real.sqrt asciiToLowerCase List.sum
        (fun a b => Real.sqrt ((List.zipWith (fun x y => (x - y) * (x - y)) a b).sum))
        (fun _ _ => true))
      (IngestRun.mk (Except.ok (js "Revenue was $5M in 2023. Margins improved.")) none
        (fun _ => none) none none (fun i => toString i) 9)
      "d1" "r1"
      (indexDocumentRoute (Store.mk (Db.mk [] []) [] [] [] [] []) "r1" "d1" 1 2 3
        (some (UploadedFile.mk "a.pdf" "application/pdf" "uploads/a"))).2).documents.map
      (fun d => d.id) = ["d1"] ∧
    (indexDocumentBackground
      (Runtime.mk Real.sqrt asciiToLowerCase List.sum
        (fun a b => Real.sqrt ((List.zipWith (fun x y => (x - y) * (x - y)) a b).sum))
        (fun _ _ => true))
      (IngestRun.mk (Except.ok (js "Revenue was $5M in 2023. Margins improved.")) none
        (fun _ => none) none none (fun i => toString i) 9)
      "d1" "r1"
      (indexDocumentRoute (Store.mk (Db.mk [] []) [] [] [] [] []) "r1" "d1" 1 2 3
        (some (UploadedFile.mk "a.pdf" "application/pdf" "uploads/a"))).2).documents =
      [DocumentRow.mk "d1" "a.pdf" "application/pdf" 2 "SUCCESS" 1 42
        (js "Revenue was $5M in 2023. Margins improved.")] :=
  ⟨((indexDocument_job_outcome
      (Runtime.mk Real.sqrt asciiToLowerCase List.sum
        (fun a b => Real.sqrt ((List.zipWith (fun x y => (x - y) * (x - y)) a b).sum))
        (fun _ _ => true))
      (IngestRun.mk (Except.ok (js "Revenue was $5M in 2023. Margins improved.")) none
        (fun _ => none) none none (fun i => toString i) 9)
      "d1" "r1"
      (indexDocumentRoute (Store.mk (Db.mk [] []) [] [] [] [] []) "r1" "d1" 1 2 3
        (some (UploadedFile.mk "a.pdf" "application/pdf" "uploads/a"))).2).1
    (js "Revenue was $5M in 2023. Margins improved.") rfl rfl (fun _ _ => rfl) rfl
    rfl).2.1.trans (by decide), by decide⟩

/-- C22: after a background run of the ingestion in which no step throws, the table of
projects has the same rows in the same order; a project whose scope is `ALL_DOCS` has
the status OUTDATED, a project with another scope has the status it had, and every
other column of every project, `updated_at` included, is as before. -/
theorem indexDocument_invalidates_all_docs_projects {α : Type} [LinearOrderedField α]
    (rt : Runtime α) (env : IngestRun) (documentId requestId : Id) (store : Store α)
    (text : JSString)
    (h1 : env.extractText = Except.ok text) (h2 : env.deleteChunks = none)
    (h3 : ∀ k, k < (chunkText text 500).length → env.insertChunk k = none)
    (h4 : env.updateDocument = none) (h5 : env.invalidateProjects = none) :
    List.Forall₂
      (fun p q => q.id = p.id ∧ q.name = p.name ∧
        q.questionnaire_document_id = p.questionnaire_document_id ∧ q.scope = p.scope ∧
        q.document_ids = p.document_ids ∧ q.created_at = p.created_at ∧
        q.updated_at = p.updated_at ∧
        (p.scope = "ALL_DOCS" → q.status = PROJECT_STATUS.OUTDATED) ∧
        (p.scope ≠ "ALL_DOCS" → q.status = p.status))
      store.projects (indexDocumentBackground rt env documentId requestId store).projects := by
  obtain ⟨hful, _, hproj, _⟩ :=
    indexDocumentTry_ok rt env documentId requestId store text h1 h2 h3 h4 h5
  rw [indexDocumentBackground_of_fulfilled rt env documentId requestId store hful, hproj]
  unfold invalidateProjects
  simp only
  rw [List.forall₂_map_right_iff]
  apply List.forall₂_same.mpr
  intro p _
  by_cases hp : p.scope = "ALL_DOCS"
  · rw [if_pos hp]
    exact ⟨rfl, rfl, rfl, rfl, rfl, rfl, rfl, fun _ => rfl, fun hc => absurd hp hc⟩
  · rw [if_neg hp]
    exact ⟨rfl, rfl, rfl, rfl, rfl, rfl, rfl, fun hc => absurd hc hp, fun _ => rfl⟩

theorem indexDocument_invalidates_all_docs_projects_witness :
    List.Forall₂
      (fun p q => q.id = p.id ∧ q.name = p.name ∧
        q.questionnaire_document_id = p.questionnaire_document_id ∧ q.scope = p.scope ∧
        q.document_ids = p.document_ids ∧ q.created_at = p.created_at ∧
        q.updated_at = p.updated_at ∧
        (p.scope = "ALL_DOCS" → q.status = PROJECT_STATUS.OUTDATED) ∧
        (p.scope ≠ "ALL_DOCS" → q.status = p.status))
      [ProjectRow.mk "p1" (js "Fund") "q0" "READY" "ALL_DOCS" ["d0"] 0 0,
        ProjectRow.mk "p2" (js "Deal") "q0" "READY" "SELECTED_DOCS" ["d0"] 0 0]
      (indexDocumentBackground
        (Runtime.mk Real.sqrt asciiToLowerCase List.sum
          (fun a b => Real.sqrt ((List.zipWith (fun x y => (x - y) * (x - y)) a b).sum))
        (fun _ _ => true))
        (IngestRun.mk (Except.ok (js "Revenue was $5M in 2023. Margins improved.")) none
          (fun _ => none) none none (fun i => toString i) 9)
        "d1" "r1"
        (Store.mk
          (Db.mk [ProjectRow.mk "p1" (js "Fund") "q0" "READY" "ALL_DOCS" ["d0"] 0 0,
            ProjectRow.mk "p2" (js "Deal") "q0" "READY" "SELECTED_DOCS" ["d0"] 0 0] [])
          [DocumentRow.mk "d1" "a.pdf" "application/pdf" 2 "PENDING" 0 0 []] [] []
          [RequestRow.mk "r1" "RUNNING" none 1 1] [])).projects ∧
    (indexDocumentBackground
        (Runtime.mk Real.sqrt asciiToLowerCase List.sum
          (fun a b => Real.sqrt ((List.zipWith (fun x y => (x - y) * (x - y)) a b).sum))
        (fun _ _ => true))
        (IngestRun.mk (Except.ok (js "Revenue was $5M in 2023. Margins improved.")) none
          (fun _ => none) none none (fun i => toString i) 9)
        "d1" "r1"
        (Store.mk
          (Db.mk [ProjectRow.mk "p1" (js "Fund") "q0" "READY" "ALL_DOCS" ["d0"] 0 0,
            ProjectRow.mk "p2" (js "Deal") "q0" "READY" "SELECTED_DOCS" ["d0"] 0 0] [])
          [DocumentRow.mk "d1" "a.pdf" "application/pdf" 2 "PENDING" 0 0 []] [] []
          [RequestRow.mk "r1" "RUNNING" none 1 1] [])).projects =
      [ProjectRow.mk "p1" (js "Fund") "q0" "OUTDATED" "ALL_DOCS" ["d0"] 0 0,
        ProjectRow.mk "p2" (js "Deal") "q0" "READY" "SELECTED_DOCS" ["d0"] 0 0] :=
  ⟨indexDocument_invalidates_all_docs_projects
    (Runtime.mk Real.sqrt asciiToLowerCase List.sum
      (fun a b => Real.sqrt ((List.zipWith (fun x y => (x - y) * (x - y)) a b).sum))
        (fun _ _ => true))
    (IngestRun.mk (Except.ok (js "Revenue was $5M in 2023. Margins improved.")) none
      (fun _ => none) none none (fun i => toString i) 9)
    "d1" "r1"
    (Store.mk
      (Db.mk [ProjectRow.mk "p1" (js "Fund") "q0" "READY" "ALL_DOCS" ["d0"] 0 0,
        ProjectRow.mk "p2" (js "Deal") "q0" "READY" "SELECTED_DOCS" ["d0"] 0 0] [])
      [DocumentRow.mk "d1" "a.pdf" "application/pdf" 2 "PENDING" 0 0 []] [] []
      [RequestRow.mk "r1" "RUNNING" none 1 1] [])
    (js "Revenue was $5M in 2023. Margins improved.") rfl rfl (fun _ _ => rfl) rfl rfl,
    by decide⟩

/-! ## The shape of the store after a background task -/

/-- Whatever the faults, the loop of the batches appends rows to `answers` and touches
no other table: the rows are drafts of the project, for a sublist of the answers in
the batches. -/
theorem insertBatches_shape {α : Type} (env : BulkRun) (projectId : Id) (k : Nat)
    (batches : List (List (Option (AnswerDraft α)))) (store : Store α) :
    ∃ rows : List (AnswerRow α),
      (insertBatches env projectId k batches store).2.answers = store.answers ++ rows ∧
      (rows.map (fun r => r.question_id)).Sublist
        ((batches.flatten.filterMap id).map (fun d => d.question_id)) ∧
      ∀ r ∈ rows, r.project_id = projectId ∧ r.status = ANSWER_STATUS.DRAFT ∧
        r.manual_answer = none := by
  induction batches generalizing k store with
  | nil => exact ⟨[], by simp [insertBatches], by simp, by simp⟩
  | cons b rest ih =>
    unfold insertBatches
    cases h : insertAnswersBatch (env.insertBatch k) env.malformedInsert projectId
        (env.insertedAt k) b store with
    | error message => exact ⟨[], by simp, by simp, by simp⟩
    | ok store' =>
      simp only
      have hs : ∃ first : List (AnswerRow α), store'.answers = store.answers ++ first ∧
          (first.map (fun r => r.question_id)).Sublist
            ((b.filterMap id).map (fun d => d.question_id)) ∧
          ∀ r ∈ first, r.project_id = projectId ∧ r.status = ANSWER_STATUS.DRAFT ∧
            r.manual_answer = none := by
        unfold insertAnswersBatch at h
        split at h
        · cases h
          exact ⟨[], by simp, by simp, by simp⟩
        · split at h
          · cases h
          · split at h
            · cases h
              refine ⟨(b.filterMap id).map (draftRow projectId (env.insertedAt k)), rfl, ?_, ?_⟩
              · rw [List.map_map]
                exact List.Sublist.refl _
              · intro r hr
                obtain ⟨d, _, rfl⟩ := List.mem_map.mp hr
                exact ⟨rfl, rfl, rfl⟩
            · cases h
      obtain ⟨first, hf1, hf2, hf3⟩ := hs
      obtain ⟨rows, hr1, hr2, hr3⟩ := ih (k + 1) store'
      refine ⟨first ++ rows, ?_, ?_, ?_⟩
      · rw [hr1, hf1, List.append_assoc]
      · rw [List.flatten_cons, List.filterMap_append, List.map_append, List.map_append]
        exact List.Sublist.append hf2 hr2
      · intro r hr
        rcases List.mem_append.mp hr with h | h
        · exact hf3 r h
        · exact hr3 r h

/-- Whatever the faults, the background task of the bulk generation leaves the
questions as they are; the projects are as before or the project of the run has been
set to READY; the answers are as before, or those of the project have been deleted
and drafts for a sublist of its questions appended. -/
theorem regenerateBackground_shape {α : Type} [LinearOrderedField α] (rt : Runtime α)
    (env : BulkRun) (projectId requestId : Id) (store : Store α) :
    (regenerateBackground rt env projectId requestId store).questions = store.questions ∧
    ((regenerateBackground rt env projectId requestId store).projects = store.projects ∨
      (regenerateBackground rt env projectId requestId store).projects =
        (setProjectStatus store PROJECT_STATUS.READY env.readyAt projectId).projects) ∧
    ((regenerateBackground rt env projectId requestId store).answers = store.answers ∨
      ∃ rows : List (AnswerRow α),
        (regenerateBackground rt env projectId requestId store).answers =
          store.answers.filter (fun a => a.project_id ≠ projectId) ++ rows ∧
        (rows.map (fun r => r.question_id)).Sublist
          ((selectQuestions store projectId).map (fun q => q.id)) ∧
        ∀ r ∈ rows, r.project_id = projectId ∧ r.status = ANSWER_STATUS.DRAFT ∧
          r.manual_answer = none) := by
  obtain ⟨k1, k2, k3⟩ := regenerateBackground_keeps rt env projectId requestId store
  rw [k1, k2, k3]
  cases h1 : env.loadQuestions with
  | some message =>
    have e : regenerateTry rt env projectId requestId store =
        (Settled.rejected message, store) := by
      simp only [regenerateTry, h1]
    rw [e]
    exact ⟨rfl, Or.inl rfl, Or.inl rfl⟩
  | none =>
    cases h2 : env.loadScope with
    | some message =>
      have e : regenerateTry rt env projectId requestId store =
          (Settled.rejected message, store) := by
        simp only [regenerateTry, h1, h2]
      rw [e]
      exact ⟨rfl, Or.inl rfl, Or.inl rfl⟩
    | none =>
      cases h3 : env.deleteAnswers with
      | some message =>
        have e : regenerateTry rt env projectId requestId store =
            (Settled.rejected message, store) := by
          simp only [regenerateTry, h1, h2, h3]
        rw [e]
        exact ⟨rfl, Or.inl rfl, Or.inl rfl⟩
      | none =>
        cases h4 : env.generate with
        | some message =>
          have e : regenerateTry rt env projectId requestId store =
              (Settled.rejected message, deleteAnswers store projectId) := by
            simp only [regenerateTry, h1, h2, h3, h4]
          rw [e]
          exact ⟨rfl, Or.inl rfl, Or.inr ⟨[], by simp [deleteAnswers],
            by simp, by simp⟩⟩
        | none =>
          obtain ⟨batches, hchunk, hflat, _, _⟩ :=
            chunkArray_spec ((selectQuestions store projectId).mapIdx
              (fun i q => some (answerWorker rt env (deleteAnswers store projectId) projectId
                (resolveDocumentIds store.toDb projectId none) q i))) ANSWER_BATCH_SIZE
              (by decide)
          have hfr := insertBatches_frame env projectId 0 batches
            (deleteAnswers store projectId)
          obtain ⟨rows, hrows, hsub, hall⟩ := insertBatches_shape env projectId 0 batches
            (deleteAnswers store projectId)
          have hids : (batches.flatten.filterMap id).map (fun d => d.question_id) =
              (selectQuestions store projectId).map (fun q => q.id) := by
            rw [hflat, filterMap_id_mapIdx_some]
            apply List.ext_getElem?
            intro i
            simp only [List.getElem?_map, List.getElem?_mapIdx]
            cases (selectQuestions store projectId)[i]? <;> rfl
          rw [hids] at hsub
          simp only [regenerateTry, h1, h2, h3, h4]
          rw [mapWithConcurrency_eq_mapIdx _ _ _ (by decide)]
          simp only [hchunk]
          rcases hpair : insertBatches env projectId 0 batches (deleteAnswers store projectId)
            with ⟨ended, store2⟩
          rw [hpair] at hfr hrows
          simp only at hfr hrows
          have hans : store2.answers =
              store.answers.filter (fun a => a.project_id ≠ projectId) ++ rows := hrows
          cases ended with
          | fulfilled =>
            simp only
            obtain ⟨m1, m2, _⟩ := markReady_frame env.setReady env.reportSuccess env.readyAt
              env.finishedAt projectId requestId store2
            refine ⟨m2.trans hfr.2.2, ?_, Or.inr ⟨rows, m1.trans hans, hsub, hall⟩⟩
            rcases markReady_projects env.setReady env.reportSuccess env.readyAt
              env.finishedAt projectId requestId store2 with m | m
            · exact Or.inl (m.trans hfr.1)
            · right
              rw [m]
              simp only [setProjectStatus, hfr.1]
              rfl
          | rejected message =>
            simp only
            exact ⟨hfr.2.2, Or.inl hfr.1, Or.inr ⟨rows, hans, hsub, hall⟩⟩
          | never =>
            simp only
            exact ⟨hfr.2.2, Or.inl hfr.1, Or.inr ⟨rows, hans, hsub, hall⟩⟩

theorem insertQuestions_frame {α : Type} (env : CreateRun) (projectId : Id) (k : Nat)
    (questions : List ParsedQuestion) (store : Store α) :
    (insertQuestions env projectId k questions store).2.projects = store.projects ∧
    (insertQuestions env projectId k questions store).2.answers = store.answers ∧
    (insertQuestions env projectId k questions store).2.documents = store.documents := by
  induction questions generalizing k store with
  | nil => exact ⟨rfl, rfl, rfl⟩
  | cons q rest ih =>
    unfold insertQuestions
    cases h : env.insertQuestion k with
    | some message => exact ⟨rfl, rfl, rfl⟩
    | none =>
      simp only
      obtain ⟨h1, h2, h3⟩ := ih (k + 1)
        { store with
          questions := store.questions ++
            [QuestionRow.mk (env.questionId k) projectId q.«section» ((k : Int) + 1) q.text] }
      exact ⟨h1, h2, h3⟩

/-- Whatever the faults, the background task of the project creation leaves the
answers and the documents as they are; the projects are as before or the project of
the run has been set to READY. -/
theorem createProjectBackground_shape {α : Type} (toUpperCase : JSString → JSString)
    (env : CreateRun) (projectId requestId questionnaire_document_id : Id)
    (store : Store α) :
    (createProjectBackground toUpperCase env projectId requestId questionnaire_document_id
        store).answers = store.answers ∧
    (createProjectBackground toUpperCase env projectId requestId questionnaire_document_id
        store).documents = store.documents ∧
    ((createProjectBackground toUpperCase env projectId requestId questionnaire_document_id
        store).projects = store.projects ∨
      (createProjectBackground toUpperCase env projectId requestId questionnaire_document_id
        store).projects =
        (setProjectStatus store PROJECT_STATUS.READY env.readyAt projectId).projects) := by
  unfold createProjectBackground createProjectTry
  cases h1 : env.loadQuestionnaire with
  | some message =>
    simp only
    obtain ⟨g1, _, g3, g4⟩ :=
      markFailed_frame env.reportFailure env.finishedAt requestId message store
    exact ⟨g1, g3, Or.inl g4⟩
  | none =>
    simp only
    have hfr := insertQuestions_frame env projectId 0
      (parseQuestionnaire toUpperCase
        (match store.documents.find? (fun d => d.id == questionnaire_document_id) with
          | some d => d.text
          | none => [])).questions store
    rcases hpair : insertQuestions env projectId 0
      (parseQuestionnaire toUpperCase
        (match store.documents.find? (fun d => d.id == questionnaire_document_id) with
          | some d => d.text
          | none => [])).questions store with ⟨ended, store2⟩
    rw [hpair] at hfr
    simp only at hfr
    obtain ⟨f1, f2, f3⟩ := hfr
    cases ended with
    | fulfilled =>
      simp only
      obtain ⟨m1, _, m3⟩ := markReady_frame env.setReady env.reportSuccess env.readyAt
        env.finishedAt projectId requestId store2
      have m4 := markReady_projects env.setReady env.reportSuccess env.readyAt
        env.finishedAt projectId requestId store2
      rcases hm : markReady env.setReady env.reportSuccess env.readyAt env.finishedAt
        projectId requestId store2 with ⟨ended2, store3⟩
      rw [hm] at m1 m3 m4
      simp only at m1 m3 m4
      have hp : store3.projects = store.projects ∨ store3.projects =
          (setProjectStatus store PROJECT_STATUS.READY env.readyAt projectId).projects := by
        rcases m4 with m | m
        · exact Or.inl (m.trans f1)
        · right
          rw [m]
          simp only [setProjectStatus, f1]
      cases ended2 with
      | fulfilled => exact ⟨m1.trans f2, m3.trans f3, hp⟩
      | never => exact ⟨m1.trans f2, m3.trans f3, hp⟩
      | rejected message =>
        simp only
        obtain ⟨g1, _, g3, g4⟩ :=
          markFailed_frame env.reportFailure env.finishedAt requestId message store3
        exact ⟨g1.trans (m1.trans f2), g3.trans (m3.trans f3), by rw [g4]; exact hp⟩
    | rejected message =>
      simp only
      obtain ⟨g1, _, g3, g4⟩ :=
        markFailed_frame env.reportFailure env.finishedAt requestId message store2
      exact ⟨g1.trans f2, g3.trans f3, Or.inl (g4.trans f1)⟩
    | never =>
      simp only
      exact ⟨f2, f3, Or.inl f1⟩

/-- Whatever the faults, the background task of the ingestion leaves the answers and
the questions as they are; the projects are as before or those with the scope
`ALL_DOCS` have been set to OUTDATED. -/
theorem indexDocumentBackground_shape {α : Type} [LinearOrderedField α] (rt : Runtime α)
    (env : IngestRun) (documentId requestId : Id) (store : Store α) :
    (indexDocumentBackground rt env documentId requestId store).answers = store.answers ∧
    (indexDocumentBackground rt env documentId requestId store).questions =
      store.questions ∧
    ((indexDocumentBackground rt env documentId requestId store).projects = store.projects ∨
      (indexDocumentBackground rt env documentId requestId store).projects =
        (invalidateProjects store).projects) := by
  unfold indexDocumentBackground indexDocumentTry
  cases h1 : env.extractText with
  | error message => exact ⟨rfl, rfl, Or.inl rfl⟩
  | ok text =>
    simp only
    cases h2 : env.deleteChunks with
    | some message => exact ⟨rfl, rfl, Or.inl rfl⟩
    | none =>
      simp only
      have hfr := insertChunks_frame rt env documentId 0
        (buildChunks env.chunkId documentId text)
        { store with
          document_chunks := store.document_chunks.filter
            (fun chunk => chunk.document_id ≠ documentId) }
      rcases hpair : insertChunks rt env documentId 0
        (buildChunks env.chunkId documentId text)
        { store with
          document_chunks := store.document_chunks.filter
            (fun chunk => chunk.document_id ≠ documentId) } with ⟨ended, store2⟩
      rw [hpair] at hfr
      simp only at hfr
      obtain ⟨f1, f2, f3, f4, f5⟩ := hfr
      cases ended with
      | fulfilled =>
        simp only
        cases h4 : env.updateDocument with
        | some message =>
          simp only [updateRequest]
          exact ⟨f5, f4, Or.inl f1⟩
        | none =>
          cases h5 : env.invalidateProjects with
          | some message =>
            simp only [updateRequest, markDocumentIndexed]
            exact ⟨f5, f4, Or.inl f1⟩
          | none =>
            simp only [updateRequest, markDocumentIndexed, invalidateProjects, f1]
            exact ⟨f5, f4, Or.inr trivial⟩
      | rejected message =>
        simp only [updateRequest]
        exact ⟨f5, f4, Or.inl f1⟩
      | never =>
        simp only
        exact ⟨f5, f4, Or.inl f1⟩

/-! ## The status of a project -/

theorem setProjectStatus_forall₂ {α : Type} (store : Store α) (status : String) (now : Nat)
    (projectId : Id) :
    List.Forall₂ (fun p q => q.status = if p.id = projectId then status else p.status)
      store.projects (setProjectStatus store status now projectId).projects := by
  unfold setProjectStatus
  simp only
  rw [List.forall₂_map_right_iff]
  apply List.forall₂_same.mpr
  intro p _
  by_cases hp : p.id = projectId
  · rw [if_pos hp, if_pos hp]
  · rw [if_neg hp, if_neg hp]

theorem updateProjectAsync_forall₂ {α : Type} (store : Store α) (now : Nat) (projectId : Id)
    (scope : String) (document_ids : Option (List Id)) :
    List.Forall₂
      (fun p q => q.status = if p.id = projectId then PROJECT_STATUS.UPDATING else p.status)
      store.projects (updateProjectAsync store now projectId scope document_ids).projects := by
  unfold updateProjectAsync
  simp only
  rw [List.forall₂_map_right_iff]
  apply List.forall₂_same.mpr
  intro p _
  by_cases hp : p.id = projectId
  · rw [if_pos hp, if_pos hp]
  · rw [if_neg hp, if_neg hp]

theorem invalidateProjects_forall₂ {α : Type} (store : Store α) :
    List.Forall₂
      (fun p q => q.status = if p.scope = "ALL_DOCS" then PROJECT_STATUS.OUTDATED
        else p.status)
      store.projects (invalidateProjects store).projects := by
  unfold invalidateProjects
  simp only
  rw [List.forall₂_map_right_iff]
  apply List.forall₂_same.mpr
  intro p _
  by_cases hp : p.scope = "ALL_DOCS"
  · rw [if_pos hp, if_pos hp]
  · rw [if_neg hp, if_neg hp]

theorem written_of_forall₂ {P : ProjectRow → Prop} [DecidablePred P] (target : String)
    (htarget : WrittenStatus target) (l l' : List ProjectRow)
    (h : List.Forall₂ (fun p q => q.status = if P p then target else p.status) l l')
    (hl : ∀ p ∈ l, WrittenStatus p.status) : ∀ q ∈ l', WrittenStatus q.status := by
  intro q hq
  obtain ⟨p, hp, hpq⟩ := forall₂_mem_right h q hq
  rw [hpq]
  split
  · exact htarget
  · exact hl p hp

theorem projectStep_written {α : Type} [LinearOrderedField α] (rt : Runtime α)
    (toUpperCase : JSString → JSString) (s s' : Store α)
    (hstep : ProjectStep rt toUpperCase s s')
    (hs : ∀ p ∈ s.projects, WrittenStatus p.status) :
    ∀ p ∈ s'.projects, WrittenStatus p.status := by
  cases hstep with
  | createRequested projectId now name qid scope ids =>
    intro p hp
    unfold createProjectAsync at hp
    simp only at hp
    rcases List.mem_append.mp hp with h | h
    · exact hs p h
    · rw [List.mem_singleton.mp h]
      exact Or.inl rfl
  | createRun env projectId requestId qid =>
    rcases (createProjectBackground_shape toUpperCase env projectId requestId qid s).2.2
      with h | h
    · rw [h]; exact hs
    · rw [h]
      exact written_of_forall₂ PROJECT_STATUS.READY (Or.inr (Or.inl rfl)) _ _
        (setProjectStatus_forall₂ s PROJECT_STATUS.READY env.readyAt projectId) hs
  | updateRequested now projectId scope ids =>
    exact written_of_forall₂ PROJECT_STATUS.UPDATING (Or.inr (Or.inr (Or.inr rfl))) _ _
      (updateProjectAsync_forall₂ s now projectId scope ids) hs
  | generateRequested now projectId =>
    exact written_of_forall₂ PROJECT_STATUS.UPDATING (Or.inr (Or.inr (Or.inr rfl))) _ _
      (setProjectStatus_forall₂ s PROJECT_STATUS.UPDATING now projectId) hs
  | regenerateRun env projectId requestId =>
    rcases (regenerateBackground_shape rt env projectId requestId s).2.1 with h | h
    · rw [h]; exact hs
    · rw [h]
      exact written_of_forall₂ PROJECT_STATUS.READY (Or.inr (Or.inl rfl)) _ _
        (setProjectStatus_forall₂ s PROJECT_STATUS.READY env.readyAt projectId) hs
  | indexRequested documentId now file => exact hs
  | indexRun env documentId requestId =>
    rcases (indexDocumentBackground_shape rt env documentId requestId s).2.2 with h | h
    · rw [h]; exact hs
    · rw [h]
      exact written_of_forall₂ PROJECT_STATUS.OUTDATED (Or.inr (Or.inr (Or.inl rfl))) _ _
        (invalidateProjects_forall₂ s) hs

/-- C23, counterexample. A document is uploaded on an empty store; before its
background task has run, a project with the scope `ALL_DOCS` is created and has the
status CREATING; the background task of the ingestion then ends without a fault and
the project has the status OUTDATED; a request for a bulk generation would have moved
it from CREATING to UPDATING. In the same way a project left in UPDATING by a bulk
generation whose `DELETE` threw is moved to OUTDATED by the next ingestion. -/
theorem ingestion_moves_unfinished_project_to_outdated :
    (generateAnswersAsync
      (createProjectAsync
        (indexDocumentRoute (Store.mk (Db.mk [] []) [] [] [] [] [] : Store ℝ) "r1" "d1" 1 2 3
          (some (UploadedFile.mk "a.pdf" "application/pdf" "uploads/a"))).2
        "p1" 4 (js "Fund") "d1" "ALL_DOCS" none)
      6 "p1").projects.map (fun p => (p.id, p.status)) = [("p1", "UPDATING")] ∧
    (createProjectAsync
      (indexDocumentRoute (Store.mk (Db.mk [] []) [] [] [] [] [] : Store ℝ) "r1" "d1" 1 2 3
        (some (UploadedFile.mk "a.pdf" "application/pdf" "uploads/a"))).2
      "p1" 4 (js "Fund") "d1" "ALL_DOCS" none).projects.map (fun p => (p.id, p.status)) =
      [("p1", "CREATING")] ∧
    (indexDocumentBackground
      (Runtime.mk Real.sqrt asciiToLowerCase List.sum
        (fun a b => Real.sqrt ((List.zipWith (fun x y => (x - y) * (x - y)) a b).sum))
        (fun _ _ => true))
      (IngestRun.mk (Except.ok (js "Revenue was $5M in 2023.")) none (fun _ => none) none none
        (fun i => toString i) 9)
      "d1" "r1"
      (createProjectAsync
        (indexDocumentRoute (Store.mk (Db.mk [] []) [] [] [] [] []) "r1" "d1" 1 2 3
          (some (UploadedFile.mk "a.pdf" "application/pdf" "uploads/a"))).2
        "p1" 4 (js "Fund") "d1" "ALL_DOCS" none)).projects.map (fun p => (p.id, p.status)) =
      [("p1", "OUTDATED")] ∧
    (regenerateBackground
      (Runtime.mk Real.sqrt asciiToLowerCase List.sum
        (fun a b => Real.sqrt ((List.zipWith (fun x y => (x - y) * (x - y)) a b).sum))
        (fun _ _ => true))
      (BulkRun.mk none none (some "connection lost") none (fun _ => none) "syntax error"
        (fun i => toString i) (fun _ => 7) 8 9 none none none)
      "p1" "r1"
      (generateAnswersAsync
        (Store.mk (Db.mk [ProjectRow.mk "p1" (js "Fund") "q0" "READY" "ALL_DOCS" [] 0 0] [])
          [DocumentRow.mk "d1" "a.pdf" "application/pdf" 2 "PENDING" 0 0 []] [] []
          [RequestRow.mk "r1" "RUNNING" none 1 1, RequestRow.mk "r2" "RUNNING" none 1 1] [])
        5 "p1")).projects.map (fun p => (p.id, p.status)) = [("p1", "UPDATING")] ∧
    (indexDocumentBackground
      (Runtime.mk Real.sqrt asciiToLowerCase List.sum
        (fun a b => Real.sqrt ((List.zipWith (fun x y => (x - y) * (x - y)) a b).sum))
        (fun _ _ => true))
      (IngestRun.mk (Except.ok (js "Revenue was $5M in 2023.")) none (fun _ => none) none none
        (fun i => toString i) 9)
      "d1" "r2"
      (regenerateBackground
        (Runtime.mk Real.sqrt asciiToLowerCase List.sum
          (fun a b => Real.sqrt ((List.zipWith (fun x y => (x - y) * (x - y)) a b).sum))
        (fun _ _ => true))
        (BulkRun.mk none none (some "connection lost") none (fun _ => none) "syntax error"
          (fun i => toString i) (fun _ => 7) 8 9 none none none)
        "p1" "r1"
        (generateAnswersAsync
          (Store.mk (Db.mk [ProjectRow.mk "p1" (js "Fund") "q0" "READY" "ALL_DOCS" [] 0 0] [])
            [DocumentRow.mk "d1" "a.pdf" "application/pdf" 2 "PENDING" 0 0 []] [] []
            [RequestRow.mk "r1" "RUNNING" none 1 1, RequestRow.mk "r2" "RUNNING" none 1 1] [])
          5 "p1"))).projects.map (fun p => (p.id, p.status)) = [("p1", "OUTDATED")] := by
  refine ⟨by decide, by decide, by decide, by decide, by decide⟩

/-- C23, as the code has it: a status write of the four functions sets a fixed status
and does not read the current one. `createProjectAsync` inserts the project as
CREATING; `generateAnswersAsync` and `updateProjectAsync` set the project of the
request to UPDATING; the background task of each of the three sets the project to
READY when it ends without a fault and writes no status otherwise; the background
task of the ingestion sets every project with the scope `ALL_DOCS` to OUTDATED when it
ends without a fault. So in every state reached by steps of these functions from a
state where every project status is one of CREATING, READY, OUTDATED and UPDATING,
every project status is one of the four. -/
theorem project_status_written_values {α : Type} [LinearOrderedField α] (rt : Runtime α)
    (toUpperCase : JSString → JSString) (s0 s : Store α)
    (h0 : ∀ p ∈ s0.projects,
      p.status = PROJECT_STATUS.CREATING ∨ p.status = PROJECT_STATUS.READY ∨
        p.status = PROJECT_STATUS.OUTDATED ∨ p.status = PROJECT_STATUS.UPDATING)
    (hreach : Relation.ReflTransGen (ProjectStep rt toUpperCase) s0 s) :
    (∀ p ∈ s.projects,
      p.status = PROJECT_STATUS.CREATING ∨ p.status = PROJECT_STATUS.READY ∨
        p.status = PROJECT_STATUS.OUTDATED ∨ p.status = PROJECT_STATUS.UPDATING) ∧
    (∀ (projectId : Id) (now : Nat) (name : JSString) (questionnaire_document_id : Id)
        (scope : String) (document_ids : Option (List Id)),
      ∃ row, (createProjectAsync s projectId now name questionnaire_document_id scope
          document_ids).projects = s.projects ++ [row] ∧
        row.id = projectId ∧ row.status = PROJECT_STATUS.CREATING) ∧
    (∀ (now : Nat) (projectId : Id),
      List.Forall₂
        (fun p q => q.status = if p.id = projectId then PROJECT_STATUS.UPDATING else p.status)
        s.projects (generateAnswersAsync s now projectId).projects) ∧
    (∀ (now : Nat) (projectId : Id) (scope : String) (document_ids : Option (List Id)),
      List.Forall₂
        (fun p q => q.status = if p.id = projectId then PROJECT_STATUS.UPDATING else p.status)
        s.projects (updateProjectAsync s now projectId scope document_ids).projects) ∧
    (∀ (env : BulkRun) (projectId requestId : Id),
      (regenerateBackground rt env projectId requestId s).projects = s.projects ∨
      List.Forall₂
        (fun p q => q.status = if p.id = projectId then PROJECT_STATUS.READY else p.status)
        s.projects (regenerateBackground rt env projectId requestId s).projects) ∧
    (∀ (env : CreateRun) (projectId requestId questionnaire_document_id : Id),
      (createProjectBackground toUpperCase env projectId requestId questionnaire_document_id
        s).projects = s.projects ∨
      List.Forall₂
        (fun p q => q.status = if p.id = projectId then PROJECT_STATUS.READY else p.status)
        s.projects
        (createProjectBackground toUpperCase env projectId requestId
          questionnaire_document_id s).projects) ∧
    (∀ (env : IngestRun) (documentId requestId : Id),
      (indexDocumentBackground rt env documentId requestId s).projects = s.projects ∨
      List.Forall₂
        (fun p q => q.status = if p.scope = "ALL_DOCS" then PROJECT_STATUS.OUTDATED
          else p.status)
        s.projects (indexDocumentBackground rt env documentId requestId s).projects) := by
  refine ⟨?_, ?_, ?_, ?_, ?_, ?_, ?_⟩
  · induction hreach with
    | refl => exact h0
    | tail _ hstep ih => exact projectStep_written rt toUpperCase _ _ hstep ih
  · intro projectId now name qid scope ids
    exact ⟨_, rfl, rfl, rfl⟩
  · intro now projectId
    exact setProjectStatus_forall₂ s PROJECT_STATUS.UPDATING now projectId
  · intro now projectId scope ids
    exact updateProjectAsync_forall₂ s now projectId scope ids
  · intro env projectId requestId
    rcases (regenerateBackground_shape rt env projectId requestId s).2.1 with h | h
    · exact Or.inl h
    · right
      rw [h]
      exact setProjectStatus_forall₂ s PROJECT_STATUS.READY env.readyAt projectId
  · intro env projectId requestId qid
    rcases (createProjectBackground_shape toUpperCase env projectId requestId qid s).2.2
      with h | h
    · exact Or.inl h
    · right
      rw [h]
      exact setProjectStatus_forall₂ s PROJECT_STATUS.READY env.readyAt projectId
  · intro env documentId requestId
    rcases (indexDocumentBackground_shape rt env documentId requestId s).2.2 with h | h
    · exact Or.inl h
    · right
      rw [h]
      exact invalidateProjects_forall₂ s

theorem project_status_written_values_witness :
    ∃ s : Store ℝ,
      s.projects.map (fun p => (p.id, p.status)) = [("p1", "OUTDATED")] ∧
      ∀ p ∈ s.projects,
        p.status = PROJECT_STATUS.CREATING ∨ p.status = PROJECT_STATUS.READY ∨
          p.status = PROJECT_STATUS.OUTDATED ∨ p.status = PROJECT_STATUS.UPDATING :=
  ⟨indexDocumentBackground
      (Runtime.mk Real.sqrt asciiToLowerCase List.sum
        (fun a b => Real.sqrt ((List.zipWith (fun x y => (x - y) * (x - y)) a b).sum))
        (fun _ _ => true))
      (IngestRun.mk (Except.ok (js "Revenue was $5M in 2023.")) none (fun _ => none) none none
        (fun i => toString i) 9)
      "d1" "r1"
      (createProjectAsync
        (indexDocumentAsync (Store.mk (Db.mk [] []) [] [] [] [] []) "d1" 2
          (UploadedFile.mk "a.pdf" "application/pdf" "uploads/a"))
        "p1" 4 (js "Fund") "d1" "ALL_DOCS" none),
    by decide,
    (project_status_written_values
      (Runtime.mk Real.sqrt asciiToLowerCase List.sum
        (fun a b => Real.sqrt ((List.zipWith (fun x y => (x - y) * (x - y)) a b).sum))
        (fun _ _ => true))
      asciiToUpperCase (Store.mk (Db.mk [] []) [] [] [] [] []) _
      (fun p hp => absurd hp (List.not_mem_nil p))
      (((Relation.ReflTransGen.single
        (ProjectStep.indexRequested _ "d1" 2
          (UploadedFile.mk "a.pdf" "application/pdf" "uploads/a"))).tail
        (ProjectStep.createRequested _ "p1" 4 (js "Fund") "d1" "ALL_DOCS" none)).tail
        (ProjectStep.indexRun _
          (IngestRun.mk (Except.ok (js "Revenue was $5M in 2023.")) none (fun _ => none) none
            none (fun i => toString i) 9)
          "d1" "r1"))).1⟩

/-! ## Scope resolution -/

theorem find?_map_document_ids (l : List ProjectRow) (f : ProjectRow → ProjectRow)
    (projectId : Id) (hid : ∀ p, (f p).id = p.id) :
    (l.map f).find? (fun p => p.id == projectId) =
      (l.find? (fun p => p.id == projectId)).map f := by
  induction l with
  | nil => rfl
  | cons p l ih =>
    rw [List.map_cons, List.find?_cons, List.find?_cons, hid p]
    cases p.id == projectId with
    | true => rfl
    | false => exact ih

theorem resolveDocumentIds_generateAnswersAsync {α : Type} (store : Store α) (now : Nat)
    (projectId requested : Id) :
    resolveDocumentIds (generateAnswersAsync store now requested).toDb projectId none =
      resolveDocumentIds store.toDb projectId none := by
  unfold resolveDocumentIds generateAnswersAsync setProjectStatus
  simp only
  rw [find?_map_document_ids store.projects _ projectId (by intro p; split <;> rfl)]
  cases store.projects.find? (fun p => p.id == projectId) with
  | none => rfl
  | some p =>
    show (if p.id = requested then _ else p).document_ids = p.document_ids
    split <;> rfl

theorem resolveDocumentIds_updateProjectAsync {α : Type} (store : Store α) (now : Nat)
    (projectId : Id) (scope : String) (document_ids : Option (List Id))
    (hex : ∃ p ∈ store.projects, p.id = projectId) :
    resolveDocumentIds (updateProjectAsync store now projectId scope document_ids).toDb
        projectId none =
      if scope = "ALL_DOCS" then (listDocuments store).map (fun doc => doc.id)
      else document_ids.getD [] := by
  unfold resolveDocumentIds updateProjectAsync
  simp only
  rw [find?_map_document_ids store.projects _ projectId (by intro p; split <;> rfl)]
  rcases hfind : store.projects.find? (fun p => p.id == projectId) with _ | p
  · exfalso
    obtain ⟨p, hp, hpid⟩ := hex
    rw [List.find?_eq_none] at hfind
    exact hfind p hp (by simpa using hpid)
  · have hp : p.id = projectId := by
      have := List.find?_some hfind
      simpa using this
    rw [hfind]
    show (if p.id = projectId then _ else p).document_ids = _
    rw [if_pos hp]

theorem regenerateBackground_stored_ids {α : Type} [LinearOrderedField α] (rt : Runtime α)
    (env : BulkRun) (projectId requestId : Id) (store : Store α)
    (h1 : env.loadQuestions = none) (h2 : env.loadScope = none)
    (h3 : env.deleteAnswers = none) (h4 : env.generate = none)
    (h5 : ∀ j, env.insertBatch j = none) :
    ∃ rows,
      (regenerateBackground rt env projectId requestId store).answers =
        store.answers.filter (fun a => a.project_id ≠ projectId) ++ rows ∧
      List.Forall₂
        (fun q r => r.question_id = q.id ∧
          AnswerPayload.mk r.answer_text r.is_answerable r.confidence r.citations =
            generateAnswer rt store.toDb projectId q
              (some (resolveDocumentIds store.toDb projectId none)))
        (selectQuestions store projectId) rows := by
  obtain ⟨rows, htry, hrows⟩ :=
    regenerateTry_inserted rt env projectId requestId store h1 h2 h3 h4 h5
  obtain ⟨k1, _, _⟩ := regenerateBackground_keeps rt env projectId requestId store
  obtain ⟨m1, _, _⟩ := markReady_frame env.setReady env.reportSuccess env.readyAt
    env.finishedAt projectId requestId
    { deleteAnswers store projectId with
      answers := (deleteAnswers store projectId).answers ++ rows }
  rw [k1, htry, m1]
  refine ⟨rows, rfl, ?_⟩
  have hlen := hrows.length_eq
  rw [List.length_mapIdx] at hlen
  rw [List.forall₂_iff_get]
  refine ⟨hlen, ?_⟩
  intro i hi hi'
  have hget := (List.forall₂_iff_get.mp hrows).2 i (by rw [List.length_mapIdx]; exact hi) hi'
  obtain ⟨now, hnow⟩ := hget
  simp only [List.get_eq_getElem, List.getElem_mapIdx] at hnow ⊢
  rw [hnow]
  exact ⟨rfl, rfl⟩

/-- C24, counterexample: the project `p1` has the scope `ALL_DOCS` and the stored list
of document ids is empty, as `createProjectAsync` resolved it before any document was
there. The document `d1` has been indexed since. A bulk generation answers the
question against the stored list: the answer is the placeholder for no data, while
`generateAnswer` against the ids of the documents of that moment gives an answer. -/
theorem generateAnswersAsync_keeps_stored_scope :
    (createProjectAsync (Store.mk (Db.mk [] []) [] [] [] [] [] : Store ℝ) "p1" 0 (js "Fund")
      "q0" "ALL_DOCS" none).projects =
      [ProjectRow.mk "p1" (js "Fund") "q0" "CREATING" "ALL_DOCS" [] 0 0] ∧
    (listDocuments
      (Store.mk
        (Db.mk [ProjectRow.mk "p1" (js "Fund") "q0" "READY" "ALL_DOCS" [] 0 0]
          [DocumentChunkRow.mk "c1" "d1" (js "Revenue was $5M in 2023.") []])
        [DocumentRow.mk "d1" "a.pdf" "application/pdf" 2 "SUCCESS" 1 24
          (js "Revenue was $5M in 2023.")]
        [QuestionRow.mk "x1" "p1" (js "General") 1 (js "What was 2023 revenue?")] []
        [RequestRow.mk "r1" "RUNNING" none 1 1] [] : Store ℝ)).map (fun doc => doc.id) =
      ["d1"] ∧
    (regenerateBackground
      (Runtime.mk Real.sqrt asciiToLowerCase List.sum
        (fun a b => Real.sqrt ((List.zipWith (fun x y => (x - y) * (x - y)) a b).sum))
        (fun _ _ => true))
      (BulkRun.mk none none none none (fun _ => none) "syntax error" (fun i => toString i)
        (fun _ => 7) 8 9 none none none)
      "p1" "r1"
      (generateAnswersAsync
        (Store.mk
          (Db.mk [ProjectRow.mk "p1" (js "Fund") "q0" "READY" "ALL_DOCS" [] 0 0]
            [DocumentChunkRow.mk "c1" "d1" (js "Revenue was $5M in 2023.") []])
          [DocumentRow.mk "d1" "a.pdf" "application/pdf" 2 "SUCCESS" 1 24
            (js "Revenue was $5M in 2023.")]
          [QuestionRow.mk "x1" "p1" (js "General") 1 (js "What was 2023 revenue?")] []
          [RequestRow.mk "r1" "RUNNING" none 1 1] [])
        5 "p1")).answers.map (fun a => (a.question_id, a.is_answerable, a.answer_text)) =
      [("x1", false, js "No relevant data found in indexed documents.")] ∧
    (generateAnswer
      (Runtime.mk Real.sqrt asciiToLowerCase List.sum
        (fun a b => Real.sqrt ((List.zipWith (fun x y => (x - y) * (x - y)) a b).sum))
        (fun _ _ => true))
      (Db.mk [ProjectRow.mk "p1" (js "Fund") "q0" "READY" "ALL_DOCS" [] 0 0]
        [DocumentChunkRow.mk "c1" "d1" (js "Revenue was $5M in 2023.") []])
      "p1" (QuestionRow.mk "x1" "p1" (js "General") 1 (js "What was 2023 revenue?"))
      (some ["d1"])).isAnswerable = true := by
  refine ⟨by decide, by decide, ?_, by decide⟩
  decide

/-- C24, as the code has it: the scope is resolved when a project is created and when
it is updated, not when answers are generated. For the scope `ALL_DOCS`
`createProjectAsync` and `updateProjectAsync` store the ids of all rows of `documents`
of that moment, whatever their status, newest first; for another scope they store the
list of the caller as it is, the empty list when there is none; the creation writes no
answer. `generateAnswersAsync` leaves scope and list of every project as stored. The background task of an update or
of a bulk generation answers every question against the list stored for the project
when it starts. -/
theorem scope_resolution_snapshot {α : Type} [LinearOrderedField α] (rt : Runtime α)
    (store : Store α) :
    (listDocuments store).Perm store.documents ∧
    (∀ (projectId : Id) (now : Nat) (name : JSString) (questionnaire_document_id : Id)
        (scope : String) (document_ids : Option (List Id)),
      ∃ row, (createProjectAsync store projectId now name questionnaire_document_id scope
          document_ids).projects = store.projects ++ [row] ∧
        row.id = projectId ∧ row.scope = scope ∧
        (scope = "ALL_DOCS" →
          row.document_ids = (listDocuments store).map (fun doc => doc.id)) ∧
        (scope ≠ "ALL_DOCS" → row.document_ids = document_ids.getD []) ∧
        (createProjectAsync store projectId now name questionnaire_document_id scope
          document_ids).answers = store.answers) ∧
    (∀ (toUpperCase : JSString → JSString) (env : CreateRun)
        (projectId requestId questionnaire_document_id : Id),
      (createProjectBackground toUpperCase env projectId requestId questionnaire_document_id
        store).answers = store.answers) ∧
    (∀ (now : Nat) (projectId : Id) (scope : String) (document_ids : Option (List Id)),
      (∃ p ∈ store.projects, p.id = projectId) →
      (scope = "ALL_DOCS" →
        resolveDocumentIds (updateProjectAsync store now projectId scope document_ids).toDb
          projectId none = (listDocuments store).map (fun doc => doc.id)) ∧
      (scope ≠ "ALL_DOCS" →
        resolveDocumentIds (updateProjectAsync store now projectId scope document_ids).toDb
          projectId none = document_ids.getD [])) ∧
    (∀ (now : Nat) (projectId : Id),
      List.Forall₂ (fun p q => q.scope = p.scope ∧ q.document_ids = p.document_ids)
        store.projects (generateAnswersAsync store now projectId).projects ∧
      resolveDocumentIds (generateAnswersAsync store now projectId).toDb projectId none =
        resolveDocumentIds store.toDb projectId none) ∧
    (∀ (env : BulkRun) (projectId requestId : Id),
      env.loadQuestions = none → env.loadScope = none → env.deleteAnswers = none →
      env.generate = none → (∀ j, env.insertBatch j = none) →
      ∃ rows,
        (regenerateBackground rt env projectId requestId store).answers =
          store.answers.filter (fun a => a.project_id ≠ projectId) ++ rows ∧
        List.Forall₂
          (fun q r => r.question_id = q.id ∧
            AnswerPayload.mk r.answer_text r.is_answerable r.confidence r.citations =
              generateAnswer rt store.toDb projectId q
                (some (resolveDocumentIds store.toDb projectId none)))
          (selectQuestions store projectId) rows) := by
  refine ⟨List.perm_insertionSort _ _, ?_, ?_, ?_, ?_, ?_⟩
  · intro projectId now name qid scope ids
    refine ⟨_, rfl, rfl, rfl, ?_, ?_, rfl⟩
    · intro h
      show (if scope = "ALL_DOCS" then _ else _) = _
      rw [if_pos h]
    · intro h
      show (if scope = "ALL_DOCS" then _ else _) = _
      rw [if_neg h]
  · intro toUpperCase env projectId requestId qid
    exact (createProjectBackground_shape toUpperCase env projectId requestId qid store).1
  · intro now projectId scope ids hex
    have h := resolveDocumentIds_updateProjectAsync store now projectId scope ids hex
    constructor
    · intro hs
      rw [h, if_pos hs]
    · intro hs
      rw [h, if_neg hs]
  · intro now projectId
    refine ⟨?_, resolveDocumentIds_generateAnswersAsync store now projectId projectId⟩
    unfold generateAnswersAsync setProjectStatus
    simp only
    rw [List.forall₂_map_right_iff]
    apply List.forall₂_same.mpr
    intro p _
    split <;> exact ⟨rfl, rfl⟩
  · intro env projectId requestId h1 h2 h3 h4 h5
    exact regenerateBackground_stored_ids rt env projectId requestId store h1 h2 h3 h4 h5

theorem scope_resolution_snapshot_witness :
    resolveDocumentIds
      (updateProjectAsync
        (Store.mk
          (Db.mk [ProjectRow.mk "p1" (js "Fund") "q0" "READY" "SELECTED_DOCS" ["d9"] 0 0] [])
          [DocumentRow.mk "d1" "a.pdf" "application/pdf" 2 "SUCCESS" 1 0 [],
            DocumentRow.mk "d2" "b.pdf" "application/pdf" 3 "PENDING" 0 0 []]
          [] [] [] [] : Store ℝ)
        5 "p1" "ALL_DOCS" none).toDb "p1" none = ["d2", "d1"] :=
  (((scope_resolution_snapshot
    (Runtime.mk Real.sqrt asciiToLowerCase List.sum
      (fun a b => Real.sqrt ((List.zipWith (fun x y => (x - y) * (x - y)) a b).sum))
        (fun _ _ => true))
    (Store.mk
      (Db.mk [ProjectRow.mk "p1" (js "Fund") "q0" "READY" "SELECTED_DOCS" ["d9"] 0 0] [])
      [DocumentRow.mk "d1" "a.pdf" "application/pdf" 2 "SUCCESS" 1 0 [],
        DocumentRow.mk "d2" "b.pdf" "application/pdf" 3 "PENDING" 0 0 []]
      [] [] [] [])).2.2.2.1 5 "p1" "ALL_DOCS" none
    ⟨_, List.mem_singleton.mpr rfl, rfl⟩).1 rfl).trans (by decide)

/-! ## One answer per question -/

/-- With the bindings of `api/routes.js` the handler of `POST /generate-single-answer`
writes nothing: it answers 404, or it throws when it reads `generateAnswer`. -/
theorem generateSingleAnswerRoute_routesScope {α : Type} [LinearOrderedField α]
    (rt : Runtime α) (store : Store α) (projectId questionId answerId : Id) (now : Nat) :
    (generateSingleAnswerRoute rt routesScope store projectId questionId answerId now).2 =
      store ∧
    ((∃ q ∈ store.questions, q.id = questionId) →
      (generateSingleAnswerRoute rt routesScope store projectId questionId answerId now).1 =
        Except.error "generateAnswer is not defined") := by
  unfold generateSingleAnswerRoute
  split
  next hnil =>
    refine ⟨rfl, ?_⟩
    rintro ⟨q, hq, hid⟩
    exfalso
    have hmem : q ∈ store.questions.filter (fun q => q.id = questionId) :=
      List.mem_filter.mpr ⟨hq, by simpa using hid⟩
    rw [hnil] at hmem
    exact List.not_mem_nil _ hmem
  next question rest hcons =>
    exact ⟨rfl, fun _ => rfl⟩

/-- Whatever the bindings, the handler of `POST /generate-single-answer` leaves the
store as it is or appends one answer, a draft for the project and the question of the
request. -/
theorem generateSingleAnswerRoute_shape {α : Type} [LinearOrderedField α]
    (rt : Runtime α) (scope : RoutesScope) (store : Store α)
    (projectId questionId answerId : Id) (now : Nat) :
    (generateSingleAnswerRoute rt scope store projectId questionId answerId now).2 = store ∨
    ∃ row : AnswerRow α,
      (generateSingleAnswerRoute rt scope store projectId questionId answerId now).2 =
        { store with answers := store.answers ++ [row] } ∧
      row.project_id = projectId ∧ row.question_id = questionId ∧
      row.status = ANSWER_STATUS.DRAFT ∧ row.manual_answer = none := by
  unfold generateSingleAnswerRoute
  split
  · exact Or.inl rfl
  · split
    · exact Or.inl rfl
    · simp only
      split
      · exact Or.inl rfl
      · split
        · exact Or.inl rfl
        · exact Or.inr ⟨_, rfl, rfl, rfl, rfl, rfl⟩

/-- The handler of `POST /update-answer` leaves the questions as they are, and in every
answer the id, the project and the question. -/
theorem updateAnswerRoute_keys {α : Type} (uuid_in : String → Except String Id)
    (store : Store α) (now : Nat) (body : UpdateAnswerBody) :
    (updateAnswerRoute uuid_in store now body).2.questions = store.questions ∧
    (updateAnswerRoute uuid_in store now body).2.answers.map
        (fun a => (a.project_id, a.question_id)) =
      store.answers.map (fun a => (a.project_id, a.question_id)) := by
  rcases updateAnswerRoute_store uuid_in store now body with h | ⟨id, _, h⟩
  · rw [h]
    exact ⟨rfl, rfl⟩
  · rw [h]
    refine ⟨rfl, ?_⟩
    simp only [List.map_map]
    apply List.map_congr_left
    intro a _
    simp only [Function.comp]
    split
    · unfold updateAnswerRow
      split <;> rfl
    · rfl

theorem selectQuestions_ids_nodup {α : Type} (store : Store α) (projectId : Id)
    (h : (store.questions.map (fun q => q.id)).Nodup) :
    ((selectQuestions store projectId).map (fun q => q.id)).Nodup := by
  rw [((selectQuestions_perm store projectId).map (fun q => q.id)).nodup_iff]
  exact List.Nodup.sublist ((List.filter_sublist store.questions).map (fun q => q.id)) h

/-- The background task of a bulk generation keeps the answers free of two rows for the
same project and question, whatever the faults, when no two questions share an id. -/
theorem regenerateBackground_unique {α : Type} [LinearOrderedField α] (rt : Runtime α)
    (env : BulkRun) (projectId requestId : Id) (store : Store α)
    (hq : (store.questions.map (fun q => q.id)).Nodup)
    (ha : (store.answers.map (fun a => (a.project_id, a.question_id))).Nodup) :
    ((regenerateBackground rt env projectId requestId store).answers.map
      (fun a => (a.project_id, a.question_id))).Nodup := by
  rcases (regenerateBackground_shape rt env projectId requestId store).2.2 with h | h
  · rw [h]; exact ha
  · obtain ⟨rows, hrows, hsub, hall⟩ := h
    rw [hrows, List.map_append]
    apply List.Nodup.append
    · exact List.Nodup.sublist
        ((List.filter_sublist store.answers).map (fun a => (a.project_id, a.question_id))) ha
    · have hids : (rows.map (fun r => r.question_id)).Nodup :=
        List.Nodup.sublist hsub (selectQuestions_ids_nodup store projectId hq)
      have heq : rows.map (fun a => (a.project_id, a.question_id)) =
          (rows.map (fun r => r.question_id)).map (fun x => (projectId, x)) := by
        rw [List.map_map]
        apply List.map_congr_left
        intro r hr
        simp only [Function.comp, (hall r hr).1]
      rw [heq]
      exact List.Nodup.map (fun x y hxy => (Prod.mk.inj hxy).2) hids
    · rw [List.disjoint_left]
      intro pair h1 h2
      obtain ⟨a, ha1, rfl⟩ := List.mem_map.mp h1
      obtain ⟨r, hr1, hr2⟩ := List.mem_map.mp h2
      have hne : a.project_id ≠ projectId := by
        have := (List.mem_filter.mp ha1).2
        simpa using this
      have hp : r.project_id = a.project_id := (Prod.mk.inj hr2).1
      exact hne (hp ▸ (hall r hr1).1)

theorem apiStep_unique {α : Type} [LinearOrderedField α] (rt : Runtime α)
    (allowed : JSString → Prop) (s s' : Store α)
    (hstep : ApiStep rt routesScope allowed s s')
    (hq : (s.questions.map (fun q => q.id)).Nodup)
    (ha : (s.answers.map (fun a => (a.project_id, a.question_id))).Nodup) :
    s'.questions = s.questions ∧
    (s'.answers.map (fun a => (a.project_id, a.question_id))).Nodup := by
  cases hstep with
  | generateAll env projectId requestId created now =>
    exact ⟨(regenerateBackground_shape rt env projectId requestId _).1,
      regenerateBackground_unique rt env projectId requestId _ hq ha⟩
  | updateScope env projectId requestId created now newScope document_ids =>
    exact ⟨(regenerateBackground_shape rt env projectId requestId _).1,
      regenerateBackground_unique rt env projectId requestId _ hq ha⟩
  | generateSingle projectId questionId answerId now =>
    rw [(generateSingleAnswerRoute_routesScope rt s projectId questionId answerId now).1]
    exact ⟨rfl, ha⟩
  | updateAnswer uuid_in now body hstatus =>
    obtain ⟨h1, h2⟩ := updateAnswerRoute_keys uuid_in s now body
    exact ⟨h1, by rw [h2]; exact ha⟩

theorem filter_pair_length_le_one {α : Type} (answers : List (AnswerRow α))
    (h : (answers.map (fun a => (a.project_id, a.question_id))).Nodup)
    (projectId questionId : Id) :
    (answers.filter
      (fun a => a.project_id = projectId ∧ a.question_id = questionId)).length ≤ 1 := by
  have hsub : ((answers.filter
      (fun a => a.project_id = projectId ∧ a.question_id = questionId)).map
      (fun a => (a.project_id, a.question_id))).Nodup :=
    List.Nodup.sublist
      ((List.filter_sublist answers).map (fun a => (a.project_id, a.question_id))) h
  have hall : ∀ a ∈ answers.filter
      (fun a => a.project_id = projectId ∧ a.question_id = questionId),
      (a.project_id, a.question_id) = (projectId, questionId) := by
    intro a ha
    have := (List.mem_filter.mp ha).2
    simp only [decide_eq_true_eq] at this
    rw [this.1, this.2]
  rcases hl : answers.filter
      (fun a => a.project_id = projectId ∧ a.question_id = questionId) with _ | ⟨a, _ | ⟨b, rest⟩⟩
  · rw [hl]; exact Nat.zero_le 1
  · rw [hl]; exact Nat.le_refl 1
  · exfalso
    rw [hl] at hsub hall
    have ha := hall a (by simp)
    have hb := hall b (by simp)
    rw [List.map_cons, List.nodup_cons] at hsub
    apply hsub.1
    rw [ha, ← hb]
    exact List.mem_map.mpr ⟨b, by simp, rfl⟩

/-- Had `api/routes.js` bound `generateAnswer`, `uuidv4` and `ANSWER_STATUS`, two
requests `POST /generate-single-answer` for the same question would leave two answers
for it: the handler inserts without deleting. -/
theorem generateSingleAnswerRoute_bound_appends :
    (generateSingleAnswerRoute
      (Runtime.mk Real.sqrt asciiToLowerCase List.sum
        (fun a b => Real.sqrt ((List.zipWith (fun x y => (x - y) * (x - y)) a b).sum))
        (fun _ _ => true))
      (RoutesScope.mk true true true)
      (generateSingleAnswerRoute
        (Runtime.mk Real.sqrt asciiToLowerCase List.sum
          (fun a b => Real.sqrt ((List.zipWith (fun x y => (x - y) * (x - y)) a b).sum))
        (fun _ _ => true))
        (RoutesScope.mk true true true)
        (Store.mk (Db.mk [ProjectRow.mk "p1" (js "Fund") "q0" "READY" "ALL_DOCS" [] 0 0] [])
          [] [QuestionRow.mk "x1" "p1" (js "General") 1 (js "What was 2023 revenue?")] []
          [] [])
        "p1" "x1" "a1" 1).2
      "p1" "x1" "a2" 2).2.answers.map
      (fun a => (a.id, a.project_id, a.question_id, a.status)) =
      [("a1", "p1", "x1", js "DRAFT"), ("a2", "p1", "x1", js "DRAFT")] := by
  decide

/-- C27: in every state reached by the API operations bulk generate, update scope,
generate-single-answer and update-answer, run one at a time and whatever the faults of
the store calls, from a state where no two questions share an id and no two answers
share project and question, no two answers share project and question: a question of
a project has at most one answer. The questions are those of the first state. With the
bindings of `api/routes.js` the handler of generate-single-answer throws before its
`INSERT`. -/
theorem answers_unique_per_question {α : Type} [LinearOrderedField α] (rt : Runtime α)
    (allowed : JSString → Prop) (s0 s : Store α)
    (hq : (s0.questions.map (fun q => q.id)).Nodup)
    (h0 : (s0.answers.map (fun a => (a.project_id, a.question_id))).Nodup)
    (hreach : Relation.ReflTransGen (ApiStep rt routesScope allowed) s0 s) :
    (s.answers.map (fun a => (a.project_id, a.question_id))).Nodup ∧
    (∀ projectId questionId : Id,
      (s.answers.filter
        (fun a => a.project_id = projectId ∧ a.question_id = questionId)).length ≤ 1) ∧
    s.questions = s0.questions := by
  have key : s.questions = s0.questions ∧
      (s.answers.map (fun a => (a.project_id, a.question_id))).Nodup := by
    induction hreach with
    | refl => exact ⟨rfl, h0⟩
    | tail _ hstep ih =>
      obtain ⟨h1, h2⟩ := apiStep_unique rt allowed _ _ hstep (by rw [ih.1]; exact hq) ih.2
      exact ⟨h1.trans ih.1, h2⟩
  exact ⟨key.2, filter_pair_length_le_one s.answers key.2, key.1⟩

theorem answers_unique_per_question_witness :
    ((generateSingleAnswerRoute
      (Runtime.mk Real.sqrt asciiToLowerCase List.sum
        (fun a b => Real.sqrt ((List.zipWith (fun x y => (x - y) * (x - y)) a b).sum))
        (fun _ _ => true))
      routesScope
      (regenerateBackground
        (Runtime.mk Real.sqrt asciiToLowerCase List.sum
          (fun a b => Real.sqrt ((List.zipWith (fun x y => (x - y) * (x - y)) a b).sum))
        (fun _ _ => true))
        (BulkRun.mk none none none none (fun _ => none) "syntax error" (fun i => toString i)
          (fun _ => 7) 8 9 none none none)
        "p1" "r1"
        (generateAnswersAsync
          (createRequest
            (Store.mk
              (Db.mk [ProjectRow.mk "p1" (js "Fund") "q0" "READY" "ALL_DOCS" ["d1"] 0 0]
                [DocumentChunkRow.mk "c1" "d1" (js "Revenue was $5M in 2023.") []])
              []
              [QuestionRow.mk "x2" "p1" (js "General") 2 (js "Who audits the fund?"),
                QuestionRow.mk "x1" "p1" (js "General") 1 (js "What was 2023 revenue?")]
              [AnswerRow.mk "a0" "p1" "x1" (js "old") true 0.9 [] (js "CONFIRMED") 0 0 none]
              [] [])
            "r1" 4)
          5 "p1"))
      "p1" "x1" "a9" 6).2.answers.map (fun a => (a.project_id, a.question_id))).Nodup :=
  (answers_unique_per_question
    (Runtime.mk Real.sqrt asciiToLowerCase List.sum
      (fun a b => Real.sqrt ((List.zipWith (fun x y => (x - y) * (x - y)) a b).sum))
        (fun _ _ => true))
    (fun _ => True)
    (Store.mk
      (Db.mk [ProjectRow.mk "p1" (js "Fund") "q0" "READY" "ALL_DOCS" ["d1"] 0 0]
        [DocumentChunkRow.mk "c1" "d1" (js "Revenue was $5M in 2023.") []])
      []
      [QuestionRow.mk "x2" "p1" (js "General") 2 (js "Who audits the fund?"),
        QuestionRow.mk "x1" "p1" (js "General") 1 (js "What was 2023 revenue?")]
      [AnswerRow.mk "a0" "p1" "x1" (js "old") true 0.9 [] (js "CONFIRMED") 0 0 none]
      [] [])
    _ (by decide) (by decide)
    ((Relation.ReflTransGen.single
      (ApiStep.generateAll _
        (BulkRun.mk none none none none (fun _ => none) "syntax error" (fun i => toString i)
          (fun _ => 7) 8 9 none none none)
        "p1" "r1" 4 5)).tail
      (ApiStep.generateSingle _ "p1" "x1" "a9" 6))).1

/-! ## The status of an answer -/

theorem updateAnswerRoute_status {α : Type} (uuid_in : String → Except String Id)
    (store : Store α) (now : Nat)
    (body : UpdateAnswerBody) (a : AnswerRow α)
    (ha : a ∈ (updateAnswerRoute uuid_in store now body).2.answers) :
    a ∈ store.answers ∨ ∃ S, body.status = some S ∧ S ≠ [] ∧ a.status = S := by
  rcases updateAnswerRoute_store uuid_in store now body with h | ⟨id, hv, h⟩
  · rw [h] at ha
    exact Or.inl ha
  · rw [h] at ha
    simp only at ha
    obtain ⟨a0, ha0, rfl⟩ := List.mem_map.mp ha
    by_cases hid : a0.id = id
    · rw [if_pos hid]
      right
      have hstatus : ∃ S, body.status = some S ∧ S ≠ [] := by
        unfold validateUpdateAnswer at hv
        split at hv
        · cases hv
        · rename_i h0
          rcases hs : body.status with _ | S
          · exact absurd (Or.inr (Or.inr (Or.inl hs))) h0
          · refine ⟨S, rfl, ?_⟩
            intro hS
            exact h0 (Or.inr (Or.inr (Or.inr (by rw [hs, hS]))))
      obtain ⟨S, hS, hne⟩ := hstatus
      refine ⟨S, hS, hne, ?_⟩
      rw [hS]
      unfold updateAnswerRow
      split <;> rfl
    · rw [if_neg hid]
      exact Or.inl ha0

theorem apiStep_status {α : Type} [LinearOrderedField α] (rt : Runtime α)
    (scope : RoutesScope) (allowed : JSString → Prop) (s s' : Store α)
    (hstep : ApiStep rt scope allowed s s')
    (hs : ∀ a ∈ s.answers, a.status = ANSWER_STATUS.DRAFT ∨ allowed a.status) :
    ∀ a ∈ s'.answers, a.status = ANSWER_STATUS.DRAFT ∨ allowed a.status := by
  have hbulk : ∀ (env : BulkRun) (projectId requestId : Id) (s1 : Store α),
      s1.answers = s.answers →
      ∀ a ∈ (regenerateBackground rt env projectId requestId s1).answers,
        a.status = ANSWER_STATUS.DRAFT ∨ allowed a.status := by
    intro env projectId requestId s1 h1 a ha
    rcases (regenerateBackground_shape rt env projectId requestId s1).2.2 with h | h
    · rw [h, h1] at ha
      exact hs a ha
    · obtain ⟨rows, hrows, _, hall⟩ := h
      rw [hrows, h1] at ha
      rcases List.mem_append.mp ha with h2 | h2
      · exact hs a (List.mem_filter.mp h2).1
      · exact Or.inl (hall a h2).2.1
  cases hstep with
  | generateAll env projectId requestId created now =>
    exact hbulk env projectId requestId _ rfl
  | updateScope env projectId requestId created now newScope document_ids =>
    exact hbulk env projectId requestId _ rfl
  | generateSingle projectId questionId answerId now =>
    intro a ha
    rcases generateSingleAnswerRoute_shape rt scope s projectId questionId answerId now
      with h | ⟨row, h, _, _, hrow, _⟩
    · rw [h] at ha
      exact hs a ha
    · rw [h] at ha
      rcases List.mem_append.mp ha with h2 | h2
      · exact hs a h2
      · rw [List.mem_singleton.mp h2]
        exact Or.inl hrow
  | updateAnswer uuid_in now body hstatus =>
    intro a ha
    rcases updateAnswerRoute_status uuid_in s now body a ha with h | ⟨S, hS, _, hSa⟩
    · exact hs a h
    · rw [hSa]
      exact Or.inr (hstatus S hS)

/-- C28, counterexample: `update-answer` with the status `"BOGUS"` for the answer
`00000000-0000-4000-8000-0000000000a1` is answered with 200, and the stored status of
that answer is `"BOGUS"`, none of the five values. -/
theorem updateAnswerRoute_stores_any_status :
    (∃ row, (updateAnswerRoute uuidOfText (Store.mk (Db.mk [] []) [] []
        [AnswerRow.mk "00000000-0000-4000-8000-0000000000a1" "p1" "x1" (js "Revenue") true 0.9 [] (js "DRAFT") 0 0 none] [] []
        : Store ℚ) 4
      (UpdateAnswerBody.mk (some "00000000-0000-4000-8000-0000000000a1") (some (js "BOGUS")) ManualAnswerField.absent)).1 =
      Except.ok (Response.mk 200 none (some row))) ∧
    (updateAnswerRoute uuidOfText (Store.mk (Db.mk [] []) [] []
        [AnswerRow.mk "00000000-0000-4000-8000-0000000000a1" "p1" "x1" (js "Revenue") true 0.9 [] (js "DRAFT") 0 0 none] [] []
        : Store ℚ) 4
      (UpdateAnswerBody.mk (some "00000000-0000-4000-8000-0000000000a1") (some (js "BOGUS"))
        ManualAnswerField.absent)).2.answers.map (fun a => (a.id, a.status)) =
      [("00000000-0000-4000-8000-0000000000a1", js "BOGUS")] ∧
    js "BOGUS" ∉ AnswerStatus := by
  have hvalid : @validateUpdateAnswer ℚ
      (UpdateAnswerBody.mk (some "00000000-0000-4000-8000-0000000000a1") (some (js "BOGUS")) ManualAnswerField.absent) = none :=
    validateUpdateAnswer_accepts _ "00000000-0000-4000-8000-0000000000a1" (js "BOGUS") rfl (by decide) rfl (by decide)
      (Or.inl rfl)
  have h := updateAnswerRoute_of_valid uuidOfText (Store.mk (Db.mk [] []) [] []
        [AnswerRow.mk "00000000-0000-4000-8000-0000000000a1" "p1" "x1" (js "Revenue") true 0.9 [] (js "DRAFT") 0 0 none] [] []
        : Store ℚ) 4 _ "00000000-0000-4000-8000-0000000000a1" hvalid rfl
  exact ⟨h.2.1 ⟨_, List.mem_singleton.mpr rfl, rfl⟩, by decide, by decide⟩

/-- C28, as the code has it: answers are inserted with the status DRAFT, and
`update-answer` stores the status of the request as it is: every string that is not
empty passes the tests of the handler, and is written to the answers with the id
that `answer_id` denotes. So in every state reached by the API operations
the status of every answer is DRAFT or the status of an `update-answer` request; it is
one of the values `allowed` when the first state and all these requests have it so,
for instance one of DRAFT, CONFIRMED, REJECTED, MANUAL_UPDATED and MISSING_DATA. -/
theorem answer_status_values {α : Type} [LinearOrderedField α] (rt : Runtime α)
    (scope : RoutesScope) (allowed : JSString → Prop) (s0 s : Store α)
    (h0 : ∀ a ∈ s0.answers, a.status = ANSWER_STATUS.DRAFT ∨ allowed a.status)
    (hreach : Relation.ReflTransGen (ApiStep rt scope allowed) s0 s) :
    (∀ a ∈ s.answers, a.status = ANSWER_STATUS.DRAFT ∨ allowed a.status) ∧
    (∀ (id : Id) (S : JSString), id ≠ "" → S ≠ [] →
      @validateUpdateAnswer α
        (UpdateAnswerBody.mk (some id) (some S) ManualAnswerField.absent) = none) ∧
    (∀ (uuid_in : String → Except String Id) (now : Nat) (id key : Id) (S : JSString),
      id ≠ "" → S ≠ [] → uuid_in id = Except.ok key →
      ∀ a ∈ (updateAnswerRoute uuid_in s now
          (UpdateAnswerBody.mk (some id) (some S) ManualAnswerField.absent)).2.answers,
        a.id = key → a.status = S) ∧
    ANSWER_STATUS.DRAFT ∈ AnswerStatus := by
  refine ⟨?_, ?_, ?_, by decide⟩
  · induction hreach with
    | refl => exact h0
    | tail _ hstep ih => exact apiStep_status rt scope allowed _ _ hstep ih
  · intro id S hid hS
    exact validateUpdateAnswer_accepts _ id S rfl hid rfl hS (Or.inl rfl)
  · intro uuid_in now id key S hid hS hu a ha haid
    have hv : @validateUpdateAnswer α
        (UpdateAnswerBody.mk (some id) (some S) ManualAnswerField.absent) = none :=
      validateUpdateAnswer_accepts _ id S rfl hid rfl hS (Or.inl rfl)
    rw [(updateAnswerRoute_of_valid uuid_in s now _ key hv hu).1] at ha
    simp only at ha
    obtain ⟨a0, _, rfl⟩ := List.mem_map.mp ha
    by_cases h : a0.id = key
    · simp only [Option.getD_some, if_pos h]
      rfl
    · simp only [Option.getD_some, if_neg h] at haid
      exact absurd haid h

theorem answer_status_values_witness :
    (updateAnswerRoute uuidOfText
      (regenerateBackground
        (Runtime.mk Real.sqrt asciiToLowerCase List.sum
          (fun a b => Real.sqrt ((List.zipWith (fun x y => (x - y) * (x - y)) a b).sum))
        (fun _ _ => true))
        (BulkRun.mk none none none none (fun _ => none) "syntax error" (fun _ => "00000000-0000-4000-8000-0000000000a1")
          (fun _ => 7) 8 9 none none none)
        "p1" "r1"
        (generateAnswersAsync
          (createRequest
            (Store.mk
              (Db.mk [ProjectRow.mk "p1" (js "Fund") "q0" "READY" "ALL_DOCS" ["d1"] 0 0]
                [DocumentChunkRow.mk "c1" "d1" (js "Revenue was $5M in 2023.") []])
              []
              [QuestionRow.mk "x1" "p1" (js "General") 1 (js "What was 2023 revenue?")]
              [] [] [])
            "r1" 4)
          5 "p1"))
      6 (UpdateAnswerBody.mk (some "00000000-0000-4000-8000-0000000000a1") (some (js "CONFIRMED"))
        ManualAnswerField.absent)).2.answers.map (fun a => (a.id, a.status)) =
      [("00000000-0000-4000-8000-0000000000a1", js "CONFIRMED")] ∧
    ∀ a ∈ (updateAnswerRoute uuidOfText
      (regenerateBackground
        (Runtime.mk Real.sqrt asciiToLowerCase List.sum
          (fun a b => Real.sqrt ((List.zipWith (fun x y => (x - y) * (x - y)) a b).sum))
        (fun _ _ => true))
        (BulkRun.mk none none none none (fun _ => none) "syntax error" (fun _ => "00000000-0000-4000-8000-0000000000a1")
          (fun _ => 7) 8 9 none none none)
        "p1" "r1"
        (generateAnswersAsync
          (createRequest
            (Store.mk
              (Db.mk [ProjectRow.mk "p1" (js "Fund") "q0" "READY" "ALL_DOCS" ["d1"] 0 0]
                [DocumentChunkRow.mk "c1" "d1" (js "Revenue was $5M in 2023.") []])
              []
              [QuestionRow.mk "x1" "p1" (js "General") 1 (js "What was 2023 revenue?")]
              [] [] [])
            "r1" 4)
          5 "p1"))
      6 (UpdateAnswerBody.mk (some "00000000-0000-4000-8000-0000000000a1") (some (js "CONFIRMED"))
        ManualAnswerField.absent)).2.answers,
      a.status = ANSWER_STATUS.DRAFT ∨ a.status ∈ AnswerStatus :=
  ⟨by decide, (answer_status_values
    (Runtime.mk Real.sqrt asciiToLowerCase List.sum
      (fun a b => Real.sqrt ((List.zipWith (fun x y => (x - y) * (x - y)) a b).sum))
        (fun _ _ => true))
    routesScope (fun S => S ∈ AnswerStatus)
    (Store.mk
      (Db.mk [ProjectRow.mk "p1" (js "Fund") "q0" "READY" "ALL_DOCS" ["d1"] 0 0]
        [DocumentChunkRow.mk "c1" "d1" (js "Revenue was $5M in 2023.") []])
      []
      [QuestionRow.mk "x1" "p1" (js "General") 1 (js "What was 2023 revenue?")]
      [] [] [])
    _ (fun a ha => absurd ha (List.not_mem_nil a))
    ((Relation.ReflTransGen.single
      (ApiStep.generateAll _
        (BulkRun.mk none none none none (fun _ => none) "syntax error" (fun _ => "00000000-0000-4000-8000-0000000000a1")
          (fun _ => 7) 8 9 none none none)
        "p1" "r1" 4 5)).tail
      (ApiStep.updateAnswer _ uuidOfText 6
        (UpdateAnswerBody.mk (some "00000000-0000-4000-8000-0000000000a1") (some (js "CONFIRMED")) ManualAnswerField.absent)
        (fun S hS => by
          have h : S = js "CONFIRMED" := (Option.some.inj hS).symm
          rw [h]
          decide)))).1⟩

end DueDiligence
